import Mathlib

/-!
# OONF: RFC5444 signature engine

Shallow embedding of `src-plugins/crypto/rfc5444_signature/rfc5444_signature.c`.

Conventions of the embedding

* A byte buffer is a `List Nat`; a `uint8_t` store of an `int` is written `% 256`,
  `uint16_t` arithmetic is written `% 65536`.
* A pointer into a buffer is an offset into the list. A read past the end of a list
  (undefined in C) yields 0; the theorems below only rely on reads inside the buffers.
* A callback that returns an `int` error code returns `Option`: `none` is the non-zero
  return, `some dst` is success with `*dst_len = dst.length`.
* A call through a NULL pointer (`sig->crypt`, `sig->hash`, `getSize`) has no defined
  result; the functions that can reach one return `Option` and yield `none` there.
* The AVL trees are lists in iteration order (key order, duplicates allowed for
  `_sig_tree`).
-/

namespace Rfc5444Sig

/-! ## Constants of headers that the two source files include -/

/-- Modelled from the spec: the reserved signature TLV type of message TLV blocks
(`rfc5444_iana.h` is not part of the sources; the value is the ICV type of RFC 7182). -/
def RFC7182_MSGTLV_ICV : Nat := 5

/-- Modelled from the spec: the reserved signature TLV type of packet TLV blocks
(`rfc5444_iana.h`, RFC 7182). -/
def RFC7182_PKTTLV_ICV : Nat := 5

/-- Modelled from the spec: extension type "plain cryptographic hash" (`rfc5444_iana.h`). -/
def RFC7182_ICV_EXT_CRYPTHASH : Nat := 1

/-- Modelled from the spec: extension type "source-address-prefixed cryptographic hash"
(`rfc5444_iana.h`). -/
def RFC7182_ICV_EXT_SRCSPEC_CRYPTHASH : Nat := 2

/-- Modelled from the spec: identifier of the identity hash (`rfc5444_iana.h`). -/
def RFC7182_ICV_HASH_IDENTITY : Nat := 0

/-- Modelled from the spec: identifier of the identity crypt (`rfc5444_iana.h`). -/
def RFC7182_ICV_CRYPT_IDENTITY : Nat := 0

/-- Modelled from the spec: TLV flag "has extended type" (`rfc5444.h`, RFC 5444). -/
def RFC5444_TLV_FLAG_TYPEEXT : Nat := 0x80

/-- Modelled from the spec: TLV flag "has a value field" (`rfc5444.h`, RFC 5444). -/
def RFC5444_TLV_FLAG_VALUE : Nat := 0x10

/-- Modelled from the spec: TLV flag "extended (2-byte) value length" (`rfc5444.h`,
RFC 5444). -/
def RFC5444_TLV_FLAG_EXTVALUE : Nat := 0x08

/-- Modelled from the spec: packet flag "has sequence number" (`rfc5444.h`, RFC 5444). -/
def RFC5444_PKT_FLAG_SEQNO : Nat := 0x08

/-- Modelled from the spec: packet flag "has TLV block" (`rfc5444.h`, RFC 5444). -/
def RFC5444_PKT_FLAG_TLV : Nat := 0x04

/-- Modelled from the spec: pseudo message type of the packet level
(`rfc5444_writer.h`). -/
def RFC5444_WRITER_PKT_POSTPROCESSOR : Int := -1

/-! ## Data model -/

/-- The values of `enum rfc5444_result` that this file returns. -/
inductive rfc5444_result where
  | RFC5444_OKAY
  | RFC5444_DROP_MESSAGE
  | RFC5444_DROP_PACKET
  deriving DecidableEq, Repr

/-- Result of a key-id verifier, `enum rfc5444_sigid_check`. -/
inductive rfc5444_sigid_check where
  | RFC5444_SIGID_OKAY
  | RFC5444_SIGID_IGNORE
  | RFC5444_SIGID_DROP
  deriving DecidableEq, Repr

/-- Kind of a reader context, `enum rfc5444_reader_tlvblock_context_type`. -/
inductive rfc5444_context_type where
  | RFC5444_CONTEXT_PACKET
  | RFC5444_CONTEXT_MESSAGE
  deriving DecidableEq, Repr

/-- The fields of `struct rfc5444_reader_tlvblock_context` that the file reads.
`pkt_size` and `msg_size` are the lengths of the two buffers. -/
structure rfc5444_reader_tlvblock_context where
  type : rfc5444_context_type
  has_pktseqno : Bool
  pkt_buffer : List Nat
  msg_buffer : List Nat
  msg_type : Nat
  has_origaddr : Bool
  has_hoplimit : Bool
  has_hopcount : Bool
  has_seqno : Bool
  addr_len : Nat

/-- The fields of `struct rfc5444_reader_tlvblock_entry` that the file reads:
`length` is the number of value bytes reachable through `single_value`. -/
structure rfc5444_reader_tlvblock_entry where
  type_ext : Nat
  single_value : List Nat
  deriving DecidableEq, Repr

/-- The field `length` of a parsed TLV entry. -/
def rfc5444_reader_tlvblock_entry.length (tlv : rfc5444_reader_tlvblock_entry) : Nat :=
  tlv.single_value.length

/-- The fields of `struct rfc5444_writer_message` that the signer reads. -/
structure rfc5444_writer_message where
  type : Nat
  has_origaddr : Bool
  has_hoplimit : Bool
  has_hopcount : Bool
  has_seqno : Bool
  addr_len : Nat

/-- A registered hash algorithm, `struct rfc5444_sig_hash`. -/
structure rfc5444_sig_hash where
  type : Nat
  hash : List Nat → Option (List Nat)

/-- Type of the `crypt` callback. Of its `sig` argument it receives the part the
callbacks of this file read, the resolved hash `sig->hash`. -/
abbrev crypt_callback := rfc5444_sig_hash → List Nat → Option (List Nat)

/-- Type of the `check` callback: of `sig` it receives `sig->crypt->crypt` and
`sig->hash`; then the received signature and the signable buffer. -/
abbrev check_callback := crypt_callback → rfc5444_sig_hash → List Nat → List Nat → Bool

/-- A registered crypt algorithm, `struct rfc5444_sig_crypt`. `getSize` is `none` when
the function pointer is NULL; `check` is the pointer after `rfc5444_sig_add_crypt`
(which installs `_cb_check_by_crypt` when it was NULL). -/
structure rfc5444_sig_crypt where
  type : Nat
  crypt : crypt_callback
  getSize : Option Nat
  check : check_callback

/-- The composite key `struct rfc5444_signature_key`. -/
structure rfc5444_signature_key where
  hash_function : Nat
  crypt_function : Nat
  deriving DecidableEq, Repr

/-- The part of `struct rfc5444_writer_postprocessor` that this file writes or tests:
the reserved space and whether the node of the post-processor is in the tree of the
writer (`avl_is_node_added(&sig->_postprocessor._node)`). -/
structure rfc5444_writer_postprocessor where
  allocate_space : Nat
  _node_added : Bool
  deriving DecidableEq, Repr

/-- A registered signature policy, `struct rfc5444_signature`, after `rfc5444_sig_add`
(`verify_id` and `getKeyId` are set). `hash` and `crypt` are the pointers resolved by
`_handle_postprocessors`, `none` for NULL. -/
structure rfc5444_signature where
  key : rfc5444_signature_key
  is_matching_signature : Int → Bool
  source_specific : Bool
  drop_if_invalid : Bool
  verify_id : List Nat → rfc5444_sigid_check
  getKeyId : List Nat
  hash : Option rfc5444_sig_hash
  crypt : Option rfc5444_sig_crypt
  source : Option (List Nat)
  verified : Bool
  _must_be_verified : Bool
  _postprocessor : rfc5444_writer_postprocessor :=
    { allocate_space := 0, _node_added := false }

/-! ## Identity algorithms and the default verify (lines 823-935) -/

/-- Callback `_cb_get_empty_keyid`: the empty key-id. -/
def _cb_get_empty_keyid : List Nat := []

/-- Callback `_cb_sigid_okay`: accept every key-id. -/
def _cb_sigid_okay : List Nat → rfc5444_sigid_check :=
  fun _ => rfc5444_sigid_check.RFC5444_SIGID_OKAY

/-- Callback `_cb_identity_hash`: copy the input, return 0. -/
def _cb_identity_hash (src : List Nat) : Option (List Nat) :=
  some src

/-- Callback `_cb_identity_crypt`: run the hash of the policy; -1 iff the hash fails. -/
def _cb_identity_crypt : crypt_callback := fun hash src =>
  match hash.hash src with
  | none => none
  | some dst => some dst

/-- Callback `_cb_check_by_crypt`. The function is declared `bool`; its two `return -1`
statements therefore return `true` (a non-zero value converted to `bool`). -/
def _cb_check_by_crypt : check_callback := fun crypt hash encrypted src =>
  match crypt hash src with
  | none => true
  | some crypt_buffer =>
    if crypt_buffer.length ≠ encrypted.length then true
    else
      -- memcmp(encrypted, _crypt_buffer, crypt_length) == 0
      decide (encrypted.take crypt_buffer.length = crypt_buffer.take crypt_buffer.length)

/-- The built-in `_identity_hash`. -/
def _identity_hash : rfc5444_sig_hash :=
  { type := RFC7182_ICV_HASH_IDENTITY, hash := _cb_identity_hash }

/-- The built-in `_identity_crypt` after `rfc5444_sig_add_crypt`: no `getSize` is
given in its initialiser. -/
def _identity_crypt : rfc5444_sig_crypt :=
  { type := RFC7182_ICV_CRYPT_IDENTITY, crypt := _cb_identity_crypt,
    getSize := none, check := _cb_check_by_crypt }

/-! ## Strip operation: `_remove_signature_data` (lines 646-773) -/

/-- Length of the TLV that starts at offset `p` of `src`, lines 719-735; `tlvlen` is a
`uint16_t`. -/
def tlv_length (src : List Nat) (p : Nat) : Nat :=
  let flags := src.getD (p + 1) 0
  let tlvlen := if flags &&& RFC5444_TLV_FLAG_TYPEEXT ≠ 0 then 3 else 2
  if flags &&& RFC5444_TLV_FLAG_VALUE ≠ 0 then
    if flags &&& RFC5444_TLV_FLAG_EXTVALUE ≠ 0 then
      (tlvlen + (256 * src.getD (p + tlvlen) 0 + src.getD (p + tlvlen + 1) 0 + 2)) % 65536
    else
      (tlvlen + (src.getD (p + tlvlen) 0 + 1)) % 65536
  else
    tlvlen

/-- The loop `while (len > 0)` of lines 718-748. State: source offset `p`, remaining
length `len`, block length `blocklen` (both `uint16_t`) and the TLV bytes copied to the
destination so far. `none` when the loop has not ended after `fuel` iterations. -/
def strip_loop (src : List Nat) :
    Nat → Nat → Nat → Nat → List Nat → Option (Nat × Nat × List Nat)
  | 0, p, len, blocklen, copied => if len = 0 then some (p, blocklen, copied) else none
  | fuel + 1, p, len, blocklen, copied =>
    if len = 0 then some (p, blocklen, copied)
    else
      let tlvlen := tlv_length src p
      let len1 := (len + 65536 - tlvlen) % 65536
      if src.getD p 0 ≠ RFC7182_MSGTLV_ICV then
        strip_loop src fuel (p + tlvlen) len1 blocklen (copied ++ (src.drop p).take tlvlen)
      else
        strip_loop src fuel (p + tlvlen) len1 ((blocklen + 65536 - tlvlen) % 65536) copied

/-- Source buffer of a context, lines 657-671. -/
def context_buffer (context : rfc5444_reader_tlvblock_context) : List Nat :=
  match context.type with
  | rfc5444_context_type.RFC5444_CONTEXT_PACKET => context.pkt_buffer
  | rfc5444_context_type.RFC5444_CONTEXT_MESSAGE => context.msg_buffer

/-- Header length and the offsets `hoplimit`, `hopcount` (0 when absent),
lines 653-689. -/
def context_header (context : rfc5444_reader_tlvblock_context) : Nat × Nat × Nat :=
  match context.type with
  | rfc5444_context_type.RFC5444_CONTEXT_PACKET =>
    (if context.has_pktseqno then 3 else 1, 0, 0)
  | rfc5444_context_type.RFC5444_CONTEXT_MESSAGE =>
    let len0 := 4
    let len1 := if context.has_origaddr then len0 + context.addr_len else len0
    let hoplimit := if context.has_hoplimit then len1 else 0
    let len2 := if context.has_hoplimit then len1 + 1 else len1
    let hopcount := if context.has_hopcount then len2 else 0
    let len3 := if context.has_hopcount then len2 + 1 else len2
    let len4 := if context.has_seqno then len3 + 2 else len3
    (len4, hoplimit, hopcount)

/-- What `_remove_signature_data` leaves: the bytes written at `dst` and the returned
size. -/
structure unsigned_data where
  dst : List Nat
  len : Nat
  deriving DecidableEq, Repr

/-- Function `_remove_signature_data`. The loop gets one unit of fuel per source byte (an
iteration that stays inside the buffer consumes at least one byte); `none` when it
has not ended by then. The two bytes of the block header are written after the loop;
until then they hold 0 here. The definition follows the code on the contexts the reader
delivers, whose declared TLV block lies inside the buffer (`block_well_formed`): a read
behind the end of the source buffer has no counterpart here (`getD` yields 0, `take` and
`drop` stop at the end of the list), so the properties of the verification pipeline are
stated for well-formed contexts. -/
def _remove_signature_data (context : rfc5444_reader_tlvblock_context) :
    Option unsigned_data :=
  let src := context_buffer context
  let hdr := context_header context
  let len := hdr.1
  let hoplimit := hdr.2.1
  let hopcount := hdr.2.2
  -- copy packet/message header, clear hoplimit/hopcount
  let d0 := src.take len
  let d1 := if hoplimit ≠ 0 then d0.set hoplimit 0 else d0
  let d2 := if hopcount ≠ 0 then d1.set hopcount 0 else d1
  let blocklen0 := (256 * src.getD len 0 + src.getD (len + 1) 0) % 65536
  match strip_loop src (src.length + 1) (len + 2) blocklen0 blocklen0 [] with
  | none => none
  | some (p, blocklen, copied) =>
    let d3 :=
      if 0 < blocklen ∨ context.type = rfc5444_context_type.RFC5444_CONTEXT_MESSAGE then
        d2 ++ [blocklen / 256, blocklen % 256] ++ copied
      else
        let d := (d2 ++ [0, 0] ++ copied).dropLast.dropLast
        d.set 0 (d.getD 0 0 &&& (255 - RFC5444_PKT_FLAG_TLV))
    -- copy rest of data
    let rest_len := (((src.length : Int) - (p : Int)) % 65536).toNat
    let d4 := d3 ++ (src.drop p).take rest_len
    let total := (d3.length + rest_len) % 65536
    let d5 :=
      if context.type = rfc5444_context_type.RFC5444_CONTEXT_MESSAGE then
        (d4.set 2 (total / 256)).set 3 (total % 256)
      else d4
    some { dst := d5, len := total }

/-! ## Verification pipeline: `_cb_signature_tlv` (lines 293-435) -/

/-- Message type under which the policies are asked, lines 307-316. -/
def context_msg_type (context : rfc5444_reader_tlvblock_context) : Int :=
  match context.type with
  | rfc5444_context_type.RFC5444_CONTEXT_PACKET => RFC5444_WRITER_PKT_POSTPROCESSOR
  | rfc5444_context_type.RFC5444_CONTEXT_MESSAGE => (context.msg_type : Int)

/-- The `drop_value` of a context, lines 307-316. -/
def context_drop_value (context : rfc5444_reader_tlvblock_context) : rfc5444_result :=
  match context.type with
  | rfc5444_context_type.RFC5444_CONTEXT_PACKET => rfc5444_result.RFC5444_DROP_PACKET
  | rfc5444_context_type.RFC5444_CONTEXT_MESSAGE => rfc5444_result.RFC5444_DROP_MESSAGE

/-- Body of the first loop over `_sig_tree`, lines 321-324. -/
def init_verification (msg_type : Int) (sig : rfc5444_signature) : rfc5444_signature :=
  { sig with
    _must_be_verified := sig.drop_if_invalid && sig.is_matching_signature msg_type,
    verified := false }

/-- The loop over all policies with the key `sigkey` of the TLV, lines 386-418. The flag of the
result is `true` when the loop left the function with `return drop_value`. -/
def sig_loop (msg_type : Int) (input_address : List Nat)
    (tlv : rfc5444_reader_tlvblock_entry) (sigkey : rfc5444_signature_key)
    (key_id_len : Nat) (static_buffer : List Nat) :
    List rfc5444_signature → Option (Bool × List rfc5444_signature)
  | [] => some (false, [])
  | sig :: rest =>
    let continue_loop := fun (s : rfc5444_signature) =>
      match sig_loop msg_type input_address tlv sigkey key_id_len static_buffer rest with
      | none => none
      | some (dropped, rest1) => some (dropped, s :: rest1)
    if sig.key ≠ sigkey then
      continue_loop sig
    else if !sig.is_matching_signature msg_type then
      continue_loop sig
    else if decide (tlv.type_ext = RFC7182_ICV_EXT_SRCSPEC_CRYPTHASH) != sig.source_specific then
      continue_loop sig
    else
      match sig.verify_id ((tlv.single_value.drop 3).take key_id_len) with
      | rfc5444_sigid_check.RFC5444_SIGID_IGNORE => continue_loop sig
      | rfc5444_sigid_check.RFC5444_SIGID_DROP => some (true, sig :: rest)
      | rfc5444_sigid_check.RFC5444_SIGID_OKAY =>
        match sig.crypt, sig.hash with
        | some crypt, some hash =>
          continue_loop
            { sig with
              source := some input_address,
              verified := crypt.check crypt.crypt hash
                (tlv.single_value.drop (3 + key_id_len)) static_buffer }
        | _, _ => none

/-- Body of the loop over the signature TLVs of the context, lines 338-418. -/
def process_tlv (context : rfc5444_reader_tlvblock_context) (input_address : List Nat)
    (tlv : rfc5444_reader_tlvblock_entry) (registry : List rfc5444_signature) :
    Option (Bool × List rfc5444_signature) :=
  if tlv.type_ext ≠ RFC7182_ICV_EXT_CRYPTHASH
      ∧ tlv.type_ext ≠ RFC7182_ICV_EXT_SRCSPEC_CRYPTHASH then
    some (false, registry)
  else if tlv.length < 4 then
    some (false, registry)
  else
    let sigkey : rfc5444_signature_key :=
      { hash_function := tlv.single_value.getD 0 0,
        crypt_function := tlv.single_value.getD 1 0 }
    let key_id_len := tlv.single_value.getD 2 0
    if tlv.length ≤ 3 + key_id_len then
      some (false, registry)
    else
      -- assemble static message buffer
      let address := if tlv.type_ext = RFC7182_ICV_EXT_SRCSPEC_CRYPTHASH
        then input_address else []
      match _remove_signature_data context with
      | none => none
      | some unsigned =>
        let static_buffer := address ++ tlv.single_value.take (3 + key_id_len)
          ++ unsigned.dst.take unsigned.len
        sig_loop (context_msg_type context) input_address tlv sigkey key_id_len
          static_buffer registry

/-- The loop `for (tlv = sig_tlv->tlv; tlv; tlv = tlv->next_entry)`, line 337. -/
def tlv_loop (context : rfc5444_reader_tlvblock_context) (input_address : List Nat) :
    List rfc5444_reader_tlvblock_entry → List rfc5444_signature →
    Option (Bool × List rfc5444_signature)
  | [], registry => some (false, registry)
  | tlv :: rest, registry =>
    match process_tlv context input_address tlv registry with
    | none => none
    | some (true, registry1) => some (true, registry1)
    | some (false, registry1) => tlv_loop context input_address rest registry1

/-- Function `_cb_signature_tlv`. `registry` is `_sig_tree`, `input_address` the binary form of
`_protocol->input_address`, `sig_tlvs` the list `sig_tlv->tlv` the reader filled for this
context. The result is the return value and `_sig_tree` after the call. -/
def _cb_signature_tlv (registry : List rfc5444_signature) (input_address : List Nat)
    (sig_tlvs : List rfc5444_reader_tlvblock_entry)
    (context : rfc5444_reader_tlvblock_context) :
    Option (rfc5444_result × List rfc5444_signature) :=
  let msg_type := context_msg_type context
  let drop_value := context_drop_value context
  -- initialize verification fields
  let registry1 := registry.map (init_verification msg_type)
  let sig_to_verify := registry.any (fun sig => sig.is_matching_signature msg_type)
  if !sig_to_verify then
    some (rfc5444_result.RFC5444_OKAY, registry1)
  else
    match tlv_loop context input_address sig_tlvs registry1 with
    | none => none
    | some (true, registry2) => some (drop_value, registry2)
    | some (false, registry2) =>
      -- check if mandatory signatures are missing or failed
      if registry2.any (fun sig => !sig.verified && sig._must_be_verified) then
        some (drop_value, registry2)
      else
        some (rfc5444_result.RFC5444_OKAY, registry2)

/-! ## Signing pipeline and splice operation: `_cb_add_signature` (lines 446-638) -/

/-- Offset of the TLV block (`tlvblock - data`), lines 513-541. -/
def tlvblock_offset (msg : Option rfc5444_writer_message) (data : List Nat) : Nat :=
  match msg with
  | some m =>
    let t0 := 4
    let t1 := if m.has_origaddr then t0 + m.addr_len else t0
    let t2 := if m.has_hoplimit then t1 + 1 else t1
    let t3 := if m.has_hopcount then t2 + 1 else t2
    if m.has_seqno then t3 + 2 else t3
  | none =>
    if data.getD 0 0 &&& RFC5444_PKT_FLAG_SEQNO ≠ 0 then 3 else 1

/-- The copy of the message or packet inside `_static_message_buffer`, lines 505-534:
for a message the hop-limit and hop-count bytes are set to zero. -/
def signer_copy (msg : Option rfc5444_writer_message) (data : List Nat) : List Nat :=
  match msg with
  | some m =>
    let i1 := if m.has_origaddr then 4 + m.addr_len else 4
    let c1 := if m.has_hoplimit then data.set i1 0 else data
    let i2 := if m.has_hoplimit then i1 + 1 else i1
    if m.has_hopcount then c1.set i2 0 else c1
  | none => data

/-- The first `hash_buffer_size` bytes of `_static_message_buffer` at line 546, for the
binary source address `address` (empty when the policy is not source-specific). -/
def signer_static_buffer (sig : rfc5444_signature) (address : List Nat)
    (msg : Option rfc5444_writer_message) (data : List Nat) : List Nat :=
  address
    ++ [sig.key.hash_function, sig.key.crypt_function, sig.getKeyId.length % 256]
    ++ sig.getKeyId ++ signer_copy msg data

/-- The signature TLV written at lines 593-623 for the crypt output `crypt_buffer`. -/
def signature_tlv (sig : rfc5444_signature) (crypt_buffer : List Nat) : List Nat :=
  let sig_size := 3 + sig.getKeyId.length + crypt_buffer.length
  [RFC7182_MSGTLV_ICV]
    ++ (if sig_size > 255 then
          [RFC5444_TLV_FLAG_TYPEEXT ||| RFC5444_TLV_FLAG_VALUE ||| RFC5444_TLV_FLAG_EXTVALUE]
        else [RFC5444_TLV_FLAG_TYPEEXT ||| RFC5444_TLV_FLAG_VALUE])
    ++ (if sig.source_specific then [RFC7182_ICV_EXT_SRCSPEC_CRYPTHASH]
        else [RFC7182_ICV_EXT_CRYPTHASH])
    ++ (if sig_size > 255 then [sig_size / 256 % 256, sig_size % 256]
        else [sig_size % 256])
    ++ [sig.key.hash_function, sig.key.crypt_function, sig.getKeyId.length % 256]
    ++ sig.getKeyId ++ crypt_buffer

/-- Lines 558-632: make room at the TLV block, write the block length and the signature
TLV, fix the size fields. The result is the buffer of `*data_size` bytes. -/
def splice_signature (sig : rfc5444_signature) (msg : Option rfc5444_writer_message)
    (data : List Nat) (crypt_buffer : List Nat) : List Nat :=
  let off := tlvblock_offset msg data
  let sig_size := 3 + sig.getKeyId.length + crypt_buffer.length
  let sig_tlv_size := if sig_size > 255 then 4 + sig_size + 1 else 4 + sig_size
  let new_block := msg.isNone && (data.getD 0 0 &&& RFC5444_PKT_FLAG_TLV == 0)
  -- the bytes before the block, the old block length, the bytes moved by memmove
  let before :=
    if new_block then (data.set 0 (data.getD 0 0 ||| RFC5444_PKT_FLAG_TLV)).take off
    else data.take off
  let old_size := if new_block then 0 else 256 * data.getD off 0 + data.getD (off + 1) 0
  let moved := if new_block then data.drop off else data.drop (off + 2)
  let tlvblock_size := old_size + sig_tlv_size
  let d := before ++ [tlvblock_size / 256 % 256, tlvblock_size % 256]
    ++ signature_tlv sig crypt_buffer ++ moved
  match msg with
  | some _ => (d.set 2 (d.length / 256 % 256)).set 3 (d.length % 256)
  | none => d

/-- Function `_cb_add_signature` for the policy `sig` of the post-processor. `local_socket` is
the binary address `netaddr_from_socket` extracts from the local socket of the target,
`none` when that conversion fails; `msg` is `none` for a packet. The result is the
return value and the buffer `data` of `*data_size` bytes after the call. -/
def _cb_add_signature (sig : rfc5444_signature) (local_socket : Option (List Nat))
    (msg : Option rfc5444_writer_message) (data : List Nat) : Option (Int × List Nat) :=
  match (if sig.source_specific then local_socket else some []) with
  | none => some (-1, data)
  | some address =>
    let static_buffer := signer_static_buffer sig address msg data
    -- calculate encrypted hash value
    match sig.crypt, sig.hash with
    | some crypt, some hash =>
      match crypt.crypt hash static_buffer with
      | none => some (-1, data)
      | some crypt_buffer =>
        match crypt.getSize with
        | none => none
        | some max_size =>
          if crypt_buffer.length > max_size then some (-1, data)
          else some (0, splice_signature sig msg data crypt_buffer)
    | _, _ => none


/-! ## Notions used to state the properties of the verification pipeline -/

/-- Length of the key-id announced by a signature TLV (`key_id_len`, line 354). -/
def tlv_key_id_len (tlv : rfc5444_reader_tlvblock_entry) : Nat :=
  tlv.single_value.getD 2 0

/-- The algorithm pair announced by a signature TLV (`sigkey`, lines 352-353). -/
def tlv_sigkey (tlv : rfc5444_reader_tlvblock_entry) : rfc5444_signature_key :=
  { hash_function := tlv.single_value.getD 0 0,
    crypt_function := tlv.single_value.getD 1 0 }

/-- The key-id bytes of a signature TLV, `&tlv->single_value[3]`. -/
def tlv_key_id (tlv : rfc5444_reader_tlvblock_entry) : List Nat :=
  (tlv.single_value.drop 3).take (tlv_key_id_len tlv)

/-- The signature bytes of a signature TLV, `&tlv->single_value[3 + key_id_len]`. -/
def tlv_signature (tlv : rfc5444_reader_tlvblock_entry) : List Nat :=
  tlv.single_value.drop (3 + tlv_key_id_len tlv)

/-- A signature TLV that lines 338-362 skip: unknown extension type or too short. -/
def tlv_ignored (tlv : rfc5444_reader_tlvblock_entry) : Bool :=
  (tlv.type_ext != RFC7182_ICV_EXT_CRYPTHASH
      && tlv.type_ext != RFC7182_ICV_EXT_SRCSPEC_CRYPTHASH)
    || decide (tlv.length < 4)
    || decide (tlv.length ≤ 3 + tlv_key_id_len tlv)

/-- The buffer handed to the verify step for a TLV, lines 364-383. -/
def tlv_static_buffer (input_address : List Nat) (tlv : rfc5444_reader_tlvblock_entry)
    (unsigned : unsigned_data) : List Nat :=
  (if tlv.type_ext = RFC7182_ICV_EXT_SRCSPEC_CRYPTHASH then input_address else [])
    ++ tlv.single_value.take (3 + tlv_key_id_len tlv) ++ unsigned.dst.take unsigned.len

/-- The policy is offered the TLV: same algorithm pair, applicable to the message type,
same source-specific flag (lines 386-395). -/
def policy_applies (msg_type : Int) (tlv : rfc5444_reader_tlvblock_entry)
    (sig : rfc5444_signature) : Bool :=
  decide (sig.key = tlv_sigkey tlv)
    && sig.is_matching_signature msg_type
    && (decide (tlv.type_ext = RFC7182_ICV_EXT_SRCSPEC_CRYPTHASH) == sig.source_specific)

/-- Result of the verify step of a policy for a TLV (line 413); `false` for a policy
without resolved algorithms. -/
def verify_step (input_address : List Nat) (unsigned : unsigned_data)
    (tlv : rfc5444_reader_tlvblock_entry) (sig : rfc5444_signature) : Bool :=
  match sig.crypt, sig.hash with
  | some crypt, some hash =>
    crypt.check crypt.crypt hash (tlv_signature tlv)
      (tlv_static_buffer input_address tlv unsigned)
  | _, _ => false

/-- The TLV reaches the verify step of the policy: it is not skipped, the policy is
offered it and the key-id verifier answers okay. -/
def tlv_checked_by (msg_type : Int) (tlv : rfc5444_reader_tlvblock_entry)
    (sig : rfc5444_signature) : Bool :=
  !tlv_ignored tlv && policy_applies msg_type tlv sig
    && decide (sig.verify_id (tlv_key_id tlv) = rfc5444_sigid_check.RFC5444_SIGID_OKAY)

/-- The TLV makes the policy drop the context: it is not skipped, the policy is
offered it and the key-id verifier answers drop. -/
def tlv_dropped_by (msg_type : Int) (tlv : rfc5444_reader_tlvblock_entry)
    (sig : rfc5444_signature) : Bool :=
  !tlv_ignored tlv && policy_applies msg_type tlv sig
    && decide (sig.verify_id (tlv_key_id tlv) = rfc5444_sigid_check.RFC5444_SIGID_DROP)

/-- Effect of one TLV on one policy when no key-id verifier drops. -/
def policy_after_tlv (msg_type : Int) (input_address : List Nat) (unsigned : unsigned_data)
    (tlv : rfc5444_reader_tlvblock_entry) (sig : rfc5444_signature) : rfc5444_signature :=
  if tlv_checked_by msg_type tlv sig then
    { sig with source := some input_address,
               verified := verify_step input_address unsigned tlv sig }
  else sig

/-- Both algorithm pointers of every registered policy are resolved. -/
def registry_resolved (registry : List rfc5444_signature) : Prop :=
  ∀ sig ∈ registry, sig.crypt.isSome = true ∧ sig.hash.isSome = true

/-- The fields of a policy that a verification pass never writes. -/
def policy_static (sig : rfc5444_signature) : rfc5444_signature :=
  { sig with source := none, verified := false, _must_be_verified := false }

/-- Effect of a list of TLVs, in list order, on one policy when no verifier drops. -/
def policy_after_tlvs (msg_type : Int) (input_address : List Nat) (unsigned : unsigned_data)
    (tlvs : List rfc5444_reader_tlvblock_entry) (sig : rfc5444_signature) :
    rfc5444_signature :=
  tlvs.foldl (fun s tlv => policy_after_tlv msg_type input_address unsigned tlv s) sig

/-- State of a policy at the end of a verification pass in which no verifier drops. -/
def policy_final (msg_type : Int) (input_address : List Nat) (unsigned : unsigned_data)
    (tlvs : List rfc5444_reader_tlvblock_entry) (sig : rfc5444_signature) :
    rfc5444_signature :=
  policy_after_tlvs msg_type input_address unsigned tlvs (init_verification msg_type sig)

/-! ## Wire format of a TLV block -/

/-- Modelled from the spec: one TLV of a packet or message TLV block as it stands on the
wire (RFC 5444, the format the external tokenizer parses): type byte, flags byte, the
extension type (present iff the type-extension flag is set) and the value (present iff
the value flag is set, its length in 1 byte, or in 2 bytes big-endian when the
extended-value flag is set). Packet and message TLVs carry no index fields. -/
structure wire_tlv where
  type : Nat
  flags : Nat
  type_ext : Nat
  value : List Nat
  deriving DecidableEq, Repr

/-- Modelled from the spec: the bytes of one TLV. -/
def wire_tlv.encode (t : wire_tlv) : List Nat :=
  [t.type, t.flags]
    ++ (if t.flags &&& RFC5444_TLV_FLAG_TYPEEXT ≠ 0 then [t.type_ext] else [])
    ++ (if t.flags &&& RFC5444_TLV_FLAG_VALUE ≠ 0 then
          (if t.flags &&& RFC5444_TLV_FLAG_EXTVALUE ≠ 0 then
              [t.value.length / 256, t.value.length % 256]
            else [t.value.length])
            ++ t.value
        else [])

/-- Modelled from the spec: a TLV whose length field can hold the length of its value
(below 256 for the 1-byte encoding) and whose size fits 16 bits. -/
def wire_tlv.valid (t : wire_tlv) : Prop :=
  (t.flags &&& RFC5444_TLV_FLAG_EXTVALUE = 0 → t.value.length < 256)
    ∧ t.encode.length < 65536

/-- Modelled from the spec: the content of a TLV block, the TLVs one after the other. -/
def encode_block : List wire_tlv → List Nat
  | [] => []
  | t :: ts => t.encode ++ encode_block ts

/-- Total size of the signature TLVs of a block. -/
def signature_tlvs_size : List wire_tlv → Nat
  | [] => 0
  | t :: ts =>
    (if t.type = RFC7182_MSGTLV_ICV then t.encode.length else 0) + signature_tlvs_size ts

/-- The signature TLV of lines 593-623 as a TLV of the wire format. -/
def signature_wire_tlv (sig : rfc5444_signature) (crypt_buffer : List Nat) : wire_tlv :=
  { type := RFC7182_MSGTLV_ICV,
    flags :=
      if 3 + sig.getKeyId.length + crypt_buffer.length > 255 then
        RFC5444_TLV_FLAG_TYPEEXT ||| RFC5444_TLV_FLAG_VALUE ||| RFC5444_TLV_FLAG_EXTVALUE
      else RFC5444_TLV_FLAG_TYPEEXT ||| RFC5444_TLV_FLAG_VALUE,
    type_ext :=
      if sig.source_specific then RFC7182_ICV_EXT_SRCSPEC_CRYPTHASH
      else RFC7182_ICV_EXT_CRYPTHASH,
    value :=
      [sig.key.hash_function, sig.key.crypt_function, sig.getKeyId.length % 256]
        ++ sig.getKeyId ++ crypt_buffer }

/-- Modelled from the spec: a buffer made of a header, an optional TLV block (16-bit
big-endian block length, then the TLVs) and the bytes that follow (RFC 5444). -/
def assemble (hdr : List Nat) (block : Option (List wire_tlv)) (rest : List Nat) :
    List Nat :=
  match block with
  | none => hdr ++ rest
  | some tlvs =>
    hdr ++ ([(encode_block tlvs).length / 256, (encode_block tlvs).length % 256]
      ++ (encode_block tlvs ++ rest))

/-- Modelled from the spec: the context the external reader hands to the callbacks for
a buffer the writer produced from the message `msg` (`none`: a packet). The header
flags are those of the writer message; for a packet the sequence-number flag is read
from byte 0. -/
def reader_context (msg : Option rfc5444_writer_message) (data : List Nat) :
    rfc5444_reader_tlvblock_context :=
  match msg with
  | some m =>
    { type := rfc5444_context_type.RFC5444_CONTEXT_MESSAGE,
      has_pktseqno := false,
      pkt_buffer := [],
      msg_buffer := data,
      msg_type := m.type,
      has_origaddr := m.has_origaddr,
      has_hoplimit := m.has_hoplimit,
      has_hopcount := m.has_hopcount,
      has_seqno := m.has_seqno,
      addr_len := m.addr_len }
  | none =>
    { type := rfc5444_context_type.RFC5444_CONTEXT_PACKET,
      has_pktseqno := decide (data.getD 0 0 &&& RFC5444_PKT_FLAG_SEQNO ≠ 0),
      pkt_buffer := data,
      msg_buffer := [],
      msg_type := 0,
      has_origaddr := false,
      has_hoplimit := false,
      has_hopcount := false,
      has_seqno := false,
      addr_len := 0 }

/-- The bytes `_remove_signature_data` writes for a context whose buffer is a header,
a block length, a block of TLVs and the rest: `kept` is the content of the block
without its signature TLVs. -/
def stripped_bytes (context : rfc5444_reader_tlvblock_context)
    (hdr kept rest : List Nat) : List Nat :=
  let hoplimit := (context_header context).2.1
  let hopcount := (context_header context).2.2
  let d1 := if hoplimit ≠ 0 then hdr.set hoplimit 0 else hdr
  let d2 := if hopcount ≠ 0 then d1.set hopcount 0 else d1
  let d3 :=
    if 0 < kept.length ∨ context.type = rfc5444_context_type.RFC5444_CONTEXT_MESSAGE then
      d2 ++ [kept.length / 256, kept.length % 256] ++ kept
    else
      d2.set 0 (d2.getD 0 0 &&& (255 - RFC5444_PKT_FLAG_TLV))
  let d4 := d3 ++ rest
  if context.type = rfc5444_context_type.RFC5444_CONTEXT_MESSAGE then
    (d4.set 2 (d4.length / 256)).set 3 (d4.length % 256)
  else d4

/-- Modelled from the spec: the external TLV tokenizer, restricted to what
`_cb_signature_tlv` consumes. It walks the TLV block (`len` bytes left at offset `p`)
and returns, in block order, one entry (extension type, 0 without the type-extension
flag; value bytes) for every TLV of the signature type. -/
def tokenize_block (src : List Nat) :
    Nat → Nat → Nat → List rfc5444_reader_tlvblock_entry
  | 0, _, _ => []
  | fuel + 1, p, len =>
    if len = 0 then []
    else
      let flags := src.getD (p + 1) 0
      let has_ext := flags &&& RFC5444_TLV_FLAG_TYPEEXT ≠ 0
      let has_value := flags &&& RFC5444_TLV_FLAG_VALUE ≠ 0
      let has_extvalue := flags &&& RFC5444_TLV_FLAG_EXTVALUE ≠ 0
      let h := if has_ext then 3 else 2
      let type_ext := if has_ext then src.getD (p + 2) 0 else 0
      let value_len :=
        if has_value then
          (if has_extvalue then 256 * src.getD (p + h) 0 + src.getD (p + h + 1) 0
            else src.getD (p + h) 0)
        else 0
      let value_off := if has_value then (if has_extvalue then h + 2 else h + 1) else h
      let tail := tokenize_block src fuel (p + (value_off + value_len))
        (len - (value_off + value_len))
      if src.getD p 0 = RFC7182_MSGTLV_ICV then
        { type_ext := type_ext, single_value := (src.drop (p + value_off)).take value_len }
          :: tail
      else tail

/-- Modelled from the spec: the list of signature TLV entries the reader hands to
`_cb_signature_tlv` for the first TLV block of the buffer `data` (none when a packet
has no TLV block). -/
def reader_signature_tlvs (msg : Option rfc5444_writer_message) (data : List Nat) :
    List rfc5444_reader_tlvblock_entry :=
  if msg.isNone && (data.getD 0 0 &&& RFC5444_PKT_FLAG_TLV == 0) then []
  else
    tokenize_block data data.length (tlvblock_offset msg data + 2)
      (256 * data.getD (tlvblock_offset msg data) 0
        + data.getD (tlvblock_offset msg data + 1) 0)

/-- The entry the tokenizer yields for a TLV of the wire format. -/
def wire_tlv.entry (t : wire_tlv) : rfc5444_reader_tlvblock_entry :=
  { type_ext := if t.flags &&& RFC5444_TLV_FLAG_TYPEEXT ≠ 0 then t.type_ext else 0,
    single_value := if t.flags &&& RFC5444_TLV_FLAG_VALUE ≠ 0 then t.value else [] }

/-! ## Sample inputs -/

/-- The identity crypt with a declared maximum size (`getSize` returns `max_size`). -/
def identity_crypt_sized (max_size : Nat) : rfc5444_sig_crypt :=
  { _identity_crypt with getSize := some max_size }

/-- A registered policy with identity hash and identity crypt that applies to every
message type and to the packet level. -/
def identity_policy (source_specific drop_if_invalid : Bool) (key_id : List Nat)
    (verify_id : List Nat → rfc5444_sigid_check) : rfc5444_signature :=
  { key := { hash_function := RFC7182_ICV_HASH_IDENTITY,
             crypt_function := RFC7182_ICV_CRYPT_IDENTITY },
    is_matching_signature := fun _ => true,
    source_specific := source_specific,
    drop_if_invalid := drop_if_invalid,
    verify_id := verify_id,
    getKeyId := key_id,
    hash := some _identity_hash,
    crypt := some (identity_crypt_sized 1024),
    source := none,
    verified := false,
    _must_be_verified := false }

/-- The reader context of a message of type 1 without optional header fields
(address length 4). -/
def plain_message_context (msg_buffer : List Nat) : rfc5444_reader_tlvblock_context :=
  { type := rfc5444_context_type.RFC5444_CONTEXT_MESSAGE,
    has_pktseqno := false,
    pkt_buffer := [],
    msg_buffer := msg_buffer,
    msg_type := 1,
    has_origaddr := false,
    has_hoplimit := false,
    has_hopcount := false,
    has_seqno := false,
    addr_len := 4 }

/-- A message of 6 bytes: type 1, address length 4, size 6, empty TLV block. -/
def unsigned_message : List Nat := [1, 3, 0, 6, 0, 0]

/-- The message `unsigned_message` with a signature TLV (identity hash and crypt, empty
key-id) whose signature is the single byte 99. -/
def forged_message : List Nat := [1, 3, 0, 14, 0, 8, 5, 0x90, 1, 4, 0, 0, 0, 99]

/-- The TLV entry the reader exposes for the signature TLV of `forged_message`. -/
def forged_tlv : rfc5444_reader_tlvblock_entry :=
  { type_ext := RFC7182_ICV_EXT_CRYPTHASH, single_value := [0, 0, 0, 99] }

/-- The message `unsigned_message` signed with identity hash and crypt and an empty
key-id: the signature is the signable buffer `[0, 0, 0] ++ unsigned_message`. -/
def signed_message : List Nat :=
  [1, 3, 0, 22, 0, 16, 5, 0x90, 1, 12, 0, 0, 0, 0, 0, 0, 1, 3, 0, 6, 0, 0]

/-- The TLV entry the reader exposes for the signature TLV of `signed_message`. -/
def signed_tlv : rfc5444_reader_tlvblock_entry :=
  { type_ext := RFC7182_ICV_EXT_CRYPTHASH,
    single_value := [0, 0, 0, 0, 0, 0, 1, 3, 0, 6, 0, 0] }

/-- The signature TLV of `signed_message` with the last signature byte changed. -/
def tampered_tlv : rfc5444_reader_tlvblock_entry :=
  { type_ext := RFC7182_ICV_EXT_CRYPTHASH,
    single_value := [0, 0, 0, 0, 0, 0, 1, 3, 0, 6, 0, 1] }

/-- A signature TLV with an extension type this file does not know. -/
def unknown_ext_tlv : rfc5444_reader_tlvblock_entry :=
  { type_ext := 0, single_value := [0, 0, 0, 0, 0, 0, 1, 3, 0, 6, 0, 0] }

/-- A key-id verifier that drops every key-id. -/
def sigid_always_drop : List Nat → rfc5444_sigid_check :=
  fun _ => rfc5444_sigid_check.RFC5444_SIGID_DROP

/-- Registry with one mandatory identity policy (empty key-id, every key-id accepted). -/
def mandatory_registry : List rfc5444_signature :=
  [identity_policy false true [] _cb_sigid_okay]

/-- Registry with one optional identity policy whose key-id verifier drops. -/
def dropping_registry : List rfc5444_signature :=
  [identity_policy false false [] sigid_always_drop]

/-- Registry with one mandatory identity policy that applies to no message type. -/
def inapplicable_registry : List rfc5444_signature :=
  [{ identity_policy false true [] _cb_sigid_okay with
     is_matching_signature := fun _ => false }]

/-- The writer message of `unsigned_message`: type 1, no optional header field,
address length 4. -/
def plain_message : rfc5444_writer_message :=
  { type := 1,
    has_origaddr := false,
    has_hoplimit := false,
    has_hopcount := false,
    has_seqno := false,
    addr_len := 4 }

/-- A crypt whose transform returns an empty signature (declared maximum 0), with the
default verify. -/
def empty_crypt : rfc5444_sig_crypt :=
  { type := 9, crypt := fun _ _ => some [], getSize := some 0, check := _cb_check_by_crypt }

/-- A mandatory policy over `empty_crypt` and the identity hash (empty key-id, every
key-id accepted, applies to every message type). -/
def empty_signature_policy : rfc5444_signature :=
  { identity_policy false true [] _cb_sigid_okay with
    key := { hash_function := RFC7182_ICV_HASH_IDENTITY, crypt_function := 9 },
    crypt := some empty_crypt }

/-- A packet of 3 bytes: version 0, has-TLV flag set, TLV block of length 0. -/
def empty_block_packet : List Nat := [4, 0, 0]

/-! ## Further sample inputs and notions for the strip and splice properties -/

/-- A crypt with a one-byte signature, the sum of the signable bytes modulo 256
(declared maximum 1, default verify). -/
def checksum_crypt : rfc5444_sig_crypt :=
  { type := 7,
    crypt := fun _ src => some [src.sum % 256],
    getSize := some 1,
    check := _cb_check_by_crypt }

/-- A mandatory policy over `checksum_crypt` and the identity hash (empty key-id, every
key-id accepted, applies to every message type). -/
def checksum_policy : rfc5444_signature :=
  { identity_policy false true [] _cb_sigid_okay with
    key := { hash_function := RFC7182_ICV_HASH_IDENTITY, crypt_function := 7 },
    crypt := some checksum_crypt }

/-- The message `signed_message` (signed by the identity policy) signed a second time,
by `checksum_policy`: the new signature TLV `[5, 0x90, 1, 4, 0, 7, 0, 221]` stands first
in the block. -/
def twice_signed_message : List Nat :=
  [1, 3, 0, 30, 0, 24, 5, 0x90, 1, 4, 0, 7, 0, 221,
   5, 0x90, 1, 12, 0, 0, 0, 0, 0, 0, 1, 3, 0, 6, 0, 0]

/-- The signature TLV of `checksum_policy` in `twice_signed_message`, as the reader
delivers it. -/
def checksum_tlv : rfc5444_reader_tlvblock_entry :=
  { type_ext := RFC7182_ICV_EXT_CRYPTHASH,
    single_value := [0, 7, 0, 221] }

/-- Registry with the mandatory identity policy and `checksum_policy`, in key order. -/
def two_policy_registry : List rfc5444_signature :=
  [identity_policy false true [] _cb_sigid_okay, checksum_policy]

/-- Decision procedure for the validity of a TLV. -/
instance wire_tlv.decidable_valid (t : wire_tlv) : Decidable t.valid :=
  inferInstanceAs (Decidable
    ((t.flags &&& RFC5444_TLV_FLAG_EXTVALUE = 0 → t.value.length < 256)
      ∧ t.encode.length < 65536))

/-- The buffer of a context replaced by `buf`, all header flags kept. -/
def context_with_buffer (context : rfc5444_reader_tlvblock_context) (buf : List Nat) :
    rfc5444_reader_tlvblock_context :=
  match context.type with
  | rfc5444_context_type.RFC5444_CONTEXT_PACKET => { context with pkt_buffer := buf }
  | rfc5444_context_type.RFC5444_CONTEXT_MESSAGE => { context with msg_buffer := buf }

/-- The reader context of a message of type 1 with originator address (4 bytes), hop
limit, hop count and sequence number. -/
def full_header_context (msg_buffer : List Nat) : rfc5444_reader_tlvblock_context :=
  { type := rfc5444_context_type.RFC5444_CONTEXT_MESSAGE,
    has_pktseqno := false,
    pkt_buffer := [],
    msg_buffer := msg_buffer,
    msg_type := 1,
    has_origaddr := true,
    has_hoplimit := true,
    has_hopcount := true,
    has_seqno := true,
    addr_len := 4 }

/-- The reader context of a packet without sequence number. -/
def plain_packet_context (pkt_buffer : List Nat) : rfc5444_reader_tlvblock_context :=
  { type := rfc5444_context_type.RFC5444_CONTEXT_PACKET,
    has_pktseqno := false,
    pkt_buffer := pkt_buffer,
    msg_buffer := [],
    msg_type := 0,
    has_origaddr := false,
    has_hoplimit := false,
    has_hopcount := false,
    has_seqno := false,
    addr_len := 0 }

/-- A signature TLV with a 4-byte value (1-byte length encoding). -/
def short_signature_tlv : wire_tlv :=
  { type := RFC7182_MSGTLV_ICV, flags := 0x90, type_ext := 1, value := [0, 0, 0, 9] }

/-- A TLV of type 1 without type extension and without value. -/
def bare_tlv : wire_tlv :=
  { type := 1, flags := 0, type_ext := 0, value := [] }

/-- A TLV of type 2 with a 3-byte value and the 2-byte length encoding. -/
def wide_tlv : wire_tlv :=
  { type := 2, flags := 0x18, type_ext := 0, value := [7, 8, 9] }

/-- A message of 24 bytes with all optional header fields (originator 10.0.0.1, hop
limit 7, hop count 2, sequence number 42) whose block holds `short_signature_tlv` and
`bare_tlv`. -/
def relayed_message : List Nat :=
  [1, 0xF3, 0, 24, 10, 0, 0, 1, 7, 2, 0, 42, 0, 10, 5, 0x90, 1, 4, 0, 0, 0, 9, 1, 0]

/-- A packet of 12 bytes whose block holds only `short_signature_tlv`, followed by one
byte. -/
def signature_only_packet : List Nat :=
  [4, 0, 8, 5, 0x90, 1, 4, 0, 0, 0, 9, 77]

/-- A packet of 17 bytes: a TLV block that holds only `short_signature_tlv`, followed by
the message `[0, 0, 0, 6, 0, 0]` (type 0, size 6, empty TLV block). -/
def signed_packet_with_message : List Nat :=
  [4, 0, 8, 5, 0x90, 1, 4, 0, 0, 0, 9, 0, 0, 0, 6, 0, 0]

/-- A message of 25 bytes without optional header fields whose block holds `bare_tlv`,
`short_signature_tlv` and `wide_tlv`, followed by the bytes `[0xAA, 0xBB]`. -/
def mixed_message : List Nat :=
  [1, 3, 0, 25, 0, 17, 1, 0, 5, 0x90, 1, 4, 0, 0, 0, 9, 2, 0x18, 0, 3, 7, 8, 9, 0xAA, 0xBB]

/-- The size of the TLV at offset `p` as the specification states it: 2, plus 1 if the
type-extension flag is set, plus nothing if the value flag is clear, `1 + v` if it is
set with a 1-byte length `v`, `2 + v` if it is set together with the extended-value
flag and a 2-byte big-endian length `v`. -/
def tlv_size_spec (src : List Nat) (p : Nat) : Nat :=
  let flags := src.getD (p + 1) 0
  let ext := if flags &&& RFC5444_TLV_FLAG_TYPEEXT ≠ 0 then 1 else 0
  2 + ext
    + (if flags &&& RFC5444_TLV_FLAG_VALUE = 0 then 0
       else if flags &&& RFC5444_TLV_FLAG_EXTVALUE = 0 then 1 + src.getD (p + 2 + ext) 0
       else 2 + (256 * src.getD (p + 2 + ext) 0 + src.getD (p + 2 + ext + 1) 0))

/-- The loop `while (len > 0)` of lines 718-748 with a counter of its iterations and
without the copied bytes: the result is the number of iterations, the final source
offset and the final remaining length. `none` when the loop has not ended after `fuel`
iterations. -/
def strip_loop_count (src : List Nat) : Nat → Nat → Nat → Option (Nat × Nat × Nat)
  | 0, p, len => if len = 0 then some (0, p, len) else none
  | fuel + 1, p, len =>
    if len = 0 then some (0, p, len)
    else
      let tlvlen := tlv_length src p
      (strip_loop_count src fuel (p + tlvlen) ((len + 65536 - tlvlen) % 65536)).map
        (fun r => (r.1 + 1, r.2))

/-- A message of 40 bytes without optional header fields: a block of 34 bytes that holds
one TLV of type 7 with a 31-byte value. -/
def forty_byte_message : List Nat :=
  [1, 3, 0, 40, 0, 34, 7, 0x10, 31] ++ List.replicate 31 0xAA

/-- A packet of 7 bytes without sequence number and without TLV block, holding the
message `[0, 0, 0, 6, 0, 0]`. -/
def blockless_packet : List Nat := [0, 0, 0, 0, 6, 0, 0]

/-! ## Algorithm and policy registries (lines 150-286 and 780-804)

The three static trees `_hash_functions`, `_crypt_functions` and `_sig_tree` form the
state. A tree is the list of its elements in key order. The tree functions of
`common/avl.h` are not part of the sources. -/

/-- Modelled from the spec: `avl_find_element`, the first element of the tree with the
key `k`, `none` for NULL. -/
def avl_find_element {α κ : Type} [DecidableEq κ] (key : α → κ) (tree : List α) (k : κ) :
    Option α :=
  tree.find? (fun x => key x == k)

/-- Modelled from the spec: `avl_insert`. In a tree that does not allow duplicates a
key that is present is refused (return value -1, tree unchanged); otherwise the node is
placed behind the last element whose key is not greater (return value 0). -/
def avl_insert {α : Type} (key : α → Nat) (allow_dups : Bool) (tree : List α) (new : α) :
    Int × List α :=
  if !allow_dups && tree.any (fun x => key x == key new) then (-1, tree)
  else
    (0, tree.takeWhile (fun x => decide (key x ≤ key new)) ++ [new]
          ++ tree.dropWhile (fun x => decide (key x ≤ key new)))

/-- Modelled from the spec: `avl_remove` for a node of the tree. The node is found by its
key: the first element with the key of `node` leaves the tree. -/
def avl_remove {α κ : Type} [DecidableEq κ] (key : α → κ) (tree : List α) (node : α) :
    List α :=
  tree.eraseP (fun x => key x == key node)

/-- Key of `_sig_tree`: `_avl_cmp_signatures` compares the two bytes of
`struct rfc5444_signature_key` with `memcmp`. -/
def signature_key_order (sig : rfc5444_signature) : Nat :=
  256 * sig.key.hash_function + sig.key.crypt_function

/-- The static trees of the file: `_hash_functions` and `_crypt_functions` (no
duplicates, key `type`) and `_sig_tree` (duplicates allowed). -/
structure signature_registry where
  _hash_functions : List rfc5444_sig_hash
  _crypt_functions : List rfc5444_sig_crypt
  _sig_tree : List rfc5444_signature

/-- Body of the loop of `_handle_postprocessors` (lines 785-803) for one policy: resolve
both algorithm pointers, register the post-processor when it was not registered and
both are found (after the call `sig->crypt->getSize(sig)`, which has no result for a
NULL `getSize`), unregister it when it was registered and one is missing. -/
def handle_postprocessor (hashes : List rfc5444_sig_hash) (crypts : List rfc5444_sig_crypt)
    (sig : rfc5444_signature) : Option rfc5444_signature :=
  let registered := sig._postprocessor._node_added
  let hash := avl_find_element (fun h : rfc5444_sig_hash => h.type) hashes
    sig.key.hash_function
  let crypt := avl_find_element (fun c : rfc5444_sig_crypt => c.type) crypts
    sig.key.crypt_function
  match hash, crypt with
  | some h, some c =>
    if !registered then
      match c.getSize with
      | none => none
      | some size =>
        some { sig with hash := some h, crypt := some c,
                        _postprocessor := { allocate_space := size, _node_added := true } }
    else some { sig with hash := some h, crypt := some c }
  | h, c =>
    if registered then
      some { sig with hash := h, crypt := c,
                      _postprocessor := { sig._postprocessor with _node_added := false } }
    else some { sig with hash := h, crypt := c }

/-- The loop of `_handle_postprocessors` over `_sig_tree`. -/
def handle_loop (hashes : List rfc5444_sig_hash) (crypts : List rfc5444_sig_crypt) :
    List rfc5444_signature → Option (List rfc5444_signature)
  | [] => some []
  | sig :: rest =>
    match handle_postprocessor hashes crypts sig with
    | none => none
    | some sig1 =>
      match handle_loop hashes crypts rest with
      | none => none
      | some rest1 => some (sig1 :: rest1)

/-- Function `_handle_postprocessors`; `none` when a call through a NULL `getSize` is
reached. -/
def _handle_postprocessors (st : signature_registry) : Option signature_registry :=
  match handle_loop st._hash_functions st._crypt_functions st._sig_tree with
  | none => none
  | some tree => some { st with _sig_tree := tree }

/-- Function `rfc5444_sig_add_hash`; the return value of `avl_insert` is not looked at. -/
def rfc5444_sig_add_hash (st : signature_registry) (hash : rfc5444_sig_hash) :
    Option signature_registry :=
  _handle_postprocessors
    { st with _hash_functions :=
        (avl_insert (fun h : rfc5444_sig_hash => h.type) false st._hash_functions hash).2 }

/-- Function `rfc5444_sig_remove_hash`. -/
def rfc5444_sig_remove_hash (st : signature_registry) (hash : rfc5444_sig_hash) :
    Option signature_registry :=
  _handle_postprocessors
    { st with _hash_functions :=
        avl_remove (fun h : rfc5444_sig_hash => h.type) st._hash_functions hash }

/-- Function `rfc5444_sig_add_crypt`; `crypt.check` is the pointer after the default of
lines 232-234, the return value of `avl_insert` is not looked at. -/
def rfc5444_sig_add_crypt (st : signature_registry) (crypt : rfc5444_sig_crypt) :
    Option signature_registry :=
  _handle_postprocessors
    { st with _crypt_functions :=
        (avl_insert (fun c : rfc5444_sig_crypt => c.type) false st._crypt_functions crypt).2 }

/-- Function `rfc5444_sig_remove_crypt`. -/
def rfc5444_sig_remove_crypt (st : signature_registry) (crypt : rfc5444_sig_crypt) :
    Option signature_registry :=
  _handle_postprocessors
    { st with _crypt_functions :=
        avl_remove (fun c : rfc5444_sig_crypt => c.type) st._crypt_functions crypt }

/-- Function `rfc5444_sig_add`; `sig.verify_id` and `sig.getKeyId` are the pointers
after the defaults of lines 259-264. -/
def rfc5444_sig_add (st : signature_registry) (sig : rfc5444_signature) :
    Option signature_registry :=
  _handle_postprocessors
    { st with _sig_tree := (avl_insert signature_key_order true st._sig_tree sig).2 }

/-- The registry part of `_init` (lines 158-163) when the protocol is available: empty
trees, then the two built-in identity algorithms. -/
def _init : Option signature_registry :=
  (rfc5444_sig_add_hash
    { _hash_functions := [], _crypt_functions := [], _sig_tree := [] } _identity_hash).bind
    (fun st => rfc5444_sig_add_crypt st _identity_crypt)

/-- Each policy of `_sig_tree` holds the lookups of its two algorithm identifiers, and
its post-processor is registered exactly when both are found. -/
def registry_consistent (st : signature_registry) : Prop :=
  ∀ sig ∈ st._sig_tree,
    sig.hash = avl_find_element (fun h : rfc5444_sig_hash => h.type) st._hash_functions
        sig.key.hash_function
    ∧ sig.crypt = avl_find_element (fun c : rfc5444_sig_crypt => c.type)
        st._crypt_functions sig.key.crypt_function
    ∧ sig._postprocessor._node_added = (sig.hash.isSome && sig.crypt.isSome)

/-- Every crypt of the registry that a registered policy names has a `getSize`
function, so that `_handle_postprocessors` reaches no NULL call. -/
def policies_sized (st : signature_registry) : Prop :=
  ∀ sig ∈ st._sig_tree, ∀ c ∈ st._crypt_functions,
    c.type = sig.key.crypt_function → c.getSize.isSome = true

/-- What of a policy can be compared: its key, whether hash and crypt are resolved, and
its post-processor. -/
structure policy_view where
  key : rfc5444_signature_key
  hash_resolved : Bool
  crypt_resolved : Bool
  _postprocessor : rfc5444_writer_postprocessor
  deriving DecidableEq, Repr

/-- What of a registry can be compared: the identifiers of the registered hashes and
crypts and the view of each policy, all in tree order. -/
def registry_view (st : signature_registry) : List Nat × List Nat × List policy_view :=
  (st._hash_functions.map (fun h => h.type), st._crypt_functions.map (fun c => c.type),
    st._sig_tree.map (fun sig =>
      { key := sig.key, hash_resolved := sig.hash.isSome,
        crypt_resolved := sig.crypt.isSome, _postprocessor := sig._postprocessor }))

/-- An unregistered policy with key (identity hash, crypt 7): mandatory, applies to
every type, no key-id. -/
def pending_checksum_policy : rfc5444_signature :=
  { checksum_policy with hash := none, crypt := none }

/-- An unregistered policy with key (identity hash, identity crypt). -/
def pending_identity_policy : rfc5444_signature :=
  { identity_policy false true [] _cb_sigid_okay with hash := none, crypt := none }

/-- A crypt whose transform always fails (declared maximum 16). -/
def failing_crypt : rfc5444_sig_crypt :=
  { type := 8, crypt := fun _ _ => none, getSize := some 16, check := _cb_check_by_crypt }

/-- A mandatory policy over `failing_crypt` and the identity hash. -/
def failing_crypt_policy : rfc5444_signature :=
  { identity_policy false true [] _cb_sigid_okay with
    key := { hash_function := RFC7182_ICV_HASH_IDENTITY, crypt_function := 8 },
    crypt := some failing_crypt }

/-- The mandatory identity policy with the declared maximum signature size `max_size`. -/
def sized_identity_policy (max_size : Nat) : rfc5444_signature :=
  { identity_policy false true [] _cb_sigid_okay with
    crypt := some (identity_crypt_sized max_size) }

/-- The registry that `_init` leaves: the two identity algorithms, no policy. -/
def initial_registry : signature_registry :=
  { _hash_functions := [_identity_hash], _crypt_functions := [_identity_crypt],
    _sig_tree := [] }

/-! ## Layer2 database: `src-plugins/subsystems/oonf_layer2.c`

The types and inline functions of `subsystems/oonf_layer2.h` and `common/netaddr.h` are
not part of the sources. An AVL tree is the list of its elements in iteration order; a
pointer to an origin is the origin with the address `ptr` of the object, NULL is `none`;
the notifications of `oonf_class_event` are left out. -/

/-- Kind of value of a field, `enum oonf_layer2_data_type` (the three values the source
file names). -/
inductive oonf_layer2_data_type where
  | OONF_LAYER2_NO_DATA
  | OONF_LAYER2_INTEGER_DATA
  | OONF_LAYER2_BOOLEAN_DATA
  deriving DecidableEq, Repr

/-- A data originator, `struct oonf_layer2_origin`: `ptr` is the address of the object
(origins are compared as pointers), `priority` the value of its priority. -/
structure oonf_layer2_origin where
  ptr : Nat
  name : List Nat
  priority : Int
  deriving DecidableEq, Repr

/-- Comparison `p == q` of two pointers to origins. -/
def origin_ptr_eq (p q : Option oonf_layer2_origin) : Bool :=
  match p, q with
  | none, none => true
  | some a, some b => a.ptr == b.ptr
  | _, _ => false

/-- A metric field, `struct oonf_layer2_data`: `_value` is the content of the 8 bytes of
`union oonf_layer2_value` read as an integer. -/
structure oonf_layer2_data where
  _value : Int
  _type : oonf_layer2_data_type
  _origin : Option oonf_layer2_origin
  deriving DecidableEq, Repr

/-- Description of a metric, `struct oonf_layer2_metadata`. -/
structure oonf_layer2_metadata where
  key : String
  type : oonf_layer2_data_type
  unit : String
  fraction : Nat
  binary : Bool
  deriving DecidableEq, Repr

/-- The table `_oonf_layer2_metadata_neigh` (lines 84-102) in the order of its entries. -/
def _oonf_layer2_metadata_neigh : List oonf_layer2_metadata :=
  [ { key := "tx_signal", type := .OONF_LAYER2_INTEGER_DATA, unit := "dBm", fraction := 3,
      binary := false },
    { key := "rx_signal", type := .OONF_LAYER2_INTEGER_DATA, unit := "dBm", fraction := 3,
      binary := false },
    { key := "tx_bitrate", type := .OONF_LAYER2_INTEGER_DATA, unit := "bit/s",
      fraction := 0, binary := true },
    { key := "rx_bitrate", type := .OONF_LAYER2_INTEGER_DATA, unit := "bit/s",
      fraction := 0, binary := true },
    { key := "tx_max_bitrate", type := .OONF_LAYER2_INTEGER_DATA, unit := "bit/s",
      fraction := 0, binary := true },
    { key := "rx_max_bitrate", type := .OONF_LAYER2_INTEGER_DATA, unit := "bit/s",
      fraction := 0, binary := true },
    { key := "tx_bytes", type := .OONF_LAYER2_INTEGER_DATA, unit := "byte", fraction := 0,
      binary := true },
    { key := "rx_bytes", type := .OONF_LAYER2_INTEGER_DATA, unit := "byte", fraction := 0,
      binary := true },
    { key := "tx_frames", type := .OONF_LAYER2_INTEGER_DATA, unit := "", fraction := 0,
      binary := false },
    { key := "rx_frames", type := .OONF_LAYER2_INTEGER_DATA, unit := "", fraction := 0,
      binary := false },
    { key := "tx_throughput", type := .OONF_LAYER2_INTEGER_DATA, unit := "bit/s",
      fraction := 0, binary := true },
    { key := "tx_retries", type := .OONF_LAYER2_INTEGER_DATA, unit := "", fraction := 0,
      binary := false },
    { key := "tx_failed", type := .OONF_LAYER2_INTEGER_DATA, unit := "", fraction := 0,
      binary := false },
    { key := "latency", type := .OONF_LAYER2_INTEGER_DATA, unit := "s", fraction := 6,
      binary := false },
    { key := "resources", type := .OONF_LAYER2_INTEGER_DATA, unit := "", fraction := 0,
      binary := false },
    { key := "tx_rlq", type := .OONF_LAYER2_INTEGER_DATA, unit := "", fraction := 0,
      binary := false },
    { key := "rx_rlq", type := .OONF_LAYER2_INTEGER_DATA, unit := "", fraction := 0,
      binary := false } ]

/-- The table `_oonf_layer2_metadata_net` (lines 105-119) in the order of its entries. -/
def _oonf_layer2_metadata_net : List oonf_layer2_metadata :=
  [ { key := "frequency1", type := .OONF_LAYER2_INTEGER_DATA, unit := "Hz", fraction := 0,
      binary := false },
    { key := "frequency2", type := .OONF_LAYER2_INTEGER_DATA, unit := "Hz", fraction := 0,
      binary := false },
    { key := "bandwidth1", type := .OONF_LAYER2_INTEGER_DATA, unit := "Hz", fraction := 0,
      binary := false },
    { key := "bandwidth2", type := .OONF_LAYER2_INTEGER_DATA, unit := "Hz", fraction := 0,
      binary := false },
    { key := "noise", type := .OONF_LAYER2_INTEGER_DATA, unit := "dBm", fraction := 3,
      binary := false },
    { key := "ch_active", type := .OONF_LAYER2_INTEGER_DATA, unit := "s", fraction := 9,
      binary := false },
    { key := "ch_busy", type := .OONF_LAYER2_INTEGER_DATA, unit := "s", fraction := 9,
      binary := false },
    { key := "ch_rx", type := .OONF_LAYER2_INTEGER_DATA, unit := "s", fraction := 9,
      binary := false },
    { key := "ch_tx", type := .OONF_LAYER2_INTEGER_DATA, unit := "s", fraction := 9,
      binary := false },
    { key := "mtu", type := .OONF_LAYER2_INTEGER_DATA, unit := "byte", fraction := 0,
      binary := false },
    { key := "mcs_by_probing", type := .OONF_LAYER2_BOOLEAN_DATA, unit := "",
      fraction := 0, binary := false },
    { key := "rx_only_unicast", type := .OONF_LAYER2_BOOLEAN_DATA, unit := "",
      fraction := 0, binary := false },
    { key := "tx_only_unicast", type := .OONF_LAYER2_BOOLEAN_DATA, unit := "",
      fraction := 0, binary := false } ]

/-- Number of neighbor metrics, `OONF_LAYER2_NEIGH_COUNT`: the size of the table. -/
def OONF_LAYER2_NEIGH_COUNT : Nat := _oonf_layer2_metadata_neigh.length

/-- Number of network metrics, `OONF_LAYER2_NET_COUNT`: the size of the table. -/
def OONF_LAYER2_NET_COUNT : Nat := _oonf_layer2_metadata_net.length

/-- Modelled from the spec: the inline function `oonf_layer2_has_value` of the header, a
field has a value when its type is not `OONF_LAYER2_NO_DATA`. -/
def oonf_layer2_has_value (l2data : oonf_layer2_data) : Bool :=
  l2data._type != oonf_layer2_data_type.OONF_LAYER2_NO_DATA

/-- Modelled from the spec: the inline function `oonf_layer2_reset_value` of the header,
the field loses its type and its origin. -/
def oonf_layer2_reset_value (l2data : oonf_layer2_data) : oonf_layer2_data :=
  { l2data with _type := oonf_layer2_data_type.OONF_LAYER2_NO_DATA, _origin := none }

/-- A field that was never written: all bytes zero. -/
def empty_data : oonf_layer2_data :=
  { _value := 0, _type := oonf_layer2_data_type.OONF_LAYER2_NO_DATA, _origin := none }

/-- Function `oonf_layer2_data_set` (lines 261-279): the return value `changed` and the
field after the call. The test `l2data->_origin->priority < origin->priority` is only
reached with a non-NULL `_origin`. -/
def oonf_layer2_data_set (l2data : oonf_layer2_data) (origin : oonf_layer2_origin)
    (metadata : oonf_layer2_metadata) (input : Int) : Bool × oonf_layer2_data :=
  if l2data._type == oonf_layer2_data_type.OONF_LAYER2_NO_DATA
      || (match l2data._origin with
          | none => true
          | some current =>
            current.ptr == origin.ptr || decide (current.priority < origin.priority))
  then
    (decide (l2data._type ≠ metadata.type) || decide (l2data._value ≠ input),
      { _value := input, _type := metadata.type, _origin := some origin })
  else (false, l2data)

/-- An address or prefix, `struct netaddr`: the address bytes, the address family and the
prefix length (a `uint8_t`). -/
structure netaddr where
  _addr : List Nat
  _type : Nat
  _prefix_len : Nat
  deriving DecidableEq, Repr

/-- Modelled from the spec: `netaddr_get_prefix_length`, the prefix length field. -/
def netaddr_get_prefix_length (n : netaddr) : Nat :=
  n._prefix_len % 256

/-- Bit `i` (counted from the most significant bit of byte 0) of an address. -/
def netaddr_bit (n : netaddr) (i : Nat) : Nat :=
  n._addr.getD (i / 8) 0 / 2 ^ (7 - i % 8) % 2

/-- Modelled from the spec: `netaddr_is_in_subnet subnet addr`, both have the same
address family, `addr` is at least as specific as `subnet`, and the two agree on the
first `prefix length of subnet` bits. -/
def netaddr_is_in_subnet (subnet addr : netaddr) : Bool :=
  subnet._type == addr._type
    && decide (netaddr_get_prefix_length subnet ≤ netaddr_get_prefix_length addr)
    && (List.range (netaddr_get_prefix_length subnet)).all
        (fun i => netaddr_bit subnet i == netaddr_bit addr i)

/-- A destination behind a neighbor, `struct oonf_layer2_destination`. -/
structure oonf_layer2_destination where
  destination : netaddr
  origin : Option oonf_layer2_origin
  deriving DecidableEq, Repr

/-- An address of a neighbor, `struct oonf_layer2_neighbor_address`. -/
structure oonf_layer2_neighbor_address where
  ip : netaddr
  origin : Option oonf_layer2_origin
  deriving DecidableEq, Repr

/-- An address of the local radio, `struct oonf_layer2_peer_address`. -/
structure oonf_layer2_peer_address where
  ip : netaddr
  origin : Option oonf_layer2_origin
  deriving DecidableEq, Repr

/-- A neighbor, `struct oonf_layer2_neigh`: `data` is the array of
`OONF_LAYER2_NEIGH_COUNT` fields, the two trees are lists in key order. -/
structure oonf_layer2_neigh where
  addr : netaddr
  data : List oonf_layer2_data
  destinations : List oonf_layer2_destination
  remote_neighbor_ips : List oonf_layer2_neighbor_address
  deriving DecidableEq, Repr

/-- A network, `struct oonf_layer2_net`: `name` holds the bytes of the interface name,
`data` the `OONF_LAYER2_NET_COUNT` network fields, `neighdata` the
`OONF_LAYER2_NEIGH_COUNT` default neighbor fields. -/
structure oonf_layer2_net where
  name : List Nat
  data : List oonf_layer2_data
  neighdata : List oonf_layer2_data
  neighbors : List oonf_layer2_neigh
  local_peer_ips : List oonf_layer2_peer_address
  deriving DecidableEq, Repr

/-- The loop of lines 339-344, 345-350 and 599-604 over an array of fields: every field
whose origin is `origin` is reset; the flag tells whether one was. -/
def cleanup_fields (origin : Option oonf_layer2_origin) (fields : List oonf_layer2_data) :
    Bool × List oonf_layer2_data :=
  (fields.any (fun d => origin_ptr_eq d._origin origin),
    fields.map (fun d =>
      if origin_ptr_eq d._origin origin then oonf_layer2_reset_value d else d))

/-- Function `oonf_layer2_neigh_cleanup` (lines 593-606). -/
def oonf_layer2_neigh_cleanup (l2neigh : oonf_layer2_neigh)
    (origin : Option oonf_layer2_origin) : Bool × oonf_layer2_neigh :=
  let r := cleanup_fields origin l2neigh.data
  (r.1, { l2neigh with data := r.2 })

/-- Function `oonf_layer2_net_cleanup` (lines 332-358). -/
def oonf_layer2_net_cleanup (l2net : oonf_layer2_net) (origin : Option oonf_layer2_origin)
    (cleanup_neigh : Bool) : Bool × oonf_layer2_net :=
  let r1 := cleanup_fields origin l2net.data
  let r2 := cleanup_fields origin l2net.neighdata
  let changed := r1.1 || r2.1
  if cleanup_neigh then
    let rs := l2net.neighbors.map (fun n => oonf_layer2_neigh_cleanup n origin)
    (changed || rs.any (fun r => r.1),
      { l2net with data := r1.2, neighdata := r2.2, neighbors := rs.map (fun r => r.2) })
  else
    (changed, { l2net with data := r1.2, neighdata := r2.2 })

/-- Lower-case form of a byte, as `strcasecmp` compares. -/
def byte_to_lower (b : Nat) : Nat :=
  if 65 ≤ b ∧ b ≤ 90 then b + 32 else b

/-- Key of `_oonf_layer2_net_tree`: the interface name, compared by
`avl_comp_strcasecmp` without regard to case. -/
def net_key (l2net : oonf_layer2_net) : List Nat :=
  l2net.name.map byte_to_lower

/-- Function `_net_remove` (lines 929-952): the neighbors and peer addresses of the
network are freed with it, the network leaves `_oonf_layer2_net_tree`. -/
def _net_remove (tree : List oonf_layer2_net) (l2net : oonf_layer2_net) :
    List oonf_layer2_net :=
  avl_remove net_key tree l2net

/-- Function `oonf_layer2_net_commit` (lines 399-424): the return value and the tree of
networks after the call. -/
def oonf_layer2_net_commit (tree : List oonf_layer2_net) (l2net : oonf_layer2_net) :
    Bool × List oonf_layer2_net :=
  if l2net.neighbors.length > 0 then (false, tree)
  else if l2net.data.any oonf_layer2_has_value then (false, tree)
  else if l2net.neighdata.any oonf_layer2_has_value then (false, tree)
  else (true, _net_remove tree l2net)

/-- Body of the innermost loop of `oonf_layer2_net_get_best_neighbor_match` (lines
535-539); the state is `best_match` and `prefix_length`. -/
def best_match_step (addr : netaddr)
    (state : Option oonf_layer2_neighbor_address × Nat)
    (l2addr : oonf_layer2_neighbor_address) :
    Option oonf_layer2_neighbor_address × Nat :=
  if netaddr_is_in_subnet l2addr.ip addr
      && decide (netaddr_get_prefix_length l2addr.ip < state.2) then
    (some l2addr, netaddr_get_prefix_length l2addr.ip)
  else state

/-- Function `oonf_layer2_net_get_best_neighbor_match` (lines 522-544) over the tree of
networks; `none` is NULL. -/
def oonf_layer2_net_get_best_neighbor_match (tree : List oonf_layer2_net)
    (addr : netaddr) : Option oonf_layer2_neighbor_address :=
  (tree.foldl (fun s1 l2net =>
      l2net.neighbors.foldl (fun s2 l2neigh =>
        l2neigh.remote_neighbor_ips.foldl (best_match_step addr) s2) s1)
    (none, 256)).1

/-- All neighbor address entries of all neighbors of all networks, in the order the
three loops visit them. -/
def all_neighbor_addresses (tree : List oonf_layer2_net) :
    List oonf_layer2_neighbor_address :=
  tree.flatMap (fun l2net => l2net.neighbors.flatMap (fun l2neigh =>
    l2neigh.remote_neighbor_ips))

/-- The merge rule as the specification states it: a write by `origin` is accepted when
the field is unset (type `NO_DATA` or no origin), is owned by `origin`, or is owned by
an origin of strictly lower priority. -/
def write_accepted (l2data : oonf_layer2_data) (origin : oonf_layer2_origin) : Prop :=
  l2data._type = oonf_layer2_data_type.OONF_LAYER2_NO_DATA
    ∨ l2data._origin = none
    ∨ ∃ current, l2data._origin = some current
        ∧ (current.ptr = origin.ptr ∨ current.priority < origin.priority)

/-- Sample origin A: priority 1. -/
def origin_a : oonf_layer2_origin := { ptr := 1, name := [65], priority := 1 }

/-- Sample origin B: priority 2. -/
def origin_b : oonf_layer2_origin := { ptr := 2, name := [66], priority := 2 }

/-- The metadata of the neighbor metric `rx_bitrate`. -/
def rx_bitrate_metadata : oonf_layer2_metadata :=
  { key := "rx_bitrate", type := .OONF_LAYER2_INTEGER_DATA, unit := "bit/s",
    fraction := 0, binary := true }

/-- The IPv4 prefix `a.b.c.d/len` (address family 2). -/
def ipv4 (a b c d len : Nat) : netaddr :=
  { _addr := [a, b, c, d], _type := 2, _prefix_len := len }

/-- A neighbor without destinations whose fields are `data` and whose addresses are
`ips`. -/
def sample_neigh (data : List oonf_layer2_data)
    (ips : List oonf_layer2_neighbor_address) : oonf_layer2_neigh :=
  { addr := { _addr := [2, 0, 0, 0, 0, 1], _type := 47, _prefix_len := 48 },
    data := data, destinations := [], remote_neighbor_ips := ips }

/-- A network named "wlan0" with the given fields and neighbors and no peer address. -/
def sample_net (data neighdata : List oonf_layer2_data)
    (neighbors : List oonf_layer2_neigh) : oonf_layer2_net :=
  { name := [119, 108, 97, 110, 48], data := data, neighdata := neighdata,
    neighbors := neighbors, local_peer_ips := [] }

/-- A tree with one network and one neighbor that has the addresses 10.0.0.0/8 and
10.1.0.0/16 (in key order). -/
def two_prefix_tree : List oonf_layer2_net :=
  [sample_net [] [] [sample_neigh []
    [{ ip := ipv4 10 0 0 0 8, origin := some origin_a },
     { ip := ipv4 10 1 0 0 16, origin := some origin_a }]]]

/-- A neighbor with `OONF_LAYER2_NEIGH_COUNT` fields of which only field 3
(`rx_bitrate`) is set: value 7, written by origin B. -/
def neigh_with_b_field : oonf_layer2_neigh :=
  sample_neigh ((List.replicate OONF_LAYER2_NEIGH_COUNT empty_data).set 3
    { _value := 7, _type := .OONF_LAYER2_INTEGER_DATA, _origin := some origin_b }) []

/-- Invariant of the loops of the best-match search after the entries `seen`: without a
match so far the state is the initial one; otherwise `best_match` is an entry seen that
contains the address, `prefix_length` is its prefix length, and no entry seen that
contains the address has a smaller prefix length. -/
def best_match_inv (addr : netaddr) (seen : List oonf_layer2_neighbor_address)
    (s : Option oonf_layer2_neighbor_address × Nat) : Prop :=
  (s.1 = none → s.2 = 256 ∧ ∀ e ∈ seen, netaddr_is_in_subnet e.ip addr = false)
  ∧ (∀ e, s.1 = some e →
      e ∈ seen ∧ netaddr_is_in_subnet e.ip addr = true
      ∧ s.2 = netaddr_get_prefix_length e.ip
      ∧ ∀ e2 ∈ seen, netaddr_is_in_subnet e2.ip addr = true →
          netaddr_get_prefix_length e.ip ≤ netaddr_get_prefix_length e2.ip)

/-! ## Layer2 database: adding, relabelling and removing entities
(lines 286-322, 433-514, 552-584, 616-814 and 958-979)

A function that works on an object through a pointer receives the object and returns it
after the call; a function that changes the tree an object lives in receives the owner
of the tree as well. `malloc_ok` tells whether `oonf_class_malloc` returned memory; the
memory it returns is zeroed. -/

/-- Address family of a 48-bit MAC address, `AF_MAC48` of `common/netaddr.h`
(`AF_MAX + 1`, 47 with `AF_MAX` = 46). -/
def AF_MAC48 : Nat := 47

/-- Address family of a 64-bit EUI, `AF_EUI64` of `common/netaddr.h` (`AF_MAX + 2`). -/
def AF_EUI64 : Nat := 48

/-- Size of the array `name` of `struct oonf_layer2_net`, `IF_NAMESIZE`. -/
def IF_NAMESIZE : Nat := 16

/-- Modelled from the spec: `netaddr_get_address_family`, the family field. -/
def netaddr_get_address_family (n : netaddr) : Nat :=
  n._type

/-- Modelled from the spec: `strscpy(dst, src, size)`, the string cut to `size - 1`
bytes. -/
def strscpy (src : List Nat) (size : Nat) : List Nat :=
  src.take (size - 1)

/-- Order of `memcmp` and `strcmp` on byte strings: `true` when the first string is not
greater than the second. -/
def bytes_le : List Nat → List Nat → Bool
  | [], _ => true
  | _ :: _, [] => false
  | a :: as, b :: bs => decide (a < b) || (a == b && bytes_le as bs)

/-- The bytes of a `struct netaddr` in memory order, which `avl_comp_netaddr` compares
with `memcmp`: address, family, prefix length. -/
def netaddr_bytes (n : netaddr) : List Nat :=
  n._addr ++ [n._type, n._prefix_len]

/-- Modelled from the spec: `avl_insert` into a tree that does not allow duplicates and
whose comparator orders the keys by `le`. A key that is present is refused (return
value -1, tree unchanged); otherwise the node is placed behind the last element whose
key is not greater (return value 0). -/
def avl_insert_unique {α κ : Type} [DecidableEq κ] (key : α → κ) (le : κ → κ → Bool)
    (tree : List α) (new : α) : Int × List α :=
  if (avl_find_element key tree (key new)).isSome then (-1, tree)
  else
    (0, tree.takeWhile (fun x => le (key x) (key new)) ++ [new]
          ++ tree.dropWhile (fun x => le (key x) (key new)))

/-- The tree after the object that `avl_find_element` yields for the key `k` was
written in place: the first element with the key `k` holds `value`. -/
def avl_store {α κ : Type} [DecidableEq κ] (key : α → κ) (k : κ) (value : α) :
    List α → List α
  | [] => []
  | x :: xs => if key x == k then value :: xs else x :: avl_store key k value xs

/-- Key of the tree `neighbors` of a network: the address of the neighbor. -/
def neigh_key (l2neigh : oonf_layer2_neigh) : netaddr :=
  l2neigh.addr

/-- Key of the tree `destinations` of a neighbor. -/
def destination_key (l2dst : oonf_layer2_destination) : netaddr :=
  l2dst.destination

/-- Key of the tree `remote_neighbor_ips` of a neighbor. -/
def neighbor_address_key (l2addr : oonf_layer2_neighbor_address) : netaddr :=
  l2addr.ip

/-- Key of the tree `local_peer_ips` of a network. -/
def peer_address_key (l2addr : oonf_layer2_peer_address) : netaddr :=
  l2addr.ip

/-- Order of two addresses under `avl_comp_netaddr`. -/
def netaddr_le (a b : netaddr) : Bool :=
  bytes_le (netaddr_bytes a) (netaddr_bytes b)

/-- Modelled from the spec: inline function `oonf_layer2_net_get`, the network with the
name `ifname` (compared without regard to case), `none` for NULL. -/
def oonf_layer2_net_get (tree : List oonf_layer2_net) (ifname : List Nat) :
    Option oonf_layer2_net :=
  avl_find_element net_key tree (ifname.map byte_to_lower)

/-- Modelled from the spec: inline function `oonf_layer2_neigh_get`. -/
def oonf_layer2_neigh_get (l2net : oonf_layer2_net) (addr : netaddr) :
    Option oonf_layer2_neigh :=
  avl_find_element neigh_key l2net.neighbors addr

/-- Modelled from the spec: inline function `oonf_layer2_destination_get`. -/
def oonf_layer2_destination_get (l2neigh : oonf_layer2_neigh) (destination : netaddr) :
    Option oonf_layer2_destination :=
  avl_find_element destination_key l2neigh.destinations destination

/-- Modelled from the spec: inline function `oonf_layer2_net_get_ip`. -/
def oonf_layer2_net_get_ip (l2net : oonf_layer2_net) (ip : netaddr) :
    Option oonf_layer2_peer_address :=
  avl_find_element peer_address_key l2net.local_peer_ips ip

/-- Modelled from the spec: inline function `oonf_layer2_neigh_get_ip`. -/
def oonf_layer2_neigh_get_ip (l2neigh : oonf_layer2_neigh) (ip : netaddr) :
    Option oonf_layer2_neighbor_address :=
  avl_find_element neighbor_address_key l2neigh.remote_neighbor_ips ip

/-- Modelled from the spec: inline function `oonf_layer2_get_origin`. -/
def oonf_layer2_get_origin (l2data : oonf_layer2_data) : Option oonf_layer2_origin :=
  l2data._origin

/-- Modelled from the spec: inline function `oonf_layer2_set_origin`. -/
def oonf_layer2_set_origin (l2data : oonf_layer2_data)
    (origin : Option oonf_layer2_origin) : oonf_layer2_data :=
  { l2data with _origin := origin }

/-- Function `oonf_layer2_net_add` (lines 286-322); `ifname` is `none` for NULL. The
result is the returned pointer (`none` for NULL) and `_oonf_layer2_net_tree` after the
call. The return value of `avl_insert` is not looked at. -/
def oonf_layer2_net_add (tree : List oonf_layer2_net) (ifname : Option (List Nat))
    (malloc_ok : Bool) : Option oonf_layer2_net × List oonf_layer2_net :=
  match ifname with
  | none => (none, tree)
  | some name =>
    match avl_find_element net_key tree (name.map byte_to_lower) with
    | some l2net => (some l2net, tree)
    | none =>
      if !malloc_ok then (none, tree)
      else
        let l2net : oonf_layer2_net :=
          { name := strscpy name IF_NAMESIZE,
            data := List.replicate OONF_LAYER2_NET_COUNT empty_data,
            neighdata := List.replicate OONF_LAYER2_NEIGH_COUNT empty_data,
            neighbors := [], local_peer_ips := [] }
        (some l2net, (avl_insert_unique net_key bytes_le tree l2net).2)

/-- Function `oonf_layer2_neigh_add` (lines 552-584): the returned pointer and the
network after the call. -/
def oonf_layer2_neigh_add (l2net : oonf_layer2_net) (neigh : netaddr) (malloc_ok : Bool) :
    Option oonf_layer2_neigh × oonf_layer2_net :=
  if netaddr_get_address_family neigh ≠ AF_MAC48
      ∧ netaddr_get_address_family neigh ≠ AF_EUI64 then (none, l2net)
  else
    match oonf_layer2_neigh_get l2net neigh with
    | some l2neigh => (some l2neigh, l2net)
    | none =>
      if !malloc_ok then (none, l2net)
      else
        let l2neigh : oonf_layer2_neigh :=
          { addr := neigh, data := List.replicate OONF_LAYER2_NEIGH_COUNT empty_data,
            destinations := [], remote_neighbor_ips := [] }
        (some l2neigh,
          { l2net with
            neighbors := (avl_insert_unique neigh_key netaddr_le l2net.neighbors l2neigh).2 })

/-- Function `oonf_layer2_destination_add` (lines 770-799): the returned pointer and the
neighbor after the call. -/
def oonf_layer2_destination_add (l2neigh : oonf_layer2_neigh) (destination : netaddr)
    (origin : Option oonf_layer2_origin) (malloc_ok : Bool) :
    Option oonf_layer2_destination × oonf_layer2_neigh :=
  match oonf_layer2_destination_get l2neigh destination with
  | some l2dst => (some l2dst, l2neigh)
  | none =>
    if !malloc_ok then (none, l2neigh)
    else
      let l2dst : oonf_layer2_destination := { destination := destination, origin := origin }
      (some l2dst,
        { l2neigh with
          destinations :=
            (avl_insert_unique destination_key netaddr_le l2neigh.destinations l2dst).2 })

/-- Function `oonf_layer2_net_add_ip` (lines 471-496): the returned pointer and the
network after the call. The assignment `l2addr->origin = origin` of line 494 is made on
both paths. -/
def oonf_layer2_net_add_ip (l2net : oonf_layer2_net) (origin : Option oonf_layer2_origin)
    (ip : netaddr) (malloc_ok : Bool) :
    Option oonf_layer2_peer_address × oonf_layer2_net :=
  match oonf_layer2_net_get_ip l2net ip with
  | some l2addr =>
    let l2addr1 : oonf_layer2_peer_address := { l2addr with origin := origin }
    (some l2addr1,
      { l2net with
        local_peer_ips := avl_store peer_address_key ip l2addr1 l2net.local_peer_ips })
  | none =>
    if !malloc_ok then (none, l2net)
    else
      let l2addr : oonf_layer2_peer_address := { ip := ip, origin := origin }
      (some l2addr,
        { l2net with
          local_peer_ips :=
            (avl_insert_unique peer_address_key netaddr_le l2net.local_peer_ips l2addr).2 })

/-- Function `oonf_layer2_neigh_add_ip` (lines 717-742): the returned pointer and the
neighbor after the call. The assignment `l2addr->origin = origin` of line 740 is made
on both paths. -/
def oonf_layer2_neigh_add_ip (l2neigh : oonf_layer2_neigh)
    (origin : Option oonf_layer2_origin) (ip : netaddr) (malloc_ok : Bool) :
    Option oonf_layer2_neighbor_address × oonf_layer2_neigh :=
  match oonf_layer2_neigh_get_ip l2neigh ip with
  | some l2addr =>
    let l2addr1 : oonf_layer2_neighbor_address := { l2addr with origin := origin }
    (some l2addr1,
      { l2neigh with
        remote_neighbor_ips :=
          avl_store neighbor_address_key ip l2addr1 l2neigh.remote_neighbor_ips })
  | none =>
    if !malloc_ok then (none, l2neigh)
    else
      let l2addr : oonf_layer2_neighbor_address := { ip := ip, origin := origin }
      (some l2addr,
        { l2neigh with
          remote_neighbor_ips :=
            (avl_insert_unique neighbor_address_key netaddr_le l2neigh.remote_neighbor_ips
              l2addr).2 })

/-- The loops of lines 441-451 and 691-695 over an array of fields: a field whose origin
is `old_origin` gets `new_origin`. -/
def relabel_fields (new_origin old_origin : Option oonf_layer2_origin)
    (fields : List oonf_layer2_data) : List oonf_layer2_data :=
  fields.map (fun d =>
    if origin_ptr_eq (oonf_layer2_get_origin d) old_origin then
      oonf_layer2_set_origin d new_origin
    else d)

/-- Function `oonf_layer2_neigh_relabel` (lines 683-708). -/
def oonf_layer2_neigh_relabel (l2neigh : oonf_layer2_neigh)
    (new_origin old_origin : Option oonf_layer2_origin) : oonf_layer2_neigh :=
  { l2neigh with
    data := relabel_fields new_origin old_origin l2neigh.data,
    remote_neighbor_ips := l2neigh.remote_neighbor_ips.map (fun neigh_ip =>
      if origin_ptr_eq neigh_ip.origin old_origin then
        { neigh_ip with origin := new_origin }
      else neigh_ip),
    destinations := l2neigh.destinations.map (fun l2dst =>
      if origin_ptr_eq l2dst.origin old_origin then { l2dst with origin := new_origin }
      else l2dst) }

/-- Function `oonf_layer2_net_relabel` (lines 433-462). -/
def oonf_layer2_net_relabel (l2net : oonf_layer2_net)
    (new_origin old_origin : Option oonf_layer2_origin) : oonf_layer2_net :=
  { l2net with
    data := relabel_fields new_origin old_origin l2net.data,
    neighdata := relabel_fields new_origin old_origin l2net.neighdata,
    local_peer_ips := l2net.local_peer_ips.map (fun peer_ip =>
      if origin_ptr_eq peer_ip.origin old_origin then { peer_ip with origin := new_origin }
      else peer_ip),
    neighbors := l2net.neighbors.map (fun l2neigh =>
      oonf_layer2_neigh_relabel l2neigh new_origin old_origin) }

/-- Function `oonf_layer2_net_remove_ip` (lines 504-514): the return value and the
network `ip->l2net` after the call. -/
def oonf_layer2_net_remove_ip (l2net : oonf_layer2_net) (ip : oonf_layer2_peer_address)
    (origin : Option oonf_layer2_origin) : Int × oonf_layer2_net :=
  if !origin_ptr_eq ip.origin origin then (-1, l2net)
  else
    (0, { l2net with local_peer_ips := avl_remove peer_address_key l2net.local_peer_ips ip })

/-- Function `oonf_layer2_neigh_remove_ip` (lines 750-760): the return value and the
neighbor `ip->l2neigh` after the call. -/
def oonf_layer2_neigh_remove_ip (l2neigh : oonf_layer2_neigh)
    (ip : oonf_layer2_neighbor_address) (origin : Option oonf_layer2_origin) :
    Int × oonf_layer2_neigh :=
  if !origin_ptr_eq ip.origin origin then (-1, l2neigh)
  else
    (0, { l2neigh with
          remote_neighbor_ips :=
            avl_remove neighbor_address_key l2neigh.remote_neighbor_ips ip })

/-- Function `oonf_layer2_destination_remove` (lines 805-814): the neighbor
`l2dst->neighbor` after the call. `avl_is_node_added` holds for a destination that is in
the tree. -/
def oonf_layer2_destination_remove (l2neigh : oonf_layer2_neigh)
    (l2dst : oonf_layer2_destination) : oonf_layer2_neigh :=
  if (avl_find_element destination_key l2neigh.destinations l2dst.destination).isNone then
    l2neigh
  else
    { l2neigh with destinations := avl_remove destination_key l2neigh.destinations l2dst }

/-- The loop of lines 940-942 of `_net_remove`: every peer address is removed with its
own origin as the caller. -/
def free_peer_addresses (l2net : oonf_layer2_net) : oonf_layer2_net :=
  l2net.local_peer_ips.foldl
    (fun net l2peer => (oonf_layer2_net_remove_ip net l2peer l2peer.origin).2) l2net

/-- Function `_neigh_remove` (lines 958-979): the network `l2neigh->network` after the
call. The destinations and addresses of the neighbor are freed with it. -/
def _neigh_remove (l2net : oonf_layer2_net) (l2neigh : oonf_layer2_neigh) :
    oonf_layer2_net :=
  { l2net with neighbors := avl_remove neigh_key l2net.neighbors l2neigh }

/-- Function `oonf_layer2_neigh_commit` (lines 657-675): the return value and the
network of the neighbor after the call. -/
def oonf_layer2_neigh_commit (l2net : oonf_layer2_net) (l2neigh : oonf_layer2_neigh) :
    Bool × oonf_layer2_net :=
  if l2neigh.destinations.length > 0 || l2neigh.remote_neighbor_ips.length > 0 then
    (false, l2net)
  else if l2neigh.data.any oonf_layer2_has_value then (false, l2net)
  else (true, _neigh_remove l2net l2neigh)

/-- The part of `oonf_layer2_neigh_remove` that works on the neighbor itself (lines
628-643): the flag `changed` and the neighbor after the two loops and the cleanup. -/
def neigh_remove_origin (l2neigh : oonf_layer2_neigh) (origin : Option oonf_layer2_origin) :
    Bool × oonf_layer2_neigh :=
  let s1 := l2neigh.destinations.foldl
    (fun (s : Bool × oonf_layer2_neigh) l2dst =>
      if origin_ptr_eq l2dst.origin origin then
        (true, oonf_layer2_destination_remove s.2 l2dst)
      else s)
    (false, l2neigh)
  let s2 := l2neigh.remote_neighbor_ips.foldl
    (fun (s : Bool × oonf_layer2_neigh) l2ip =>
      let r := oonf_layer2_neigh_remove_ip s.2 l2ip origin
      if r.1 = 0 then (true, r.2) else (s.1, r.2))
    s1
  let r3 := oonf_layer2_neigh_cleanup s2.2 origin
  (s2.1 || r3.1, r3.2)

/-- Function `oonf_layer2_neigh_remove` (lines 616-649): the return value and the
network of the neighbor after the call. `avl_is_node_added` holds for a neighbor that
is in the tree of its network. -/
def oonf_layer2_neigh_remove (l2net : oonf_layer2_net) (l2neigh : oonf_layer2_neigh)
    (origin : Option oonf_layer2_origin) : Bool × oonf_layer2_net :=
  if (avl_find_element neigh_key l2net.neighbors l2neigh.addr).isNone then (false, l2net)
  else
    let r := neigh_remove_origin l2neigh origin
    let l2net1 : oonf_layer2_net :=
      { l2net with neighbors := avl_store neigh_key l2neigh.addr r.2 l2net.neighbors }
    if r.1 then (true, (oonf_layer2_neigh_commit l2net1 r.2).2)
    else (false, l2net1)

/-! ### Notions used to state the properties of the layer2 operations -/

/-- Relation between the owner of an item before and after a relabel from `old_origin` to
`new_origin`, as the specification states it: an item of `old_origin` belongs to
`new_origin`, every other item keeps its owner. -/
def owner_relabelled (new_origin old_origin before after : Option oonf_layer2_origin) :
    Prop :=
  (origin_ptr_eq before old_origin = true → after = new_origin)
  ∧ (origin_ptr_eq before old_origin = false → after = before)

/-- Relation between a field before and after a relabel: value and type are the same,
the owner is relabelled. -/
def field_relabelled (new_origin old_origin : Option oonf_layer2_origin)
    (d d1 : oonf_layer2_data) : Prop :=
  d1._value = d._value ∧ d1._type = d._type
    ∧ owner_relabelled new_origin old_origin d._origin d1._origin

/-- Relation between a neighbor before and after a relabel: same address, same number
of fields, addresses and destinations, each with the same content and a relabelled
owner. -/
def neigh_relabelled (new_origin old_origin : Option oonf_layer2_origin)
    (n n1 : oonf_layer2_neigh) : Prop :=
  n1.addr = n.addr
  ∧ List.Forall₂ (field_relabelled new_origin old_origin) n.data n1.data
  ∧ List.Forall₂ (fun (a a1 : oonf_layer2_neighbor_address) =>
      a1.ip = a.ip ∧ owner_relabelled new_origin old_origin a.origin a1.origin)
      n.remote_neighbor_ips n1.remote_neighbor_ips
  ∧ List.Forall₂ (fun (d d1 : oonf_layer2_destination) =>
      d1.destination = d.destination
        ∧ owner_relabelled new_origin old_origin d.origin d1.origin)
      n.destinations n1.destinations

/-- All owners that appear in a neighbor: of its fields, addresses and destinations. -/
def neigh_owners (n : oonf_layer2_neigh) : List (Option oonf_layer2_origin) :=
  n.data.map (fun d => d._origin) ++ n.remote_neighbor_ips.map (fun a => a.origin)
    ++ n.destinations.map (fun d => d.origin)

/-- All owners that appear in a network: of its fields, default neighbor fields and
peer addresses and in its neighbors. -/
def net_owners (l2net : oonf_layer2_net) : List (Option oonf_layer2_origin) :=
  l2net.data.map (fun d => d._origin) ++ l2net.neighdata.map (fun d => d._origin)
    ++ l2net.local_peer_ips.map (fun a => a.origin)
    ++ l2net.neighbors.flatMap neigh_owners

/-- Relation between a field before and after a cleanup for `origin`, as the
specification states it: a field of `origin` is reset, every other field is as it
was. -/
def field_cleaned (origin : Option oonf_layer2_origin) (d d1 : oonf_layer2_data) : Prop :=
  (origin_ptr_eq d._origin origin = true → d1 = oonf_layer2_reset_value d)
  ∧ (origin_ptr_eq d._origin origin = false → d1 = d)

/-- What `oonf_layer2_neigh_remove` leaves of a neighbor for another origin: the
destinations, addresses and fields after those of `origin` are gone. -/
def neigh_without_origin (l2neigh : oonf_layer2_neigh) (origin : Option oonf_layer2_origin) :
    oonf_layer2_neigh :=
  { l2neigh with
    destinations := l2neigh.destinations.filter (fun d => !origin_ptr_eq d.origin origin),
    remote_neighbor_ips :=
      l2neigh.remote_neighbor_ips.filter (fun a => !origin_ptr_eq a.origin origin),
    data := (cleanup_fields origin l2neigh.data).2 }

/-- The origin owns a destination, an address or a field of the neighbor. -/
def neigh_has_origin (l2neigh : oonf_layer2_neigh) (origin : Option oonf_layer2_origin) :
    Bool :=
  l2neigh.destinations.any (fun d => origin_ptr_eq d.origin origin)
    || l2neigh.remote_neighbor_ips.any (fun a => origin_ptr_eq a.origin origin)
    || l2neigh.data.any (fun d => origin_ptr_eq d._origin origin)

/-- Nothing remains in a neighbor: no destination, no address, no field with a value. -/
def neigh_is_empty (l2neigh : oonf_layer2_neigh) : Bool :=
  l2neigh.destinations.isEmpty && l2neigh.remote_neighbor_ips.isEmpty
    && !l2neigh.data.any oonf_layer2_has_value

/-! ### Sample data of the layer2 operations -/

/-- The MAC address 02:00:00:00:00:01. -/
def mac_one : netaddr :=
  { _addr := [2, 0, 0, 0, 0, 1], _type := AF_MAC48, _prefix_len := 48 }

/-- The MAC address 02:00:00:00:00:02. -/
def mac_two : netaddr :=
  { _addr := [2, 0, 0, 0, 0, 2], _type := AF_MAC48, _prefix_len := 48 }

/-- Sample origin C: priority 3. -/
def origin_c : oonf_layer2_origin := { ptr := 3, name := [67], priority := 3 }

/-- A neighbor as `oonf_layer2_neigh_add` creates it for the address `mac_one`: no
destination, no address, no field with a value. -/
def fresh_neigh : oonf_layer2_neigh :=
  { addr := mac_one, data := List.replicate OONF_LAYER2_NEIGH_COUNT empty_data,
    destinations := [], remote_neighbor_ips := [] }

/-- A neighbor with the address `mac_one`: field 3 (`rx_bitrate`) has the value 7 of
origin B, the destination `mac_two` and the address 10.0.0.1 belong to origin A, the
address 10.0.0.2 to origin B. -/
def shared_neigh : oonf_layer2_neigh :=
  { addr := mac_one,
    data := (List.replicate OONF_LAYER2_NEIGH_COUNT empty_data).set 3
      { _value := 7, _type := .OONF_LAYER2_INTEGER_DATA, _origin := some origin_b },
    destinations := [{ destination := mac_two, origin := some origin_a }],
    remote_neighbor_ips :=
      [{ ip := ipv4 10 0 0 1 32, origin := some origin_a },
       { ip := ipv4 10 0 0 2 32, origin := some origin_b }] }

/-- A neighbor with the address `mac_two` of which everything belongs to origin A: one
field and one address. -/
def neigh_of_a : oonf_layer2_neigh :=
  { addr := mac_two,
    data := (List.replicate OONF_LAYER2_NEIGH_COUNT empty_data).set 0
      { _value := -60000, _type := .OONF_LAYER2_INTEGER_DATA, _origin := some origin_a },
    destinations := [],
    remote_neighbor_ips := [{ ip := ipv4 10 0 0 3 32, origin := some origin_a }] }

/-- The network "wlan0" with the neighbors `shared_neigh` and `neigh_of_a`, the field
`frequency1` of origin A, a default neighbor field of origin B and the peer addresses
192.168.1.1 of origin B and 192.168.1.2 of origin A. -/
def shared_net : oonf_layer2_net :=
  { name := [119, 108, 97, 110, 48],
    data := (List.replicate OONF_LAYER2_NET_COUNT empty_data).set 0
      { _value := 2412000000, _type := .OONF_LAYER2_INTEGER_DATA, _origin := some origin_a },
    neighdata := (List.replicate OONF_LAYER2_NEIGH_COUNT empty_data).set 2
      { _value := 54000000, _type := .OONF_LAYER2_INTEGER_DATA, _origin := some origin_b },
    neighbors := [shared_neigh, neigh_of_a],
    local_peer_ips :=
      [{ ip := ipv4 192 168 1 1 32, origin := some origin_b },
       { ip := ipv4 192 168 1 2 32, origin := some origin_a }] }

/-- The network "wlan0" with the single neighbor `fresh_neigh` and no data. -/
def net_with_fresh_neigh : oonf_layer2_net :=
  { name := [119, 108, 97, 110, 48],
    data := List.replicate OONF_LAYER2_NET_COUNT empty_data,
    neighdata := List.replicate OONF_LAYER2_NEIGH_COUNT empty_data,
    neighbors := [fresh_neigh], local_peer_ips := [] }

/-- The network "eth0" without neighbors and without a field that has a value, with the
peer addresses 192.168.1.1 of origin B and 192.168.1.2 of origin A. -/
def net_with_peers_only : oonf_layer2_net :=
  { name := [101, 116, 104, 48],
    data := List.replicate OONF_LAYER2_NET_COUNT empty_data,
    neighdata := List.replicate OONF_LAYER2_NEIGH_COUNT empty_data,
    neighbors := [],
    local_peer_ips :=
      [{ ip := ipv4 192 168 1 1 32, origin := some origin_b },
       { ip := ipv4 192 168 1 2 32, origin := some origin_a }] }

/-! ## Notions used to state the remaining properties of the signature engine -/

/-- A policy with the two flags of a verification pass cleared. -/
def clear_verification_flags (sig : rfc5444_signature) : rfc5444_signature :=
  { sig with verified := false, _must_be_verified := false }

/-- The mandatory identity policy as an earlier, successful pass may leave it:
`verified` is true and `_must_be_verified` is false. -/
def stale_registry : List rfc5444_signature :=
  mandatory_registry.map (fun sig => { sig with verified := true, _must_be_verified := false })

/-- A source-specific mandatory identity policy and one that is not source-specific. -/
def source_registry : List rfc5444_signature :=
  [identity_policy true true [] _cb_sigid_okay, identity_policy false true [] _cb_sigid_okay]

/-! ## Memory accesses of `_remove_signature_data` (lines 646-773)

The same control flow as `_remove_signature_data`, with the bytes left out and the
accesses recorded: every read of the source buffer and every write to `dst` as a range
(first index, number of bytes), and whether a value that is stored in a `uint16_t`
variable was outside 0..65535 before the store. -/

/-- What one execution touches. -/
structure strip_trace where
  reads : List (Nat × Nat)
  writes : List (Nat × Nat)
  wrapped : Bool
  deriving DecidableEq, Repr

/-- Every index of the range `r` (first index, number of bytes) is below `size`. -/
def range_below (size : Nat) (r : Nat × Nat) : Prop :=
  ∀ i, r.1 ≤ i → i < r.1 + r.2 → i < size

/-- The reads of lines 721-735 for the TLV at offset `p`: the flags byte and, with a
value, the one or two bytes of its length. -/
def tlv_length_reads (src : List Nat) (p : Nat) : List (Nat × Nat) :=
  let flags := src.getD (p + 1) 0
  let tlvlen := if flags &&& RFC5444_TLV_FLAG_TYPEEXT ≠ 0 then 3 else 2
  [(p + 1, 1)]
    ++ (if flags &&& RFC5444_TLV_FLAG_VALUE ≠ 0 then
          if flags &&& RFC5444_TLV_FLAG_EXTVALUE ≠ 0 then
            [(p + tlvlen, 1), (p + tlvlen + 1, 1)]
          else [(p + tlvlen, 1)]
        else [])

/-- The loop `while (len > 0)` of lines 718-748 with its accesses. State: source offset
`p`, destination offset `q`, remaining length `len`, block length `blocklen` and the
trace. The value of `tlvlen` before it is stored is `tlv_size_spec`; the subtractions
of lines 744 and 746 leave the range when `tlvlen` is the larger number. -/
def strip_loop_trace (src : List Nat) :
    Nat → Nat → Nat → Nat → Nat → strip_trace → Option (Nat × Nat × Nat × strip_trace)
  | 0, p, q, len, blocklen, t => if len = 0 then some (p, q, blocklen, t) else none
  | fuel + 1, p, q, len, blocklen, t =>
    if len = 0 then some (p, q, blocklen, t)
    else
      let tlvlen := tlv_length src p
      let len1 := (len + 65536 - tlvlen) % 65536
      let reads1 := t.reads ++ tlv_length_reads src p ++ [(p, 1)]
      let wrapped1 := t.wrapped || decide (65536 ≤ tlv_size_spec src p)
        || decide (len < tlvlen)
      if src.getD p 0 ≠ RFC7182_MSGTLV_ICV then
        strip_loop_trace src fuel (p + tlvlen) (q + tlvlen) len1 blocklen
          { reads := reads1 ++ [(p, tlvlen)], writes := t.writes ++ [(q, tlvlen)],
            wrapped := wrapped1 }
      else
        strip_loop_trace src fuel (p + tlvlen) q len1 ((blocklen + 65536 - tlvlen) % 65536)
          { reads := reads1, writes := t.writes,
            wrapped := wrapped1 || decide (blocklen < tlvlen) }

/-- Function `_remove_signature_data` with its accesses: the returned size and the
trace. `none` when the loop has not ended with the fuel `_remove_signature_data` gives
it. The read of `dst[0]` in line 758 is a read of the destination and is not recorded;
its write is. The values of `len` before the stores of lines 762 and 766 are
`rest_wide` and `total_wide`. -/
def _remove_signature_data_trace (context : rfc5444_reader_tlvblock_context) :
    Option (Nat × strip_trace) :=
  let src := context_buffer context
  let hdr := context_header context
  let len := hdr.1
  let hoplimit := hdr.2.1
  let hopcount := hdr.2.2
  -- copy packet/message header, clear hoplimit/hopcount, read the block length
  let t0 : strip_trace :=
    { reads := [(0, len), (len, 1), (len + 1, 1)],
      writes := [(0, len)] ++ (if hoplimit ≠ 0 then [(hoplimit, 1)] else [])
        ++ (if hopcount ≠ 0 then [(hopcount, 1)] else []),
      wrapped := decide (65536 ≤ len)
        || decide (65536 ≤ 256 * src.getD len 0 + src.getD (len + 1) 0) }
  let blocklen0 := (256 * src.getD len 0 + src.getD (len + 1) 0) % 65536
  match strip_loop_trace src (src.length + 1) (len + 2) (len + 2) blocklen0 blocklen0 t0 with
  | none => none
  | some (p, q, blocklen, t1) =>
    let keep : Bool :=
      decide (0 < blocklen ∨ context.type = rfc5444_context_type.RFC5444_CONTEXT_MESSAGE)
    let q1 := if keep then q else q - 2
    let writes2 := if keep then t1.writes ++ [(len, 1), (len + 1, 1)] else t1.writes ++ [(0, 1)]
    -- copy rest of data
    let rest_wide : Int := (src.length : Int) - (p : Int)
    let rest_len := (rest_wide % 65536).toNat
    let total_wide := q1 + rest_len
    some (total_wide % 65536,
      { reads := t1.reads ++ [(p, rest_len)],
        writes := writes2 ++ [(q1, rest_len)]
          ++ (if context.type = rfc5444_context_type.RFC5444_CONTEXT_MESSAGE then
                [(2, 1), (3, 1)]
              else []),
        wrapped := t1.wrapped || decide (rest_wide < 0) || decide (65536 ≤ rest_wide)
          || decide (65536 ≤ total_wide) })

/-- Declared length of the TLV block of a context: the two bytes behind the header
(line 710). -/
def declared_block_length (context : rfc5444_reader_tlvblock_context) : Nat :=
  256 * (context_buffer context).getD (context_header context).1 0
    + (context_buffer context).getD ((context_header context).1 + 1) 0

/-- The `len` bytes at offset `p` are a concatenation of TLVs: the size of the first
TLV, computed from its flags and length bytes, is at most `len`, and the rest is a
concatenation of TLVs again. `fuel` bounds the number of TLVs. -/
def tlvs_fill_block (src : List Nat) : Nat → Nat → Nat → Bool
  | 0, _, len => decide (len = 0)
  | fuel + 1, p, len =>
    decide (len = 0)
      || (decide (tlv_size_spec src p ≤ len)
          && tlvs_fill_block src fuel (p + tlv_size_spec src p) (len - tlv_size_spec src p))

/-- The context is well-formed as the specification states it: header length plus 2
plus declared block length does not exceed the buffer size, and the TLV block is a
concatenation of TLVs whose sizes add up to the declared block length (a TLV has at
least 2 bytes, so the block holds at most as many TLVs as bytes). -/
def block_well_formed (context : rfc5444_reader_tlvblock_context) : Bool :=
  decide ((context_header context).1 + 2 + declared_block_length context
      ≤ (context_buffer context).length)
    && tlvs_fill_block (context_buffer context) (declared_block_length context)
        ((context_header context).1 + 2) (declared_block_length context)

/-- A packet of 65539 bytes: flags byte 4, a TLV block of 65535 bytes that holds one TLV
of type 1 with a 2-byte length field and a value of 65531 bytes, and one more byte. -/
def oversized_packet : List Nat :=
  4 :: 255 :: 255 :: 1 :: 0x18 :: 255 :: 251 :: (List.replicate 65531 0 ++ [0])

/-! ## Buffers of 65536 bytes and more -/

/-- A packet of 65541 bytes without sequence number: flags byte 4, a TLV block of 2
bytes that holds `bare_tlv`, and 65536 more bytes. -/
def long_rest_packet : List Nat :=
  4 :: 0 :: 2 :: 1 :: 0 :: List.replicate 65536 0

/-- A packet of 65547 bytes without sequence number: flags byte 4, a TLV block of 8
bytes that holds `short_signature_tlv`, and 65536 more bytes. -/
def long_rest_signed_packet : List Nat :=
  4 :: 0 :: 8 :: 5 :: 0x90 :: 1 :: 4 :: 0 :: 0 :: 0 :: 9 :: List.replicate 65536 0

/-- A TLV of type 1 with the 2-byte length encoding and a value of 65531 bytes, the TLV
of `oversized_packet`. -/
def large_tlv : wire_tlv :=
  { type := 1, flags := 0x18, type_ext := 0, value := List.replicate 65531 0 }

/-- A message of 65500 bytes without optional header fields: type 1, address length 4,
size 65500, a TLV block of 65494 bytes that holds one TLV of type 1 with the 2-byte
length encoding and a value of 65490 bytes. -/
def large_message : List Nat :=
  1 :: 3 :: 255 :: 220 :: 255 :: 214 :: 1 :: 0x18 :: 255 :: 210 :: List.replicate 65490 0

/-- A crypt with a signature of 40 bytes, each the sum of the signable bytes modulo 256
(declared maximum 40, default verify). -/
def wide_checksum_crypt : rfc5444_sig_crypt :=
  { type := 10,
    crypt := fun _ src => some (List.replicate 40 (src.sum % 256)),
    getSize := some 40,
    check := _cb_check_by_crypt }

/-- A mandatory policy over `wide_checksum_crypt` and the identity hash (empty key-id,
every key-id accepted, applies to every message type). -/
def wide_checksum_policy : rfc5444_signature :=
  { identity_policy false true [] _cb_sigid_okay with
    key := { hash_function := RFC7182_ICV_HASH_IDENTITY, crypt_function := 10 },
    crypt := some wide_checksum_crypt }

/-! ## Contexts of the reader and policies with unresolved algorithms -/

/-- The context is one the reader delivers: its buffer holds bytes and its first TLV
block is well-formed. -/
def context_well_formed (context : rfc5444_reader_tlvblock_context) : Bool :=
  (context_buffer context).all (fun b => decide (b < 256)) && block_well_formed context

/-- Every policy that reaches the verify step (line 413) for one of the TLVs has both
algorithm pointers resolved. -/
def checked_resolved (msg_type : Int) (tlvs : List rfc5444_reader_tlvblock_entry)
    (registry : List rfc5444_signature) : Prop :=
  ∀ tlv ∈ tlvs, ∀ sig ∈ registry, tlv_checked_by msg_type tlv sig = true →
    sig.crypt.isSome = true ∧ sig.hash.isSome = true

/-- The tree `_sig_tree` after `_init` and `rfc5444_sig_add` of a mandatory policy with
the key (identity hash, crypt 7) while no crypt 7 is registered: the hash pointer of the
policy is resolved, its crypt pointer is NULL. -/
def unresolved_registry : List rfc5444_signature :=
  match rfc5444_sig_add initial_registry pending_checksum_policy with
  | some st => st._sig_tree
  | none => []

/-- The policy `pending_checksum_policy` with a key-id verifier that drops every
key-id. -/
def pending_dropping_policy : rfc5444_signature :=
  { pending_checksum_policy with verify_id := sigid_always_drop }

/-- The tree `_sig_tree` after `_init` and `rfc5444_sig_add` of `pending_dropping_policy`
while no crypt 7 is registered. -/
def unresolved_dropping_registry : List rfc5444_signature :=
  match rfc5444_sig_add initial_registry pending_dropping_policy with
  | some st => st._sig_tree
  | none => []

/-- The tree `_sig_tree` after `_init`, `rfc5444_sig_add` of `pending_checksum_policy` and
`rfc5444_sig_add` of `pending_dropping_policy`, while no crypt 7 is registered: two
policies with the same key, the one that accepts every key-id first. -/
def unresolved_pair_registry : List rfc5444_signature :=
  match (rfc5444_sig_add initial_registry pending_checksum_policy).bind
      (fun st => rfc5444_sig_add st pending_dropping_policy) with
  | some st => st._sig_tree
  | none => []

/-- The message `unsigned_message` with a signature TLV of `checksum_policy` (identity
hash, crypt 7, empty key-id): the signature is the checksum 17 of the signable buffer
`[0, 7, 0] ++ unsigned_message`. -/
def checksum_signed_message : List Nat := [1, 3, 0, 14, 0, 8, 5, 0x90, 1, 4, 0, 7, 0, 17]

/-- The TLV entry the reader exposes for the signature TLV of
`checksum_signed_message`. -/
def checksum_signed_tlv : rfc5444_reader_tlvblock_entry :=
  { type_ext := RFC7182_ICV_EXT_CRYPTHASH, single_value := [0, 7, 0, 17] }

/-- The message `signed_message` with a second signature TLV behind the first: the
signature TLV of `signed_message` with the last signature byte changed. -/
def valid_then_tampered_message : List Nat :=
  [1, 3, 0, 38, 0, 32, 5, 0x90, 1, 12, 0, 0, 0, 0, 0, 0, 1, 3, 0, 6, 0, 0,
   5, 0x90, 1, 12, 0, 0, 0, 0, 0, 0, 1, 3, 0, 6, 0, 1]

/-- The two signature TLVs of `valid_then_tampered_message` in the other order. -/
def tampered_then_valid_message : List Nat :=
  [1, 3, 0, 38, 0, 32, 5, 0x90, 1, 12, 0, 0, 0, 0, 0, 0, 1, 3, 0, 6, 0, 1,
   5, 0x90, 1, 12, 0, 0, 0, 0, 0, 0, 1, 3, 0, 6, 0, 0]

/-- The message `signed_message` with a second signature TLV behind the first: the
signature TLV of `forged_message`, whose signature is the single byte 99. -/
def valid_then_forged_message : List Nat :=
  [1, 3, 0, 30, 0, 24, 5, 0x90, 1, 12, 0, 0, 0, 0, 0, 0, 1, 3, 0, 6, 0, 0,
   5, 0x90, 1, 4, 0, 0, 0, 99]

/-- The message `unsigned_message` signed by a source-specific identity policy with an
empty key-id on a socket with the address 10.0.0.1: the signature is the signable
buffer `[10, 0, 0, 1] ++ [0, 0, 0] ++ unsigned_message`. -/
def source_signed_message : List Nat :=
  [1, 3, 0, 26, 0, 20, 5, 0x90, 2, 16, 0, 0, 0, 10, 0, 0, 1, 0, 0, 0, 1, 3, 0, 6, 0, 0]

/-- The TLV entry the reader exposes for the signature TLV of
`source_signed_message`. -/
def source_signed_tlv : rfc5444_reader_tlvblock_entry :=
  { type_ext := RFC7182_ICV_EXT_SRCSPEC_CRYPTHASH,
    single_value := [0, 0, 0, 10, 0, 0, 1, 0, 0, 0, 1, 3, 0, 6, 0, 0] }

/-- Decision procedure for `checked_resolved`. -/
instance checked_resolved.decidable (msg_type : Int)
    (tlvs : List rfc5444_reader_tlvblock_entry) (registry : List rfc5444_signature) :
    Decidable (checked_resolved msg_type tlvs registry) :=
  inferInstanceAs (Decidable
    (∀ tlv ∈ tlvs, ∀ sig ∈ registry, tlv_checked_by msg_type tlv sig = true →
      sig.crypt.isSome = true ∧ sig.hash.isSome = true))

/-! ## Verification pipeline: auxiliary facts -/

theorem sigid_cases (x : rfc5444_sigid_check) :
    x = rfc5444_sigid_check.RFC5444_SIGID_OKAY ∨ x = rfc5444_sigid_check.RFC5444_SIGID_IGNORE
      ∨ x = rfc5444_sigid_check.RFC5444_SIGID_DROP := by
  cases x <;> simp

theorem sig_loop_no_drop (msg_type : Int) (addr : List Nat) (u : unsigned_data)
    (tlv : rfc5444_reader_tlvblock_entry) (hi : tlv_ignored tlv = false) :
    ∀ reg : List rfc5444_signature, registry_resolved reg →
      (∀ sig ∈ reg, tlv_dropped_by msg_type tlv sig = false) →
      sig_loop msg_type addr tlv (tlv_sigkey tlv) (tlv_key_id_len tlv)
          (tlv_static_buffer addr tlv u) reg
        = some (false, reg.map (policy_after_tlv msg_type addr u tlv)) := by
  intro reg
  induction reg with
  | nil => intro _ _; rfl
  | cons sig rest ih =>
    intro hres hnd
    have ih1 := ih (fun s hs => hres s (List.mem_cons_of_mem _ hs))
      (fun s hs => hnd s (List.mem_cons_of_mem _ hs))
    have hr := hres sig (List.mem_cons_self _ _)
    have hd := hnd sig (List.mem_cons_self _ _)
    obtain ⟨hc, hh⟩ := hr
    obtain ⟨c, hc⟩ := Option.isSome_iff_exists.mp hc
    obtain ⟨h, hh⟩ := Option.isSome_iff_exists.mp hh
    simp only [sig_loop, ih1, List.map_cons]
    simp only [tlv_dropped_by, hi, policy_applies, tlv_key_id] at hd
    have e : policy_after_tlv msg_type addr u tlv sig =
      if tlv_checked_by msg_type tlv sig then
        { sig with
          source := some addr,
          verified := c.check c.crypt h (tlv.single_value.drop (3 + tlv_key_id_len tlv))
            (tlv_static_buffer addr tlv u) }
      else sig := by
      simp only [policy_after_tlv, verify_step, hc, hh, tlv_signature]
    rw [e]
    simp only [tlv_checked_by, hi, policy_applies, tlv_key_id]
    have hv := sigid_cases (sig.verify_id (List.take (tlv_key_id_len tlv) (List.drop 3 tlv.single_value)))
    by_cases hk : sig.key = tlv_sigkey tlv
    · by_cases hm : sig.is_matching_signature msg_type = true
      · by_cases hs : decide (tlv.type_ext = RFC7182_ICV_EXT_SRCSPEC_CRYPTHASH) = sig.source_specific
        · rcases hv with hv | hv | hv
          · simp [hk, hm, hs, hv, hc, hh]
          · simp [hk, hm, hs, hv]
          · simp [hk, hm, hs, hv] at hd
        · simp [hk, hm, hs]
      · simp [hk, hm]
    · simp [hk]

theorem process_tlv_ignored (ctx : rfc5444_reader_tlvblock_context) (addr : List Nat)
    (tlv : rfc5444_reader_tlvblock_entry) (reg : List rfc5444_signature)
    (hi : tlv_ignored tlv = true) : process_tlv ctx addr tlv reg = some (false, reg) := by
  unfold process_tlv
  simp only [tlv_ignored, tlv_key_id_len, Bool.or_eq_true, Bool.and_eq_true, bne_iff_ne,
    decide_eq_true_eq] at hi
  by_cases h1 : tlv.type_ext ≠ RFC7182_ICV_EXT_CRYPTHASH
      ∧ tlv.type_ext ≠ RFC7182_ICV_EXT_SRCSPEC_CRYPTHASH
  · rw [if_pos h1]
  · rw [if_neg h1]
    by_cases h2 : tlv.length < 4
    · rw [if_pos h2]
    · rw [if_neg h2]
      have h3 : tlv.length ≤ 3 + tlv.single_value.getD 2 0 := by
        rcases hi with (hi | hi) | hi
        · exact absurd hi h1
        · exact absurd hi h2
        · exact hi
      simp only [h3, if_true]

theorem process_tlv_checked (ctx : rfc5444_reader_tlvblock_context) (addr : List Nat)
    (tlv : rfc5444_reader_tlvblock_entry) (reg : List rfc5444_signature)
    (u : unsigned_data) (hu : _remove_signature_data ctx = some u)
    (hi : tlv_ignored tlv = false) :
    process_tlv ctx addr tlv reg
      = sig_loop (context_msg_type ctx) addr tlv (tlv_sigkey tlv) (tlv_key_id_len tlv)
          (tlv_static_buffer addr tlv u) reg := by
  unfold process_tlv
  simp only [tlv_ignored, tlv_key_id_len, Bool.or_eq_false_iff, Bool.and_eq_false_iff,
    decide_eq_false_iff_not, bne_eq_false_iff_eq] at hi
  obtain ⟨⟨h1, h2⟩, h3⟩ := hi
  have h1' : ¬ (tlv.type_ext ≠ RFC7182_ICV_EXT_CRYPTHASH
      ∧ tlv.type_ext ≠ RFC7182_ICV_EXT_SRCSPEC_CRYPTHASH) := by
    intro h; rcases h1 with h1 | h1
    · exact h.1 h1
    · exact h.2 h1
  rw [if_neg h1', if_neg h2]
  simp only [h3, if_false, hu]
  rfl

theorem policy_static_after_tlv (m : Int) (addr : List Nat) (u : unsigned_data)
    (tlv : rfc5444_reader_tlvblock_entry) (s : rfc5444_signature) :
    policy_static (policy_after_tlv m addr u tlv s) = policy_static s := by
  unfold policy_after_tlv
  split <;> rfl

theorem policy_static_init (m : Int) (s : rfc5444_signature) :
    policy_static (init_verification m s) = policy_static s := rfl

theorem tlv_dropped_by_static (m : Int) (tlv : rfc5444_reader_tlvblock_entry)
    (s : rfc5444_signature) :
    tlv_dropped_by m tlv (policy_static s) = tlv_dropped_by m tlv s := rfl

theorem tlv_checked_by_static (m : Int) (tlv : rfc5444_reader_tlvblock_entry)
    (s : rfc5444_signature) :
    tlv_checked_by m tlv (policy_static s) = tlv_checked_by m tlv s := rfl

theorem verify_step_static (addr : List Nat) (u : unsigned_data)
    (tlv : rfc5444_reader_tlvblock_entry) (s : rfc5444_signature) :
    verify_step addr u tlv (policy_static s) = verify_step addr u tlv s := rfl

theorem static_eq_fields {a b : rfc5444_signature} (h : policy_static a = policy_static b) :
    a.crypt = b.crypt ∧ a.hash = b.hash ∧ a.drop_if_invalid = b.drop_if_invalid
      ∧ a.is_matching_signature = b.is_matching_signature := by
  have h1 := congrArg rfc5444_signature.crypt h
  have h2 := congrArg rfc5444_signature.hash h
  have h3 := congrArg rfc5444_signature.drop_if_invalid h
  have h4 := congrArg rfc5444_signature.is_matching_signature h
  exact ⟨h1, h2, h3, h4⟩

theorem static_eq_dropped {a b : rfc5444_signature} (h : policy_static a = policy_static b)
    (m : Int) (tlv : rfc5444_reader_tlvblock_entry) :
    tlv_dropped_by m tlv a = tlv_dropped_by m tlv b := by
  rw [← tlv_dropped_by_static m tlv a, h, tlv_dropped_by_static]

theorem static_eq_checked {a b : rfc5444_signature} (h : policy_static a = policy_static b)
    (m : Int) (tlv : rfc5444_reader_tlvblock_entry) :
    tlv_checked_by m tlv a = tlv_checked_by m tlv b := by
  rw [← tlv_checked_by_static m tlv a, h, tlv_checked_by_static]

theorem static_eq_verify {a b : rfc5444_signature} (h : policy_static a = policy_static b)
    (addr : List Nat) (u : unsigned_data) (tlv : rfc5444_reader_tlvblock_entry) :
    verify_step addr u tlv a = verify_step addr u tlv b := by
  rw [← verify_step_static addr u tlv a, h, verify_step_static]

theorem policy_static_after_tlvs (m : Int) (addr : List Nat) (u : unsigned_data)
    (tlvs : List rfc5444_reader_tlvblock_entry) :
    ∀ s : rfc5444_signature,
      policy_static (policy_after_tlvs m addr u tlvs s) = policy_static s := by
  induction tlvs with
  | nil => intro s; rfl
  | cons t ts ih =>
    intro s
    show policy_static (policy_after_tlvs m addr u ts (policy_after_tlv m addr u t s)) = _
    rw [ih, policy_static_after_tlv]

theorem process_tlv_no_drop (ctx : rfc5444_reader_tlvblock_context) (addr : List Nat)
    (u : unsigned_data) (hu : _remove_signature_data ctx = some u)
    (tlv : rfc5444_reader_tlvblock_entry) (reg : List rfc5444_signature)
    (hres : registry_resolved reg)
    (hnd : ∀ sig ∈ reg, tlv_dropped_by (context_msg_type ctx) tlv sig = false) :
    process_tlv ctx addr tlv reg
      = some (false, reg.map (policy_after_tlv (context_msg_type ctx) addr u tlv)) := by
  by_cases hi : tlv_ignored tlv = true
  · rw [process_tlv_ignored ctx addr tlv reg hi]
    have : reg.map (policy_after_tlv (context_msg_type ctx) addr u tlv) = reg := by
      conv_rhs => rw [← List.map_id reg]
      apply List.map_congr_left
      intro s _
      simp [policy_after_tlv, tlv_checked_by, hi]
    rw [this]
  · have hi' : tlv_ignored tlv = false := by simpa using hi
    rw [process_tlv_checked ctx addr tlv reg u hu hi']
    exact sig_loop_no_drop _ addr u tlv hi' reg hres hnd

theorem registry_resolved_map {reg : List rfc5444_signature}
    (f : rfc5444_signature → rfc5444_signature)
    (hf : ∀ s, policy_static (f s) = policy_static s) (hres : registry_resolved reg) :
    registry_resolved (reg.map f) := by
  intro s hs
  obtain ⟨a, ha, rfl⟩ := List.mem_map.mp hs
  obtain ⟨h1, h2, _, _⟩ := static_eq_fields (hf a)
  rw [h1, h2]
  exact hres a ha

theorem tlv_loop_no_drop (ctx : rfc5444_reader_tlvblock_context) (addr : List Nat)
    (u : unsigned_data) (hu : _remove_signature_data ctx = some u) :
    ∀ (tlvs : List rfc5444_reader_tlvblock_entry) (reg : List rfc5444_signature),
      registry_resolved reg →
      (∀ tlv ∈ tlvs, ∀ sig ∈ reg, tlv_dropped_by (context_msg_type ctx) tlv sig = false) →
      tlv_loop ctx addr tlvs reg
        = some (false, reg.map (policy_after_tlvs (context_msg_type ctx) addr u tlvs)) := by
  intro tlvs
  induction tlvs with
  | nil =>
    intro reg _ _
    have : policy_after_tlvs (context_msg_type ctx) addr u [] = id := by
      funext s; rfl
    simp [tlv_loop, this]
  | cons t ts ih =>
    intro reg hres hnd
    have h1 := process_tlv_no_drop ctx addr u hu t reg hres
      (fun s hs => hnd t (List.mem_cons_self _ _) s hs)
    simp only [tlv_loop, h1]
    rw [ih]
    · simp [policy_after_tlvs, List.map_map, Function.comp_def]
    · exact registry_resolved_map _ (policy_static_after_tlv _ addr u t) hres
    · intro tlv htlv s hs
      obtain ⟨a, ha, rfl⟩ := List.mem_map.mp hs
      rw [static_eq_dropped (policy_static_after_tlv _ addr u t a)]
      exact hnd tlv (List.mem_cons_of_mem _ htlv) a ha

theorem exists_dropped_of_static {reg reg1 : List rfc5444_signature}
    (h : reg1.map policy_static = reg.map policy_static) (m : Int)
    (tlv : rfc5444_reader_tlvblock_entry)
    (hex : ∃ s ∈ reg, tlv_dropped_by m tlv s = true) :
    ∃ s ∈ reg1, tlv_dropped_by m tlv s = true := by
  obtain ⟨s, hs, hd⟩ := hex
  have h1 : policy_static s ∈ reg1.map policy_static := by
    rw [h]; exact List.mem_map_of_mem _ hs
  obtain ⟨a, ha, hsa⟩ := List.mem_map.mp h1
  exact ⟨a, ha, by rw [static_eq_dropped hsa]; exact hd⟩

theorem registry_resolved_init (m : Int) {reg : List rfc5444_signature}
    (hres : registry_resolved reg) : registry_resolved (reg.map (init_verification m)) :=
  registry_resolved_map _ (policy_static_init m) hres

theorem any_matching_of_mem {reg : List rfc5444_signature} {m : Int} {s : rfc5444_signature}
    (hs : s ∈ reg) (hm : s.is_matching_signature m = true) :
    reg.any (fun sig => sig.is_matching_signature m) = true :=
  List.any_eq_true.mpr ⟨s, hs, hm⟩

theorem tlv_loop_filter (ctx : rfc5444_reader_tlvblock_context) (addr : List Nat) :
    ∀ (tlvs : List rfc5444_reader_tlvblock_entry) (reg : List rfc5444_signature),
      tlv_loop ctx addr tlvs reg
        = tlv_loop ctx addr (tlvs.filter (fun t => !tlv_ignored t)) reg := by
  intro tlvs
  induction tlvs with
  | nil => intro reg; rfl
  | cons t ts ih =>
    intro reg
    by_cases hi : tlv_ignored t = true
    · simp only [tlv_loop, process_tlv_ignored ctx addr t reg hi, List.filter, hi,
        Bool.not_true]
      exact ih reg
    · have hi1 : tlv_ignored t = false := by simpa using hi
      simp only [List.filter, hi1, Bool.not_false, tlv_loop]
      cases process_tlv ctx addr t reg with
      | none => rfl
      | some p =>
        obtain ⟨d, r⟩ := p
        cases d with
        | true => rfl
        | false => exact ih r

theorem policy_after_tlv_must (m : Int) (addr : List Nat) (u : unsigned_data)
    (tlv : rfc5444_reader_tlvblock_entry) (s : rfc5444_signature) :
    (policy_after_tlv m addr u tlv s)._must_be_verified = s._must_be_verified := by
  unfold policy_after_tlv
  split <;> rfl

theorem policy_after_tlvs_must (m : Int) (addr : List Nat) (u : unsigned_data)
    (tlvs : List rfc5444_reader_tlvblock_entry) :
    ∀ s : rfc5444_signature,
      (policy_after_tlvs m addr u tlvs s)._must_be_verified = s._must_be_verified := by
  induction tlvs with
  | nil => intro s; rfl
  | cons t ts ih =>
    intro s
    show (policy_after_tlvs m addr u ts (policy_after_tlv m addr u t s))._must_be_verified = _
    rw [ih, policy_after_tlv_must]

theorem policy_after_tlvs_not_checked (m : Int) (addr : List Nat) (u : unsigned_data)
    (tlvs : List rfc5444_reader_tlvblock_entry) (s : rfc5444_signature)
    (h : ∀ x ∈ tlvs, tlv_checked_by m x s = false) :
    policy_after_tlvs m addr u tlvs s = s := by
  induction tlvs with
  | nil => rfl
  | cons t ts ih =>
    show policy_after_tlvs m addr u ts (policy_after_tlv m addr u t s) = s
    have h1 : policy_after_tlv m addr u t s = s := by
      simp [policy_after_tlv, h t (List.mem_cons_self _ _)]
    rw [h1]
    exact ih (fun x hx => h x (List.mem_cons_of_mem _ hx))

theorem tlv_checked_by_matching {m : Int} {tlv : rfc5444_reader_tlvblock_entry}
    {s : rfc5444_signature} (h : tlv_checked_by m tlv s = true) :
    s.is_matching_signature m = true := by
  simp only [tlv_checked_by, policy_applies, Bool.and_eq_true] at h
  exact h.1.2.1.2

theorem policy_after_tlvs_not_matching (m : Int) (addr : List Nat) (u : unsigned_data)
    (tlvs : List rfc5444_reader_tlvblock_entry) (s : rfc5444_signature)
    (h : s.is_matching_signature m = false) :
    policy_after_tlvs m addr u tlvs s = s := by
  apply policy_after_tlvs_not_checked
  intro x _
  cases hc : tlv_checked_by m x s with
  | false => rfl
  | true => rw [tlv_checked_by_matching hc] at h; cases h

theorem policy_final_must (m : Int) (addr : List Nat) (u : unsigned_data)
    (tlvs : List rfc5444_reader_tlvblock_entry) (s : rfc5444_signature) :
    (policy_final m addr u tlvs s)._must_be_verified
      = (s.drop_if_invalid && s.is_matching_signature m) := by
  unfold policy_final
  rw [policy_after_tlvs_must]
  rfl

theorem policy_final_static (m : Int) (addr : List Nat) (u : unsigned_data)
    (tlvs : List rfc5444_reader_tlvblock_entry) (s : rfc5444_signature) :
    policy_static (policy_final m addr u tlvs s) = policy_static s := by
  unfold policy_final
  rw [policy_static_after_tlvs, policy_static_init]

theorem policy_after_tlvs_append (m : Int) (addr : List Nat) (u : unsigned_data)
    (pre post : List rfc5444_reader_tlvblock_entry) (t : rfc5444_reader_tlvblock_entry)
    (s : rfc5444_signature) :
    policy_after_tlvs m addr u (pre ++ t :: post) s
      = policy_after_tlvs m addr u post
          (policy_after_tlv m addr u t (policy_after_tlvs m addr u pre s)) := by
  simp [policy_after_tlvs, List.foldl_append]

theorem policy_final_last (m : Int) (addr : List Nat) (u : unsigned_data)
    (pre post : List rfc5444_reader_tlvblock_entry) (t : rfc5444_reader_tlvblock_entry)
    (s : rfc5444_signature) (ht : tlv_checked_by m t s = true)
    (hpost : ∀ x ∈ post, tlv_checked_by m x s = false) :
    (policy_final m addr u (pre ++ t :: post) s).verified = verify_step addr u t s := by
  unfold policy_final
  rw [policy_after_tlvs_append]
  have hst : policy_static (policy_after_tlvs m addr u pre (init_verification m s))
      = policy_static s := by
    rw [policy_static_after_tlvs, policy_static_init]
  have hst2 := policy_static_after_tlv m addr u t
    (policy_after_tlvs m addr u pre (init_verification m s))
  rw [policy_after_tlvs_not_checked]
  · have hc : tlv_checked_by m t (policy_after_tlvs m addr u pre (init_verification m s))
        = true := by
      rw [static_eq_checked hst]; exact ht
    simp only [policy_after_tlv, hc, if_true]
    exact static_eq_verify hst addr u t
  · intro x hx
    rw [static_eq_checked (hst2.trans hst)]
    exact hpost x hx

theorem cb_signature_tlv_none_matching (reg : List rfc5444_signature) (addr : List Nat)
    (tlvs : List rfc5444_reader_tlvblock_entry) (ctx : rfc5444_reader_tlvblock_context)
    (h : ∀ sig ∈ reg, sig.is_matching_signature (context_msg_type ctx) = false) :
    _cb_signature_tlv reg addr tlvs ctx
      = some (rfc5444_result.RFC5444_OKAY,
          reg.map (init_verification (context_msg_type ctx))) := by
  have h1 : reg.any (fun sig => sig.is_matching_signature (context_msg_type ctx)) = false := by
    apply List.any_eq_false.mpr
    intro s hs
    simp [h s hs]
  simp only [_cb_signature_tlv, h1]
  simp

theorem cb_signature_tlv_no_drop (reg : List rfc5444_signature) (addr : List Nat)
    (tlvs : List rfc5444_reader_tlvblock_entry) (ctx : rfc5444_reader_tlvblock_context)
    (u : unsigned_data) (hu : _remove_signature_data ctx = some u)
    (hres : registry_resolved reg)
    (hnd : ∀ tlv ∈ tlvs, ∀ sig ∈ reg,
      tlv_dropped_by (context_msg_type ctx) tlv sig = false) :
    _cb_signature_tlv reg addr tlvs ctx
      = some
          (if (reg.map (policy_final (context_msg_type ctx) addr u tlvs)).any
                (fun sig => !sig.verified && sig._must_be_verified)
            then context_drop_value ctx else rfc5444_result.RFC5444_OKAY,
           reg.map (policy_final (context_msg_type ctx) addr u tlvs)) := by
  by_cases hany : reg.any (fun sig => sig.is_matching_signature (context_msg_type ctx)) = true
  · have hnd1 : ∀ tlv ∈ tlvs, ∀ sig ∈ reg.map (init_verification (context_msg_type ctx)),
        tlv_dropped_by (context_msg_type ctx) tlv sig = false := by
      intro tlv ht s hs
      obtain ⟨a, ha, rfl⟩ := List.mem_map.mp hs
      rw [static_eq_dropped (policy_static_init _ a)]
      exact hnd tlv ht a ha
    have h1 := tlv_loop_no_drop ctx addr u hu tlvs _ (registry_resolved_init _ hres) hnd1
    have h2 : (reg.map (init_verification (context_msg_type ctx))).map
        (policy_after_tlvs (context_msg_type ctx) addr u tlvs)
        = reg.map (policy_final (context_msg_type ctx) addr u tlvs) := by
      simp [List.map_map, policy_final, Function.comp_def]
    rw [h2] at h1
    simp only [_cb_signature_tlv, hany, h1, Bool.not_true, Bool.false_eq_true, if_false]
    split <;> rfl
  · have hany1 : reg.any (fun sig => sig.is_matching_signature (context_msg_type ctx))
        = false := by simpa using hany
    have hno : ∀ s ∈ reg, s.is_matching_signature (context_msg_type ctx) = false := by
      intro s hs
      have := List.any_eq_false.mp hany1 s hs
      simpa using this
    rw [cb_signature_tlv_none_matching reg addr tlvs ctx hno]
    have h2 : reg.map (policy_final (context_msg_type ctx) addr u tlvs)
        = reg.map (init_verification (context_msg_type ctx)) := by
      apply List.map_congr_left
      intro s hs
      exact policy_after_tlvs_not_matching _ addr u tlvs _ (hno s hs)
    rw [h2]
    have h3 : (reg.map (init_verification (context_msg_type ctx))).any
        (fun sig => !sig.verified && sig._must_be_verified) = false := by
      apply List.any_eq_false.mpr
      intro s hs
      obtain ⟨a, ha, rfl⟩ := List.mem_map.mp hs
      simp [init_verification, hno a ha]
    rw [h3]
    simp

theorem drop_value_ne_okay (ctx : rfc5444_reader_tlvblock_context) :
    context_drop_value ctx ≠ rfc5444_result.RFC5444_OKAY := by
  unfold context_drop_value
  cases ctx.type <;> simp

theorem any_unverified_iff (m : Int) (addr : List Nat) (u : unsigned_data)
    (tlvs : List rfc5444_reader_tlvblock_entry) (reg : List rfc5444_signature) :
    (reg.map (policy_final m addr u tlvs)).any
        (fun sig => !sig.verified && sig._must_be_verified) = true
      ↔ ∃ sig ∈ reg.map (policy_final m addr u tlvs),
          sig.is_matching_signature m = true ∧ sig.drop_if_invalid = true
            ∧ sig.verified = false := by
  rw [List.any_eq_true]
  constructor
  · rintro ⟨s, hs, h⟩
    refine ⟨s, hs, ?_⟩
    obtain ⟨a, _, rfl⟩ := List.mem_map.mp hs
    obtain ⟨_, _, e3, e4⟩ := static_eq_fields (policy_final_static m addr u tlvs a)
    rw [policy_final_must] at h
    rw [e3, e4]
    simp only [Bool.and_eq_true, Bool.not_eq_true'] at h
    exact ⟨h.2.2, h.2.1, h.1⟩
  · rintro ⟨s, hs, h1, h2, h3⟩
    refine ⟨s, hs, ?_⟩
    obtain ⟨a, _, rfl⟩ := List.mem_map.mp hs
    obtain ⟨_, _, e3, e4⟩ := static_eq_fields (policy_final_static m addr u tlvs a)
    rw [policy_final_must]
    rw [e3] at h2
    rw [e4] at h1
    simp [h1, h2, h3]

/-! ## Verification pipeline: claims -/

/-- C3 (default verify, code defect). `_cb_check_by_crypt` evaluated on four inputs: a
received signature of another length than the crypt output yields `true`, a failing
crypt transform yields `true`, a signature of the right length with a wrong byte yields
`false`, the exact crypt output yields `true`. The first two results contradict the
documented contract "true if signature matches, false otherwise". -/
theorem check_by_crypt_true_on_length_mismatch_and_error :
    _cb_check_by_crypt _cb_identity_crypt _identity_hash [99] [0, 0, 0, 1, 3, 0, 6, 0, 0]
        = true
    ∧ _cb_check_by_crypt (fun _ _ => none) _identity_hash [99] [0, 0, 0, 1, 3, 0, 6, 0, 0]
        = true
    ∧ _cb_check_by_crypt _cb_identity_crypt _identity_hash [0, 0, 0, 1, 3, 0, 6, 0, 1]
        [0, 0, 0, 1, 3, 0, 6, 0, 0] = false
    ∧ _cb_check_by_crypt _cb_identity_crypt _identity_hash [0, 0, 0, 1, 3, 0, 6, 0, 0]
        [0, 0, 0, 1, 3, 0, 6, 0, 0] = true := by
  decide

/-- C2 (failed mandatory signature, code defect). A message that carries one well-formed
signature TLV for a mandatory policy with the default verify, whose signature (1 byte)
differs in length from the crypt output (9 bytes), is accepted with `verified = true`;
the same message with a signature of the right length and a wrong byte is dropped. -/
theorem wrong_length_signature_is_accepted :
    (_cb_signature_tlv mandatory_registry [] [forged_tlv]
        (plain_message_context forged_message)).map
        (fun r => (r.1, r.2.map (fun sig => sig.verified)))
      = some (rfc5444_result.RFC5444_OKAY, [true])
    ∧ (_cb_signature_tlv mandatory_registry [] [tampered_tlv]
        (plain_message_context signed_message)).map
        (fun r => (r.1, r.2.map (fun sig => sig.verified)))
      = some (rfc5444_result.RFC5444_DROP_MESSAGE, [false]) := by
  decide

/-- C4 (missing mandatory signature). If the registry holds a policy with
`drop_if_invalid` that applies to the message type of the context and the context
carries no signature TLV, `_cb_signature_tlv` returns the drop value of the context
(and leaves every policy with `verified = false`). -/
theorem missing_mandatory_signature (reg : List rfc5444_signature) (addr : List Nat)
    (ctx : rfc5444_reader_tlvblock_context)
    (h : ∃ sig ∈ reg, sig.drop_if_invalid = true
      ∧ sig.is_matching_signature (context_msg_type ctx) = true) :
    _cb_signature_tlv reg addr [] ctx
      = some (context_drop_value ctx, reg.map (init_verification (context_msg_type ctx))) := by
  obtain ⟨s, hs, hd, hm⟩ := h
  have h1 := any_matching_of_mem hs hm
  have h2 : (reg.map (init_verification (context_msg_type ctx))).any
      (fun sig => !sig.verified && sig._must_be_verified) = true := by
    apply List.any_eq_true.mpr
    exact ⟨init_verification (context_msg_type ctx) s, List.mem_map_of_mem _ hs,
      by simp [init_verification, hd, hm]⟩
  simp only [_cb_signature_tlv, h1, tlv_loop, h2]
  simp

/-- Instance of C4: the unsigned sample message under the mandatory identity policy is
dropped with `RFC5444_DROP_MESSAGE`. -/
theorem missing_mandatory_signature_witness :
    (_cb_signature_tlv mandatory_registry [] []
        (plain_message_context unsigned_message)).map (fun r => r.1)
      = some rfc5444_result.RFC5444_DROP_MESSAGE := by
  rw [missing_mandatory_signature mandatory_registry [] (plain_message_context unsigned_message)
    ⟨identity_policy false true [] _cb_sigid_okay, by simp [mandatory_registry], rfl, rfl⟩]
  rfl

/-- C7 (short-circuit accept). If no registered policy applies to the message type of
the context (or to the packet level), `_cb_signature_tlv` returns `RFC5444_OKAY` for
every list of signature TLVs; the registry it leaves is the initialised one, so no
verify step has written a `verified` flag, and the result does not depend on any
key-id verifier, on `drop_if_invalid` or on the algorithms being resolved. -/
theorem short_circuit_accept (reg : List rfc5444_signature) (addr : List Nat)
    (tlvs : List rfc5444_reader_tlvblock_entry) (ctx : rfc5444_reader_tlvblock_context)
    (h : ∀ sig ∈ reg, sig.is_matching_signature (context_msg_type ctx) = false) :
    _cb_signature_tlv reg addr tlvs ctx
      = some (rfc5444_result.RFC5444_OKAY,
          reg.map (init_verification (context_msg_type ctx))) :=
  cb_signature_tlv_none_matching reg addr tlvs ctx h

/-- Instance of C7: a mandatory policy that applies to no message type lets the forged
sample message pass. -/
theorem short_circuit_accept_witness :
    (_cb_signature_tlv inapplicable_registry [] [forged_tlv]
        (plain_message_context forged_message)).map (fun r => r.1)
      = some rfc5444_result.RFC5444_OKAY := by
  rw [short_circuit_accept inapplicable_registry [] [forged_tlv]
    (plain_message_context forged_message)
    (by intro s hs; simp [inapplicable_registry] at hs; subst hs; rfl)]
  rfl

/-- C8 (malformed signature TLVs are ignored). A signature TLV with an extension type
other than CRYPTHASH and SRCSPEC_CRYPTHASH, with length < 4 or with
length <= 3 + key-id-length leaves the registry unchanged and does not end the pass;
the result of `_cb_signature_tlv` (return value and registry) equals the result for the
TLV list without these TLVs. -/
theorem malformed_tlvs_ignored (reg : List rfc5444_signature) (addr : List Nat)
    (tlvs : List rfc5444_reader_tlvblock_entry) (ctx : rfc5444_reader_tlvblock_context) :
    (∀ tlv : rfc5444_reader_tlvblock_entry,
        ((tlv.type_ext ≠ RFC7182_ICV_EXT_CRYPTHASH
            ∧ tlv.type_ext ≠ RFC7182_ICV_EXT_SRCSPEC_CRYPTHASH)
          ∨ tlv.length < 4 ∨ tlv.length ≤ 3 + tlv.single_value.getD 2 0) →
        tlv_ignored tlv = true
        ∧ ∀ r : List rfc5444_signature, process_tlv ctx addr tlv r = some (false, r))
    ∧ _cb_signature_tlv reg addr tlvs ctx
      = _cb_signature_tlv reg addr (tlvs.filter (fun t => !tlv_ignored t)) ctx := by
  refine ⟨fun tlv h => ?_, ?_⟩
  · have hi : tlv_ignored tlv = true := by
      simp only [tlv_ignored, tlv_key_id_len, Bool.or_eq_true, Bool.and_eq_true, bne_iff_ne,
        decide_eq_true_eq]
      rcases h with h | h | h
      · exact Or.inl (Or.inl h)
      · exact Or.inl (Or.inr h)
      · exact Or.inr h
    exact ⟨hi, fun r => process_tlv_ignored ctx addr tlv r hi⟩
  · simp only [_cb_signature_tlv]
    rw [← tlv_loop_filter]

/-! ## Strip and splice: auxiliary facts -/

theorem getD_append_shift (pre l : List Nat) (j : Nat) :
    (pre ++ l).getD (pre.length + j) 0 = l.getD j 0 := by
  rw [List.getD_append_right _ _ _ _ (Nat.le_add_right _ _)]
  simp

theorem tlv_length_shift (pre l : List Nat) (q : Nat) :
    tlv_length (pre ++ l) (pre.length + q) = tlv_length l q := by
  unfold tlv_length
  simp only [Nat.add_assoc, getD_append_shift]

theorem tlv_length_encode (t : wire_tlv) (hv : t.valid) (post : List Nat) :
    tlv_length (t.encode ++ post) 0 = t.encode.length := by
  obtain ⟨h1, h2⟩ := hv
  unfold tlv_length
  unfold wire_tlv.encode at h2 ⊢
  by_cases ht : t.flags &&& RFC5444_TLV_FLAG_TYPEEXT ≠ 0 <;>
  by_cases hval : t.flags &&& RFC5444_TLV_FLAG_VALUE ≠ 0 <;>
  by_cases he : t.flags &&& RFC5444_TLV_FLAG_EXTVALUE ≠ 0
  all_goals simp [ht, hval, he] at h1 h2 ⊢
  all_goals omega

theorem encode_length_ge (t : wire_tlv) : 2 ≤ t.encode.length := by
  unfold wire_tlv.encode
  simp only [List.length_append, List.length_cons, List.length_nil]
  omega

theorem encode_getD_zero (t : wire_tlv) (post : List Nat) :
    (t.encode ++ post).getD 0 0 = t.type := by
  unfold wire_tlv.encode
  simp

theorem strip_loop_done (src : List Nat) (fuel p blocklen : Nat) (copied : List Nat) :
    strip_loop src fuel p 0 blocklen copied = some (p, blocklen, copied) := by
  cases fuel <;> simp [strip_loop]

theorem strip_loop_block :
    ∀ (tlvs : List wire_tlv), (∀ t ∈ tlvs, t.valid) →
    ∀ (pre post copied : List Nat) (fuel blocklen : Nat),
      tlvs.length ≤ fuel → (encode_block tlvs).length < 65536 →
      signature_tlvs_size tlvs ≤ blocklen → blocklen < 65536 →
      strip_loop (pre ++ (encode_block tlvs ++ post)) fuel pre.length
          (encode_block tlvs).length blocklen copied
        = some (pre.length + (encode_block tlvs).length,
            blocklen - signature_tlvs_size tlvs,
            copied ++ encode_block (tlvs.filter (fun t => t.type != RFC7182_MSGTLV_ICV))) := by
  intro tlvs
  induction tlvs with
  | nil =>
    intro _ pre post copied fuel blocklen _ _ _ _
    simp [encode_block, signature_tlvs_size, strip_loop_done]
  | cons t ts ih =>
    intro hv pre post copied fuel blocklen hfuel hlen hsig hbl
    have hvt := hv t (List.mem_cons_self _ _)
    have hvts : ∀ x ∈ ts, x.valid := fun x hx => hv x (List.mem_cons_of_mem _ hx)
    obtain ⟨f, rfl⟩ : ∃ f, fuel = f + 1 := ⟨fuel - 1, by simp at hfuel; omega⟩
    have h2 := encode_length_ge t
    simp only [encode_block, List.length_append] at hlen ⊢
    simp only [signature_tlvs_size] at hsig ⊢
    have hsrc : pre ++ (t.encode ++ encode_block ts ++ post)
        = pre ++ (t.encode ++ (encode_block ts ++ post)) := by simp
    have htl : tlv_length (pre ++ (t.encode ++ (encode_block ts ++ post))) pre.length
        = t.encode.length := by
      have := tlv_length_shift pre (t.encode ++ (encode_block ts ++ post)) 0
      rw [Nat.add_zero] at this
      rw [this, tlv_length_encode t hvt]
    have hty : (pre ++ (t.encode ++ (encode_block ts ++ post))).getD pre.length 0 = t.type := by
      have := getD_append_shift pre (t.encode ++ (encode_block ts ++ post)) 0
      rw [Nat.add_zero] at this
      rw [this, encode_getD_zero]
    have hcopy : ((pre ++ (t.encode ++ (encode_block ts ++ post))).drop pre.length).take
        t.encode.length = t.encode := by
      rw [List.drop_left, List.take_left]
    have hnz : ¬ (t.encode.length + (encode_block ts).length = 0) := by omega
    have hl1 : (t.encode.length + (encode_block ts).length + 65536 - t.encode.length) % 65536
        = (encode_block ts).length := by omega
    have hsrc2 : pre ++ (t.encode ++ (encode_block ts ++ post))
        = (pre ++ t.encode) ++ (encode_block ts ++ post) := by simp
    have hp : pre.length + t.encode.length = (pre ++ t.encode).length := by simp
    rw [hsrc]
    unfold strip_loop
    simp only [hnz, if_false, htl, hty, hcopy, hl1]
    rw [hsrc2, hp]
    by_cases hicv : t.type = RFC7182_MSGTLV_ICV
    · simp only [hicv, ne_eq, not_true_eq_false, if_false, if_true] at hsig ⊢
      have hb : (blocklen + 65536 - t.encode.length) % 65536 = blocklen - t.encode.length := by
        omega
      rw [hb, ih hvts (pre ++ t.encode) post copied f (blocklen - t.encode.length)
        (by simp at hfuel; omega) (by omega) (by omega) (by omega)]
      simp only [List.length_append, List.filter, hicv, bne_self_eq_false]
      congr 2
      · omega
      · congr 1
        omega
    · simp only [hicv, ne_eq, not_false_eq_true, if_true, if_false, Nat.zero_add] at hsig ⊢
      rw [ih hvts (pre ++ t.encode) post (copied ++ t.encode) f blocklen
        (by simp at hfuel; omega) (by omega) hsig hbl]
      have : (t.type != RFC7182_MSGTLV_ICV) = true := by simpa using hicv
      simp only [List.length_append, List.filter, this, encode_block, List.append_assoc]
      congr 2
      omega

theorem encode_block_length_ge : ∀ tlvs : List wire_tlv,
    tlvs.length ≤ (encode_block tlvs).length := by
  intro tlvs
  induction tlvs with
  | nil => simp [encode_block]
  | cons t ts ih =>
    have := encode_length_ge t
    simp only [encode_block, List.length_cons, List.length_append]
    omega

theorem encode_block_split : ∀ tlvs : List wire_tlv,
    (encode_block tlvs).length
      = signature_tlvs_size tlvs
        + (encode_block (tlvs.filter (fun t => t.type != RFC7182_MSGTLV_ICV))).length := by
  intro tlvs
  induction tlvs with
  | nil => simp [encode_block, signature_tlvs_size]
  | cons t ts ih =>
    by_cases h : t.type = RFC7182_MSGTLV_ICV
    · simp only [encode_block, signature_tlvs_size, List.length_append, List.filter, h,
        bne_self_eq_false, if_true, ih]
      omega
    · have hb : (t.type != RFC7182_MSGTLV_ICV) = true := by simpa using h
      simp only [encode_block, signature_tlvs_size, List.length_append, List.filter, h, hb,
        if_false, ih]
      omega

theorem remove_signature_data_block (ctx : rfc5444_reader_tlvblock_context)
    (hdr rest : List Nat) (b0 b1 : Nat) (tlvs : List wire_tlv)
    (hbuf : context_buffer ctx = hdr ++ ([b0, b1] ++ (encode_block tlvs ++ rest)))
    (hhdr : hdr.length = (context_header ctx).1)
    (hbl : 256 * b0 + b1 = (encode_block tlvs).length)
    (hv : ∀ t ∈ tlvs, t.valid)
    (hsize : (context_buffer ctx).length < 65536) :
    _remove_signature_data ctx
      = some { dst := stripped_bytes ctx hdr
                 (encode_block (tlvs.filter (fun t => t.type != RFC7182_MSGTLV_ICV))) rest,
               len := (stripped_bytes ctx hdr
                 (encode_block (tlvs.filter (fun t => t.type != RFC7182_MSGTLV_ICV)))
                   rest).length } := by
  have hlen : (context_buffer ctx).length
      = hdr.length + 2 + (encode_block tlvs).length + rest.length := by
    rw [hbuf]; simp; omega
  have hsplit := encode_block_split tlvs
  have hge := encode_block_length_ge tlvs
  have hloop := strip_loop_block tlvs hv (hdr ++ [b0, b1]) rest []
    ((context_buffer ctx).length + 1) (encode_block tlvs).length
    (by omega) (by omega) (by omega) (by omega)
  have hsrc : hdr ++ ([b0, b1] ++ (encode_block tlvs ++ rest))
      = (hdr ++ [b0, b1]) ++ (encode_block tlvs ++ rest) := by simp
  have hp : (hdr ++ [b0, b1]).length = (context_header ctx).1 + 2 := by simp [hhdr]
  rw [← hsrc, ← hbuf, hp] at hloop
  have htake : (context_buffer ctx).take (context_header ctx).1 = hdr := by
    rw [hbuf, ← hhdr, List.take_left]
  have hb0 : (context_buffer ctx).getD (context_header ctx).1 0 = b0 := by
    rw [hbuf, ← hhdr]
    have := getD_append_shift hdr ([b0, b1] ++ (encode_block tlvs ++ rest)) 0
    simpa using this
  have hb1 : (context_buffer ctx).getD ((context_header ctx).1 + 1) 0 = b1 := by
    rw [hbuf, ← hhdr]
    have := getD_append_shift hdr ([b0, b1] ++ (encode_block tlvs ++ rest)) 1
    simpa using this
  have hbl0 : (256 * b0 + b1) % 65536 = (encode_block tlvs).length := by omega
  have hdrop : List.drop ((context_header ctx).1 + 2 + (encode_block tlvs).length)
      (context_buffer ctx) = rest := by
    rw [hbuf, hsrc, ← List.append_assoc, ← hp, ← List.length_append]
    exact List.drop_left _ _
  have hrl : ((((context_buffer ctx).length : Int)
      - (((context_header ctx).1 + 2 + (encode_block tlvs).length : Nat) : Int)) % 65536).toNat
      = rest.length := by
    omega
  unfold _remove_signature_data
  simp only [htake, hb0, hb1, hbl0, hloop, hdrop, hrl, List.take_length]
  have hk : (encode_block tlvs).length - signature_tlvs_size tlvs
      = (encode_block (tlvs.filter (fun t => t.type != RFC7182_MSGTLV_ICV))).length := by
    omega
  rw [hk]
  have hkl : (encode_block (tlvs.filter (fun t => t.type != RFC7182_MSGTLV_ICV))).length
      ≤ (encode_block tlvs).length := by omega
  have hd2len : (if (context_header ctx).2.2 ≠ 0 then
        (if (context_header ctx).2.1 ≠ 0 then hdr.set (context_header ctx).2.1 0
          else hdr).set (context_header ctx).2.2 0
      else if (context_header ctx).2.1 ≠ 0 then hdr.set (context_header ctx).2.1 0
        else hdr).length = hdr.length := by
    split <;> split <;> simp
  simp only [stripped_bytes]
  generalize encode_block (tlvs.filter (fun t => t.type != RFC7182_MSGTLV_ICV)) = kept
    at hkl ⊢
  generalize (if (context_header ctx).2.2 ≠ 0 then
        (if (context_header ctx).2.1 ≠ 0 then hdr.set (context_header ctx).2.1 0
          else hdr).set (context_header ctx).2.2 0
      else if (context_header ctx).2.1 ≠ 0 then hdr.set (context_header ctx).2.1 0
        else hdr) = d2 at hd2len ⊢
  by_cases hc : 0 < kept.length ∨ ctx.type = rfc5444_context_type.RFC5444_CONTEXT_MESSAGE
  · simp only [hc, if_true, List.nil_append]
    have ht : ((d2 ++ [kept.length / 256, kept.length % 256] ++ kept).length + rest.length)
        % 65536 = (d2 ++ [kept.length / 256, kept.length % 256] ++ kept ++ rest).length := by
      simp only [List.length_append, List.length_cons, List.length_nil]
      omega
    rw [ht]
    split <;> simp
  · simp only [hc, if_false, List.nil_append]
    have hk0 : kept = [] := by
      cases kept with
      | nil => rfl
      | cons a l => exact absurd (Or.inl (by simp)) hc
    have hm : ¬ ctx.type = rfc5444_context_type.RFC5444_CONTEXT_MESSAGE :=
      fun h => hc (Or.inr h)
    subst hk0
    have hdl : (d2 ++ [0, 0] ++ []).dropLast.dropLast = d2 := by
      simp [List.dropLast_append_cons]
    simp only [hdl, hm, if_false]
    have ht : ((d2.set 0 (d2.getD 0 0 &&& (255 - RFC5444_PKT_FLAG_TLV))).length + rest.length)
        % 65536
        = (d2.set 0 (d2.getD 0 0 &&& (255 - RFC5444_PKT_FLAG_TLV)) ++ rest).length := by
      simp only [List.length_append, List.length_set]
      omega
    rw [ht]

theorem signature_tlv_encode (sig : rfc5444_signature) (cb : List Nat)
    (h : 3 + sig.getKeyId.length + cb.length < 65536) :
    signature_tlv sig cb = (signature_wire_tlv sig cb).encode := by
  unfold signature_tlv signature_wire_tlv wire_tlv.encode
  have f1 : (144 : Nat) &&& 8 = 0 := by decide
  by_cases h1 : 3 + sig.getKeyId.length + cb.length > 255
  · have e1 : (3 + sig.getKeyId.length + cb.length) / 256 % 256
        = (3 + sig.getKeyId.length + cb.length) / 256 := by omega
    have e2 : (sig.getKeyId.length + cb.length + 3) / 256
        = (3 + sig.getKeyId.length + cb.length) / 256 := by congr 1; omega
    have e3 : (sig.getKeyId.length + cb.length + 3) % 256
        = (3 + sig.getKeyId.length + cb.length) % 256 := by congr 1; omega
    cases sig.source_specific <;>
      simp [h1, e1, e2, e3, RFC5444_TLV_FLAG_TYPEEXT, RFC5444_TLV_FLAG_VALUE,
        RFC5444_TLV_FLAG_EXTVALUE]
  · have e1 : (3 + sig.getKeyId.length + cb.length) % 256
        = sig.getKeyId.length + cb.length + 3 := by omega
    cases sig.source_specific <;>
      simp [h1, e1, f1, RFC5444_TLV_FLAG_TYPEEXT, RFC5444_TLV_FLAG_VALUE,
        RFC5444_TLV_FLAG_EXTVALUE]

theorem signature_tlv_length (sig : rfc5444_signature) (cb : List Nat) :
    (signature_tlv sig cb).length
      = if 3 + sig.getKeyId.length + cb.length > 255
          then 4 + (3 + sig.getKeyId.length + cb.length) + 1
          else 4 + (3 + sig.getKeyId.length + cb.length) := by
  unfold signature_tlv
  by_cases h1 : 3 + sig.getKeyId.length + cb.length > 255 <;>
    cases sig.source_specific <;> simp [h1] <;> omega

theorem signature_wire_tlv_valid (sig : rfc5444_signature) (cb : List Nat)
    (h : (signature_tlv sig cb).length < 65536) :
    (signature_wire_tlv sig cb).valid := by
  have hl := signature_tlv_length sig cb
  have h3 : 3 + sig.getKeyId.length + cb.length < 65536 := by
    split at hl <;> omega
  rw [signature_tlv_encode sig cb h3] at h
  refine ⟨?_, h⟩
  intro he
  by_cases h1 : 3 + sig.getKeyId.length + cb.length > 255
  · simp [signature_wire_tlv, h1, RFC5444_TLV_FLAG_TYPEEXT, RFC5444_TLV_FLAG_VALUE,
      RFC5444_TLV_FLAG_EXTVALUE] at he
  · simp [signature_wire_tlv]
    omega

theorem signature_wire_tlv_type (sig : rfc5444_signature) (cb : List Nat) :
    (signature_wire_tlv sig cb).type = RFC7182_MSGTLV_ICV := rfl

theorem filter_no_signature : ∀ tlvs : List wire_tlv,
    (∀ t ∈ tlvs, t.type ≠ RFC7182_MSGTLV_ICV) →
    tlvs.filter (fun t => t.type != RFC7182_MSGTLV_ICV) = tlvs := by
  intro tlvs h
  apply List.filter_eq_self.mpr
  intro t ht
  simpa using h t ht

theorem message_offset_ge (m : rfc5444_writer_message) (data : List Nat) :
    4 ≤ tlvblock_offset (some m) data := by
  obtain ⟨ty, ho, hl, hc, hs, al⟩ := m
  cases ho <;> cases hl <;> cases hc <;> cases hs <;> simp [tlvblock_offset] <;> omega

theorem message_header_eq (m : rfc5444_writer_message) (data out : List Nat) :
    (context_header (reader_context (some m) out)).1 = tlvblock_offset (some m) data := by
  obtain ⟨ty, ho, hl, hc, hs, al⟩ := m
  cases ho <;> cases hl <;> cases hc <;> cases hs <;>
    simp [tlvblock_offset, context_header, reader_context]

theorem splice_existing_block (sig : rfc5444_signature) (msg : Option rfc5444_writer_message)
    (data hdr tail cb : List Nat) (b0 b1 : Nat)
    (hdata : data = hdr ++ ([b0, b1] ++ tail))
    (hoff : hdr.length = tlvblock_offset msg data)
    (hex : msg ≠ none ∨ data.getD 0 0 &&& RFC5444_PKT_FLAG_TLV ≠ 0) :
    splice_signature sig msg data cb
      = (fun d : List Nat =>
          match msg with
          | some _ => (d.set 2 (d.length / 256 % 256)).set 3 (d.length % 256)
          | none => d)
        (hdr ++ ([(256 * b0 + b1 + (signature_tlv sig cb).length) / 256 % 256,
                  (256 * b0 + b1 + (signature_tlv sig cb).length) % 256]
          ++ (signature_tlv sig cb ++ tail))) := by
  have hnb : (msg.isNone && (data.getD 0 0 &&& RFC5444_PKT_FLAG_TLV == 0)) = false := by
    rcases hex with h | h
    · cases msg with
      | none => exact absurd rfl h
      | some m => rfl
    · cases msg with
      | none =>
        simp only [Option.isNone_none, Bool.true_and, beq_eq_false_iff_ne]
        exact h
      | some m => rfl
  have htake : data.take (tlvblock_offset msg data) = hdr := by
    rw [← hoff, hdata, List.take_left]
  have hb0 : data.getD (tlvblock_offset msg data) 0 = b0 := by
    rw [← hoff, hdata]
    have := getD_append_shift hdr ([b0, b1] ++ tail) 0
    simpa using this
  have hb1 : data.getD (tlvblock_offset msg data + 1) 0 = b1 := by
    rw [← hoff, hdata]
    have := getD_append_shift hdr ([b0, b1] ++ tail) 1
    simpa using this
  have hdrop : data.drop (tlvblock_offset msg data + 2) = tail := by
    rw [← hoff, hdata]
    have : hdr ++ ([b0, b1] ++ tail) = (hdr ++ [b0, b1]) ++ tail := by simp
    rw [this]
    have hl : (hdr ++ [b0, b1]).length = hdr.length + 2 := by simp
    rw [← hl]
    exact List.drop_left _ _
  have hsz := signature_tlv_length sig cb
  unfold splice_signature
  simp only [hnb, htake, hb0, hb1, hdrop, Bool.false_eq_true, if_false, ← hsz]
  cases msg <;> simp

theorem header_canonical (hdr tail : List Nat) (i1 i2 x y len : Nat) (f1 f2 : Bool)
    (h4 : 4 ≤ hdr.length)
    (hi1 : f1 = true → 4 ≤ i1 ∧ i1 < hdr.length)
    (hi2 : f2 = true → 4 ≤ i2 ∧ i2 < hdr.length)
    (hc : 256 * hdr.getD 2 0 + hdr.getD 3 0 = len) (hd : hdr.getD 3 0 < 256) :
    (((if f2 = true then
          (if f1 = true then ((hdr.set 2 x).set 3 y).set i1 0
            else (hdr.set 2 x).set 3 y).set i2 0
        else if f1 = true then ((hdr.set 2 x).set 3 y).set i1 0
          else (hdr.set 2 x).set 3 y) ++ tail).set 2 (len / 256)).set 3 (len % 256)
      = if f2 = true then (if f1 = true then (hdr ++ tail).set i1 0 else hdr ++ tail).set i2 0
        else if f1 = true then (hdr ++ tail).set i1 0 else hdr ++ tail := by
  match hdr, h4 with
  | a :: b :: c :: d :: hr, _ =>
    simp only [List.getD_cons_succ, List.getD_cons_zero] at hc hd
    have e1 : len / 256 = c := by omega
    have e2 : len % 256 = d := by omega
    simp only [List.length_cons] at hi1 hi2
    cases f1 <;> cases f2
    · simp [e1, e2]
    · obtain ⟨h1, h2⟩ := hi2 rfl
      obtain ⟨j, rfl⟩ : ∃ j, i2 = j + 4 := ⟨i2 - 4, by omega⟩
      have hj : j < hr.length := by omega
      simp [e1, e2, List.set_append_left _ _ hj]
    · obtain ⟨h1, h2⟩ := hi1 rfl
      obtain ⟨j, rfl⟩ : ∃ j, i1 = j + 4 := ⟨i1 - 4, by omega⟩
      have hj : j < hr.length := by omega
      simp [e1, e2, List.set_append_left _ _ hj]
    · obtain ⟨h1, h2⟩ := hi1 rfl
      obtain ⟨j, rfl⟩ : ∃ j, i1 = j + 4 := ⟨i1 - 4, by omega⟩
      have hj : j < hr.length := by omega
      obtain ⟨h3, h4⟩ := hi2 rfl
      obtain ⟨k, rfl⟩ : ∃ k, i2 = k + 4 := ⟨i2 - 4, by omega⟩
      have hk : k < (hr.set j 0).length := by simp; omega
      simp [e1, e2, List.set_append_left _ _ hj, List.set_append_left _ _ hk]

theorem message_header_fields (m : rfc5444_writer_message) (out : List Nat) :
    ((context_header (reader_context (some m) out)).2.1 ≠ 0 ↔ m.has_hoplimit = true)
    ∧ ((context_header (reader_context (some m) out)).2.2 ≠ 0 ↔ m.has_hopcount = true)
    ∧ (context_header (reader_context (some m) out)).2.1
        = (if m.has_hoplimit then (if m.has_origaddr then 4 + m.addr_len else 4) else 0)
    ∧ (context_header (reader_context (some m) out)).2.2
        = (if m.has_hopcount then
            (if m.has_hoplimit then (if m.has_origaddr then 4 + m.addr_len else 4) + 1
              else (if m.has_origaddr then 4 + m.addr_len else 4))
          else 0) := by
  obtain ⟨ty, ho, hl, hc, hs, al⟩ := m
  cases ho <;> cases hl <;> cases hc <;> cases hs <;>
    simp [context_header, reader_context]

theorem message_hop_offsets (m : rfc5444_writer_message) (data : List Nat) :
    (m.has_hoplimit = true →
      4 ≤ (if m.has_origaddr then 4 + m.addr_len else 4)
      ∧ (if m.has_origaddr then 4 + m.addr_len else 4) < tlvblock_offset (some m) data)
    ∧ (m.has_hopcount = true →
      4 ≤ (if m.has_hoplimit then (if m.has_origaddr then 4 + m.addr_len else 4) + 1
            else (if m.has_origaddr then 4 + m.addr_len else 4))
      ∧ (if m.has_hoplimit then (if m.has_origaddr then 4 + m.addr_len else 4) + 1
            else (if m.has_origaddr then 4 + m.addr_len else 4))
          < tlvblock_offset (some m) data) := by
  obtain ⟨ty, ho, hl, hc, hs, al⟩ := m
  cases ho <;> cases hl <;> cases hc <;> cases hs <;> simp [tlvblock_offset] <;> omega

theorem strip_splice_message (sig : rfc5444_signature) (m : rfc5444_writer_message)
    (hdr rest cb : List Nat) (tlvs : List wire_tlv)
    (hoff : hdr.length = tlvblock_offset (some m) (assemble hdr (some tlvs) rest))
    (hv : ∀ t ∈ tlvs, t.valid ∧ t.type ≠ RFC7182_MSGTLV_ICV)
    (hlen : 256 * (assemble hdr (some tlvs) rest).getD 2 0
        + (assemble hdr (some tlvs) rest).getD 3 0 = (assemble hdr (some tlvs) rest).length)
    (hlen3 : (assemble hdr (some tlvs) rest).getD 3 0 < 256)
    (hsize : (splice_signature sig (some m) (assemble hdr (some tlvs) rest) cb).length
      < 65536) :
    _remove_signature_data
        (reader_context (some m)
          (splice_signature sig (some m) (assemble hdr (some tlvs) rest) cb))
      = some { dst := signer_copy (some m) (assemble hdr (some tlvs) rest),
               len := (assemble hdr (some tlvs) rest).length } := by
  have h4 : 4 ≤ hdr.length := by rw [hoff]; exact message_offset_ge m _
  have hsp := splice_existing_block sig (some m) (assemble hdr (some tlvs) rest) hdr
    (encode_block tlvs ++ rest) cb _ _ rfl hoff (Or.inl (by simp))
  have hn : 256 * ((encode_block tlvs).length / 256) + (encode_block tlvs).length % 256
      = (encode_block tlvs).length := by omega
  rw [hn] at hsp
  simp only [] at hsp
  have h2 : 2 < hdr.length := by omega
  have h3 : 3 < (hdr.set 2 0).length := by simp; omega
  rw [hsp] at hsize ⊢
  rw [List.set_append_left _ _ h2, List.set_append_left _ _ (by simp; omega)] at hsize ⊢
  generalize hx : (hdr ++ ([((encode_block tlvs).length + (signature_tlv sig cb).length)
      / 256 % 256, ((encode_block tlvs).length + (signature_tlv sig cb).length) % 256]
      ++ (signature_tlv sig cb ++ (encode_block tlvs ++ rest)))).length / 256 % 256 = x
    at hsize ⊢
  generalize hy : (hdr ++ ([((encode_block tlvs).length + (signature_tlv sig cb).length)
      / 256 % 256, ((encode_block tlvs).length + (signature_tlv sig cb).length) % 256]
      ++ (signature_tlv sig cb ++ (encode_block tlvs ++ rest)))).length % 256 = y
    at hsize ⊢
  simp only [List.length_append, List.length_set, List.length_cons, List.length_nil]
    at hsize
  have hsl : (signature_tlv sig cb).length < 65536 := by omega
  have hsv := signature_wire_tlv_valid sig cb hsl
  have hl3 : 3 + sig.getKeyId.length + cb.length < 65536 := by
    have := signature_tlv_length sig cb
    split at this <;> omega
  have henc := signature_tlv_encode sig cb hl3
  have hblock : signature_tlv sig cb ++ (encode_block tlvs ++ rest)
      = encode_block (signature_wire_tlv sig cb :: tlvs) ++ rest := by
    simp [encode_block, henc]
  rw [hblock]
  have hstrip := remove_signature_data_block
    (reader_context (some m)
      ((hdr.set 2 x).set 3 y ++ ([((encode_block tlvs).length + (signature_tlv sig cb).length)
        / 256 % 256, ((encode_block tlvs).length + (signature_tlv sig cb).length) % 256]
        ++ (encode_block (signature_wire_tlv sig cb :: tlvs) ++ rest))))
    ((hdr.set 2 x).set 3 y) rest _ _ (signature_wire_tlv sig cb :: tlvs) rfl
    (by rw [message_header_eq m (assemble hdr (some tlvs) rest)]; simp [hoff])
    (by simp only [encode_block, List.length_append, ← henc]; omega)
    (by intro t ht
        rcases List.mem_cons.mp ht with rfl | ht
        · exact hsv
        · exact (hv t ht).1)
    (by show ((hdr.set 2 x).set 3 y ++ _).length < 65536
        simp only [encode_block, List.length_append, List.length_set, List.length_cons,
          List.length_nil, ← henc]
        omega)
  rw [hstrip]
  have hfilter : (signature_wire_tlv sig cb :: tlvs).filter
      (fun t => t.type != RFC7182_MSGTLV_ICV) = tlvs := by
    simp only [List.filter, signature_wire_tlv_type, bne_self_eq_false]
    exact filter_no_signature tlvs (fun t ht => (hv t ht).2)
  rw [hfilter]
  obtain ⟨hf1, hf2, hf3, hf4⟩ := message_header_fields m
    ((hdr.set 2 x).set 3 y ++ ([((encode_block tlvs).length + (signature_tlv sig cb).length)
        / 256 % 256, ((encode_block tlvs).length + (signature_tlv sig cb).length) % 256]
        ++ (encode_block (signature_wire_tlv sig cb :: tlvs) ++ rest)))
  have hg2 : (assemble hdr (some tlvs) rest).getD 2 0 = hdr.getD 2 0 := by
    simp only [assemble]
    exact List.getD_append _ _ _ _ (by omega)
  have hg3 : (assemble hdr (some tlvs) rest).getD 3 0 = hdr.getD 3 0 := by
    simp only [assemble]
    exact List.getD_append _ _ _ _ (by omega)
  rw [hg2, hg3] at hlen
  rw [hg3] at hlen3
  have H := header_canonical hdr
    ([(encode_block tlvs).length / 256, (encode_block tlvs).length % 256]
      ++ (encode_block tlvs ++ rest))
    (if m.has_origaddr then 4 + m.addr_len else 4)
    (if m.has_hoplimit then (if m.has_origaddr then 4 + m.addr_len else 4) + 1
      else (if m.has_origaddr then 4 + m.addr_len else 4))
    x y (assemble hdr (some tlvs) rest).length m.has_hoplimit m.has_hopcount h4
    (by rw [hoff]; exact (message_hop_offsets m _).1)
    (by rw [hoff]; exact (message_hop_offsets m _).2)
    hlen hlen3
  have hdst : stripped_bytes (reader_context (some m)
      ((hdr.set 2 x).set 3 y ++ ([((encode_block tlvs).length + (signature_tlv sig cb).length)
        / 256 % 256, ((encode_block tlvs).length + (signature_tlv sig cb).length) % 256]
        ++ (encode_block (signature_wire_tlv sig cb :: tlvs) ++ rest))))
      ((hdr.set 2 x).set 3 y) (encode_block tlvs) rest
      = signer_copy (some m) (assemble hdr (some tlvs) rest) := by
    have hI1 : 4 ≤ (if m.has_origaddr then 4 + m.addr_len else 4) := by split <;> omega
    have hL : ∀ d2 : List Nat, d2.length = hdr.length →
        (d2 ++ [(encode_block tlvs).length / 256, (encode_block tlvs).length % 256]
          ++ encode_block tlvs ++ rest).length = (assemble hdr (some tlvs) rest).length := by
      intro d2 hd2
      simp only [assemble, List.length_append, hd2, List.length_cons, List.length_nil]
      omega
    have hty : (reader_context (some m)
        ((hdr.set 2 x).set 3 y ++ ([((encode_block tlvs).length
          + (signature_tlv sig cb).length) / 256 % 256,
          ((encode_block tlvs).length + (signature_tlv sig cb).length) % 256]
          ++ (encode_block (signature_wire_tlv sig cb :: tlvs) ++ rest)))).type
        = rfc5444_context_type.RFC5444_CONTEXT_MESSAGE := rfl
    simp only [stripped_bytes, hf3, hf4, hty, signer_copy, or_true, if_true, assemble] at H ⊢
    generalize (if m.has_origaddr = true then 4 + m.addr_len else 4) = i at hI1 H ⊢
    have hi0 : ¬ i = 0 := by omega
    have hi1 : ¬ i + 1 = 0 := by omega
    rcases Bool.eq_false_or_eq_true m.has_hoplimit with h1 | h1 <;>
    rcases Bool.eq_false_or_eq_true m.has_hopcount with h2 | h2
    all_goals simp only [h1, h2, if_true, if_false, Bool.false_eq_true, ne_eq,
      not_true_eq_false, not_false_eq_true, hi0, hi1] at H ⊢
    all_goals simp only [List.append_assoc, List.length_append, List.length_set,
      List.length_cons, List.length_nil, List.cons_append, List.nil_append] at H ⊢
    all_goals exact H
  rw [hdst]
  congr 2
  simp only [signer_copy]
  split <;> split <;> simp

set_option maxRecDepth 100000 in
theorem flag_tlv_keeps_seqno : ∀ b : Nat, b < 256 →
    ((b ||| RFC5444_PKT_FLAG_TLV) &&& RFC5444_PKT_FLAG_SEQNO)
      = (b &&& RFC5444_PKT_FLAG_SEQNO) := by
  decide

set_option maxRecDepth 100000 in
theorem flag_tlv_set_clear : ∀ b : Nat, b < 256 → b &&& RFC5444_PKT_FLAG_TLV = 0 →
    (b ||| RFC5444_PKT_FLAG_TLV) &&& (255 - RFC5444_PKT_FLAG_TLV) = b := by
  decide

theorem packet_header_eq (data out : List Nat)
    (h : out.getD 0 0 &&& RFC5444_PKT_FLAG_SEQNO = data.getD 0 0 &&& RFC5444_PKT_FLAG_SEQNO) :
    (context_header (reader_context none out)).1 = tlvblock_offset none data
    ∧ (context_header (reader_context none out)).2.1 = 0
    ∧ (context_header (reader_context none out)).2.2 = 0 := by
  simp only [context_header, reader_context, tlvblock_offset, h]
  by_cases hs : data.getD 0 0 &&& RFC5444_PKT_FLAG_SEQNO = 0 <;> simp [hs]

theorem packet_offset_pos (data : List Nat) : 1 ≤ tlvblock_offset none data := by
  simp only [tlvblock_offset]
  split <;> omega

theorem strip_splice_packet_block (sig : rfc5444_signature)
    (hdr rest cb : List Nat) (tlvs : List wire_tlv)
    (hoff : hdr.length = tlvblock_offset none (assemble hdr (some tlvs) rest))
    (hflag : (assemble hdr (some tlvs) rest).getD 0 0 &&& RFC5444_PKT_FLAG_TLV ≠ 0)
    (hv : ∀ t ∈ tlvs, t.valid ∧ t.type ≠ RFC7182_MSGTLV_ICV)
    (hne : tlvs ≠ [])
    (hsize : (splice_signature sig none (assemble hdr (some tlvs) rest) cb).length < 65536) :
    _remove_signature_data
        (reader_context none (splice_signature sig none (assemble hdr (some tlvs) rest) cb))
      = some { dst := signer_copy none (assemble hdr (some tlvs) rest),
               len := (assemble hdr (some tlvs) rest).length } := by
  have h1 : 1 ≤ hdr.length := by rw [hoff]; exact packet_offset_pos _
  have hsp := splice_existing_block sig none (assemble hdr (some tlvs) rest) hdr
    (encode_block tlvs ++ rest) cb _ _ rfl hoff (Or.inr hflag)
  have hn : 256 * ((encode_block tlvs).length / 256) + (encode_block tlvs).length % 256
      = (encode_block tlvs).length := by omega
  rw [hn] at hsp
  simp only [] at hsp
  rw [hsp] at hsize ⊢
  simp only [List.length_append, List.length_cons, List.length_nil] at hsize
  have hsl : (signature_tlv sig cb).length < 65536 := by omega
  have hsv := signature_wire_tlv_valid sig cb hsl
  have hl3 : 3 + sig.getKeyId.length + cb.length < 65536 := by
    have := signature_tlv_length sig cb
    split at this <;> omega
  have henc := signature_tlv_encode sig cb hl3
  have hblock : signature_tlv sig cb ++ (encode_block tlvs ++ rest)
      = encode_block (signature_wire_tlv sig cb :: tlvs) ++ rest := by
    simp [encode_block, henc]
  rw [hblock]
  have hb0 : (hdr ++ ([((encode_block tlvs).length + (signature_tlv sig cb).length)
        / 256 % 256, ((encode_block tlvs).length + (signature_tlv sig cb).length) % 256]
        ++ (encode_block (signature_wire_tlv sig cb :: tlvs) ++ rest))).getD 0 0
      = (assemble hdr (some tlvs) rest).getD 0 0 := by
    simp only [assemble]
    rw [List.getD_append _ _ _ _ (by omega), List.getD_append _ _ _ _ (by omega)]
  obtain ⟨hh1, hh2, hh3⟩ := packet_header_eq (assemble hdr (some tlvs) rest) _
    (congrArg (fun b => b &&& RFC5444_PKT_FLAG_SEQNO) hb0)
  have hstrip := remove_signature_data_block
    (reader_context none
      (hdr ++ ([((encode_block tlvs).length + (signature_tlv sig cb).length)
        / 256 % 256, ((encode_block tlvs).length + (signature_tlv sig cb).length) % 256]
        ++ (encode_block (signature_wire_tlv sig cb :: tlvs) ++ rest))))
    hdr rest _ _ (signature_wire_tlv sig cb :: tlvs) rfl
    (by rw [hh1, hoff])
    (by simp only [encode_block, List.length_append, ← henc]; omega)
    (by intro t ht
        rcases List.mem_cons.mp ht with rfl | ht
        · exact hsv
        · exact (hv t ht).1)
    (by show (hdr ++ _).length < 65536
        simp only [encode_block, List.length_append, List.length_cons,
          List.length_nil, ← henc]
        omega)
  rw [hstrip]
  have hfilter : (signature_wire_tlv sig cb :: tlvs).filter
      (fun t => t.type != RFC7182_MSGTLV_ICV) = tlvs := by
    simp only [List.filter, signature_wire_tlv_type, bne_self_eq_false]
    exact filter_no_signature tlvs (fun t ht => (hv t ht).2)
  rw [hfilter]
  have hpos : 0 < (encode_block tlvs).length := by
    cases tlvs with
    | nil => exact absurd rfl hne
    | cons t ts =>
      have := encode_length_ge t
      simp only [encode_block, List.length_append]
      omega
  have hty : (reader_context none
      (hdr ++ ([((encode_block tlvs).length + (signature_tlv sig cb).length)
        / 256 % 256, ((encode_block tlvs).length + (signature_tlv sig cb).length) % 256]
        ++ (encode_block (signature_wire_tlv sig cb :: tlvs) ++ rest)))).type
      = rfc5444_context_type.RFC5444_CONTEXT_PACKET := rfl
  have hdst : stripped_bytes (reader_context none
      (hdr ++ ([((encode_block tlvs).length + (signature_tlv sig cb).length)
        / 256 % 256, ((encode_block tlvs).length + (signature_tlv sig cb).length) % 256]
        ++ (encode_block (signature_wire_tlv sig cb :: tlvs) ++ rest))))
      hdr (encode_block tlvs) rest = assemble hdr (some tlvs) rest := by
    simp only [stripped_bytes, hh2, hh3, hty, hpos, assemble]
    simp
  rw [hdst]
  rfl

theorem stripped_packet_empty (ctx : rfc5444_reader_tlvblock_context) (hdr rest : List Nat)
    (hty : ctx.type = rfc5444_context_type.RFC5444_CONTEXT_PACKET)
    (h1 : (context_header ctx).2.1 = 0) (h2 : (context_header ctx).2.2 = 0) :
    stripped_bytes ctx hdr [] rest
      = hdr.set 0 (hdr.getD 0 0 &&& (255 - RFC5444_PKT_FLAG_TLV)) ++ rest := by
  simp [stripped_bytes, hty, h1, h2]

theorem strip_splice_packet_new (sig : rfc5444_signature) (hdr rest cb : List Nat)
    (hoff : hdr.length = tlvblock_offset none (assemble hdr none rest))
    (hflag : (assemble hdr none rest).getD 0 0 &&& RFC5444_PKT_FLAG_TLV = 0)
    (hbyte : (assemble hdr none rest).getD 0 0 < 256)
    (hsize : (splice_signature sig none (assemble hdr none rest) cb).length < 65536) :
    _remove_signature_data
        (reader_context none (splice_signature sig none (assemble hdr none rest) cb))
      = some { dst := signer_copy none (assemble hdr none rest),
               len := (assemble hdr none rest).length } := by
  have h1 : 1 ≤ hdr.length := by rw [hoff]; exact packet_offset_pos _
  have hg0 : (assemble hdr none rest).getD 0 0 = hdr.getD 0 0 := by
    simp only [assemble]
    exact List.getD_append _ _ _ _ (by omega)
  have hsp : splice_signature sig none (assemble hdr none rest) cb
      = hdr.set 0 (hdr.getD 0 0 ||| RFC5444_PKT_FLAG_TLV)
        ++ ([(signature_tlv sig cb).length / 256 % 256, (signature_tlv sig cb).length % 256]
          ++ (signature_tlv sig cb ++ rest)) := by
    have hnb : ((none : Option rfc5444_writer_message).isNone
        && ((assemble hdr none rest).getD 0 0 &&& RFC5444_PKT_FLAG_TLV == 0)) = true := by
      simp only [Option.isNone_none, Bool.true_and, beq_iff_eq]
      exact hflag
    have hsz := signature_tlv_length sig cb
    unfold splice_signature
    simp only [hnb, if_true]
    simp only [← hsz, Nat.zero_add, ← hoff, hg0]
    have ht : ((assemble hdr none rest).set 0 (hdr.getD 0 0 ||| RFC5444_PKT_FLAG_TLV)).take
        hdr.length = hdr.set 0 (hdr.getD 0 0 ||| RFC5444_PKT_FLAG_TLV) := by
      simp only [assemble]
      rw [List.set_append_left _ _ (by omega)]
      have : (hdr.set 0 (hdr.getD 0 0 ||| RFC5444_PKT_FLAG_TLV)).length = hdr.length := by simp
      rw [← this, List.take_left]
    have hd : (assemble hdr none rest).drop hdr.length = rest := by
      simp only [assemble]
      exact List.drop_left _ _
    rw [ht, hd]
    simp
  rw [hsp] at hsize ⊢
  simp only [List.length_append, List.length_cons, List.length_nil, List.length_set] at hsize
  have hsl : (signature_tlv sig cb).length < 65536 := by omega
  have hsv := signature_wire_tlv_valid sig cb hsl
  have hl3 : 3 + sig.getKeyId.length + cb.length < 65536 := by
    have := signature_tlv_length sig cb
    split at this <;> omega
  have henc := signature_tlv_encode sig cb hl3
  have hblock : signature_tlv sig cb ++ rest
      = encode_block [signature_wire_tlv sig cb] ++ rest := by
    simp [encode_block, henc]
  rw [hblock]
  have hb0 : (hdr.set 0 (hdr.getD 0 0 ||| RFC5444_PKT_FLAG_TLV)
        ++ ([(signature_tlv sig cb).length / 256 % 256, (signature_tlv sig cb).length % 256]
          ++ (encode_block [signature_wire_tlv sig cb] ++ rest))).getD 0 0
      = hdr.getD 0 0 ||| RFC5444_PKT_FLAG_TLV := by
    rw [List.getD_append _ _ _ _ (by simp; omega)]
    cases hdr with
    | nil => simp at h1
    | cons a l => simp
  rw [hg0] at hflag hbyte
  obtain ⟨hh1, hh2, hh3⟩ := packet_header_eq (assemble hdr none rest)
    (hdr.set 0 (hdr.getD 0 0 ||| RFC5444_PKT_FLAG_TLV)
        ++ ([(signature_tlv sig cb).length / 256 % 256, (signature_tlv sig cb).length % 256]
          ++ (encode_block [signature_wire_tlv sig cb] ++ rest)))
    (by rw [hb0, hg0]; exact flag_tlv_keeps_seqno _ hbyte)
  have hstrip := remove_signature_data_block
    (reader_context none
      (hdr.set 0 (hdr.getD 0 0 ||| RFC5444_PKT_FLAG_TLV)
        ++ ([(signature_tlv sig cb).length / 256 % 256, (signature_tlv sig cb).length % 256]
          ++ (encode_block [signature_wire_tlv sig cb] ++ rest))))
    (hdr.set 0 (hdr.getD 0 0 ||| RFC5444_PKT_FLAG_TLV)) rest _ _
    [signature_wire_tlv sig cb] rfl
    (by rw [hh1, ← hoff]; simp)
    (by simp only [encode_block, List.length_append, ← henc, List.length_nil]; omega)
    (by intro t ht
        rcases List.mem_cons.mp ht with rfl | ht
        · exact hsv
        · cases ht)
    (by show (hdr.set 0 _ ++ _).length < 65536
        simp only [encode_block, List.length_append, List.length_cons, List.length_set,
          List.length_nil, ← henc]
        omega)
  rw [hstrip]
  have hfilter : [signature_wire_tlv sig cb].filter
      (fun t => t.type != RFC7182_MSGTLV_ICV) = [] := by
    simp [List.filter, signature_wire_tlv_type]
  rw [hfilter]
  have hty : (reader_context none
      (hdr.set 0 (hdr.getD 0 0 ||| RFC5444_PKT_FLAG_TLV)
        ++ ([(signature_tlv sig cb).length / 256 % 256, (signature_tlv sig cb).length % 256]
          ++ (encode_block [signature_wire_tlv sig cb] ++ rest)))).type
      = rfc5444_context_type.RFC5444_CONTEXT_PACKET := rfl
  have hdst : stripped_bytes (reader_context none
      (hdr.set 0 (hdr.getD 0 0 ||| RFC5444_PKT_FLAG_TLV)
        ++ ([(signature_tlv sig cb).length / 256 % 256, (signature_tlv sig cb).length % 256]
          ++ (encode_block [signature_wire_tlv sig cb] ++ rest))))
      (hdr.set 0 (hdr.getD 0 0 ||| RFC5444_PKT_FLAG_TLV)) (encode_block []) rest
      = assemble hdr none rest := by
    have he : encode_block [] = [] := rfl
    rw [he, stripped_packet_empty _ _ _ hty hh2 hh3]
    cases hdr with
    | nil => simp at h1
    | cons a l =>
      simp only [List.getD_cons_zero] at hflag hbyte
      simp [flag_tlv_set_clear a hbyte hflag, assemble]
  rw [hdst]
  rfl

theorem tokenize_step (t : wire_tlv) (hv : t.valid) (pre post : List Nat) (fuel len : Nat)
    (hlen : len ≠ 0) :
    tokenize_block (pre ++ (t.encode ++ post)) (fuel + 1) pre.length len
      = if t.type = RFC7182_MSGTLV_ICV then
          t.entry :: tokenize_block (pre ++ (t.encode ++ post)) fuel
            (pre.length + t.encode.length) (len - t.encode.length)
        else tokenize_block (pre ++ (t.encode ++ post)) fuel
            (pre.length + t.encode.length) (len - t.encode.length) := by
  obtain ⟨h1, h2⟩ := hv
  have hd : ∀ k, (pre ++ (t.encode ++ post)).drop (pre.length + k)
      = (t.encode ++ post).drop k := by
    intro k; exact List.drop_append k
  have hg0 : (pre ++ (t.encode ++ post)).getD pre.length 0 = (t.encode ++ post).getD 0 0 := by
    have := getD_append_shift pre (t.encode ++ post) 0
    simpa using this
  conv_lhs => unfold tokenize_block
  simp only [hlen, if_false, Nat.add_assoc, getD_append_shift, hd, hg0]
  generalize hsz : t.encode.length = sz
  generalize hsrc : pre ++ (t.encode ++ post) = src
  unfold wire_tlv.encode at h2 hsz ⊢
  unfold wire_tlv.entry
  by_cases ht : t.flags &&& RFC5444_TLV_FLAG_TYPEEXT ≠ 0 <;>
  by_cases hval : t.flags &&& RFC5444_TLV_FLAG_VALUE ≠ 0 <;>
  by_cases he : t.flags &&& RFC5444_TLV_FLAG_EXTVALUE ≠ 0
  all_goals simp [ht, hval, he] at h1 h2 hsz ⊢
  all_goals (try simp only [Nat.div_add_mod, List.take_left])
  all_goals (split <;> congr 2 <;> omega)

theorem tokenize_encoded_block :
    ∀ (tlvs : List wire_tlv), (∀ t ∈ tlvs, t.valid) →
    ∀ (pre post : List Nat) (fuel : Nat), tlvs.length ≤ fuel →
      tokenize_block (pre ++ (encode_block tlvs ++ post)) fuel pre.length
          (encode_block tlvs).length
        = (tlvs.filter (fun t => t.type == RFC7182_MSGTLV_ICV)).map wire_tlv.entry := by
  intro tlvs
  induction tlvs with
  | nil =>
    intro _ pre post fuel _
    cases fuel <;> simp [tokenize_block, encode_block]
  | cons t ts ih =>
    intro hv pre post fuel hfuel
    have hvt := hv t (List.mem_cons_self _ _)
    have hvts : ∀ x ∈ ts, x.valid := fun x hx => hv x (List.mem_cons_of_mem _ hx)
    obtain ⟨f, rfl⟩ : ∃ f, fuel = f + 1 := ⟨fuel - 1, by simp at hfuel; omega⟩
    have h2 := encode_length_ge t
    have hsrc : pre ++ (encode_block (t :: ts) ++ post)
        = pre ++ (t.encode ++ (encode_block ts ++ post)) := by simp [encode_block]
    have hsrc2 : pre ++ (t.encode ++ (encode_block ts ++ post))
        = (pre ++ t.encode) ++ (encode_block ts ++ post) := by simp
    have hl : (encode_block (t :: ts)).length - t.encode.length = (encode_block ts).length := by
      simp [encode_block]
    have hp : pre.length + t.encode.length = (pre ++ t.encode).length := by simp
    rw [hsrc, tokenize_step t hvt pre _ f _ (by simp only [encode_block, List.length_append]; omega),
      hl, hsrc2, hp, ih hvts (pre ++ t.encode) post f (by simp at hfuel; omega)]
    by_cases hicv : t.type = RFC7182_MSGTLV_ICV
    · simp [hicv, List.filter]
    · have hb : (t.type == RFC7182_MSGTLV_ICV) = false := by simpa using hicv
      simp [hicv, hb, List.filter]

theorem cb_add_signature_success (sig : rfc5444_signature) (local_socket : Option (List Nat))
    (msg : Option rfc5444_writer_message) (data out : List Nat)
    (h : _cb_add_signature sig local_socket msg data = some (0, out)) :
    ∃ address crypt hash cb max_size,
      (if sig.source_specific then local_socket else some []) = some address
      ∧ sig.crypt = some crypt ∧ sig.hash = some hash
      ∧ crypt.crypt hash (signer_static_buffer sig address msg data) = some cb
      ∧ crypt.getSize = some max_size ∧ cb.length ≤ max_size
      ∧ out = splice_signature sig msg data cb := by
  unfold _cb_add_signature at h
  cases ha : (if sig.source_specific then local_socket else some []) with
  | none => rw [ha] at h; simp at h
  | some address =>
    rw [ha] at h
    cases hc : sig.crypt with
    | none => simp [hc] at h
    | some crypt =>
      cases hh : sig.hash with
      | none => simp [hc, hh] at h
      | some hash =>
        simp only [hc, hh] at h
        cases hcb : crypt.crypt hash (signer_static_buffer sig address msg data) with
        | none => simp [hcb] at h
        | some cb =>
          simp only [hcb] at h
          cases hm : crypt.getSize with
          | none => simp [hm] at h
          | some max_size =>
            simp only [hm] at h
            by_cases hgt : cb.length > max_size
            · simp [hgt] at h
            · simp only [hgt, if_false, Option.some.injEq, Prod.mk.injEq, true_and] at h
              exact ⟨address, crypt, hash, cb, max_size, rfl, rfl, rfl, hcb, hm,
                by omega, h.symm⟩

theorem strip_splice (sig : rfc5444_signature) (msg : Option rfc5444_writer_message)
    (hdr rest cb : List Nat) (block : Option (List wire_tlv))
    (hoff : hdr.length = tlvblock_offset msg (assemble hdr block rest))
    (hblock : block.isSome = (msg.isSome
      || decide ((assemble hdr block rest).getD 0 0 &&& RFC5444_PKT_FLAG_TLV ≠ 0)))
    (hv : ∀ tlvs, block = some tlvs → ∀ t ∈ tlvs, t.valid ∧ t.type ≠ RFC7182_MSGTLV_ICV)
    (hne : msg = none → block ≠ some [])
    (hlen : msg.isSome = true →
      256 * (assemble hdr block rest).getD 2 0 + (assemble hdr block rest).getD 3 0
          = (assemble hdr block rest).length
        ∧ (assemble hdr block rest).getD 3 0 < 256)
    (hbyte : msg = none → (assemble hdr block rest).getD 0 0 < 256)
    (hsize : (splice_signature sig msg (assemble hdr block rest) cb).length < 65536) :
    _remove_signature_data
        (reader_context msg (splice_signature sig msg (assemble hdr block rest) cb))
      = some { dst := signer_copy msg (assemble hdr block rest),
               len := (assemble hdr block rest).length } := by
  cases msg with
  | some m =>
    cases block with
    | none => simp at hblock
    | some tlvs =>
      obtain ⟨h1, h2⟩ := hlen rfl
      exact strip_splice_message sig m hdr rest cb tlvs hoff (hv tlvs rfl) h1 h2 hsize
  | none =>
    cases block with
    | none =>
      have hflag : (assemble hdr none rest).getD 0 0 &&& RFC5444_PKT_FLAG_TLV = 0 := by
        simpa using hblock
      exact strip_splice_packet_new sig hdr rest cb hoff hflag (hbyte rfl) hsize
    | some tlvs =>
      have hflag : (assemble hdr (some tlvs) rest).getD 0 0 &&& RFC5444_PKT_FLAG_TLV ≠ 0 := by
        simpa using hblock
      exact strip_splice_packet_block sig hdr rest cb tlvs hoff hflag (hv tlvs rfl)
        (fun h => hne rfl (by rw [h])) hsize

theorem signature_entry (sig : rfc5444_signature) (cb : List Nat) :
    (signature_wire_tlv sig cb).entry
      = { type_ext := if sig.source_specific then RFC7182_ICV_EXT_SRCSPEC_CRYPTHASH
            else RFC7182_ICV_EXT_CRYPTHASH,
          single_value :=
            [sig.key.hash_function, sig.key.crypt_function, sig.getKeyId.length % 256]
              ++ sig.getKeyId ++ cb } := by
  unfold wire_tlv.entry signature_wire_tlv
  by_cases h1 : 3 + sig.getKeyId.length + cb.length > 255 <;>
    simp [h1, RFC5444_TLV_FLAG_TYPEEXT, RFC5444_TLV_FLAG_VALUE, RFC5444_TLV_FLAG_EXTVALUE]

theorem signature_entry_facts (sig : rfc5444_signature) (cb : List Nat)
    (hk : sig.getKeyId.length ≤ 255) (hcb : cb ≠ []) :
    tlv_ignored (signature_wire_tlv sig cb).entry = false
    ∧ tlv_sigkey (signature_wire_tlv sig cb).entry = sig.key
    ∧ tlv_key_id_len (signature_wire_tlv sig cb).entry = sig.getKeyId.length
    ∧ tlv_key_id (signature_wire_tlv sig cb).entry = sig.getKeyId
    ∧ tlv_signature (signature_wire_tlv sig cb).entry = cb
    ∧ (signature_wire_tlv sig cb).entry.single_value.take
        (3 + tlv_key_id_len (signature_wire_tlv sig cb).entry)
        = [sig.key.hash_function, sig.key.crypt_function, sig.getKeyId.length % 256]
            ++ sig.getKeyId
    ∧ decide ((signature_wire_tlv sig cb).entry.type_ext = RFC7182_ICV_EXT_SRCSPEC_CRYPTHASH)
        = sig.source_specific := by
  have hkm : sig.getKeyId.length % 256 = sig.getKeyId.length := by omega
  have hcl : 0 < cb.length := List.length_pos.mpr hcb
  rw [signature_entry]
  have hlen : tlv_key_id_len
      { type_ext := if sig.source_specific then RFC7182_ICV_EXT_SRCSPEC_CRYPTHASH
          else RFC7182_ICV_EXT_CRYPTHASH,
        single_value :=
          [sig.key.hash_function, sig.key.crypt_function, sig.getKeyId.length % 256]
            ++ sig.getKeyId ++ cb } = sig.getKeyId.length := by
    simp [tlv_key_id_len, hkm]
  refine ⟨?_, ?_, hlen, ?_, ?_, ?_, ?_⟩
  · simp only [tlv_ignored, hlen, rfc5444_reader_tlvblock_entry.length]
    cases sig.source_specific <;>
      simp [RFC7182_ICV_EXT_CRYPTHASH, RFC7182_ICV_EXT_SRCSPEC_CRYPTHASH] <;> omega
  · simp [tlv_sigkey]
  · simp only [tlv_key_id, hlen]
    simp
  · simp only [tlv_signature, hlen]
    rw [Nat.add_comm 3]
    simp
  · simp only [hlen]
    rw [Nat.add_comm 3]
    simp
  · cases sig.source_specific <;>
      simp [RFC7182_ICV_EXT_CRYPTHASH, RFC7182_ICV_EXT_SRCSPEC_CRYPTHASH]

theorem check_by_crypt_same (crypt : crypt_callback) (hash : rfc5444_sig_hash)
    (src cb : List Nat) (h : crypt hash src = some cb) :
    _cb_check_by_crypt crypt hash cb src = true := by
  simp [_cb_check_by_crypt, h]

theorem splice_message_structure (sig : rfc5444_signature) (m : rfc5444_writer_message)
    (hdr rest cb : List Nat) (tlvs : List wire_tlv)
    (hoff : hdr.length = tlvblock_offset (some m) (assemble hdr (some tlvs) rest))
    (hsize : (splice_signature sig (some m) (assemble hdr (some tlvs) rest) cb).length
      < 65536) :
    ∃ x y c0 c1,
      splice_signature sig (some m) (assemble hdr (some tlvs) rest) cb
        = (hdr.set 2 x).set 3 y
          ++ ([c0, c1] ++ (encode_block (signature_wire_tlv sig cb :: tlvs) ++ rest))
      ∧ 256 * c0 + c1 = (encode_block (signature_wire_tlv sig cb :: tlvs)).length
      ∧ (signature_wire_tlv sig cb).valid := by
  have h4 : 4 ≤ hdr.length := by rw [hoff]; exact message_offset_ge m _
  have hsp := splice_existing_block sig (some m) (assemble hdr (some tlvs) rest) hdr
    (encode_block tlvs ++ rest) cb _ _ rfl hoff (Or.inl (by simp))
  have hn : 256 * ((encode_block tlvs).length / 256) + (encode_block tlvs).length % 256
      = (encode_block tlvs).length := by omega
  rw [hn] at hsp
  simp only [] at hsp
  have h2 : 2 < hdr.length := by omega
  rw [hsp] at hsize ⊢
  rw [List.set_append_left _ _ h2, List.set_append_left _ _ (by simp; omega)] at hsize ⊢
  simp only [List.length_append, List.length_set, List.length_cons, List.length_nil]
    at hsize
  have hsl : (signature_tlv sig cb).length < 65536 := by omega
  have hsv := signature_wire_tlv_valid sig cb hsl
  have hl3 : 3 + sig.getKeyId.length + cb.length < 65536 := by
    have := signature_tlv_length sig cb
    split at this <;> omega
  have henc := signature_tlv_encode sig cb hl3
  have hblock : signature_tlv sig cb ++ (encode_block tlvs ++ rest)
      = encode_block (signature_wire_tlv sig cb :: tlvs) ++ rest := by
    simp [encode_block, henc]
  rw [hblock]
  refine ⟨_, _, _, _, rfl, ?_, hsv⟩
  simp only [encode_block, List.length_append, ← henc]
  omega

theorem splice_message_tokens (sig : rfc5444_signature) (m : rfc5444_writer_message)
    (hdr rest cb : List Nat) (tlvs : List wire_tlv)
    (hoff : hdr.length = tlvblock_offset (some m) (assemble hdr (some tlvs) rest))
    (hv : ∀ t ∈ tlvs, t.valid ∧ t.type ≠ RFC7182_MSGTLV_ICV)
    (hsize : (splice_signature sig (some m) (assemble hdr (some tlvs) rest) cb).length
      < 65536) :
    reader_signature_tlvs (some m)
        (splice_signature sig (some m) (assemble hdr (some tlvs) rest) cb)
      = [(signature_wire_tlv sig cb).entry] := by
  obtain ⟨x, y, c0, c1, hout, hc, hsv⟩ :=
    splice_message_structure sig m hdr rest cb tlvs hoff hsize
  have hoff2 : tlvblock_offset (some m)
      (splice_signature sig (some m) (assemble hdr (some tlvs) rest) cb)
      = ((hdr.set 2 x).set 3 y).length := by
    simp only [List.length_set]
    rw [hoff]
    rfl
  unfold reader_signature_tlvs
  simp only [Option.isNone_some, Bool.false_and, Bool.false_eq_true, if_false, hoff2]
  rw [hout]
  have hg0 := getD_append_shift ((hdr.set 2 x).set 3 y)
    ([c0, c1] ++ (encode_block (signature_wire_tlv sig cb :: tlvs) ++ rest)) 0
  have hg1 := getD_append_shift ((hdr.set 2 x).set 3 y)
    ([c0, c1] ++ (encode_block (signature_wire_tlv sig cb :: tlvs) ++ rest)) 1
  simp only [Nat.add_zero, List.cons_append, List.nil_append, List.getD_cons_zero,
    List.getD_cons_succ] at hg0 hg1
  simp only [List.cons_append, List.nil_append]
  rw [hg0, hg1, hc]
  have hsrc : (hdr.set 2 x).set 3 y
      ++ c0 :: c1 :: (encode_block (signature_wire_tlv sig cb :: tlvs) ++ rest)
      = ((hdr.set 2 x).set 3 y ++ [c0, c1])
        ++ (encode_block (signature_wire_tlv sig cb :: tlvs) ++ rest) := by simp
  have hp : ((hdr.set 2 x).set 3 y).length + 2 = ((hdr.set 2 x).set 3 y ++ [c0, c1]).length := by
    simp
  rw [hsrc, hp, tokenize_encoded_block (signature_wire_tlv sig cb :: tlvs)
    (by intro t ht
        rcases List.mem_cons.mp ht with rfl | ht
        · exact hsv
        · exact (hv t ht).1)
    _ _ _ (by
      have := encode_block_length_ge (signature_wire_tlv sig cb :: tlvs)
      simp only [List.length_append]
      omega)]
  have hf : (signature_wire_tlv sig cb :: tlvs).filter
      (fun t => t.type == RFC7182_MSGTLV_ICV) = [signature_wire_tlv sig cb] := by
    simp only [List.filter, signature_wire_tlv_type, beq_self_eq_true]
    congr 1
    apply List.filter_eq_nil_iff.mpr
    intro t ht
    simpa using (hv t ht).2
  rw [hf]
  rfl

/-! ## Round trip of signing and verification: claims -/

/-- C10 (strip undoes splice, as amended). Let the buffer be a header of the length the
flags announce, then (for a message always, for a packet iff its has-TLV flag is set) a
TLV block of valid TLVs none of which is a signature TLV, then the remaining bytes; for
a message let bytes 2..3 hold the size, for a packet let an existing TLV block be
non-empty. If `_cb_add_signature` succeeds with a result below 65536 bytes, then
`_remove_signature_data` on the result yields exactly the copy the signer hashed
(`signer_copy`: the original bytes with the hop-limit and hop-count bytes set to zero)
and returns the original size; and the signable buffer of the signer is the source
address, then hash-id, crypt-id, key-id length and key-id, then that copy. -/
theorem strip_undoes_splice (sig : rfc5444_signature) (local_socket : Option (List Nat))
    (msg : Option rfc5444_writer_message) (hdr rest : List Nat)
    (block : Option (List wire_tlv)) (out : List Nat)
    (hsign : _cb_add_signature sig local_socket msg (assemble hdr block rest) = some (0, out))
    (hoff : hdr.length = tlvblock_offset msg (assemble hdr block rest))
    (hblock : block.isSome = (msg.isSome
      || decide ((assemble hdr block rest).getD 0 0 &&& RFC5444_PKT_FLAG_TLV ≠ 0)))
    (hv : ∀ tlvs, block = some tlvs → ∀ t ∈ tlvs, t.valid ∧ t.type ≠ RFC7182_MSGTLV_ICV)
    (hne : msg = none → block ≠ some [])
    (hlen : msg.isSome = true →
      256 * (assemble hdr block rest).getD 2 0 + (assemble hdr block rest).getD 3 0
          = (assemble hdr block rest).length
        ∧ (assemble hdr block rest).getD 3 0 < 256)
    (hbyte : msg = none → (assemble hdr block rest).getD 0 0 < 256)
    (hsize : out.length < 65536) :
    _remove_signature_data (reader_context msg out)
        = some { dst := signer_copy msg (assemble hdr block rest),
                 len := (assemble hdr block rest).length }
    ∧ ∀ address : List Nat,
        signer_static_buffer sig address msg (assemble hdr block rest)
          = address
            ++ [sig.key.hash_function, sig.key.crypt_function, sig.getKeyId.length % 256]
            ++ sig.getKeyId ++ signer_copy msg (assemble hdr block rest) := by
  obtain ⟨address, crypt, hash, cb, max_size, _, _, _, _, _, _, hout⟩ :=
    cb_add_signature_success sig local_socket msg _ out hsign
  subst hout
  exact ⟨strip_splice sig msg hdr rest cb block hoff hblock hv hne hlen hbyte hsize,
    fun _ => rfl⟩

/-- Instance of C10: the sample message signed with identity hash and crypt. -/
theorem strip_undoes_splice_witness :
    _cb_add_signature (identity_policy false true [] _cb_sigid_okay) none
        (some plain_message) (assemble [1, 3, 0, 6] (some []) []) = some (0, signed_message)
    ∧ _remove_signature_data (reader_context (some plain_message) signed_message)
        = some { dst := signer_copy (some plain_message) (assemble [1, 3, 0, 6] (some []) []),
                 len := (assemble [1, 3, 0, 6] (some []) []).length } :=
  ⟨by decide,
   (strip_undoes_splice (identity_policy false true [] _cb_sigid_okay) none
      (some plain_message) [1, 3, 0, 6] [] (some []) signed_message (by decide) (by decide)
      (by decide) (by intro tlvs h t ht; cases h; cases ht) (by intro h; cases h)
      (by intro _; decide) (by intro h; cases h) (by decide)).1⟩

/-- Counterexample to C10 as stated: the packet `[4, 0, 0]` has the has-TLV flag set and
a well-formed TLV block of length 0 without signature TLV. Signing succeeds; stripping
the signed packet yields the single byte `[0]` (block header removed, flag cleared),
not the 3 bytes the signer hashed. -/
theorem strip_after_splice_drops_empty_packet_block :
    assemble [4] (some []) [] = empty_block_packet
    ∧ (_cb_add_signature (identity_policy false true [] _cb_sigid_okay) none none
        empty_block_packet).map (fun r => r.1) = some 0
    ∧ (_cb_add_signature (identity_policy false true [] _cb_sigid_okay) none none
        empty_block_packet).bind (fun r => _remove_signature_data (reader_context none r.2))
        = some { dst := [0], len := 1 }
    ∧ signer_copy none empty_block_packet = [4, 0, 0] := by
  decide

/-- C1 (sign/verify round trip, as amended). Let a message consist of a header of the
length its flags announce, a TLV block of valid TLVs without signature TLV and the
remaining bytes, with bytes 2..3 holding its size. Let the only registered policy apply
to the message type, have a key-id of at most 255 bytes that its key-id verifier
accepts, use the default verify, and have a crypt transform that returns at least one
byte for the signable buffer; let the receiver see the signer's source address. If `_cb_add_signature`
succeeds with a result below 65536 bytes, then `_cb_signature_tlv` on the produced
bytes (tokenized by the reader) returns `RFC5444_OKAY` and leaves the policy with
`verified = true`, whatever `drop_if_invalid` is. -/
theorem sign_then_verify (sig : rfc5444_signature) (local_socket : Option (List Nat))
    (input_address : List Nat) (m : rfc5444_writer_message) (hdr rest : List Nat)
    (tlvs : List wire_tlv) (out : List Nat)
    (hsign : _cb_add_signature sig local_socket (some m) (assemble hdr (some tlvs) rest)
      = some (0, out))
    (hoff : hdr.length = tlvblock_offset (some m) (assemble hdr (some tlvs) rest))
    (hv : ∀ t ∈ tlvs, t.valid ∧ t.type ≠ RFC7182_MSGTLV_ICV)
    (hlen : 256 * (assemble hdr (some tlvs) rest).getD 2 0
        + (assemble hdr (some tlvs) rest).getD 3 0 = (assemble hdr (some tlvs) rest).length
      ∧ (assemble hdr (some tlvs) rest).getD 3 0 < 256)
    (hsize : out.length < 65536)
    (hmatch : sig.is_matching_signature (m.type : Int) = true)
    (hkid : sig.getKeyId.length ≤ 255)
    (hid : sig.verify_id sig.getKeyId = rfc5444_sigid_check.RFC5444_SIGID_OKAY)
    (hcheck : ∀ crypt, sig.crypt = some crypt → crypt.check = _cb_check_by_crypt)
    (hnonempty : ∀ crypt hash address, sig.crypt = some crypt → sig.hash = some hash →
      crypt.crypt hash (signer_static_buffer sig address (some m)
        (assemble hdr (some tlvs) rest)) ≠ some [])
    (haddr : sig.source_specific = true → local_socket = some input_address) :
    ∃ sig1, _cb_signature_tlv [sig] input_address (reader_signature_tlvs (some m) out)
        (reader_context (some m) out) = some (rfc5444_result.RFC5444_OKAY, [sig1])
      ∧ sig1.verified = true := by
  obtain ⟨address, crypt, hash, cb, max_size, haddr1, hc, hh, hcb, _, _, hout⟩ :=
    cb_add_signature_success sig local_socket (some m) _ out hsign
  subst hout
  have hcbne : cb ≠ [] := fun h => hnonempty crypt hash _ hc hh (by rw [hcb, h])
  have hstrip := strip_splice_message sig m hdr rest cb tlvs hoff hv hlen.1 hlen.2 hsize
  have htok := splice_message_tokens sig m hdr rest cb tlvs hoff hv hsize
  obtain ⟨f1, f2, f3, f4, f5, f6, f7⟩ := signature_entry_facts sig cb hkid hcbne
  have hres : registry_resolved [sig] := by
    intro s hs
    simp only [List.mem_singleton] at hs
    subst hs
    simp [hc, hh]
  have hmt : context_msg_type (reader_context (some m)
      (splice_signature sig (some m) (assemble hdr (some tlvs) rest) cb)) = (m.type : Int) :=
    rfl
  have hchk : tlv_checked_by (m.type : Int) (signature_wire_tlv sig cb).entry sig = true := by
    simp [tlv_checked_by, f1, policy_applies, f2, hmatch, f7, f4, hid]
  have hnd : ∀ tlv ∈ [(signature_wire_tlv sig cb).entry], ∀ s ∈ [sig],
      tlv_dropped_by (context_msg_type (reader_context (some m)
        (splice_signature sig (some m) (assemble hdr (some tlvs) rest) cb))) tlv s
        = false := by
    intro tlv ht s hs
    simp only [List.mem_singleton] at ht hs
    subst ht; subst hs
    simp [tlv_dropped_by, f4, hid]
  have hrun := cb_signature_tlv_no_drop [sig] input_address
    [(signature_wire_tlv sig cb).entry] _ _ hstrip hres hnd
  have haddr2 : address = if sig.source_specific then input_address else [] := by
    cases hs : sig.source_specific with
    | true =>
      rw [hs] at haddr1
      simp only [if_true] at haddr1
      rw [haddr hs] at haddr1
      simpa using haddr1.symm
    | false =>
      rw [hs] at haddr1
      simpa using haddr1.symm
  have hstatic : tlv_static_buffer input_address (signature_wire_tlv sig cb).entry
      { dst := signer_copy (some m) (assemble hdr (some tlvs) rest),
        len := (assemble hdr (some tlvs) rest).length }
      = signer_static_buffer sig address (some m) (assemble hdr (some tlvs) rest) := by
    have hl : (signer_copy (some m) (assemble hdr (some tlvs) rest)).length
        = (assemble hdr (some tlvs) rest).length := by
      simp only [signer_copy]
      split <;> split <;> simp
    have hx : (decide ((signature_wire_tlv sig cb).entry.type_ext
        = RFC7182_ICV_EXT_SRCSPEC_CRYPTHASH) = true)
        ↔ sig.source_specific = true := by rw [f7]
    simp only [tlv_static_buffer, f6, signer_static_buffer, haddr2, ← hl, List.take_length]
    simp only [decide_eq_true_eq] at hx
    by_cases hs : sig.source_specific = true
    · simp [hs, hx.mpr hs]
    · have hs2 : ¬ (signature_wire_tlv sig cb).entry.type_ext
          = RFC7182_ICV_EXT_SRCSPEC_CRYPTHASH := fun h => hs (hx.mp h)
      simp [hs, hs2]
  have hver : verify_step input_address
      { dst := signer_copy (some m) (assemble hdr (some tlvs) rest),
        len := (assemble hdr (some tlvs) rest).length }
      (signature_wire_tlv sig cb).entry sig = true := by
    simp only [verify_step, hc, hh, hcheck crypt hc, f5, hstatic]
    exact check_by_crypt_same _ _ _ _ hcb
  have hfin := policy_final_last (m.type : Int) input_address
    { dst := signer_copy (some m) (assemble hdr (some tlvs) rest),
      len := (assemble hdr (some tlvs) rest).length }
    [] [] (signature_wire_tlv sig cb).entry sig hchk (by intro x hx; cases hx)
  rw [hver] at hfin
  simp only [List.nil_append] at hfin
  rw [htok, hrun, hmt]
  refine ⟨_, ?_, hfin⟩
  simp [hfin]

/-- Instance of C1: the sample message under the mandatory identity policy. -/
theorem sign_then_verify_witness :
    ∃ sig1, _cb_signature_tlv [identity_policy false true [] _cb_sigid_okay] []
        (reader_signature_tlvs (some plain_message) signed_message)
        (reader_context (some plain_message) signed_message)
        = some (rfc5444_result.RFC5444_OKAY, [sig1])
      ∧ sig1.verified = true :=
  sign_then_verify (identity_policy false true [] _cb_sigid_okay) none [] plain_message
    [1, 3, 0, 6] [] [] signed_message (by decide) (by decide)
    (by intro t ht; cases ht) (by decide) (by decide) rfl (by decide) rfl
    (by intro crypt h; cases h; rfl)
    (by intro crypt hash address hc hh; cases hc; cases hh
        simp [identity_crypt_sized, _identity_crypt, _cb_identity_crypt, _identity_hash,
          _cb_identity_hash, signer_static_buffer])
    (by intro h; cases h)

/-- Counterexample to C1 as stated: an active mandatory policy whose crypt transform
returns an empty signature of at most its declared maximum size signs the sample
message successfully, but the signature TLV it writes (value of 3 bytes) is skipped by
the verification as too short, so the signed message is dropped with
`verified = false`. -/
theorem empty_signature_round_trip_is_dropped :
    _cb_add_signature empty_signature_policy none (some plain_message) unsigned_message
      = some (0, [1, 3, 0, 13, 0, 7, 5, 144, 1, 3, 0, 9, 0])
    ∧ reader_signature_tlvs (some plain_message) [1, 3, 0, 13, 0, 7, 5, 144, 1, 3, 0, 9, 0]
      = [{ type_ext := RFC7182_ICV_EXT_CRYPTHASH, single_value := [0, 9, 0] }]
    ∧ (_cb_signature_tlv [empty_signature_policy] []
        (reader_signature_tlvs (some plain_message)
          [1, 3, 0, 13, 0, 7, 5, 144, 1, 3, 0, 9, 0])
        (reader_context (some plain_message)
          [1, 3, 0, 13, 0, 7, 5, 144, 1, 3, 0, 9, 0])).map
        (fun r => (r.1, r.2.map (fun sig => sig.verified)))
      = some (rfc5444_result.RFC5444_DROP_MESSAGE, [false]) := by
  decide

/-! ## Strip operation: the written bytes in detail -/

theorem getD_set_eq (l : List Nat) (j a i d : Nat) :
    (l.set j a).getD i d = if i = j ∧ j < l.length then a else l.getD i d := by
  simp only [List.getD_eq_getElem?_getD, List.getElem?_set]
  by_cases h : j = i
  · subst h
    by_cases h2 : j < l.length
    · simp [h2]
    · simp [h2]
      have : l[j]? = none := List.getElem?_eq_none (by omega)
      simp [this]
  · have h3 : ¬ i = j := fun e => h e.symm
    simp [h, h3]

theorem context_header_message (ctx : rfc5444_reader_tlvblock_context)
    (h : ctx.type = rfc5444_context_type.RFC5444_CONTEXT_MESSAGE) :
    context_header ctx
      = (4 + (if ctx.has_origaddr then ctx.addr_len else 0)
            + (if ctx.has_hoplimit then 1 else 0) + (if ctx.has_hopcount then 1 else 0)
            + (if ctx.has_seqno then 2 else 0),
         if ctx.has_hoplimit then 4 + (if ctx.has_origaddr then ctx.addr_len else 0) else 0,
         if ctx.has_hopcount then
           4 + (if ctx.has_origaddr then ctx.addr_len else 0)
             + (if ctx.has_hoplimit then 1 else 0)
         else 0) := by
  unfold context_header
  rw [h]
  cases ctx.has_origaddr <;> cases ctx.has_hoplimit <;> cases ctx.has_hopcount <;>
    cases ctx.has_seqno <;> simp

theorem context_header_packet (ctx : rfc5444_reader_tlvblock_context)
    (h : ctx.type = rfc5444_context_type.RFC5444_CONTEXT_PACKET) :
    context_header ctx = (if ctx.has_pktseqno then 3 else 1, 0, 0) := by
  unfold context_header
  rw [h]

theorem context_header_message_ge (ctx : rfc5444_reader_tlvblock_context)
    (h : ctx.type = rfc5444_context_type.RFC5444_CONTEXT_MESSAGE) :
    4 ≤ (context_header ctx).1 := by
  rw [context_header_message ctx h]
  simp only
  omega

theorem context_type_cases (ctx : rfc5444_reader_tlvblock_context) :
    ctx.type = rfc5444_context_type.RFC5444_CONTEXT_PACKET
      ∨ ctx.type = rfc5444_context_type.RFC5444_CONTEXT_MESSAGE := by
  cases ctx.type <;> simp

theorem stripped_bytes_length (ctx : rfc5444_reader_tlvblock_context)
    (hdr kept rest : List Nat) :
    (stripped_bytes ctx hdr kept rest).length
      = hdr.length
        + (if 0 < kept.length
              ∨ ctx.type = rfc5444_context_type.RFC5444_CONTEXT_MESSAGE then
            2 + kept.length else 0)
        + rest.length := by
  unfold stripped_bytes
  simp only []
  split_ifs <;> simp <;> omega

theorem stripped_bytes_drop (ctx : rfc5444_reader_tlvblock_context)
    (hdr kept rest : List Nat) (hhdr : hdr.length = (context_header ctx).1) :
    (stripped_bytes ctx hdr kept rest).drop hdr.length
      = (if 0 < kept.length
            ∨ ctx.type = rfc5444_context_type.RFC5444_CONTEXT_MESSAGE then
          [kept.length / 256, kept.length % 256] ++ kept else [])
        ++ rest := by
  rcases context_type_cases ctx with hty | hty
  · have hne : ¬ ctx.type = rfc5444_context_type.RFC5444_CONTEXT_MESSAGE := by
      rw [hty]; simp
    unfold stripped_bytes
    rw [context_header_packet ctx hty]
    simp only [hne, or_false, if_false, ne_eq, not_true_eq_false]
    by_cases hk : 0 < kept.length
    · simp [hk]
    · simp [hk]
  · have h4 := context_header_message_ge ctx hty
    unfold stripped_bytes
    simp only [hty, or_true, if_true]
    rw [List.drop_set_of_lt _ _ (by omega), List.drop_set_of_lt _ _ (by omega)]
    have hl : ∀ (a b : Nat) (l : List Nat), (l.set a b).length = l.length := by
      intro a b l; simp
    have hlen : (if (context_header ctx).2.2 ≠ 0 then
        (if (context_header ctx).2.1 ≠ 0 then hdr.set (context_header ctx).2.1 0
          else hdr).set (context_header ctx).2.2 0
        else (if (context_header ctx).2.1 ≠ 0 then hdr.set (context_header ctx).2.1 0
          else hdr)).length = hdr.length := by
      split_ifs <;> simp
    simp only [List.append_assoc]
    rw [← hlen, List.drop_left]

theorem hops_length (a b : Nat) (hdr : List Nat) :
    (if b ≠ 0 then (if a ≠ 0 then hdr.set a 0 else hdr).set b 0
      else (if a ≠ 0 then hdr.set a 0 else hdr)).length = hdr.length := by
  split_ifs <;> simp

theorem hops_getD (a b : Nat) (hdr : List Nat) (i : Nat) :
    (if b ≠ 0 then (if a ≠ 0 then hdr.set a 0 else hdr).set b 0
      else (if a ≠ 0 then hdr.set a 0 else hdr)).getD i 0
      = if (i = b ∧ b ≠ 0 ∧ b < hdr.length) ∨ (i = a ∧ a ≠ 0 ∧ a < hdr.length) then 0
        else hdr.getD i 0 := by
  by_cases ha : a = 0 <;> by_cases hb : b = 0 <;>
    simp only [ne_eq, ha, hb, not_true_eq_false, not_false_eq_true, if_true, if_false,
      getD_set_eq, List.length_set]
  all_goals split_ifs <;> first | rfl | omega | (exfalso; tauto)

theorem stripped_bytes_header (ctx : rfc5444_reader_tlvblock_context)
    (hdr kept rest : List Nat)
    (hty : ctx.type = rfc5444_context_type.RFC5444_CONTEXT_MESSAGE)
    (hhdr : hdr.length = (context_header ctx).1) (i : Nat) (hi : i < hdr.length) :
    (stripped_bytes ctx hdr kept rest).getD i 0
      = if i = 2 then (stripped_bytes ctx hdr kept rest).length / 256
        else if i = 3 then (stripped_bytes ctx hdr kept rest).length % 256
        else if ctx.has_hoplimit = true
            ∧ i = 4 + (if ctx.has_origaddr then ctx.addr_len else 0) then 0
        else if ctx.has_hopcount = true
            ∧ i = 4 + (if ctx.has_origaddr then ctx.addr_len else 0)
                + (if ctx.has_hoplimit then 1 else 0) then 0
        else hdr.getD i 0 := by
  have h4 := context_header_message_ge ctx hty
  have hlen := stripped_bytes_length ctx hdr kept rest
  generalize (stripped_bytes ctx hdr kept rest).length = L at hlen ⊢
  have hDlen := hops_length (context_header ctx).2.1 (context_header ctx).2.2 hdr
  have hDget := hops_getD (context_header ctx).2.1 (context_header ctx).2.2 hdr i
  unfold stripped_bytes
  simp only [hty, or_true, if_true]
  revert hDlen hDget
  generalize (if (context_header ctx).2.2 ≠ 0 then
      (if (context_header ctx).2.1 ≠ 0 then hdr.set (context_header ctx).2.1 0
        else hdr).set (context_header ctx).2.2 0
      else (if (context_header ctx).2.1 ≠ 0 then hdr.set (context_header ctx).2.1 0
        else hdr)) = D
  intro hDlen hDget
  rw [context_header_message ctx hty] at hhdr hDget
  simp only at hhdr hDget
  simp only [getD_set_eq, List.length_set, List.append_assoc]
  rw [List.getD_append _ _ _ _ (by omega), hDget]
  have hL : (D ++ ([kept.length / 256, kept.length % 256] ++ (kept ++ rest))).length
      = L := by
    rw [hlen]; simp [hty, hDlen]; omega
  rw [hL]
  generalize (if ctx.has_origaddr = true then ctx.addr_len else 0) = A at *
  have hL4 : 4 ≤ L := by rw [hlen]; omega
  cases hl : ctx.has_hoplimit <;> cases hc : ctx.has_hopcount <;>
    simp only [hl, hc, if_true, if_false, Bool.false_eq_true, ne_eq, not_true_eq_false,
      not_false_eq_true, false_and, true_and] at hhdr ⊢
  all_goals split_ifs <;> first | rfl | omega | (exfalso; simp_all)

theorem getD_drop_eq (l : List Nat) (n j : Nat) :
    l.getD (n + j) 0 = (l.drop n).getD j 0 := by
  simp only [List.getD_eq_getElem?_getD, List.getElem?_drop]

theorem filter_all_signature : ∀ tlvs : List wire_tlv,
    (∀ t ∈ tlvs, t.type = RFC7182_MSGTLV_ICV) →
    tlvs.filter (fun t => t.type != RFC7182_MSGTLV_ICV) = [] := by
  intro tlvs h
  apply List.filter_eq_nil_iff.mpr
  intro t ht
  simp [h t ht]

theorem signature_size_all : ∀ tlvs : List wire_tlv,
    (∀ t ∈ tlvs, t.type = RFC7182_MSGTLV_ICV) →
    signature_tlvs_size tlvs = (encode_block tlvs).length := by
  intro tlvs h
  have := encode_block_split tlvs
  rw [filter_all_signature tlvs h] at this
  simpa [encode_block] using this.symm

theorem clear_flag_tlv (x : Nat) :
    (x &&& (255 - RFC5444_PKT_FLAG_TLV)) &&& RFC5444_PKT_FLAG_TLV = 0 := by
  rw [Nat.and_assoc]
  have : (255 - RFC5444_PKT_FLAG_TLV) &&& RFC5444_PKT_FLAG_TLV = 0 := by decide
  rw [this, Nat.and_zero]


theorem take_eq_of_getD (l1 l2 : List Nat) (n : Nat) (h1 : n ≤ l1.length)
    (h2 : n ≤ l2.length) (h : ∀ i, i < n → l1.getD i 0 = l2.getD i 0) :
    l1.take n = l2.take n := by
  apply List.ext_getElem
  · simp [h1, h2]
  · intro i hi1 hi2
    simp only [List.length_take] at hi1 hi2
    have hi : i < n := by omega
    have := h i hi
    rw [List.getD_eq_getElem l1 0 (by omega), List.getD_eq_getElem l2 0 (by omega)] at this
    simpa [List.getElem_take] using this

theorem stripped_bytes_congr (ctx ctx2 : rfc5444_reader_tlvblock_context)
    (hty : ctx2.type = ctx.type) (hh : context_header ctx2 = context_header ctx)
    (hdr kept rest : List Nat) :
    stripped_bytes ctx2 hdr kept rest = stripped_bytes ctx hdr kept rest := by
  unfold stripped_bytes
  rw [hty, hh]

theorem context_with_buffer_type (ctx : rfc5444_reader_tlvblock_context) (buf : List Nat) :
    (context_with_buffer ctx buf).type = ctx.type := by
  unfold context_with_buffer
  split <;> rfl

theorem context_with_buffer_header (ctx : rfc5444_reader_tlvblock_context)
    (buf : List Nat) :
    context_header (context_with_buffer ctx buf) = context_header ctx := by
  unfold context_with_buffer
  split <;> rename_i h <;> simp [context_header, h]

theorem context_with_buffer_buffer (ctx : rfc5444_reader_tlvblock_context)
    (buf : List Nat) :
    context_buffer (context_with_buffer ctx buf) = buf := by
  unfold context_with_buffer
  split <;> rename_i h <;> simp [context_buffer, h]

theorem encode_block_pos_of_mem (tlvs : List wire_tlv) (t : wire_tlv) (h : t ∈ tlvs) :
    0 < (encode_block tlvs).length := by
  have := encode_block_length_ge tlvs
  have : 0 < tlvs.length := List.length_pos_of_mem h
  omega

theorem stripped_bytes_take (ctx : rfc5444_reader_tlvblock_context)
    (hdr kept rest : List Nat) (hhdr : hdr.length = (context_header ctx).1)
    (hk : 0 < kept.length ∨ ctx.type = rfc5444_context_type.RFC5444_CONTEXT_MESSAGE) :
    stripped_bytes ctx ((stripped_bytes ctx hdr kept rest).take hdr.length) kept rest
      = stripped_bytes ctx hdr kept rest := by
  have hlen1 := stripped_bytes_length ctx hdr kept rest
  have hle : hdr.length ≤ (stripped_bytes ctx hdr kept rest).length := by omega
  have hHlen : ((stripped_bytes ctx hdr kept rest).take hdr.length).length = hdr.length := by
    simp [hle]
  have hlen2 := stripped_bytes_length ctx
    ((stripped_bytes ctx hdr kept rest).take hdr.length) kept rest
  rw [hHlen] at hlen2
  have hd1 := stripped_bytes_drop ctx hdr kept rest hhdr
  have hd2 := stripped_bytes_drop ctx
    ((stripped_bytes ctx hdr kept rest).take hdr.length) kept rest (by rw [hHlen]; exact hhdr)
  rw [hHlen] at hd2
  rw [← List.take_append_drop hdr.length (stripped_bytes ctx
      ((stripped_bytes ctx hdr kept rest).take hdr.length) kept rest)]
  conv_rhs => rw [← List.take_append_drop hdr.length (stripped_bytes ctx hdr kept rest)]
  rw [hd1, hd2]
  congr 1
  apply take_eq_of_getD _ _ _ (by omega) hle
  intro i hi
  have hH : ((stripped_bytes ctx hdr kept rest).take hdr.length).getD i 0
      = (stripped_bytes ctx hdr kept rest).getD i 0 := by
    rw [List.getD_eq_getElem _ _ (by omega), List.getD_eq_getElem _ _ (by omega)]
    simp [List.getElem_take]
  rcases context_type_cases ctx with hty | hty
  · have hne : ¬ ctx.type = rfc5444_context_type.RFC5444_CONTEXT_MESSAGE := by
      rw [hty]; simp
    have hk0 : 0 < kept.length := by
      rcases hk with h | h
      · exact h
      · exact absurd h hne
    have hh := context_header_packet ctx hty
    have e : ∀ h0 : List Nat, stripped_bytes ctx h0 kept rest
        = h0 ++ ([kept.length / 256, kept.length % 256] ++ (kept ++ rest)) := by
      intro h0
      unfold stripped_bytes
      rw [hh]
      simp [hne, hk0]
    rw [e, e, List.take_left]
  · rw [stripped_bytes_header ctx _ kept rest hty (by rw [hHlen]; exact hhdr) i
        (by rw [hHlen]; exact hi),
      hH, stripped_bytes_header ctx hdr kept rest hty hhdr i hi, hlen1, hlen2]
    split_ifs <;> rfl

theorem filter_filter_signature (tlvs : List wire_tlv) :
    (tlvs.filter (fun t => t.type != RFC7182_MSGTLV_ICV)).filter
        (fun t => t.type != RFC7182_MSGTLV_ICV)
      = tlvs.filter (fun t => t.type != RFC7182_MSGTLV_ICV) := by
  rw [List.filter_filter]
  congr 1
  funext t
  simp

theorem remove_signature_data_twice (ctx : rfc5444_reader_tlvblock_context)
    (hdr rest : List Nat) (tlvs : List wire_tlv)
    (hhdr : hdr.length = (context_header ctx).1)
    (hv : ∀ t ∈ tlvs, t.valid)
    (hsize : hdr.length + 2 + (encode_block tlvs).length + rest.length < 65536)
    (hkeep : ctx.type = rfc5444_context_type.RFC5444_CONTEXT_PACKET →
      ∃ t ∈ tlvs, t.type ≠ RFC7182_MSGTLV_ICV) :
    _remove_signature_data (context_with_buffer ctx (stripped_bytes ctx hdr
        (encode_block (tlvs.filter (fun t => t.type != RFC7182_MSGTLV_ICV))) rest))
      = some { dst := stripped_bytes ctx hdr
                 (encode_block (tlvs.filter (fun t => t.type != RFC7182_MSGTLV_ICV))) rest,
               len := (stripped_bytes ctx hdr
                 (encode_block (tlvs.filter (fun t => t.type != RFC7182_MSGTLV_ICV)))
                   rest).length } := by
  generalize hK : tlvs.filter (fun t => t.type != RFC7182_MSGTLV_ICV) = K
  have hsplit := encode_block_split tlvs
  rw [hK] at hsplit
  have hk : 0 < (encode_block K).length
      ∨ ctx.type = rfc5444_context_type.RFC5444_CONTEXT_MESSAGE := by
    rcases context_type_cases ctx with hty | hty
    · obtain ⟨t, ht, hne⟩ := hkeep hty
      left
      apply encode_block_pos_of_mem K t
      rw [← hK]
      exact List.mem_filter.mpr ⟨ht, by simpa using hne⟩
    · exact Or.inr hty
  have hlen := stripped_bytes_length ctx hdr (encode_block K) rest
  rw [if_pos hk] at hlen
  have hle : hdr.length ≤ (stripped_bytes ctx hdr (encode_block K) rest).length := by omega
  have hHlen : ((stripped_bytes ctx hdr (encode_block K) rest).take hdr.length).length
      = hdr.length := by simp [hle]
  have hdrop := stripped_bytes_drop ctx hdr (encode_block K) rest hhdr
  rw [if_pos hk] at hdrop
  have hdec : stripped_bytes ctx hdr (encode_block K) rest
      = (stripped_bytes ctx hdr (encode_block K) rest).take hdr.length
        ++ ([(encode_block K).length / 256, (encode_block K).length % 256]
          ++ (encode_block K ++ rest)) := by
    conv_lhs => rw [← List.take_append_drop hdr.length
      (stripped_bytes ctx hdr (encode_block K) rest)]
    rw [hdrop]
    simp
  have hvK : ∀ t ∈ K, t.valid := by
    intro t ht
    rw [← hK] at ht
    exact hv t (List.mem_filter.mp ht).1
  have h2 := remove_signature_data_block
    (context_with_buffer ctx (stripped_bytes ctx hdr (encode_block K) rest))
    ((stripped_bytes ctx hdr (encode_block K) rest).take hdr.length) rest
    ((encode_block K).length / 256) ((encode_block K).length % 256) K
    (by rw [context_with_buffer_buffer]; exact hdec)
    (by rw [hHlen, context_with_buffer_header]; exact hhdr)
    (by omega) hvK
    (by rw [context_with_buffer_buffer, hlen]; omega)
  have hKK : K.filter (fun t => t.type != RFC7182_MSGTLV_ICV) = K := by
    rw [← hK]; exact filter_filter_signature tlvs
  rw [hKK, stripped_bytes_congr ctx _ (context_with_buffer_type ctx _)
    (context_with_buffer_header ctx _), stripped_bytes_take ctx hdr _ rest hhdr hk] at h2
  exact h2


theorem tlv_length_spec (src : List Nat) (p : Nat) (h : tlv_size_spec src p < 65536) :
    tlv_length src p = tlv_size_spec src p := by
  unfold tlv_size_spec at h ⊢
  unfold tlv_length
  by_cases ht : src.getD (p + 1) 0 &&& RFC5444_TLV_FLAG_TYPEEXT = 0 <;>
  by_cases hval : src.getD (p + 1) 0 &&& RFC5444_TLV_FLAG_VALUE = 0 <;>
  by_cases he : src.getD (p + 1) 0 &&& RFC5444_TLV_FLAG_EXTVALUE = 0
  all_goals simp only [ht, hval, he, ne_eq, not_true_eq_false, not_false_eq_true, if_true,
    if_false, Nat.add_zero, show p + 2 + 1 = p + 3 from rfl] at h ⊢
  all_goals first | rfl | (rw [Nat.mod_eq_of_lt (by omega)]; omega)

theorem tlv_size_spec_encode (t : wire_tlv) (hv : t.valid) (post : List Nat) :
    tlv_size_spec (t.encode ++ post) 0 = t.encode.length := by
  obtain ⟨h1, h2⟩ := hv
  unfold tlv_size_spec
  unfold wire_tlv.encode at h2 ⊢
  by_cases ht : t.flags &&& RFC5444_TLV_FLAG_TYPEEXT = 0 <;>
  by_cases hval : t.flags &&& RFC5444_TLV_FLAG_VALUE = 0 <;>
  by_cases he : t.flags &&& RFC5444_TLV_FLAG_EXTVALUE = 0
  all_goals simp [ht, hval, he] at h1 h2 ⊢
  all_goals omega

theorem strip_loop_count_done (src : List Nat) (fuel p : Nat) :
    strip_loop_count src fuel p 0 = some (0, p, 0) := by
  cases fuel <;> simp [strip_loop_count]

theorem strip_loop_count_block :
    ∀ (tlvs : List wire_tlv), (∀ t ∈ tlvs, t.valid) →
    ∀ (pre post : List Nat) (fuel : Nat),
      tlvs.length ≤ fuel → (encode_block tlvs).length < 65536 →
      strip_loop_count (pre ++ (encode_block tlvs ++ post)) fuel pre.length
          (encode_block tlvs).length
        = some (tlvs.length, pre.length + (encode_block tlvs).length, 0) := by
  intro tlvs
  induction tlvs with
  | nil =>
    intro _ pre post fuel _ _
    simp [encode_block, strip_loop_count_done]
  | cons t ts ih =>
    intro hv pre post fuel hfuel hlen
    have hvt := hv t (List.mem_cons_self _ _)
    have hvts : ∀ x ∈ ts, x.valid := fun x hx => hv x (List.mem_cons_of_mem _ hx)
    obtain ⟨f, rfl⟩ : ∃ f, fuel = f + 1 := ⟨fuel - 1, by simp at hfuel; omega⟩
    have h2 := encode_length_ge t
    simp only [encode_block, List.length_append] at hlen ⊢
    have hsrc : pre ++ (t.encode ++ encode_block ts ++ post)
        = pre ++ (t.encode ++ (encode_block ts ++ post)) := by simp
    have htl : tlv_length (pre ++ (t.encode ++ (encode_block ts ++ post))) pre.length
        = t.encode.length := by
      have := tlv_length_shift pre (t.encode ++ (encode_block ts ++ post)) 0
      rw [Nat.add_zero] at this
      rw [this, tlv_length_encode t hvt]
    have hnz : ¬ (t.encode.length + (encode_block ts).length = 0) := by omega
    have hl1 : (t.encode.length + (encode_block ts).length + 65536 - t.encode.length) % 65536
        = (encode_block ts).length := by omega
    have hsrc2 : pre ++ (t.encode ++ (encode_block ts ++ post))
        = (pre ++ t.encode) ++ (encode_block ts ++ post) := by simp
    have hp : pre.length + t.encode.length = (pre ++ t.encode).length := by simp
    rw [hsrc]
    unfold strip_loop_count
    simp only [hnz, if_false, htl, hl1]
    rw [hsrc2, hp, ih hvts (pre ++ t.encode) post f (by simp at hfuel; omega) (by omega)]
    simp only [Option.map_some', List.length_append, List.length_cons]
    congr 2
    congr 1
    omega

theorem strip_loop_count_offset (src : List Nat) :
    ∀ (fuel p len blocklen : Nat) (copied : List Nat),
      (strip_loop src fuel p len blocklen copied).map (fun r => r.1)
        = (strip_loop_count src fuel p len).map (fun r => r.2.1) := by
  intro fuel
  induction fuel with
  | zero =>
    intro p len blocklen copied
    by_cases h : len = 0 <;> simp [strip_loop, strip_loop_count, h]
  | succ f ih =>
    intro p len blocklen copied
    by_cases h : len = 0
    · simp [strip_loop, strip_loop_count, h]
    · unfold strip_loop strip_loop_count
      simp only [h, if_false]
      split
      · rw [ih, Option.map_map]; rfl
      · rw [ih, Option.map_map]; rfl

/-! ## Splice operation: the written bytes in detail -/

theorem split_at_block (data : List Nat) (off : Nat) (h : off + 2 ≤ data.length) :
    data = data.take off
      ++ ([data.getD off 0, data.getD (off + 1) 0] ++ data.drop (off + 2)) := by
  conv_lhs => rw [← List.take_append_drop off data]
  congr 1
  rw [List.drop_eq_getElem_cons (by omega : off < data.length),
    List.drop_eq_getElem_cons (by omega : off + 1 < data.length),
    List.getD_eq_getElem data 0 (by omega : off < data.length),
    List.getD_eq_getElem data 0 (by omega : off + 1 < data.length)]
  rfl

theorem splice_existing_message (sig : rfc5444_signature) (m : rfc5444_writer_message)
    (data cb : List Nat)
    (hfit : tlvblock_offset (some m) data + 2 ≤ data.length) :
    ∃ d : List Nat,
      d = data.take (tlvblock_offset (some m) data)
          ++ ([(256 * data.getD (tlvblock_offset (some m) data) 0
                  + data.getD (tlvblock_offset (some m) data + 1) 0
                  + (signature_tlv sig cb).length) / 256 % 256,
               (256 * data.getD (tlvblock_offset (some m) data) 0
                  + data.getD (tlvblock_offset (some m) data + 1) 0
                  + (signature_tlv sig cb).length) % 256]
            ++ (signature_tlv sig cb ++ data.drop (tlvblock_offset (some m) data + 2)))
      ∧ splice_signature sig (some m) data cb
          = (d.set 2 (d.length / 256 % 256)).set 3 (d.length % 256) :=
  ⟨_, rfl, splice_existing_block sig (some m) data (data.take (tlvblock_offset (some m) data))
    (data.drop (tlvblock_offset (some m) data + 2)) cb _ _
    (split_at_block data _ hfit) (by simp; omega) (Or.inl (by simp))⟩

theorem splice_existing_packet (sig : rfc5444_signature) (data cb : List Nat)
    (hflag : data.getD 0 0 &&& RFC5444_PKT_FLAG_TLV ≠ 0)
    (hfit : tlvblock_offset none data + 2 ≤ data.length) :
    splice_signature sig none data cb
      = data.take (tlvblock_offset none data)
          ++ ([(256 * data.getD (tlvblock_offset none data) 0
                  + data.getD (tlvblock_offset none data + 1) 0
                  + (signature_tlv sig cb).length) / 256 % 256,
               (256 * data.getD (tlvblock_offset none data) 0
                  + data.getD (tlvblock_offset none data + 1) 0
                  + (signature_tlv sig cb).length) % 256]
            ++ (signature_tlv sig cb ++ data.drop (tlvblock_offset none data + 2))) :=
  splice_existing_block sig none data (data.take (tlvblock_offset none data))
    (data.drop (tlvblock_offset none data + 2)) cb _ _
    (split_at_block data _ hfit) (by simp; omega) (Or.inr hflag)

theorem splice_new (sig : rfc5444_signature) (data cb : List Nat)
    (hflag : data.getD 0 0 &&& RFC5444_PKT_FLAG_TLV = 0)
    (hfit : tlvblock_offset none data ≤ data.length) :
    splice_signature sig none data cb
      = (data.take (tlvblock_offset none data)).set 0
            (data.getD 0 0 ||| RFC5444_PKT_FLAG_TLV)
        ++ ([(signature_tlv sig cb).length / 256 % 256, (signature_tlv sig cb).length % 256]
          ++ (signature_tlv sig cb ++ data.drop (tlvblock_offset none data))) := by
  have hnb : ((none : Option rfc5444_writer_message).isNone
      && (data.getD 0 0 &&& RFC5444_PKT_FLAG_TLV == 0)) = true := by
    simp only [Option.isNone_none, Bool.true_and, beq_iff_eq]
    exact hflag
  have hsz := signature_tlv_length sig cb
  have hpos := packet_offset_pos data
  unfold splice_signature
  simp only [hnb, if_true]
  simp only [← hsz, Nat.zero_add]
  have ht : (data.set 0 (data.getD 0 0 ||| RFC5444_PKT_FLAG_TLV)).take
      (tlvblock_offset none data)
      = (data.take (tlvblock_offset none data)).set 0
          (data.getD 0 0 ||| RFC5444_PKT_FLAG_TLV) := by
    cases data with
    | nil => simp
    | cons a l =>
      obtain ⟨k, hk⟩ : ∃ k, tlvblock_offset none (a :: l) = k + 1 :=
        ⟨tlvblock_offset none (a :: l) - 1, by omega⟩
      rw [hk]
      simp
  rw [ht]
  simp

theorem signature_tlv_layout (sig : rfc5444_signature) (cb : List Nat)
    (hs : 3 + sig.getKeyId.length + cb.length < 65536) (hkey : sig.getKeyId.length < 256) :
    signature_tlv sig cb
      = [RFC7182_MSGTLV_ICV,
          if 3 + sig.getKeyId.length + cb.length > 255 then
            RFC5444_TLV_FLAG_TYPEEXT ||| RFC5444_TLV_FLAG_VALUE ||| RFC5444_TLV_FLAG_EXTVALUE
          else RFC5444_TLV_FLAG_TYPEEXT ||| RFC5444_TLV_FLAG_VALUE,
          if sig.source_specific then RFC7182_ICV_EXT_SRCSPEC_CRYPTHASH
          else RFC7182_ICV_EXT_CRYPTHASH]
        ++ (if 3 + sig.getKeyId.length + cb.length > 255 then
              [(3 + sig.getKeyId.length + cb.length) / 256,
               (3 + sig.getKeyId.length + cb.length) % 256]
            else [3 + sig.getKeyId.length + cb.length])
        ++ [sig.key.hash_function, sig.key.crypt_function, sig.getKeyId.length]
        ++ sig.getKeyId ++ cb := by
  unfold signature_tlv
  have e1 : (3 + sig.getKeyId.length + cb.length) / 256 % 256
      = (3 + sig.getKeyId.length + cb.length) / 256 := by omega
  have e3 : sig.getKeyId.length % 256 = sig.getKeyId.length := by omega
  simp only [e1, e3]
  by_cases h1 : 3 + sig.getKeyId.length + cb.length > 255
  · cases sig.source_specific <;> simp [h1]
  · have e2 : (3 + sig.getKeyId.length + cb.length) % 256
        = 3 + sig.getKeyId.length + cb.length := by omega
    rw [e2]
    cases sig.source_specific <;> simp [h1]

theorem take_getD (l : List Nat) (n i : Nat) (h : i < n) :
    (l.take n).getD i 0 = l.getD i 0 := by
  simp only [List.getD_eq_getElem?_getD, List.getElem?_take, h, if_true]

theorem splice_drop (sig : rfc5444_signature) (msg : Option rfc5444_writer_message)
    (data cb : List Nat)
    (hfit : tlvblock_offset msg data
        + (if msg.isNone = true ∧ data.getD 0 0 &&& RFC5444_PKT_FLAG_TLV = 0 then 0 else 2)
      ≤ data.length) :
    (splice_signature sig msg data cb).drop (tlvblock_offset msg data + 2)
      = signature_tlv sig cb
        ++ (if msg.isNone = true ∧ data.getD 0 0 &&& RFC5444_PKT_FLAG_TLV = 0 then
              data.drop (tlvblock_offset msg data)
            else data.drop (tlvblock_offset msg data + 2)) := by
  have hdrop : ∀ (h0 : List Nat) (x y : Nat) (t : List Nat),
      h0.length = tlvblock_offset msg data →
      (h0 ++ ([x, y] ++ t)).drop (tlvblock_offset msg data + 2) = t := by
    intro h0 x y t hl
    have : h0 ++ ([x, y] ++ t) = (h0 ++ [x, y]) ++ t := by simp
    rw [this]
    have hl2 : (h0 ++ [x, y]).length = tlvblock_offset msg data + 2 := by simp [hl]
    rw [← hl2]
    exact List.drop_left _ _
  cases msg with
  | some m =>
    simp only [Option.isNone_some, Bool.false_eq_true, false_and, if_false] at hfit ⊢
    obtain ⟨d, hd, hsp⟩ := splice_existing_message sig m data cb hfit
    have h4 := message_offset_ge m data
    rw [hsp, List.drop_set_of_lt _ _ (by omega), List.drop_set_of_lt _ _ (by omega), hd]
    exact hdrop _ _ _ _ (by simp; omega)
  | none =>
    by_cases hflag : data.getD 0 0 &&& RFC5444_PKT_FLAG_TLV = 0
    · simp only [Option.isNone_none, hflag, and_self, if_true, Nat.add_zero] at hfit ⊢
      rw [splice_new sig data cb hflag hfit]
      exact hdrop _ _ _ _ (by simp; omega)
    · simp only [Option.isNone_none, hflag, and_false, if_false] at hfit ⊢
      rw [splice_existing_packet sig data cb hflag hfit]
      exact hdrop _ _ _ _ (by simp; omega)

theorem splice_header (sig : rfc5444_signature) (msg : Option rfc5444_writer_message)
    (data cb : List Nat)
    (hfit : tlvblock_offset msg data
        + (if msg.isNone = true ∧ data.getD 0 0 &&& RFC5444_PKT_FLAG_TLV = 0 then 0 else 2)
      ≤ data.length)
    (i : Nat) (hi : i < tlvblock_offset msg data) :
    (splice_signature sig msg data cb).getD i 0
      = if msg.isSome = true ∧ i = 2 then (splice_signature sig msg data cb).length / 256 % 256
        else if msg.isSome = true ∧ i = 3 then (splice_signature sig msg data cb).length % 256
        else if (msg.isNone = true ∧ data.getD 0 0 &&& RFC5444_PKT_FLAG_TLV = 0) ∧ i = 0 then
          data.getD 0 0 ||| RFC5444_PKT_FLAG_TLV
        else data.getD i 0 := by
  cases msg with
  | some m =>
    simp only [Option.isNone_some, Option.isSome_some, Bool.false_eq_true, false_and,
      if_false, true_and] at hfit ⊢
    obtain ⟨d, hd, hsp⟩ := splice_existing_message sig m data cb hfit
    have h4 := message_offset_ge m data
    have hdl : tlvblock_offset (some m) data + 2 ≤ d.length := by
      rw [hd]; simp; omega
    have hdi : d.getD i 0 = data.getD i 0 := by
      rw [hd, List.getD_append _ _ _ _ (by simp; omega), take_getD _ _ _ hi]
    rw [hsp]
    simp only [getD_set_eq, List.length_set, hdi]
    split_ifs <;> first | rfl | omega
  | none =>
    by_cases hflag : data.getD 0 0 &&& RFC5444_PKT_FLAG_TLV = 0
    · simp only [Option.isNone_none, Option.isSome_none, Bool.false_eq_true, hflag,
        and_self, if_true, Nat.add_zero, false_and, if_false, true_and] at hfit ⊢
      rw [splice_new sig data cb hflag hfit,
        List.getD_append _ _ _ _ (by simp; omega), getD_set_eq, take_getD _ _ _ hi]
      simp only [List.length_take]
      split_ifs <;> first | rfl | omega
    · simp only [Option.isNone_none, Option.isSome_none, Bool.false_eq_true, hflag,
        and_false, if_false, false_and] at hfit ⊢
      rw [splice_existing_packet sig data cb hflag hfit,
        List.getD_append _ _ _ _ (by simp; omega), take_getD _ _ _ hi]

theorem splice_length (sig : rfc5444_signature) (msg : Option rfc5444_writer_message)
    (data cb : List Nat)
    (hfit : tlvblock_offset msg data
        + (if msg.isNone = true ∧ data.getD 0 0 &&& RFC5444_PKT_FLAG_TLV = 0 then 0 else 2)
      ≤ data.length) :
    (splice_signature sig msg data cb).length
      = data.length + (signature_tlv sig cb).length
        + (if msg.isNone = true ∧ data.getD 0 0 &&& RFC5444_PKT_FLAG_TLV = 0 then 2
           else 0) := by
  cases msg with
  | some m =>
    simp only [Option.isNone_some, Bool.false_eq_true, false_and, if_false] at hfit ⊢
    obtain ⟨d, hd, hsp⟩ := splice_existing_message sig m data cb hfit
    rw [hsp, hd]
    simp
    omega
  | none =>
    by_cases hflag : data.getD 0 0 &&& RFC5444_PKT_FLAG_TLV = 0
    · simp only [Option.isNone_none, hflag, and_self, if_true, Nat.add_zero] at hfit ⊢
      rw [splice_new sig data cb hflag hfit]
      simp
      omega
    · simp only [Option.isNone_none, hflag, and_false, if_false] at hfit ⊢
      rw [splice_existing_packet sig data cb hflag hfit]
      simp
      omega


theorem splice_message_block_length (sig : rfc5444_signature) (m : rfc5444_writer_message)
    (data cb : List Nat)
    (hfit : tlvblock_offset (some m) data + 2 ≤ data.length) :
    (splice_signature sig (some m) data cb).getD (tlvblock_offset (some m) data) 0
        = (256 * data.getD (tlvblock_offset (some m) data) 0
            + data.getD (tlvblock_offset (some m) data + 1) 0
            + (signature_tlv sig cb).length) / 256 % 256
    ∧ (splice_signature sig (some m) data cb).getD (tlvblock_offset (some m) data + 1) 0
        = (256 * data.getD (tlvblock_offset (some m) data) 0
            + data.getD (tlvblock_offset (some m) data + 1) 0
            + (signature_tlv sig cb).length) % 256 := by
  obtain ⟨d, hd, hsp⟩ := splice_existing_message sig m data cb hfit
  have h4 := message_offset_ge m data
  have hl : (data.take (tlvblock_offset (some m) data)).length
      = tlvblock_offset (some m) data := by simp; omega
  have h0 := getD_append_shift (data.take (tlvblock_offset (some m) data))
    ([(256 * data.getD (tlvblock_offset (some m) data) 0
          + data.getD (tlvblock_offset (some m) data + 1) 0
          + (signature_tlv sig cb).length) / 256 % 256,
       (256 * data.getD (tlvblock_offset (some m) data) 0
          + data.getD (tlvblock_offset (some m) data + 1) 0
          + (signature_tlv sig cb).length) % 256]
      ++ (signature_tlv sig cb ++ data.drop (tlvblock_offset (some m) data + 2))) 0
  have h1 := getD_append_shift (data.take (tlvblock_offset (some m) data))
    ([(256 * data.getD (tlvblock_offset (some m) data) 0
          + data.getD (tlvblock_offset (some m) data + 1) 0
          + (signature_tlv sig cb).length) / 256 % 256,
       (256 * data.getD (tlvblock_offset (some m) data) 0
          + data.getD (tlvblock_offset (some m) data + 1) 0
          + (signature_tlv sig cb).length) % 256]
      ++ (signature_tlv sig cb ++ data.drop (tlvblock_offset (some m) data + 2))) 1
  rw [hl, ← hd] at h0 h1
  rw [Nat.add_zero] at h0
  rw [hsp]
  simp only [getD_set_eq, List.length_set]
  rw [h0, h1]
  constructor
  · rw [if_neg (by omega), if_neg (by omega)]; simp
  · rw [if_neg (by omega), if_neg (by omega)]; simp


/-! ## Two policies signing one message -/

/-- C11 (multiple policies, code defect). The sample message is signed by the identity
policy and then by `checksum_policy`. The second policy signs its input as it is, so its
signable bytes contain the first policy's signature TLV and the enlarged length field
(25 bytes), while verification strips every signature TLV and reconstructs 9 bytes for
the second policy's TLV. The receiver verifies the first policy, fails the second and
drops the message. -/
theorem second_policy_signs_unstripped_bytes :
    _cb_add_signature (identity_policy false true [] _cb_sigid_okay) none
        (some plain_message) unsigned_message = some (0, signed_message)
    ∧ _cb_add_signature checksum_policy none (some plain_message) signed_message
        = some (0, twice_signed_message)
    ∧ signer_static_buffer checksum_policy [] (some plain_message) signed_message
        = [0, 7, 0] ++ signed_message
    ∧ reader_signature_tlvs (some plain_message) twice_signed_message
        = [checksum_tlv, signed_tlv]
    ∧ _remove_signature_data (reader_context (some plain_message) twice_signed_message)
        = some { dst := unsigned_message, len := 6 }
    ∧ tlv_static_buffer [] checksum_tlv { dst := unsigned_message, len := 6 }
        = [0, 7, 0] ++ unsigned_message
    ∧ (_cb_signature_tlv two_policy_registry []
        (reader_signature_tlvs (some plain_message) twice_signed_message)
        (reader_context (some plain_message) twice_signed_message)).map
        (fun r => (r.1, r.2.map (fun sig => sig.verified)))
      = some (rfc5444_result.RFC5444_DROP_MESSAGE, [true, false]) := by
  decide

/-! ## Strip operation: claims -/

/-- C12 (strip header canonicalization). For a message context whose buffer is a header
of `h = 4 + (addr_len if has_origaddr) + (1 if has_hoplimit) + (1 if has_hopcount)
+ (2 if has_seqno)` bytes, a block length, a block of valid TLVs and the remaining
bytes, `_remove_signature_data` returns, and output byte `i < h` is: the high byte of
the returned size for `i = 2`, its low byte for `i = 3`, zero at the hop-limit offset
(directly after the originator address) and at the hop-count offset (after the hop
limit) when these fields are present, and the input byte everywhere else; so the
originator address and the sequence number are copied unchanged. -/
theorem strip_header_canonical (ctx : rfc5444_reader_tlvblock_context)
    (hdr rest : List Nat) (b0 b1 : Nat) (tlvs : List wire_tlv)
    (hty : ctx.type = rfc5444_context_type.RFC5444_CONTEXT_MESSAGE)
    (hbuf : ctx.msg_buffer = hdr ++ ([b0, b1] ++ (encode_block tlvs ++ rest)))
    (hhdr : hdr.length = 4 + (if ctx.has_origaddr then ctx.addr_len else 0)
      + (if ctx.has_hoplimit then 1 else 0) + (if ctx.has_hopcount then 1 else 0)
      + (if ctx.has_seqno then 2 else 0))
    (hbl : 256 * b0 + b1 = (encode_block tlvs).length)
    (hv : ∀ t ∈ tlvs, t.valid)
    (hsize : ctx.msg_buffer.length < 65536) :
    ∃ u, _remove_signature_data ctx = some u
      ∧ ∀ i, i < hdr.length →
        u.dst.getD i 0
          = if i = 2 then u.len / 256
            else if i = 3 then u.len % 256
            else if ctx.has_hoplimit = true
                ∧ i = 4 + (if ctx.has_origaddr then ctx.addr_len else 0) then 0
            else if ctx.has_hopcount = true
                ∧ i = 4 + (if ctx.has_origaddr then ctx.addr_len else 0)
                    + (if ctx.has_hoplimit then 1 else 0) then 0
            else ctx.msg_buffer.getD i 0 := by
  have hcb : context_buffer ctx = ctx.msg_buffer := by simp [context_buffer, hty]
  have hh : hdr.length = (context_header ctx).1 := by
    rw [context_header_message ctx hty]; exact hhdr
  refine ⟨_, remove_signature_data_block ctx hdr rest b0 b1 tlvs (by rw [hcb]; exact hbuf)
    hh hbl hv (by rw [hcb]; exact hsize), ?_⟩
  intro i hi
  simp only []
  rw [stripped_bytes_header ctx hdr _ rest hty hh i hi, hbuf,
    List.getD_append _ _ _ _ hi]

/-- Instance of C12: the sample message with originator address, hop limit 7, hop count
2 and sequence number 42 is stripped to 16 bytes with both hop bytes zero. -/
theorem strip_header_canonical_witness :
    _remove_signature_data (full_header_context relayed_message)
      = some { dst := [1, 0xF3, 0, 16, 10, 0, 0, 1, 0, 0, 0, 42, 0, 2, 1, 0], len := 16 }
    ∧ ∃ u, _remove_signature_data (full_header_context relayed_message) = some u
      ∧ ∀ i, i < 12 →
        u.dst.getD i 0
          = if i = 2 then u.len / 256
            else if i = 3 then u.len % 256
            else if i = 8 then 0
            else if i = 9 then 0
            else relayed_message.getD i 0 := by
  refine ⟨by decide, ?_⟩
  obtain ⟨u, hu, h⟩ := strip_header_canonical (full_header_context relayed_message)
    [1, 0xF3, 0, 24, 10, 0, 0, 1, 7, 2, 0, 42] [] 0 10 [short_signature_tlv, bare_tlv]
    rfl rfl rfl (by decide) (by decide) (by decide)
  refine ⟨u, hu, ?_⟩
  intro i hi
  have := h i hi
  simpa [full_header_context] using this

/-- C13 (strip removes exactly the signature TLVs, as amended). For a context whose
buffer has fewer than 65536 bytes and is a header of the announced length, a block
length, a block of valid TLVs and the remaining bytes, `_remove_signature_data` returns;
after the header its output holds the
big-endian length of the kept TLVs (omitted for a packet that keeps no TLV), then the
encodings of exactly the input TLVs whose type is not the signature type, in their
original order, then the remaining bytes unchanged. -/
theorem strip_removes_signature_tlvs (ctx : rfc5444_reader_tlvblock_context)
    (hdr rest : List Nat) (b0 b1 : Nat) (tlvs : List wire_tlv)
    (hbuf : context_buffer ctx = hdr ++ ([b0, b1] ++ (encode_block tlvs ++ rest)))
    (hhdr : hdr.length = (context_header ctx).1)
    (hbl : 256 * b0 + b1 = (encode_block tlvs).length)
    (hv : ∀ t ∈ tlvs, t.valid)
    (hsize : (context_buffer ctx).length < 65536) :
    ∃ u, _remove_signature_data ctx = some u
      ∧ u.dst.drop hdr.length
          = (if ctx.type = rfc5444_context_type.RFC5444_CONTEXT_PACKET
                ∧ tlvs.filter (fun t => t.type != RFC7182_MSGTLV_ICV) = [] then []
              else [(encode_block (tlvs.filter
                      (fun t => t.type != RFC7182_MSGTLV_ICV))).length / 256,
                    (encode_block (tlvs.filter
                      (fun t => t.type != RFC7182_MSGTLV_ICV))).length % 256])
            ++ encode_block (tlvs.filter (fun t => t.type != RFC7182_MSGTLV_ICV))
            ++ rest := by
  refine ⟨_, remove_signature_data_block ctx hdr rest b0 b1 tlvs hbuf hhdr hbl hv hsize, ?_⟩
  simp only []
  rw [stripped_bytes_drop ctx hdr _ rest hhdr]
  generalize tlvs.filter (fun t => t.type != RFC7182_MSGTLV_ICV) = kept
  rcases context_type_cases ctx with hty | hty
  · cases kept with
    | nil => simp [hty, encode_block]
    | cons t ts =>
      have := encode_length_ge t
      have hpos : 0 < (encode_block (t :: ts)).length := by
        simp only [encode_block, List.length_append]; omega
      simp [hty, hpos]
  · simp [hty]

/-- Instance of C13: a message whose block holds a TLV without value, a signature TLV
and a TLV with the 2-byte length encoding, followed by two bytes. -/
theorem strip_removes_signature_tlvs_witness :
    ∃ u, _remove_signature_data (plain_message_context mixed_message) = some u
      ∧ u.dst.drop 4 = [0, 9] ++ [1, 0, 2, 0x18, 0, 3, 7, 8, 9] ++ [0xAA, 0xBB] := by
  obtain ⟨u, hu, h⟩ := strip_removes_signature_tlvs (plain_message_context mixed_message)
    [1, 3, 0, 25] [0xAA, 0xBB] 0 17 [bare_tlv, short_signature_tlv, wide_tlv]
    rfl rfl (by decide) (by decide) (by decide)
  refine ⟨u, hu, ?_⟩
  exact h.trans (by decide)

/-- C14 (strip length fields, as amended). For a context whose buffer has fewer than
65536 bytes and is a header of the announced length, a block length `B`, a block of
valid TLVs and the remaining bytes, `_remove_signature_data` returns the number of bytes
it wrote, which is the input size
minus the total size `S` of the signature TLVs (minus 2 more for a packet whose block
becomes empty); the block length it writes (always for a message, for a packet when a
TLV is kept) is `B - S` in big-endian; and for a message output bytes 2..3 hold the
returned size in big-endian. -/
theorem strip_length_fields (ctx : rfc5444_reader_tlvblock_context)
    (hdr rest : List Nat) (b0 b1 : Nat) (tlvs : List wire_tlv)
    (hbuf : context_buffer ctx = hdr ++ ([b0, b1] ++ (encode_block tlvs ++ rest)))
    (hhdr : hdr.length = (context_header ctx).1)
    (hbl : 256 * b0 + b1 = (encode_block tlvs).length)
    (hv : ∀ t ∈ tlvs, t.valid)
    (hsize : (context_buffer ctx).length < 65536) :
    ∃ u, _remove_signature_data ctx = some u
      ∧ u.len = u.dst.length
      ∧ u.len + signature_tlvs_size tlvs
          + (if ctx.type = rfc5444_context_type.RFC5444_CONTEXT_PACKET
                ∧ signature_tlvs_size tlvs = 256 * b0 + b1 then 2 else 0)
          = (context_buffer ctx).length
      ∧ ((ctx.type = rfc5444_context_type.RFC5444_CONTEXT_MESSAGE
            ∨ signature_tlvs_size tlvs < 256 * b0 + b1) →
          u.dst.getD hdr.length 0 = (256 * b0 + b1 - signature_tlvs_size tlvs) / 256
          ∧ u.dst.getD (hdr.length + 1) 0
              = (256 * b0 + b1 - signature_tlvs_size tlvs) % 256)
      ∧ (ctx.type = rfc5444_context_type.RFC5444_CONTEXT_MESSAGE →
          u.dst.getD 2 0 = u.len / 256 ∧ u.dst.getD 3 0 = u.len % 256) := by
  refine ⟨_, remove_signature_data_block ctx hdr rest b0 b1 tlvs hbuf hhdr hbl hv hsize,
    rfl, ?_, ?_, ?_⟩
  · simp only []
    have hsplit := encode_block_split tlvs
    rw [stripped_bytes_length, hbuf]
    simp only [List.length_append, List.length_cons, List.length_nil]
    rcases context_type_cases ctx with hty | hty
    · simp only [hty, true_and, or_false, reduceCtorEq]
      split_ifs <;> omega
    · simp only [hty, or_true, if_true, false_and, if_false, reduceCtorEq]
      omega
  · intro hc
    simp only []
    have hsplit := encode_block_split tlvs
    have hcond : 0 < (encode_block (tlvs.filter
          (fun t => t.type != RFC7182_MSGTLV_ICV))).length
        ∨ ctx.type = rfc5444_context_type.RFC5444_CONTEXT_MESSAGE := by
      rcases hc with h | h
      · exact Or.inr h
      · left; omega
    have hk : 256 * b0 + b1 - signature_tlvs_size tlvs
        = (encode_block (tlvs.filter (fun t => t.type != RFC7182_MSGTLV_ICV))).length := by
      omega
    have h0 := getD_drop_eq (stripped_bytes ctx hdr (encode_block (tlvs.filter
      (fun t => t.type != RFC7182_MSGTLV_ICV))) rest) hdr.length 0
    have h1 := getD_drop_eq (stripped_bytes ctx hdr (encode_block (tlvs.filter
      (fun t => t.type != RFC7182_MSGTLV_ICV))) rest) hdr.length 1
    rw [stripped_bytes_drop ctx hdr _ rest hhdr, if_pos hcond] at h0 h1
    rw [Nat.add_zero] at h0
    rw [h0, h1, hk]
    simp
  · intro hty
    simp only []
    have h4 := context_header_message_ge ctx hty
    constructor
    · rw [stripped_bytes_header ctx hdr _ rest hty hhdr 2 (by omega)]; simp
    · rw [stripped_bytes_header ctx hdr _ rest hty hhdr 3 (by omega)]; simp

/-- Instance of C14: the sample message of 25 bytes with a block of 17 bytes loses its
signature TLV of 8 bytes; the block length becomes 9 and the size 17. -/
theorem strip_length_fields_witness :
    ∃ u, _remove_signature_data (plain_message_context mixed_message) = some u
      ∧ u.len = u.dst.length ∧ u.len = 17
      ∧ u.dst.getD 4 0 = 0 ∧ u.dst.getD 5 0 = 9
      ∧ u.dst.getD 2 0 = 0 ∧ u.dst.getD 3 0 = 17 := by
  obtain ⟨u, hu, h1, h2, h3, h4⟩ := strip_length_fields
    (plain_message_context mixed_message)
    [1, 3, 0, 25] [0xAA, 0xBB] 0 17 [bare_tlv, short_signature_tlv, wide_tlv]
    rfl rfl (by decide) (by decide) (by decide)
  have hs : signature_tlvs_size [bare_tlv, short_signature_tlv, wide_tlv] = 8 := by decide
  have hl : (context_buffer (plain_message_context mixed_message)).length = 25 := by decide
  have h3a := h3 (Or.inl rfl)
  have h4a := h4 rfl
  rw [hs] at h2 h3a
  rw [hl] at h2
  have hn : (plain_message_context mixed_message).type
      ≠ rfc5444_context_type.RFC5444_CONTEXT_PACKET := by decide
  simp only [hn, false_and, if_false] at h2
  have hlen : u.len = 17 := by omega
  rw [hlen] at h4a
  exact ⟨u, hu, h1, hlen, h3a.1, h3a.2, h4a.1, h4a.2⟩

/-- C15 (strip of a block that becomes empty, as amended). Let the buffer of a context
have fewer than 65536 bytes and be a header of the announced length, a block length, a
block of valid TLVs that are all signature TLVs, and the remaining bytes. For a packet `_remove_signature_data` writes the header
with the has-TLV bit of byte 0 cleared, directly followed by the remaining bytes (no
block header), and returns the input size minus the block content minus 2. For a
message it keeps the 2-byte block header with length 0 and returns the input size minus
the block content. -/
theorem strip_empties_packet_block (ctx : rfc5444_reader_tlvblock_context)
    (hdr rest : List Nat) (b0 b1 : Nat) (tlvs : List wire_tlv)
    (hbuf : context_buffer ctx = hdr ++ ([b0, b1] ++ (encode_block tlvs ++ rest)))
    (hhdr : hdr.length = (context_header ctx).1)
    (hbl : 256 * b0 + b1 = (encode_block tlvs).length)
    (hv : ∀ t ∈ tlvs, t.valid)
    (hsize : (context_buffer ctx).length < 65536)
    (hall : ∀ t ∈ tlvs, t.type = RFC7182_MSGTLV_ICV) :
    (ctx.type = rfc5444_context_type.RFC5444_CONTEXT_PACKET →
      _remove_signature_data ctx
          = some { dst := hdr.set 0 (hdr.getD 0 0 &&& (255 - RFC5444_PKT_FLAG_TLV)) ++ rest,
                   len := (context_buffer ctx).length - (encode_block tlvs).length - 2 }
        ∧ (hdr.getD 0 0 &&& (255 - RFC5444_PKT_FLAG_TLV)) &&& RFC5444_PKT_FLAG_TLV = 0)
    ∧ (ctx.type = rfc5444_context_type.RFC5444_CONTEXT_MESSAGE →
      ∃ u, _remove_signature_data ctx = some u
        ∧ u.dst.drop hdr.length = [0, 0] ++ rest
        ∧ u.len = (context_buffer ctx).length - (encode_block tlvs).length) := by
  have hstrip := remove_signature_data_block ctx hdr rest b0 b1 tlvs hbuf hhdr hbl hv hsize
  rw [filter_all_signature tlvs hall] at hstrip
  have he : encode_block [] = [] := rfl
  rw [he] at hstrip
  have hlen : (context_buffer ctx).length
      = hdr.length + 2 + (encode_block tlvs).length + rest.length := by
    rw [hbuf]; simp; omega
  constructor
  · intro hty
    have hh := context_header_packet ctx hty
    rw [stripped_packet_empty ctx hdr rest hty (by rw [hh]) (by rw [hh])] at hstrip
    refine ⟨?_, clear_flag_tlv _⟩
    rw [hstrip]
    congr 2
    simp only [List.length_append, List.length_set]
    omega
  · intro hty
    refine ⟨_, hstrip, ?_, ?_⟩
    · simp only []
      rw [stripped_bytes_drop ctx hdr [] rest hhdr]
      simp [hty]
    · simp only []
      rw [stripped_bytes_length]
      simp only [hty, or_true, if_true, List.length_nil]
      omega

/-- Instance of C15: the sample packet of 12 bytes whose block holds one signature TLV
of 8 bytes is stripped to the 2 bytes `[0, 77]`. -/
theorem strip_empties_packet_block_witness :
    _remove_signature_data (plain_packet_context signature_only_packet)
      = some { dst := [0, 77], len := 2 } :=
  ((strip_empties_packet_block (plain_packet_context signature_only_packet)
    [4] [77] 0 8 [short_signature_tlv] rfl rfl (by decide) (by decide) (by decide)
    (by decide)).1 rfl).1

/-- C16 (strip idempotence, as amended). Let the buffer of a context have fewer than
65536 bytes and be a header of the announced length, a block length, a block of valid
TLVs and the remaining bytes, and for a packet let the block hold at least one TLV that
is not a signature TLV. Then
`_remove_signature_data` returns, and applied to its own output (same header flags,
the written bytes as buffer) it returns the same bytes and the same size. -/
theorem strip_idempotent (ctx : rfc5444_reader_tlvblock_context)
    (hdr rest : List Nat) (b0 b1 : Nat) (tlvs : List wire_tlv)
    (hbuf : context_buffer ctx = hdr ++ ([b0, b1] ++ (encode_block tlvs ++ rest)))
    (hhdr : hdr.length = (context_header ctx).1)
    (hbl : 256 * b0 + b1 = (encode_block tlvs).length)
    (hv : ∀ t ∈ tlvs, t.valid)
    (hsize : (context_buffer ctx).length < 65536)
    (hkeep : ctx.type = rfc5444_context_type.RFC5444_CONTEXT_PACKET →
      ∃ t ∈ tlvs, t.type ≠ RFC7182_MSGTLV_ICV) :
    ∃ u, _remove_signature_data ctx = some u
      ∧ u.len = u.dst.length
      ∧ _remove_signature_data (context_with_buffer ctx u.dst) = some u := by
  refine ⟨_, remove_signature_data_block ctx hdr rest b0 b1 tlvs hbuf hhdr hbl hv hsize,
    rfl, ?_⟩
  apply remove_signature_data_twice ctx hdr rest tlvs hhdr hv _ hkeep
  rw [hbuf] at hsize
  simp only [List.length_append, List.length_cons, List.length_nil] at hsize
  omega

/-- Instance of C16: the sample message with three TLVs is stripped to 17 bytes, and
stripping these again returns them unchanged. -/
theorem strip_idempotent_witness :
    ∃ u, _remove_signature_data (plain_message_context mixed_message) = some u
      ∧ u.len = u.dst.length
      ∧ _remove_signature_data
          (context_with_buffer (plain_message_context mixed_message) u.dst) = some u :=
  strip_idempotent (plain_message_context mixed_message)
    [1, 3, 0, 25] [0xAA, 0xBB] 0 17 [bare_tlv, short_signature_tlv, wide_tlv]
    rfl rfl (by decide) (by decide) (by decide) (by intro h; cases h)

/-- C17 (strip offset accounting). The TLV size computed by `_remove_signature_data`
(`tlv_length`) equals the size the specification states (`tlv_size_spec`: 2, plus 1 for
the type extension, plus 0, `1 + v` or `2 + v` by the value and extended-value flags)
whenever that size fits 16 bits, in particular for every valid TLV, where it is the
number of bytes of the TLV. For a block that is the concatenation of `n` valid TLVs,
1-byte and 2-byte length encodings in any order, and a remaining-length counter that
starts at the block length, the loop runs exactly `n` times, ends at the first byte
after the block and leaves the counter at zero. -/
theorem strip_offset_accounting (tlvs : List wire_tlv) (hv : ∀ t ∈ tlvs, t.valid)
    (pre post : List Nat) (fuel : Nat) (hfuel : tlvs.length ≤ fuel)
    (hlen : (encode_block tlvs).length < 65536) :
    (∀ src p, tlv_size_spec src p < 65536 → tlv_length src p = tlv_size_spec src p)
    ∧ (∀ t ∈ tlvs, ∀ rest,
        tlv_length (t.encode ++ rest) 0 = tlv_size_spec (t.encode ++ rest) 0
        ∧ tlv_length (t.encode ++ rest) 0 = t.encode.length)
    ∧ strip_loop_count (pre ++ (encode_block tlvs ++ post)) fuel pre.length
          (encode_block tlvs).length
        = some (tlvs.length, pre.length + (encode_block tlvs).length, 0)
    ∧ ∀ blocklen copied,
        (strip_loop (pre ++ (encode_block tlvs ++ post)) fuel pre.length
          (encode_block tlvs).length blocklen copied).map (fun r => r.1)
        = some (pre.length + (encode_block tlvs).length) := by
  refine ⟨tlv_length_spec, ?_, strip_loop_count_block tlvs hv pre post fuel hfuel hlen, ?_⟩
  · intro t ht rest
    have h1 := tlv_length_encode t (hv t ht) rest
    have h2 := tlv_size_spec_encode t (hv t ht) rest
    exact ⟨by rw [h1, h2], h1⟩
  · intro blocklen copied
    rw [strip_loop_count_offset, strip_loop_count_block tlvs hv pre post fuel hfuel hlen]
    rfl

/-- Instance of C17: the block of the sample message holds a TLV without value (2
bytes), a signature TLV with a 1-byte length (8 bytes) and a TLV with a 2-byte length
(7 bytes); the loop runs 3 times from offset 6 to offset 23. -/
theorem strip_offset_accounting_witness :
    strip_loop_count mixed_message 26 6 17 = some (3, 23, 0)
    ∧ tlv_length mixed_message 6 = 2 ∧ tlv_length mixed_message 8 = 8
    ∧ tlv_length mixed_message 16 = 7 :=
  ⟨(strip_offset_accounting [bare_tlv, short_signature_tlv, wide_tlv] (by decide)
      [1, 3, 0, 25, 0, 17] [0xAA, 0xBB] 26 (by decide) (by decide)).2.2.1,
    by decide, by decide, by decide⟩

/-! ## Splice operation: claims -/

/-- C18 (splice layout). Let `_cb_add_signature` succeed on a buffer that holds the
header and, unless a packet block is created, the 2-byte block length, with a key-id
below 256 bytes and a result below 65536 bytes; let `cb` be the crypt output and
`s = 3 + key-id-length + signature length`. Directly after the 2-byte block length the
result holds the signature type, the flags (type-ext and value, plus ext-value iff
`s > 255`), the extension type (source-specific or plain), `s` in 1 byte (2 bytes
big-endian iff `s > 255`), hash-id, crypt-id, key-id length, the key-id and the
signature, followed by the previous content of the block and everything after it,
unchanged. Before the block only bytes 2..3 of a message (the new size) and the has-TLV
bit of a packet that had no block differ from the input. -/
theorem splice_layout (sig : rfc5444_signature) (local_socket : Option (List Nat))
    (msg : Option rfc5444_writer_message) (data out : List Nat)
    (hsign : _cb_add_signature sig local_socket msg data = some (0, out))
    (hfit : tlvblock_offset msg data
        + (if msg.isNone = true ∧ data.getD 0 0 &&& RFC5444_PKT_FLAG_TLV = 0 then 0 else 2)
      ≤ data.length)
    (hkey : sig.getKeyId.length < 256)
    (hsize : out.length < 65536) :
    ∃ address crypt hash cb,
      (if sig.source_specific then local_socket else some []) = some address
      ∧ sig.crypt = some crypt ∧ sig.hash = some hash
      ∧ crypt.crypt hash (signer_static_buffer sig address msg data) = some cb
      ∧ out.drop (tlvblock_offset msg data + 2)
          = [RFC7182_MSGTLV_ICV,
              if 3 + sig.getKeyId.length + cb.length > 255 then
                RFC5444_TLV_FLAG_TYPEEXT ||| RFC5444_TLV_FLAG_VALUE
                  ||| RFC5444_TLV_FLAG_EXTVALUE
              else RFC5444_TLV_FLAG_TYPEEXT ||| RFC5444_TLV_FLAG_VALUE,
              if sig.source_specific then RFC7182_ICV_EXT_SRCSPEC_CRYPTHASH
              else RFC7182_ICV_EXT_CRYPTHASH]
            ++ (if 3 + sig.getKeyId.length + cb.length > 255 then
                  [(3 + sig.getKeyId.length + cb.length) / 256,
                   (3 + sig.getKeyId.length + cb.length) % 256]
                else [3 + sig.getKeyId.length + cb.length])
            ++ [sig.key.hash_function, sig.key.crypt_function, sig.getKeyId.length]
            ++ sig.getKeyId ++ cb
            ++ (if msg.isNone = true ∧ data.getD 0 0 &&& RFC5444_PKT_FLAG_TLV = 0 then
                  data.drop (tlvblock_offset msg data)
                else data.drop (tlvblock_offset msg data + 2))
      ∧ ∀ i, i < tlvblock_offset msg data →
          out.getD i 0
            = if msg.isSome = true ∧ i = 2 then out.length / 256
              else if msg.isSome = true ∧ i = 3 then out.length % 256
              else if (msg.isNone = true ∧ data.getD 0 0 &&& RFC5444_PKT_FLAG_TLV = 0)
                  ∧ i = 0 then
                data.getD 0 0 ||| RFC5444_PKT_FLAG_TLV
              else data.getD i 0 := by
  obtain ⟨address, crypt, hash, cb, max_size, ha, hc, hh, hcb, _, _, hout⟩ :=
    cb_add_signature_success sig local_socket msg data out hsign
  subst hout
  have hlen := splice_length sig msg data cb hfit
  have htl := signature_tlv_length sig cb
  have hs : 3 + sig.getKeyId.length + cb.length < 65536 := by
    split at htl <;> omega
  refine ⟨address, crypt, hash, cb, ha, hc, hh, hcb, ?_, ?_⟩
  · rw [splice_drop sig msg data cb hfit, signature_tlv_layout sig cb hs hkey]
  · intro i hi
    rw [splice_header sig msg data cb hfit i hi,
      Nat.mod_eq_of_lt (Nat.div_lt_of_lt_mul (by omega :
        (splice_signature sig msg data cb).length < 256 * 256))]

/-- Instance of C18: the sample message signed by the identity policy; the signature TLV
`[5, 0x90, 1, 12, 0, 0, 0]` followed by the 9 signature bytes stands at offset 6. -/
theorem splice_layout_witness :
    ∃ cb, _cb_identity_crypt _identity_hash ([0, 0, 0] ++ unsigned_message) = some cb
      ∧ cb.length = 9
      ∧ signed_message.drop 6 = [5, 0x90, 1] ++ [3 + cb.length] ++ [0, 0, 0] ++ cb
      ∧ signed_message.getD 2 0 = 0 ∧ signed_message.getD 3 0 = 22 := by
  obtain ⟨address, crypt, hash, cb, ha, hc, hh, hcb, hdrop, hhdr⟩ :=
    splice_layout (identity_policy false true [] _cb_sigid_okay) none (some plain_message)
      unsigned_message signed_message (by decide) (by decide) (by decide) (by decide)
  have ha2 : address = [] := (Option.some.inj ha).symm
  have hc2 : crypt = identity_crypt_sized 1024 := (Option.some.inj hc).symm
  have hh2 : hash = _identity_hash := (Option.some.inj hh).symm
  subst ha2 hc2 hh2
  have hcb2 : cb = [0, 0, 0] ++ unsigned_message := (Option.some.inj hcb).symm
  subst hcb2
  exact ⟨_, rfl, by decide, hdrop.trans (by decide), (hhdr 2 (by decide)).trans (by decide),
    (hhdr 3 (by decide)).trans (by decide)⟩

/-- C19 (splice length fields, as amended). Let `_cb_add_signature` succeed on a message of `n`
bytes whose TLV block (declared length `B`) lies inside the message, with a result below
65536 bytes; let `cb` be the crypt output and `s = 3 + key-id-length + signature
length`. Then the new size is `n + 4 + s`, one more iff `s > 255`; bytes 2..3 of the
result hold the new size in big-endian; and the block length field holds `B` plus the
size of the signature TLV in big-endian. -/
theorem splice_length_fields (sig : rfc5444_signature) (local_socket : Option (List Nat))
    (m : rfc5444_writer_message) (data out : List Nat)
    (hsign : _cb_add_signature sig local_socket (some m) data = some (0, out))
    (hblock : tlvblock_offset (some m) data + 2
        + (256 * data.getD (tlvblock_offset (some m) data) 0
            + data.getD (tlvblock_offset (some m) data + 1) 0)
      ≤ data.length)
    (hsize : out.length < 65536) :
    ∃ address crypt hash cb,
      (if sig.source_specific then local_socket else some []) = some address
      ∧ sig.crypt = some crypt ∧ sig.hash = some hash
      ∧ crypt.crypt hash (signer_static_buffer sig address (some m) data) = some cb
      ∧ out.length
          = data.length + 4 + (3 + sig.getKeyId.length + cb.length)
            + (if 3 + sig.getKeyId.length + cb.length > 255 then 1 else 0)
      ∧ out.getD 2 0 = out.length / 256 ∧ out.getD 3 0 = out.length % 256
      ∧ out.getD (tlvblock_offset (some m) data) 0
          = (256 * data.getD (tlvblock_offset (some m) data) 0
              + data.getD (tlvblock_offset (some m) data + 1) 0
              + (4 + (3 + sig.getKeyId.length + cb.length)
                + (if 3 + sig.getKeyId.length + cb.length > 255 then 1 else 0))) / 256
      ∧ out.getD (tlvblock_offset (some m) data + 1) 0
          = (256 * data.getD (tlvblock_offset (some m) data) 0
              + data.getD (tlvblock_offset (some m) data + 1) 0
              + (4 + (3 + sig.getKeyId.length + cb.length)
                + (if 3 + sig.getKeyId.length + cb.length > 255 then 1 else 0))) % 256 := by
  obtain ⟨address, crypt, hash, cb, max_size, ha, hc, hh, hcb, _, _, hout⟩ :=
    cb_add_signature_success sig local_socket (some m) data out hsign
  subst hout
  have hfit : tlvblock_offset (some m) data + 2 ≤ data.length := by omega
  have hfit2 : tlvblock_offset (some m) data
      + (if (some m).isNone = true ∧ data.getD 0 0 &&& RFC5444_PKT_FLAG_TLV = 0 then 0
         else 2) ≤ data.length := by
    simp only [Option.isNone_some, Bool.false_eq_true, false_and, if_false]
    exact hfit
  have hlen := splice_length sig (some m) data cb hfit2
  simp only [Option.isNone_some, Bool.false_eq_true, false_and, if_false, Nat.add_zero]
    at hlen
  have htl : (signature_tlv sig cb).length
      = 4 + (3 + sig.getKeyId.length + cb.length)
        + (if 3 + sig.getKeyId.length + cb.length > 255 then 1 else 0) := by
    rw [signature_tlv_length]
    split_ifs <;> omega
  have h4 := message_offset_ge m data
  have h2 := splice_header sig (some m) data cb hfit2 2 (by omega)
  have h3 := splice_header sig (some m) data cb hfit2 3 (by omega)
  simp only [Option.isSome_some, true_and, if_true] at h2
  simp only [Option.isSome_some, true_and, if_true] at h3
  have hb := splice_message_block_length sig m data cb hfit
  rw [htl] at hb hlen
  refine ⟨address, crypt, hash, cb, ha, hc, hh, hcb, by rw [hlen]; omega, ?_, ?_, ?_, ?_⟩
  · rw [h2]; omega
  · rw [h3]
    split_ifs <;> first | rfl | omega
  · rw [hb.1]; omega
  · exact hb.2

/-- Instance of C19: a message of 40 bytes signed with identity hash, identity crypt and
no key-id. The signature is the signable buffer of 43 bytes, `s = 46`, the message grows
by 50 bytes to 90, bytes 2..3 hold 90 and the block length grows from 34 to 84. -/
theorem splice_length_fields_witness :
    ∃ out cb, _cb_add_signature (identity_policy false true [] _cb_sigid_okay) none
          (some plain_message) forty_byte_message = some (0, out)
      ∧ _cb_identity_crypt _identity_hash
          (signer_static_buffer (identity_policy false true [] _cb_sigid_okay) []
            (some plain_message) forty_byte_message) = some cb
      ∧ forty_byte_message.length = 40 ∧ cb.length = 43 ∧ 3 + 0 + cb.length = 46
      ∧ out.length = 90
      ∧ out.getD 2 0 = 0 ∧ out.getD 3 0 = 90
      ∧ out.getD 4 0 = 0 ∧ out.getD 5 0 = 84 := by
  have hsign : _cb_add_signature (identity_policy false true [] _cb_sigid_okay) none
      (some plain_message) forty_byte_message
      = some (0, splice_signature (identity_policy false true [] _cb_sigid_okay)
          (some plain_message) forty_byte_message ([0, 0, 0] ++ forty_byte_message)) := by
    decide
  obtain ⟨address, crypt, hash, cb, ha, hc, hh, hcb, hlen, h2, h3, h4, h5⟩ :=
    splice_length_fields (identity_policy false true [] _cb_sigid_okay) none plain_message
      forty_byte_message _ hsign (by decide) (by decide)
  have ha2 : address = [] := (Option.some.inj ha).symm
  have hc2 : crypt = identity_crypt_sized 1024 := (Option.some.inj hc).symm
  have hh2 : hash = _identity_hash := (Option.some.inj hh).symm
  subst ha2 hc2 hh2
  have hcb2 : cb = [0, 0, 0] ++ forty_byte_message := (Option.some.inj hcb).symm
  subst hcb2
  have hl : (splice_signature (identity_policy false true [] _cb_sigid_okay)
      (some plain_message) forty_byte_message ([0, 0, 0] ++ forty_byte_message)).length
      = 90 := hlen.trans (by decide)
  refine ⟨_, _, hsign, rfl, by decide, by decide, by decide, hl, ?_, ?_,
    h4.trans (by decide), h5.trans (by decide)⟩
  · rw [h2, hl]
  · rw [h3, hl]

/-- C20 (splice creates a packet TLV block). Let `_cb_add_signature` succeed on a packet
(null message) with a result below 65536 bytes; let `cb` be the crypt output and `t`
the size of the new signature TLV. The packet header ends at offset 1, or 3 when the
sequence-number flag is set. If the has-TLV flag of byte 0 was clear, the result is the
header with that flag set, then the 2-byte big-endian block length `t`, then the
signature TLV, then all bytes that followed the header, and the size grows by `2 + t`.
If the flag was set, the header is unchanged, no block header is added, the signature
TLV stands before the previous block content, and the size grows by `t`. -/
theorem splice_creates_packet_block (sig : rfc5444_signature)
    (local_socket : Option (List Nat)) (data out : List Nat)
    (hsign : _cb_add_signature sig local_socket none data = some (0, out))
    (hfit : tlvblock_offset none data
        + (if data.getD 0 0 &&& RFC5444_PKT_FLAG_TLV = 0 then 0 else 2) ≤ data.length)
    (hsize : out.length < 65536) :
    ∃ address crypt hash cb,
      (if sig.source_specific then local_socket else some []) = some address
      ∧ sig.crypt = some crypt ∧ sig.hash = some hash
      ∧ crypt.crypt hash (signer_static_buffer sig address none data) = some cb
      ∧ (signature_tlv sig cb).length
          = 4 + (3 + sig.getKeyId.length + cb.length)
            + (if 3 + sig.getKeyId.length + cb.length > 255 then 1 else 0)
      ∧ tlvblock_offset none data
          = (if data.getD 0 0 &&& RFC5444_PKT_FLAG_SEQNO ≠ 0 then 3 else 1)
      ∧ (data.getD 0 0 &&& RFC5444_PKT_FLAG_TLV = 0 →
          out = (data.take (tlvblock_offset none data)).set 0
                  (data.getD 0 0 ||| RFC5444_PKT_FLAG_TLV)
                ++ [(signature_tlv sig cb).length / 256, (signature_tlv sig cb).length % 256]
                ++ signature_tlv sig cb ++ data.drop (tlvblock_offset none data)
          ∧ out.length = data.length + 2 + (signature_tlv sig cb).length)
      ∧ (data.getD 0 0 &&& RFC5444_PKT_FLAG_TLV ≠ 0 →
          out.take (tlvblock_offset none data) = data.take (tlvblock_offset none data)
          ∧ out.drop (tlvblock_offset none data + 2)
              = signature_tlv sig cb ++ data.drop (tlvblock_offset none data + 2)
          ∧ out.length = data.length + (signature_tlv sig cb).length) := by
  obtain ⟨address, crypt, hash, cb, max_size, ha, hc, hh, hcb, _, _, hout⟩ :=
    cb_add_signature_success sig local_socket none data out hsign
  subst hout
  have hfit2 : tlvblock_offset none data
      + (if (none : Option rfc5444_writer_message).isNone = true
            ∧ data.getD 0 0 &&& RFC5444_PKT_FLAG_TLV = 0 then 0 else 2) ≤ data.length := by
    simpa using hfit
  have hlen := splice_length sig none data cb hfit2
  have hdrop := splice_drop sig none data cb hfit2
  have htl : (signature_tlv sig cb).length
      = 4 + (3 + sig.getKeyId.length + cb.length)
        + (if 3 + sig.getKeyId.length + cb.length > 255 then 1 else 0) := by
    rw [signature_tlv_length]
    split_ifs <;> omega
  refine ⟨address, crypt, hash, cb, ha, hc, hh, hcb, htl, rfl, ?_, ?_⟩
  · intro hflag
    simp only [Option.isNone_none, hflag, and_self, if_true, Nat.add_zero] at hlen hfit
    have hsp := splice_new sig data cb hflag hfit
    refine ⟨?_, by rw [hlen]; omega⟩
    rw [hsp, Nat.mod_eq_of_lt (Nat.div_lt_of_lt_mul (by omega :
      (signature_tlv sig cb).length < 256 * 256))]
    simp
  · intro hflag
    simp only [Option.isNone_none, hflag, and_false, if_false, Nat.add_zero]
      at hlen hfit hdrop
    refine ⟨?_, hdrop, hlen⟩
    rw [splice_existing_packet sig data cb hflag hfit]
    have hl : (data.take (tlvblock_offset none data)).length = tlvblock_offset none data := by
      simp; omega
    generalize data.take (tlvblock_offset none data) = h0 at hl ⊢
    rw [← hl]
    exact List.take_left _ _

/-- Instance of C20: a packet of 7 bytes without TLV block, signed with the identity
policy: the signature TLV has 17 bytes, the result has 26 bytes and starts with the
flag byte 4 and the block length `[0, 17]`. -/
theorem splice_creates_packet_block_witness :
    ∃ out, _cb_add_signature (identity_policy false true [] _cb_sigid_okay) none none
          blockless_packet = some (0, out)
      ∧ out.length = 26
      ∧ out = [4, 0, 17, 5, 0x90, 1, 13, 0, 0, 0, 0, 0, 0, 0, 0, 0, 0, 6, 0, 0,
               0, 0, 0, 6, 0, 0] := by
  have hsign : _cb_add_signature (identity_policy false true [] _cb_sigid_okay) none none
      blockless_packet
      = some (0, splice_signature (identity_policy false true [] _cb_sigid_okay)
          none blockless_packet ([0, 0, 0] ++ blockless_packet)) := by
    decide
  obtain ⟨address, crypt, hash, cb, ha, hc, hh, hcb, htl, hoff, hnew, _⟩ :=
    splice_creates_packet_block (identity_policy false true [] _cb_sigid_okay) none
      blockless_packet _ hsign (by decide) (by decide)
  have ha2 : address = [] := (Option.some.inj ha).symm
  have hc2 : crypt = identity_crypt_sized 1024 := (Option.some.inj hc).symm
  have hh2 : hash = _identity_hash := (Option.some.inj hh).symm
  subst ha2 hc2 hh2
  have hcb2 : cb = [0, 0, 0] ++ blockless_packet := (Option.some.inj hcb).symm
  subst hcb2
  obtain ⟨h1, h2⟩ := hnew (by decide)
  exact ⟨_, hsign, h2.trans (by decide), h1.trans (by decide)⟩

/-! ## Registries: lemmas -/

theorem avl_find_element_mem {α κ : Type} [DecidableEq κ] (key : α → κ) (tree : List α)
    (k : κ) (x : α)
    (h : avl_find_element key tree k = some x) : x ∈ tree ∧ key x = k := by
  unfold avl_find_element at h
  exact ⟨List.mem_of_find?_eq_some h, by simpa using List.find?_some h⟩

theorem handle_postprocessor_spec (hashes : List rfc5444_sig_hash)
    (crypts : List rfc5444_sig_crypt) (sig sig1 : rfc5444_signature)
    (h : handle_postprocessor hashes crypts sig = some sig1) :
    sig1.key = sig.key
    ∧ sig1.hash = avl_find_element (fun h : rfc5444_sig_hash => h.type) hashes
        sig.key.hash_function
    ∧ sig1.crypt = avl_find_element (fun c : rfc5444_sig_crypt => c.type) crypts
        sig.key.crypt_function
    ∧ sig1._postprocessor._node_added = (sig1.hash.isSome && sig1.crypt.isSome) := by
  unfold handle_postprocessor at h
  cases hh : avl_find_element (fun h : rfc5444_sig_hash => h.type) hashes
      sig.key.hash_function with
  | none =>
    cases hr : sig._postprocessor._node_added <;>
      simp only [hh, hr] at h <;> simp at h <;> subst h <;> simp [hr]
  | some hv =>
    cases hc : avl_find_element (fun c : rfc5444_sig_crypt => c.type) crypts
        sig.key.crypt_function with
    | none =>
      cases hr : sig._postprocessor._node_added <;>
        simp only [hh, hc, hr] at h <;> simp at h <;> subst h <;> simp [hr]
    | some cv =>
      cases hr : sig._postprocessor._node_added with
      | true =>
        simp only [hh, hc, hr] at h
        simp at h
        subst h
        simp [hr]
      | false =>
        simp only [hh, hc, hr] at h
        cases hg : cv.getSize with
        | none => simp [hg] at h
        | some n =>
          simp [hg] at h
          subst h
          simp

theorem handle_postprocessor_some (hashes : List rfc5444_sig_hash)
    (crypts : List rfc5444_sig_crypt) (sig : rfc5444_signature)
    (hsz : ∀ c ∈ crypts, c.type = sig.key.crypt_function → c.getSize.isSome = true) :
    ∃ sig1, handle_postprocessor hashes crypts sig = some sig1 := by
  unfold handle_postprocessor
  cases hh : avl_find_element (fun h : rfc5444_sig_hash => h.type) hashes
      sig.key.hash_function with
  | none =>
    cases hr : sig._postprocessor._node_added <;> simp
  | some hv =>
    cases hc : avl_find_element (fun c : rfc5444_sig_crypt => c.type) crypts
        sig.key.crypt_function with
    | none =>
      cases hr : sig._postprocessor._node_added <;> simp
    | some cv =>
      have hm := avl_find_element_mem _ _ _ _ hc
      have := hsz cv hm.1 hm.2
      cases hg : cv.getSize with
      | none => rw [hg] at this; simp at this
      | some n => cases hr : sig._postprocessor._node_added <;> simp [hg]

theorem handle_loop_spec (hashes : List rfc5444_sig_hash) (crypts : List rfc5444_sig_crypt) :
    ∀ (tree tree1 : List rfc5444_signature),
      handle_loop hashes crypts tree = some tree1 →
      ∀ sig1 ∈ tree1, ∃ sig ∈ tree, handle_postprocessor hashes crypts sig = some sig1 := by
  intro tree
  induction tree with
  | nil =>
    intro tree1 h sig1 hm
    simp [handle_loop] at h
    subst h
    simp at hm
  | cons sig rest ih =>
    intro tree1 h sig1 hm
    unfold handle_loop at h
    cases h1 : handle_postprocessor hashes crypts sig with
    | none => simp [h1] at h
    | some s1 =>
      cases h2 : handle_loop hashes crypts rest with
      | none => simp [h1, h2] at h
      | some r1 =>
        simp [h1, h2] at h
        subst h
        rcases List.mem_cons.mp hm with e | e
        · subst e
          exact ⟨sig, List.mem_cons_self _ _, h1⟩
        · obtain ⟨s, hs, he⟩ := ih r1 h2 sig1 e
          exact ⟨s, List.mem_cons_of_mem _ hs, he⟩

theorem handle_loop_some (hashes : List rfc5444_sig_hash) (crypts : List rfc5444_sig_crypt) :
    ∀ tree : List rfc5444_signature,
      (∀ sig ∈ tree, ∀ c ∈ crypts, c.type = sig.key.crypt_function →
        c.getSize.isSome = true) →
      ∃ tree1, handle_loop hashes crypts tree = some tree1 := by
  intro tree
  induction tree with
  | nil => intro _; exact ⟨[], rfl⟩
  | cons sig rest ih =>
    intro hsz
    obtain ⟨s1, h1⟩ := handle_postprocessor_some hashes crypts sig
      (hsz sig (List.mem_cons_self _ _))
    obtain ⟨r1, h2⟩ := ih (fun s hs => hsz s (List.mem_cons_of_mem _ hs))
    exact ⟨s1 :: r1, by simp [handle_loop, h1, h2]⟩

theorem handle_postprocessors_trees (st st1 : signature_registry)
    (h : _handle_postprocessors st = some st1) :
    st1._hash_functions = st._hash_functions
    ∧ st1._crypt_functions = st._crypt_functions
    ∧ handle_loop st._hash_functions st._crypt_functions st._sig_tree
        = some st1._sig_tree := by
  unfold _handle_postprocessors at h
  cases hl : handle_loop st._hash_functions st._crypt_functions st._sig_tree with
  | none => simp [hl] at h
  | some tree =>
    simp [hl] at h
    subst h
    exact ⟨rfl, rfl, rfl⟩

theorem handle_postprocessors_consistent (st st1 : signature_registry)
    (h : _handle_postprocessors st = some st1) : registry_consistent st1 := by
  obtain ⟨h1, h2, h3⟩ := handle_postprocessors_trees st st1 h
  intro sig1 hm
  obtain ⟨sig, _, hs⟩ := handle_loop_spec _ _ _ _ h3 sig1 hm
  obtain ⟨hk, hh, hc, hn⟩ := handle_postprocessor_spec _ _ _ _ hs
  rw [h1, h2, hk]
  exact ⟨hh, hc, hn⟩

theorem handle_postprocessors_some (st : signature_registry) (hsz : policies_sized st) :
    ∃ st1, _handle_postprocessors st = some st1
      ∧ st1._hash_functions = st._hash_functions
      ∧ st1._crypt_functions = st._crypt_functions
      ∧ registry_consistent st1 := by
  obtain ⟨t, ht⟩ := handle_loop_some st._hash_functions st._crypt_functions st._sig_tree hsz
  have h : _handle_postprocessors st = some { st with _sig_tree := t } := by
    simp [_handle_postprocessors, ht]
  exact ⟨_, h, rfl, rfl, handle_postprocessors_consistent st _ h⟩

theorem avl_find_none_iff {α κ : Type} [DecidableEq κ] (key : α → κ) (tree : List α)
    (k : κ) :
    avl_find_element key tree k = none ↔ ∀ x ∈ tree, key x ≠ k := by
  unfold avl_find_element
  simp [List.find?_eq_none]

theorem avl_insert_present {α : Type} (key : α → Nat) (tree : List α) (new old : α)
    (h : avl_find_element key tree (key new) = some old) :
    avl_insert key false tree new = (-1, tree) := by
  have hm := avl_find_element_mem key tree _ old h
  have : tree.any (fun x => key x == key new) = true :=
    List.any_eq_true.mpr ⟨old, hm.1, by simp [hm.2]⟩
  simp [avl_insert, this]

theorem avl_insert_absent {α : Type} (key : α → Nat) (tree : List α) (new : α)
    (h : avl_find_element key tree (key new) = none) :
    avl_insert key false tree new
      = (0, tree.takeWhile (fun x => decide (key x ≤ key new)) ++ [new]
            ++ tree.dropWhile (fun x => decide (key x ≤ key new))) := by
  have hn := (avl_find_none_iff key tree _).mp h
  have : tree.any (fun x => key x == key new) = false := by
    apply Bool.eq_false_iff.mpr
    intro ht
    obtain ⟨x, hx, he⟩ := List.any_eq_true.mp ht
    exact hn x hx (by simpa using he)
  simp [avl_insert, this]

theorem avl_find_inserted {α : Type} (key : α → Nat) (tree : List α) (new : α)
    (p : α → Bool) (h : avl_find_element key tree (key new) = none) (k : Nat) :
    avl_find_element key (tree.takeWhile p ++ [new] ++ tree.dropWhile p) k
      = if k = key new then some new else avl_find_element key tree k := by
  have hn := (avl_find_none_iff key tree _).mp h
  unfold avl_find_element
  by_cases hk : k = key new
  · subst hk
    have h1 : (tree.takeWhile p).find? (fun x => key x == key new) = none := by
      apply List.find?_eq_none.mpr
      intro x hx
      have := hn x ((List.takeWhile_sublist p).subset hx)
      simpa using this
    simp [List.find?_append, h1]
  · have hne : (key new == k) = false := by
      apply beq_false_of_ne
      exact fun e => hk e.symm
    simp only [hk, if_false]
    have e : List.find? (fun x => key x == k) tree
        = List.find? (fun x => key x == k) (tree.takeWhile p ++ tree.dropWhile p) := by
      rw [List.takeWhile_append_dropWhile]
    simp only [List.find?_append, List.find?_cons, hne, List.find?_nil, Option.none_or,
      Option.or_none, Option.or_assoc]
    rw [e, List.find?_append]

theorem avl_remove_inserted {α : Type} (key : α → Nat) (tree : List α) (new : α)
    (p : α → Bool) (h : avl_find_element key tree (key new) = none) :
    avl_remove key (tree.takeWhile p ++ [new] ++ tree.dropWhile p) new = tree := by
  have hn := (avl_find_none_iff key tree _).mp h
  unfold avl_remove
  have h1 : ∀ x ∈ tree.takeWhile p, ¬ (key x == key new) = true := by
    intro x hx
    have := hn x ((List.takeWhile_sublist p).subset hx)
    simpa using this
  rw [List.append_assoc, List.eraseP_append_right _ h1]
  simp [List.eraseP_cons, List.takeWhile_append_dropWhile]

theorem avl_find_removed {α κ : Type} [DecidableEq κ] (key : α → κ) :
    ∀ (tree : List α) (node : α), (tree.map key).Nodup →
      avl_find_element key (avl_remove key tree node) (key node) = none := by
  intro tree node
  induction tree with
  | nil => intro _; rfl
  | cons x xs ih =>
    intro hnd
    simp only [List.map_cons, List.nodup_cons] at hnd
    have ih2 := ih hnd.2
    unfold avl_remove at ih2 ⊢
    rw [List.eraseP_cons]
    by_cases hx : key x = key node
    · have hb : (key x == key node) = true := by simpa using hx
      simp only [hb, cond_true, if_true]
      apply (avl_find_none_iff key xs _).mpr
      intro y hy he
      apply hnd.1
      rw [hx, ← he]
      exact List.mem_map_of_mem key hy
    · have hb : (key x == key node) = false := by simpa using hx
      simp only [hb, cond_false, if_false, Bool.false_eq_true]
      unfold avl_find_element at ih2 ⊢
      simp only [List.find?_cons, hb]
      exact ih2

theorem avl_find_removed_other {α κ : Type} [DecidableEq κ] (key : α → κ) :
    ∀ (tree : List α) (node : α) (k : κ), k ≠ key node →
      avl_find_element key (avl_remove key tree node) k = avl_find_element key tree k := by
  intro tree node k hk
  induction tree with
  | nil => rfl
  | cons x xs ih =>
    unfold avl_remove avl_find_element at ih ⊢
    rw [List.eraseP_cons]
    by_cases hx : key x = key node
    · have hb : (key x == key node) = true := by simpa using hx
      have hxk : (key x == k) = false := by
        apply beq_false_of_ne
        intro e
        exact hk (by rw [← e, hx])
      simp only [hb, cond_true, if_true, List.find?_cons, hxk]
    · have hb : (key x == key node) = false := by simpa using hx
      simp only [hb, cond_false, if_false, Bool.false_eq_true, List.find?_cons]
      cases hxk : (key x == k)
      · exact ih
      · rfl

theorem cb_add_signature_result (sig : rfc5444_signature) (local_socket : Option (List Nat))
    (msg : Option rfc5444_writer_message) (data : List Nat) (r : Int) (out : List Nat)
    (h : _cb_add_signature sig local_socket msg data = some (r, out)) :
    (r = -1 ∧ out = data) ∨ r = 0 := by
  unfold _cb_add_signature at h
  cases ha : (if sig.source_specific then local_socket else some []) with
  | none => rw [ha] at h; simp at h; exact Or.inl ⟨h.1.symm, h.2.symm⟩
  | some address =>
    rw [ha] at h
    cases hc : sig.crypt with
    | none => simp [hc] at h
    | some crypt =>
      cases hh : sig.hash with
      | none => simp [hc, hh] at h
      | some hash =>
        simp only [hc, hh] at h
        cases hcb : crypt.crypt hash (signer_static_buffer sig address msg data) with
        | none => simp [hcb] at h; exact Or.inl ⟨h.1.symm, h.2.symm⟩
        | some cb =>
          simp only [hcb] at h
          cases hm : crypt.getSize with
          | none => simp [hm] at h
          | some max_size =>
            simp only [hm] at h
            by_cases hgt : cb.length > max_size
            · simp [hgt] at h; exact Or.inl ⟨h.1.symm, h.2.symm⟩
            · simp [hgt] at h; exact Or.inr h.1.symm

theorem cb_add_signature_cases (sig : rfc5444_signature) (local_socket : Option (List Nat))
    (msg : Option rfc5444_writer_message) (data : List Nat) (crypt : rfc5444_sig_crypt)
    (hash : rfc5444_sig_hash) (max_size : Nat)
    (hc : sig.crypt = some crypt) (hh : sig.hash = some hash)
    (hs : crypt.getSize = some max_size) :
    _cb_add_signature sig local_socket msg data
      = match (if sig.source_specific then local_socket else some []) with
        | none => some (-1, data)
        | some address =>
          match crypt.crypt hash (signer_static_buffer sig address msg data) with
          | none => some (-1, data)
          | some cb =>
            if cb.length > max_size then some (-1, data)
            else some (0, splice_signature sig msg data cb) := by
  unfold _cb_add_signature
  cases ha : (if sig.source_specific then local_socket else some []) with
  | none => rfl
  | some address =>
    simp only [hc, hh]
    cases hcb : crypt.crypt hash (signer_static_buffer sig address msg data) with
    | none => rfl
    | some cb => simp only [hs]

theorem policies_sized_hashes (st : signature_registry) (hashes : List rfc5444_sig_hash)
    (h : policies_sized st) : policies_sized { st with _hash_functions := hashes } := h

theorem policies_sized_crypts (st : signature_registry) (crypts : List rfc5444_sig_crypt)
    (h : policies_sized st)
    (hsub : ∀ c ∈ crypts, c ∈ st._crypt_functions
      ∨ ∀ sig ∈ st._sig_tree, c.type = sig.key.crypt_function → c.getSize.isSome = true) :
    policies_sized { st with _crypt_functions := crypts } := by
  intro sig hs c hc he
  rcases hsub c hc with h1 | h1
  · exact h sig hs c h1 he
  · exact h1 sig hs he

theorem handle_postprocessors_sized (st st1 : signature_registry) (hsz : policies_sized st)
    (h : _handle_postprocessors st = some st1) : policies_sized st1 := by
  obtain ⟨_, e2, e3⟩ := handle_postprocessors_trees _ _ h
  intro sig hs c hc he
  rw [e2] at hc
  obtain ⟨s0, hs0, hp⟩ := handle_loop_spec _ _ _ _ e3 sig hs
  have hk := (handle_postprocessor_spec _ _ _ _ hp).1
  rw [hk] at he
  exact hsz s0 hs0 c hc he

theorem add_hash_present (st : signature_registry) (hsz : policies_sized st)
    (hash old : rfc5444_sig_hash)
    (h : avl_find_element (fun h : rfc5444_sig_hash => h.type) st._hash_functions hash.type
      = some old) :
    ∃ st1, rfc5444_sig_add_hash st hash = some st1
      ∧ st1._hash_functions = st._hash_functions
      ∧ st1._crypt_functions = st._crypt_functions ∧ registry_consistent st1 := by
  unfold rfc5444_sig_add_hash
  rw [avl_insert_present _ _ _ _ h]
  exact handle_postprocessors_some _ hsz

theorem add_hash_absent (st : signature_registry) (hsz : policies_sized st)
    (hash : rfc5444_sig_hash)
    (h : avl_find_element (fun h : rfc5444_sig_hash => h.type) st._hash_functions hash.type
      = none) :
    ∃ st1, rfc5444_sig_add_hash st hash = some st1
      ∧ (∀ k, avl_find_element (fun h : rfc5444_sig_hash => h.type) st1._hash_functions k
          = if k = hash.type then some hash
            else avl_find_element (fun h : rfc5444_sig_hash => h.type) st._hash_functions k)
      ∧ st1._crypt_functions = st._crypt_functions ∧ registry_consistent st1
      ∧ ∃ st2, rfc5444_sig_remove_hash st1 hash = some st2
          ∧ st2._hash_functions = st._hash_functions
          ∧ st2._crypt_functions = st._crypt_functions ∧ registry_consistent st2 := by
  unfold rfc5444_sig_add_hash
  rw [avl_insert_absent _ _ _ h]
  obtain ⟨st1, h1, h2, h3, h4⟩ := handle_postprocessors_some
    { st with _hash_functions :=
        st._hash_functions.takeWhile (fun x => decide (x.type ≤ hash.type)) ++ [hash]
          ++ st._hash_functions.dropWhile (fun x => decide (x.type ≤ hash.type)) } hsz
  refine ⟨st1, h1, ?_, h3, h4, ?_⟩
  · intro k
    rw [h2]
    exact avl_find_inserted (fun h : rfc5444_sig_hash => h.type) _ hash _ h k
  · have hsz1 : policies_sized st1 :=
      handle_postprocessors_sized _ _ (policies_sized_hashes st _ hsz) h1
    unfold rfc5444_sig_remove_hash
    obtain ⟨st2, g1, g2, g3, g4⟩ := handle_postprocessors_some
      { st1 with _hash_functions :=
          avl_remove (fun h : rfc5444_sig_hash => h.type) st1._hash_functions hash } hsz1
    refine ⟨st2, g1, ?_, ?_, g4⟩
    · rw [g2]
      simp only [h2]
      exact avl_remove_inserted (fun h : rfc5444_sig_hash => h.type) _ hash _ h
    · rw [g3]; exact h3

theorem remove_hash_unique (st : signature_registry) (hsz : policies_sized st)
    (hash : rfc5444_sig_hash)
    (hnd : (st._hash_functions.map (fun h : rfc5444_sig_hash => h.type)).Nodup) :
    ∃ st2, rfc5444_sig_remove_hash st hash = some st2
      ∧ avl_find_element (fun h : rfc5444_sig_hash => h.type) st2._hash_functions hash.type
          = none
      ∧ (∀ k, k ≠ hash.type →
          avl_find_element (fun h : rfc5444_sig_hash => h.type) st2._hash_functions k
            = avl_find_element (fun h : rfc5444_sig_hash => h.type) st._hash_functions k)
      ∧ st2._crypt_functions = st._crypt_functions ∧ registry_consistent st2 := by
  unfold rfc5444_sig_remove_hash
  obtain ⟨st2, g1, g2, g3, g4⟩ := handle_postprocessors_some
    { st with _hash_functions :=
        avl_remove (fun h : rfc5444_sig_hash => h.type) st._hash_functions hash } hsz
  refine ⟨st2, g1, ?_, ?_, g3, g4⟩
  · rw [g2]
    exact avl_find_removed (fun h : rfc5444_sig_hash => h.type) _ hash hnd
  · intro k hk
    rw [g2]
    exact avl_find_removed_other (fun h : rfc5444_sig_hash => h.type) _ hash k hk

theorem add_crypt_present (st : signature_registry) (hsz : policies_sized st)
    (crypt old : rfc5444_sig_crypt)
    (h : avl_find_element (fun c : rfc5444_sig_crypt => c.type) st._crypt_functions
      crypt.type = some old) :
    ∃ st1, rfc5444_sig_add_crypt st crypt = some st1
      ∧ st1._hash_functions = st._hash_functions
      ∧ st1._crypt_functions = st._crypt_functions ∧ registry_consistent st1 := by
  unfold rfc5444_sig_add_crypt
  rw [avl_insert_present _ _ _ _ h]
  exact handle_postprocessors_some _ hsz

theorem mem_of_mem_remove {α κ : Type} [DecidableEq κ] (key : α → κ) (tree : List α)
    (node x : α)
    (h : x ∈ avl_remove key tree node) : x ∈ tree :=
  (List.eraseP_sublist tree).subset h

theorem add_crypt_absent (st : signature_registry) (hsz : policies_sized st)
    (crypt : rfc5444_sig_crypt)
    (hnew : ∀ sig ∈ st._sig_tree, crypt.type = sig.key.crypt_function →
      crypt.getSize.isSome = true)
    (h : avl_find_element (fun c : rfc5444_sig_crypt => c.type) st._crypt_functions
      crypt.type = none) :
    ∃ st1, rfc5444_sig_add_crypt st crypt = some st1
      ∧ (∀ k, avl_find_element (fun c : rfc5444_sig_crypt => c.type) st1._crypt_functions k
          = if k = crypt.type then some crypt
            else avl_find_element (fun c : rfc5444_sig_crypt => c.type)
              st._crypt_functions k)
      ∧ st1._hash_functions = st._hash_functions ∧ registry_consistent st1
      ∧ ∃ st2, rfc5444_sig_remove_crypt st1 crypt = some st2
          ∧ st2._crypt_functions = st._crypt_functions
          ∧ st2._hash_functions = st._hash_functions ∧ registry_consistent st2 := by
  unfold rfc5444_sig_add_crypt
  rw [avl_insert_absent _ _ _ h]
  have hsz0 := policies_sized_crypts st
    (st._crypt_functions.takeWhile (fun x => decide (x.type ≤ crypt.type)) ++ [crypt]
      ++ st._crypt_functions.dropWhile (fun x => decide (x.type ≤ crypt.type))) hsz (by
    intro c hc
    simp only [List.mem_append, List.mem_singleton] at hc
    rcases hc with (hc | hc) | hc
    · exact Or.inl ((List.takeWhile_sublist _).subset hc)
    · subst hc; exact Or.inr hnew
    · exact Or.inl ((List.dropWhile_sublist _).subset hc))
  obtain ⟨st1, h1, h2, h3, h4⟩ := handle_postprocessors_some _ hsz0
  refine ⟨st1, h1, ?_, h2, h4, ?_⟩
  · intro k
    rw [h3]
    exact avl_find_inserted (fun c : rfc5444_sig_crypt => c.type) _ crypt _ h k
  · have hsz1 : policies_sized st1 := handle_postprocessors_sized _ _ hsz0 h1
    unfold rfc5444_sig_remove_crypt
    have hsz2 := policies_sized_crypts st1
      (avl_remove (fun c : rfc5444_sig_crypt => c.type) st1._crypt_functions crypt) hsz1
      (fun c hc => Or.inl (mem_of_mem_remove _ _ _ _ hc))
    obtain ⟨st2, g1, g2, g3, g4⟩ := handle_postprocessors_some _ hsz2
    refine ⟨st2, g1, ?_, ?_, g4⟩
    · rw [g3]
      simp only [h3]
      exact avl_remove_inserted (fun c : rfc5444_sig_crypt => c.type) _ crypt _ h
    · rw [g2]; exact h2

theorem remove_crypt_unique (st : signature_registry) (hsz : policies_sized st)
    (crypt : rfc5444_sig_crypt)
    (hnd : (st._crypt_functions.map (fun c : rfc5444_sig_crypt => c.type)).Nodup) :
    ∃ st2, rfc5444_sig_remove_crypt st crypt = some st2
      ∧ avl_find_element (fun c : rfc5444_sig_crypt => c.type) st2._crypt_functions
          crypt.type = none
      ∧ (∀ k, k ≠ crypt.type →
          avl_find_element (fun c : rfc5444_sig_crypt => c.type) st2._crypt_functions k
            = avl_find_element (fun c : rfc5444_sig_crypt => c.type) st._crypt_functions k)
      ∧ st2._hash_functions = st._hash_functions ∧ registry_consistent st2 := by
  unfold rfc5444_sig_remove_crypt
  have hsz2 := policies_sized_crypts st
    (avl_remove (fun c : rfc5444_sig_crypt => c.type) st._crypt_functions crypt) hsz
    (fun c hc => Or.inl (mem_of_mem_remove _ _ _ _ hc))
  obtain ⟨st2, g1, g2, g3, g4⟩ := handle_postprocessors_some _ hsz2
  refine ⟨st2, g1, ?_, ?_, g2, g4⟩
  · rw [g3]
    exact avl_find_removed (fun c : rfc5444_sig_crypt => c.type) _ crypt hnd
  · intro k hk
    rw [g3]
    exact avl_find_removed_other (fun c : rfc5444_sig_crypt => c.type) _ crypt k hk

theorem operations_consistent (st st1 : signature_registry) (hash : rfc5444_sig_hash)
    (crypt : rfc5444_sig_crypt) (sig : rfc5444_signature) :
    (rfc5444_sig_add_hash st hash = some st1 → registry_consistent st1)
    ∧ (rfc5444_sig_remove_hash st hash = some st1 → registry_consistent st1)
    ∧ (rfc5444_sig_add_crypt st crypt = some st1 → registry_consistent st1)
    ∧ (rfc5444_sig_remove_crypt st crypt = some st1 → registry_consistent st1)
    ∧ (rfc5444_sig_add st sig = some st1 → registry_consistent st1) :=
  ⟨handle_postprocessors_consistent _ _, handle_postprocessors_consistent _ _,
    handle_postprocessors_consistent _ _, handle_postprocessors_consistent _ _,
    handle_postprocessors_consistent _ _⟩

theorem sig_add_some (st : signature_registry) (hsz : policies_sized st)
    (sig : rfc5444_signature)
    (hnew : ∀ c ∈ st._crypt_functions, c.type = sig.key.crypt_function →
      c.getSize.isSome = true) :
    ∃ st1, rfc5444_sig_add st sig = some st1
      ∧ st1._hash_functions = st._hash_functions
      ∧ st1._crypt_functions = st._crypt_functions
      ∧ registry_consistent st1 := by
  unfold rfc5444_sig_add
  apply handle_postprocessors_some
  intro s hs c hc he
  simp only [avl_insert, Bool.not_true, Bool.false_and, Bool.false_eq_true, if_false,
    List.mem_append, List.mem_singleton] at hs
  rcases hs with (hs | hs) | hs
  · exact hsz s ((List.takeWhile_sublist _).subset hs) c hc he
  · subst hs; exact hnew c hc he
  · exact hsz s ((List.dropWhile_sublist _).subset hs) c hc he

/-! ## Signing failures, identity algorithms and registries: claims -/

/-- C21 (signing is atomic on failure). Whenever `_cb_add_signature` returns -1, the
buffer `data` (and with it the size `*data_size`) is what it was on entry. -/
theorem signing_atomic_on_failure (sig : rfc5444_signature)
    (local_socket : Option (List Nat)) (msg : Option rfc5444_writer_message)
    (data out : List Nat)
    (h : _cb_add_signature sig local_socket msg data = some (-1, out)) :
    out = data ∧ out.length = data.length := by
  rcases cb_add_signature_result sig local_socket msg data (-1) out h with h1 | h1
  · exact ⟨h1.2, by rw [h1.2]⟩
  · exact absurd h1 (by decide)

/-- Instance of C21: a source-specific policy whose local socket address cannot be
converted, a crypt transform that fails, and a signature above the declared maximum
each return -1 with the sample message unchanged. -/
theorem signing_atomic_on_failure_witness :
    _cb_add_signature (identity_policy true true [] _cb_sigid_okay) none
        (some plain_message) unsigned_message = some (-1, unsigned_message)
    ∧ _cb_add_signature failing_crypt_policy none (some plain_message) unsigned_message
        = some (-1, unsigned_message)
    ∧ _cb_add_signature (sized_identity_policy 8) none (some plain_message)
        unsigned_message = some (-1, unsigned_message)
    ∧ unsigned_message = unsigned_message ∧ unsigned_message.length = 6 :=
  ⟨by decide, by decide, by decide,
    (signing_atomic_on_failure (identity_policy true true [] _cb_sigid_okay) none
      (some plain_message) unsigned_message unsigned_message (by decide)).1,
    (signing_atomic_on_failure (identity_policy true true [] _cb_sigid_okay) none
      (some plain_message) unsigned_message unsigned_message (by decide)).2⟩

/-- C22 (signing fails exactly on the three local failures). For a policy whose hash
and crypt are resolved and whose crypt declares a maximum size, `_cb_add_signature`
returns, its return value is -1 or 0, and it is -1 if and only if the policy is
source-specific and the local socket address cannot be converted, or the crypt
transform fails on the signable buffer, or the produced signature is longer than the
maximum; a signature of at most the maximum size, in particular of exactly that size,
gives 0 and the spliced buffer. -/
theorem signing_fails_exactly (sig : rfc5444_signature) (local_socket : Option (List Nat))
    (msg : Option rfc5444_writer_message) (data : List Nat) (crypt : rfc5444_sig_crypt)
    (hash : rfc5444_sig_hash) (max_size : Nat)
    (hc : sig.crypt = some crypt) (hh : sig.hash = some hash)
    (hs : crypt.getSize = some max_size) :
    ∃ r out, _cb_add_signature sig local_socket msg data = some (r, out)
      ∧ (r = -1 ∨ r = 0)
      ∧ (r = -1 ↔
          (sig.source_specific = true ∧ local_socket = none)
          ∨ ∃ address, (if sig.source_specific then local_socket else some []) = some address
              ∧ (crypt.crypt hash (signer_static_buffer sig address msg data) = none
                ∨ ∃ cb, crypt.crypt hash (signer_static_buffer sig address msg data)
                      = some cb ∧ max_size < cb.length))
      ∧ ∀ address cb,
          (if sig.source_specific then local_socket else some []) = some address →
          crypt.crypt hash (signer_static_buffer sig address msg data) = some cb →
          cb.length ≤ max_size →
          r = 0 ∧ out = splice_signature sig msg data cb := by
  have hcases := cb_add_signature_cases sig local_socket msg data crypt hash max_size hc hh hs
  cases ha : (if sig.source_specific then local_socket else some []) with
  | none =>
    rw [ha] at hcases
    have hsrc : sig.source_specific = true ∧ local_socket = none := by
      cases hss : sig.source_specific <;> simp [hss] at ha ⊢
      exact ha
    refine ⟨-1, data, hcases, Or.inl rfl, ⟨fun _ => Or.inl hsrc, fun _ => rfl⟩, ?_⟩
    intro address cb h1
    simp at h1
  | some address =>
    rw [ha] at hcases
    have hnsrc : ¬ (sig.source_specific = true ∧ local_socket = none) := by
      rintro ⟨h1, h2⟩
      simp [h1, h2] at ha
    cases hcb : crypt.crypt hash (signer_static_buffer sig address msg data) with
    | none =>
      simp only [hcb] at hcases
      refine ⟨-1, data, hcases, Or.inl rfl,
        ⟨fun _ => Or.inr ⟨address, rfl, Or.inl hcb⟩, fun _ => rfl⟩, ?_⟩
      intro a2 cb h1 h2
      have := Option.some.inj h1
      subst this
      rw [hcb] at h2
      simp at h2
    | some cb =>
      simp only [hcb] at hcases
      by_cases hgt : cb.length > max_size
      · simp only [hgt, if_true] at hcases
        refine ⟨-1, data, hcases, Or.inl rfl,
          ⟨fun _ => Or.inr ⟨address, rfl, Or.inr ⟨cb, hcb, hgt⟩⟩, fun _ => rfl⟩, ?_⟩
        intro a2 cb2 h1 h2 h3
        have := Option.some.inj h1
        subst this
        rw [hcb] at h2
        have := Option.some.inj h2
        subst this
        omega
      · simp only [hgt, if_false] at hcases
        refine ⟨0, _, hcases, Or.inr rfl, ⟨fun h => absurd h (by decide), ?_⟩, ?_⟩
        · rintro (h | ⟨a2, h1, h2⟩)
          · exact absurd h hnsrc
          · have := Option.some.inj h1
            subst this
            rcases h2 with h2 | ⟨cb2, h2, h3⟩
            · rw [hcb] at h2; simp at h2
            · rw [hcb] at h2
              have := Option.some.inj h2
              subst this
              omega
        · intro a2 cb2 h1 h2 _
          have := Option.some.inj h1
          subst this
          rw [hcb] at h2
          have := Option.some.inj h2
          subst this
          exact ⟨rfl, rfl⟩

/-- Instance of C22: with a declared maximum of 9 bytes the 9-byte identity signature
of the sample message is accepted; with a maximum of 8 bytes signing returns -1. -/
theorem signing_fails_exactly_witness :
    (∃ r out, _cb_add_signature (sized_identity_policy 9) none (some plain_message)
          unsigned_message = some (r, out)
        ∧ r = 0 ∧ out = signed_message)
    ∧ _cb_add_signature (sized_identity_policy 8) none (some plain_message)
        unsigned_message = some (-1, unsigned_message) := by
  obtain ⟨r, out, h, _, _, h4⟩ := signing_fails_exactly (sized_identity_policy 9) none
    (some plain_message) unsigned_message (identity_crypt_sized 9) _identity_hash 9
    rfl rfl rfl
  obtain ⟨h5, h6⟩ := h4 [] ([0, 0, 0] ++ unsigned_message) rfl rfl (by decide)
  exact ⟨⟨r, out, h, h5, h6.trans (by decide)⟩, by decide⟩

/-- C23 (identity algorithms). `_cb_identity_hash` succeeds on every input and returns
the input bytes, so the output length is the input length; `_cb_identity_crypt` returns
what the resolved hash of the policy returns, success or failure; with the identity hash
it returns the signable buffer, and a policy with both identity transforms signs with
the signable buffer as signature whenever that fits the declared maximum. -/
theorem identity_algorithms :
    (∀ src : List Nat, ∃ dst, _cb_identity_hash src = some dst
        ∧ dst.length = src.length ∧ dst = src)
    ∧ (∀ (hash : rfc5444_sig_hash) (src : List Nat),
        _cb_identity_crypt hash src = hash.hash src)
    ∧ (∀ src : List Nat, _cb_identity_crypt _identity_hash src = some src)
    ∧ (∀ (sig : rfc5444_signature) (local_socket : Option (List Nat))
        (msg : Option rfc5444_writer_message) (data address : List Nat)
        (crypt : rfc5444_sig_crypt) (max_size : Nat),
        (if sig.source_specific then local_socket else some []) = some address →
        sig.crypt = some crypt → crypt.crypt = _cb_identity_crypt →
        sig.hash = some _identity_hash → crypt.getSize = some max_size →
        (signer_static_buffer sig address msg data).length ≤ max_size →
        _cb_add_signature sig local_socket msg data
          = some (0, splice_signature sig msg data
              (signer_static_buffer sig address msg data))) := by
  refine ⟨fun src => ⟨src, rfl, rfl, rfl⟩, ?_, fun src => rfl, ?_⟩
  · intro hash src
    unfold _cb_identity_crypt
    cases hash.hash src <;> rfl
  · intro sig local_socket msg data address crypt max_size ha hc hcc hh hs hle
    rw [cb_add_signature_cases sig local_socket msg data crypt _identity_hash max_size
      hc hh hs, ha]
    have : crypt.crypt _identity_hash (signer_static_buffer sig address msg data)
        = some (signer_static_buffer sig address msg data) := by
      rw [hcc]; rfl
    simp only [this]
    rw [if_neg (by omega)]

/-- C24 (algorithm registry uniqueness). In a registry whose policies name only crypts
with a `getSize` function: registering a hash or crypt whose identifier is present
leaves both algorithm trees unchanged, so the lookup of the identifier still yields
the algorithm registered before; registering one whose identifier is absent makes the
lookup of that identifier yield it and changes no other lookup, and unregistering it
again restores the tree, so the lookup yields none; and in a tree with unique
identifiers unregistering any algorithm makes the lookup of its identifier yield
none. The functions return nothing: a refused registration is not reported. -/
theorem algorithm_registry_unique (st : signature_registry) (hsz : policies_sized st)
    (hash : rfc5444_sig_hash) (crypt : rfc5444_sig_crypt)
    (hnew : ∀ sig ∈ st._sig_tree, crypt.type = sig.key.crypt_function →
      crypt.getSize.isSome = true) :
    (∀ old, avl_find_element (fun h : rfc5444_sig_hash => h.type) st._hash_functions
          hash.type = some old →
        ∃ st1, rfc5444_sig_add_hash st hash = some st1
          ∧ st1._hash_functions = st._hash_functions
          ∧ st1._crypt_functions = st._crypt_functions
          ∧ avl_find_element (fun h : rfc5444_sig_hash => h.type) st1._hash_functions
              hash.type = some old)
    ∧ (avl_find_element (fun h : rfc5444_sig_hash => h.type) st._hash_functions hash.type
          = none →
        ∃ st1, rfc5444_sig_add_hash st hash = some st1
          ∧ avl_find_element (fun h : rfc5444_sig_hash => h.type) st1._hash_functions
              hash.type = some hash
          ∧ (∀ k, k ≠ hash.type →
              avl_find_element (fun h : rfc5444_sig_hash => h.type) st1._hash_functions k
                = avl_find_element (fun h : rfc5444_sig_hash => h.type)
                    st._hash_functions k)
          ∧ ∃ st2, rfc5444_sig_remove_hash st1 hash = some st2
              ∧ st2._hash_functions = st._hash_functions
              ∧ avl_find_element (fun h : rfc5444_sig_hash => h.type) st2._hash_functions
                  hash.type = none)
    ∧ ((st._hash_functions.map (fun h : rfc5444_sig_hash => h.type)).Nodup →
        ∃ st2, rfc5444_sig_remove_hash st hash = some st2
          ∧ avl_find_element (fun h : rfc5444_sig_hash => h.type) st2._hash_functions
              hash.type = none)
    ∧ (∀ old, avl_find_element (fun c : rfc5444_sig_crypt => c.type) st._crypt_functions
          crypt.type = some old →
        ∃ st1, rfc5444_sig_add_crypt st crypt = some st1
          ∧ st1._hash_functions = st._hash_functions
          ∧ st1._crypt_functions = st._crypt_functions
          ∧ avl_find_element (fun c : rfc5444_sig_crypt => c.type) st1._crypt_functions
              crypt.type = some old)
    ∧ (avl_find_element (fun c : rfc5444_sig_crypt => c.type) st._crypt_functions
          crypt.type = none →
        ∃ st1, rfc5444_sig_add_crypt st crypt = some st1
          ∧ avl_find_element (fun c : rfc5444_sig_crypt => c.type) st1._crypt_functions
              crypt.type = some crypt
          ∧ (∀ k, k ≠ crypt.type →
              avl_find_element (fun c : rfc5444_sig_crypt => c.type) st1._crypt_functions k
                = avl_find_element (fun c : rfc5444_sig_crypt => c.type)
                    st._crypt_functions k)
          ∧ ∃ st2, rfc5444_sig_remove_crypt st1 crypt = some st2
              ∧ st2._crypt_functions = st._crypt_functions
              ∧ avl_find_element (fun c : rfc5444_sig_crypt => c.type)
                  st2._crypt_functions crypt.type = none)
    ∧ ((st._crypt_functions.map (fun c : rfc5444_sig_crypt => c.type)).Nodup →
        ∃ st2, rfc5444_sig_remove_crypt st crypt = some st2
          ∧ avl_find_element (fun c : rfc5444_sig_crypt => c.type) st2._crypt_functions
              crypt.type = none) := by
  refine ⟨?_, ?_, ?_, ?_, ?_, ?_⟩
  · intro old h
    obtain ⟨st1, h1, h2, h3, _⟩ := add_hash_present st hsz hash old h
    exact ⟨st1, h1, h2, h3, by rw [h2]; exact h⟩
  · intro h
    obtain ⟨st1, h1, h2, _, _, st2, g1, g2, _⟩ := add_hash_absent st hsz hash h
    refine ⟨st1, h1, ?_, ?_, st2, g1, g2, by rw [g2]; exact h⟩
    · rw [h2]; simp
    · intro k hk
      rw [h2, if_neg hk]
  · intro hnd
    obtain ⟨st2, g1, g2, _⟩ := remove_hash_unique st hsz hash hnd
    exact ⟨st2, g1, g2⟩
  · intro old h
    obtain ⟨st1, h1, h2, h3, _⟩ := add_crypt_present st hsz crypt old h
    exact ⟨st1, h1, h2, h3, by rw [h3]; exact h⟩
  · intro h
    obtain ⟨st1, h1, h2, _, _, st2, g1, g2, _⟩ := add_crypt_absent st hsz crypt hnew h
    refine ⟨st1, h1, ?_, ?_, st2, g1, g2, by rw [g2]; exact h⟩
    · rw [h2]; simp
    · intro k hk
      rw [h2, if_neg hk]
  · intro hnd
    obtain ⟨st2, g1, g2, _⟩ := remove_crypt_unique st hsz crypt hnd
    exact ⟨st2, g1, g2⟩

/-- Instance of C24: in the registry that `_init` leaves, a second registration of the
identity hash changes nothing, and `checksum_crypt` (identifier 7) is found after its
registration and no longer after its removal. -/
theorem algorithm_registry_unique_witness :
    (∃ st1, rfc5444_sig_add_hash initial_registry _identity_hash = some st1
      ∧ st1._hash_functions = initial_registry._hash_functions
      ∧ st1._crypt_functions = initial_registry._crypt_functions
      ∧ avl_find_element (fun h : rfc5444_sig_hash => h.type) st1._hash_functions 0
          = some _identity_hash)
    ∧ (∃ st1, rfc5444_sig_add_crypt initial_registry checksum_crypt = some st1
      ∧ avl_find_element (fun c : rfc5444_sig_crypt => c.type) st1._crypt_functions 7
          = some checksum_crypt
      ∧ ∃ st2, rfc5444_sig_remove_crypt st1 checksum_crypt = some st2
          ∧ avl_find_element (fun c : rfc5444_sig_crypt => c.type) st2._crypt_functions 7
              = none) := by
  have h := algorithm_registry_unique initial_registry
    (fun _ hs => absurd hs (List.not_mem_nil _)) _identity_hash checksum_crypt
    (fun _ hs => absurd hs (List.not_mem_nil _))
  obtain ⟨st1, h1, h2, h3, h4⟩ := h.1 _identity_hash rfl
  obtain ⟨st3, g1, g2, _, st4, g4, _, g6⟩ := h.2.2.2.2.1 rfl
  exact ⟨⟨st1, h1, h2, h3, h4⟩, ⟨st3, g1, g2, st4, g4, g6⟩⟩

/-- C25 (active-policy invariant, code defect). `_init` leaves the two identity
algorithms registered. A policy with key (identity hash, identity crypt) that is added
then finds both algorithms, and `_handle_postprocessors` calls `getSize` of the built-in
identity crypt, which is NULL: the call has no result and the policy never becomes
active. A policy that names the unregistered crypt 7 stays inactive without error and
becomes active, with the reserved space that crypt declares, once it is registered. -/
theorem identity_policy_activation_faults :
    _init.map registry_view = some (registry_view initial_registry)
    ∧ (rfc5444_sig_add initial_registry pending_identity_policy).isNone = true
    ∧ (rfc5444_sig_add initial_registry pending_checksum_policy).map registry_view
        = some ([0], [0],
            [{ key := { hash_function := 0, crypt_function := 7 }, hash_resolved := true,
               crypt_resolved := false,
               _postprocessor := { allocate_space := 0, _node_added := false } }])
    ∧ ((rfc5444_sig_add initial_registry pending_checksum_policy).bind
          (fun st => rfc5444_sig_add_crypt st checksum_crypt)).map registry_view
        = some ([0], [0, 7],
            [{ key := { hash_function := 0, crypt_function := 7 }, hash_resolved := true,
               crypt_resolved := true,
               _postprocessor := { allocate_space := 1, _node_added := true } }]) := by
  decide

/-! ## Layer2 database: lemmas -/

theorem metadata_tables_typed :
    ∀ m ∈ _oonf_layer2_metadata_neigh ++ _oonf_layer2_metadata_net,
      m.type ≠ oonf_layer2_data_type.OONF_LAYER2_NO_DATA := by
  decide

theorem metadata_table_sizes :
    OONF_LAYER2_NEIGH_COUNT = 17 ∧ OONF_LAYER2_NET_COUNT = 13 := by
  decide

theorem write_accepted_iff (l2data : oonf_layer2_data) (origin : oonf_layer2_origin) :
    write_accepted l2data origin ↔
      (l2data._type == oonf_layer2_data_type.OONF_LAYER2_NO_DATA
        || (match l2data._origin with
            | none => true
            | some current =>
              current.ptr == origin.ptr || decide (current.priority < origin.priority)))
        = true := by
  unfold write_accepted
  cases ho : l2data._origin with
  | none => simp
  | some cur => simp

theorem data_set_accepted (l2data : oonf_layer2_data) (origin : oonf_layer2_origin)
    (metadata : oonf_layer2_metadata) (input : Int) (h : write_accepted l2data origin) :
    oonf_layer2_data_set l2data origin metadata input
      = (decide (l2data._type ≠ metadata.type) || decide (l2data._value ≠ input),
          { _value := input, _type := metadata.type, _origin := some origin }) := by
  unfold oonf_layer2_data_set
  rw [if_pos ((write_accepted_iff l2data origin).mp h)]

theorem data_set_refused (l2data : oonf_layer2_data) (origin : oonf_layer2_origin)
    (metadata : oonf_layer2_metadata) (input : Int) (h : ¬ write_accepted l2data origin) :
    oonf_layer2_data_set l2data origin metadata input = (false, l2data) := by
  unfold oonf_layer2_data_set
  rw [if_neg (fun hc => h ((write_accepted_iff l2data origin).mpr hc))]

theorem data_set_twice (f : oonf_layer2_data) (first second : oonf_layer2_origin)
    (metadata : oonf_layer2_metadata) (x y : Int)
    (hunset : f._type = oonf_layer2_data_type.OONF_LAYER2_NO_DATA ∨ f._origin = none)
    (hm : metadata.type ≠ oonf_layer2_data_type.OONF_LAYER2_NO_DATA)
    (hne : first.ptr ≠ second.ptr) :
    (oonf_layer2_data_set (oonf_layer2_data_set f first metadata x).2 second metadata y).2
      = if first.priority < second.priority then
          { _value := y, _type := metadata.type, _origin := some second }
        else { _value := x, _type := metadata.type, _origin := some first } := by
  have h1 : write_accepted f first := by
    rcases hunset with h | h
    · exact Or.inl h
    · exact Or.inr (Or.inl h)
  rw [data_set_accepted f first metadata x h1]
  simp only []
  by_cases hp : first.priority < second.priority
  · rw [if_pos hp, data_set_accepted]
    exact Or.inr (Or.inr ⟨first, rfl, Or.inr hp⟩)
  · rw [if_neg hp, data_set_refused]
    rintro (h | h | ⟨cur, hc, h⟩)
    · exact hm h
    · simp at h
    · simp only [Option.some.injEq] at hc
      subst hc
      rcases h with h | h
      · exact hne h
      · exact hp h

theorem cleanup_fields_owned (origin : oonf_layer2_origin) (fields : List oonf_layer2_data)
    (idx : Nat) (hidx : idx < fields.length)
    (hown : (fields.getD idx empty_data)._origin = some origin) :
    (cleanup_fields (some origin) fields).1 = true
    ∧ (cleanup_fields (some origin) fields).2.getD idx empty_data
        = oonf_layer2_reset_value (fields.getD idx empty_data)
    ∧ (cleanup_fields (some origin) fields).2.length = fields.length := by
  have hget : fields.getD idx empty_data = fields[idx] := List.getD_eq_getElem _ _ hidx
  have heq : origin_ptr_eq (fields[idx])._origin (some origin) = true := by
    rw [← hget, hown]
    simp [origin_ptr_eq]
  refine ⟨?_, ?_, by simp [cleanup_fields]⟩
  · simp only [cleanup_fields]
    exact List.any_eq_true.mpr ⟨fields[idx], List.getElem_mem _, heq⟩
  · simp only [cleanup_fields]
    rw [List.getD_eq_getElem _ _ (by simpa using hidx), List.getElem_map, hget, if_pos heq]

theorem reset_then_set (f : oonf_layer2_data) (origin : oonf_layer2_origin)
    (metadata : oonf_layer2_metadata) (input : Int)
    (hm : metadata.type ≠ oonf_layer2_data_type.OONF_LAYER2_NO_DATA) :
    oonf_layer2_has_value (oonf_layer2_reset_value f) = false
    ∧ (oonf_layer2_reset_value f)._origin = none
    ∧ oonf_layer2_data_set (oonf_layer2_reset_value f) origin metadata input
        = (true, { _value := input, _type := metadata.type, _origin := some origin }) := by
  refine ⟨by simp [oonf_layer2_has_value, oonf_layer2_reset_value], rfl, ?_⟩
  rw [data_set_accepted _ _ _ _ (Or.inl rfl)]
  have : (oonf_layer2_reset_value f)._type ≠ metadata.type := fun h => hm h.symm
  simp [this]

theorem avl_remove_length {α κ : Type} [DecidableEq κ] (key : α → κ) (tree : List α)
    (node : α) (h : node ∈ tree) :
    (avl_remove key tree node).length + 1 = tree.length := by
  unfold avl_remove
  have := List.length_eraseP_of_mem (p := fun x => decide (key x = key node)) h (by simp)
  have hpos : 0 < tree.length := List.length_pos_of_mem h
  have e : (fun x => key x == key node) = (fun x => decide (key x = key node)) := by
    funext x
    rfl
  rw [e, this]
  omega

theorem foldl_flatMap_eq {α β σ : Type} (f : α → List β) (g : σ → β → σ) :
    ∀ (l : List α) (init : σ),
      (l.flatMap f).foldl g init = l.foldl (fun s x => (f x).foldl g s) init := by
  intro l
  induction l with
  | nil => intro init; rfl
  | cons x xs ih =>
    intro init
    simp only [List.flatMap_cons, List.foldl_append, List.foldl_cons]
    exact ih _

theorem best_match_flat (tree : List oonf_layer2_net) (addr : netaddr) :
    oonf_layer2_net_get_best_neighbor_match tree addr
      = ((all_neighbor_addresses tree).foldl (best_match_step addr) (none, 256)).1 := by
  unfold oonf_layer2_net_get_best_neighbor_match all_neighbor_addresses
  rw [foldl_flatMap_eq]
  congr 2
  funext s1 l2net
  rw [foldl_flatMap_eq]

theorem prefix_length_lt (n : netaddr) : netaddr_get_prefix_length n < 256 := by
  unfold netaddr_get_prefix_length
  omega

theorem best_match_step_inv (addr : netaddr) (seen : List oonf_layer2_neighbor_address)
    (s : Option oonf_layer2_neighbor_address × Nat) (x : oonf_layer2_neighbor_address)
    (h : best_match_inv addr seen s) :
    best_match_inv addr (seen ++ [x]) (best_match_step addr s x) := by
  obtain ⟨h1, h2⟩ := h
  have hx := prefix_length_lt x.ip
  unfold best_match_step
  by_cases hin : netaddr_is_in_subnet x.ip addr = true
  · by_cases hlt : netaddr_get_prefix_length x.ip < s.2
    · simp only [hin, hlt, decide_True, Bool.and_self, if_true]
      refine ⟨fun hn => by simp at hn, ?_⟩
      intro e he
      simp only [Option.some.injEq] at he
      subst he
      refine ⟨by simp, hin, rfl, ?_⟩
      intro e2 he2 hin2
      rcases List.mem_append.mp he2 with hm | hm
      · cases hs : s.1 with
        | none =>
          have := (h1 hs).2 e2 hm
          rw [this] at hin2
          exact absurd hin2 (by decide)
        | some e0 =>
          obtain ⟨_, _, g3, g4⟩ := h2 e0 hs
          have := g4 e2 hm hin2
          omega
      · simp only [List.mem_singleton] at hm
        subst hm
        exact Nat.le_refl _
    · simp only [hin, hlt, decide_False, Bool.and_false, Bool.false_eq_true, if_false]
      constructor
      · intro hn
        have := (h1 hn).1
        omega
      · intro e he
        obtain ⟨g1, g2, g3, g4⟩ := h2 e he
        refine ⟨List.mem_append_left _ g1, g2, g3, ?_⟩
        intro e2 he2 hin2
        rcases List.mem_append.mp he2 with hm | hm
        · exact g4 e2 hm hin2
        · simp only [List.mem_singleton] at hm
          subst hm
          omega
  · have hf : netaddr_is_in_subnet x.ip addr = false := by
      cases hv : netaddr_is_in_subnet x.ip addr
      · rfl
      · exact absurd hv hin
    simp only [hf, Bool.false_and, Bool.false_eq_true, if_false]
    constructor
    · intro hn
      refine ⟨(h1 hn).1, ?_⟩
      intro e he
      rcases List.mem_append.mp he with hm | hm
      · exact (h1 hn).2 e hm
      · simp only [List.mem_singleton] at hm
        subst hm
        exact hf
    · intro e he
      obtain ⟨g1, g2, g3, g4⟩ := h2 e he
      refine ⟨List.mem_append_left _ g1, g2, g3, ?_⟩
      intro e2 he2 hin2
      rcases List.mem_append.mp he2 with hm | hm
      · exact g4 e2 hm hin2
      · simp only [List.mem_singleton] at hm
        subst hm
        rw [hf] at hin2
        exact absurd hin2 (by decide)

theorem best_match_foldl_inv (addr : netaddr) :
    ∀ (l seen : List oonf_layer2_neighbor_address)
      (s : Option oonf_layer2_neighbor_address × Nat),
      best_match_inv addr seen s →
      best_match_inv addr (seen ++ l) (l.foldl (best_match_step addr) s) := by
  intro l
  induction l with
  | nil => intro seen s h; simpa using h
  | cons x xs ih =>
    intro seen s h
    have := ih (seen ++ [x]) _ (best_match_step_inv addr seen s x h)
    simpa using this

theorem best_match_shortest (tree : List oonf_layer2_net) (addr : netaddr) :
    (oonf_layer2_net_get_best_neighbor_match tree addr = none ↔
      ∀ e ∈ all_neighbor_addresses tree, netaddr_is_in_subnet e.ip addr = false)
    ∧ (∀ e, oonf_layer2_net_get_best_neighbor_match tree addr = some e →
        e ∈ all_neighbor_addresses tree ∧ netaddr_is_in_subnet e.ip addr = true
        ∧ ∀ e2 ∈ all_neighbor_addresses tree, netaddr_is_in_subnet e2.ip addr = true →
            netaddr_get_prefix_length e.ip ≤ netaddr_get_prefix_length e2.ip) := by
  have hinv := best_match_foldl_inv addr (all_neighbor_addresses tree) [] (none, 256)
    ⟨fun _ => ⟨rfl, fun e he => absurd he (List.not_mem_nil _)⟩,
      fun e he => by simp at he⟩
  rw [List.nil_append] at hinv
  obtain ⟨h1, h2⟩ := hinv
  rw [best_match_flat]
  refine ⟨⟨fun hn => (h1 hn).2, ?_⟩, ?_⟩
  · intro hall
    cases hs : ((all_neighbor_addresses tree).foldl (best_match_step addr) (none, 256)).1 with
    | none => rfl
    | some e =>
      obtain ⟨g1, g2, _⟩ := h2 e hs
      rw [hall e g1] at g2
      exact absurd g2 (by decide)
  · intro e he
    obtain ⟨g1, g2, _, g4⟩ := h2 e he
    exact ⟨g1, g2, g4⟩

/-! ## Layer2 database: claims -/

/-- C26 (layer2 merge rule). `oonf_layer2_data_set` overwrites the field with the input
value, the type of the metadata and the origin of the caller when the field has type
`NO_DATA`, has no origin, is owned by the caller, or is owned by an origin of strictly
lower priority; in every other case, which is a field with a value owned by a different
origin whose priority is not lower than the caller's, it returns false and leaves value,
type and origin unchanged. An overwritten field differs from a refused one, so the
field is overwritten exactly in the first case. -/
theorem layer2_merge_rule (l2data : oonf_layer2_data) (origin : oonf_layer2_origin)
    (metadata : oonf_layer2_metadata) (input : Int) :
    (write_accepted l2data origin →
      (oonf_layer2_data_set l2data origin metadata input).2
        = { _value := input, _type := metadata.type, _origin := some origin })
    ∧ (¬ write_accepted l2data origin →
      oonf_layer2_data_set l2data origin metadata input = (false, l2data)
      ∧ l2data ≠ { _value := input, _type := metadata.type, _origin := some origin })
    ∧ (¬ write_accepted l2data origin ↔
        l2data._type ≠ oonf_layer2_data_type.OONF_LAYER2_NO_DATA
        ∧ ∃ current, l2data._origin = some current ∧ current.ptr ≠ origin.ptr
            ∧ origin.priority ≤ current.priority) := by
  refine ⟨fun h => by rw [data_set_accepted _ _ _ _ h], fun h => ⟨data_set_refused _ _ _ _ h, ?_⟩,
    ?_⟩
  · intro he
    apply h
    right; right
    exact ⟨origin, by rw [he], Or.inl rfl⟩
  · unfold write_accepted
    cases ho : l2data._origin with
    | none => simp
    | some cur =>
      simp only [reduceCtorEq, false_or, Option.some.injEq, exists_eq_left', not_or, not_lt,
        ne_eq]

/-- C27 (higher priority wins in either order). For two distinct origins A (priority 1)
and B (priority 2), a field that is unset, the metadata of any metric of the two
tables and all values `a` and `b`: after `oonf_layer2_data_set` by A and then by B, and
equally after B and then A, the field holds the value `b`, the type of the metadata and
the origin B. -/
theorem higher_priority_wins (f : oonf_layer2_data) (A B : oonf_layer2_origin)
    (metadata : oonf_layer2_metadata) (a b : Int)
    (hne : A.ptr ≠ B.ptr) (hA : A.priority = 1) (hB : B.priority = 2)
    (hunset : f._type = oonf_layer2_data_type.OONF_LAYER2_NO_DATA ∨ f._origin = none)
    (hm : metadata ∈ _oonf_layer2_metadata_neigh ++ _oonf_layer2_metadata_net) :
    (oonf_layer2_data_set (oonf_layer2_data_set f A metadata a).2 B metadata b).2
        = { _value := b, _type := metadata.type, _origin := some B }
    ∧ (oonf_layer2_data_set (oonf_layer2_data_set f B metadata b).2 A metadata a).2
        = { _value := b, _type := metadata.type, _origin := some B } := by
  have ht := metadata_tables_typed metadata hm
  constructor
  · rw [data_set_twice f A B metadata a b hunset ht hne, if_pos (by rw [hA, hB]; decide)]
  · rw [data_set_twice f B A metadata b a hunset ht (fun h => hne h.symm),
      if_neg (by rw [hA, hB]; decide)]

/-- Instance of C27: the sample origins write 5 (A) and 7 (B) to an empty `rx_bitrate`
field; in both orders the field ends with 7 and origin B. -/
theorem higher_priority_wins_witness :
    (oonf_layer2_data_set (oonf_layer2_data_set empty_data origin_a rx_bitrate_metadata 5).2
        origin_b rx_bitrate_metadata 7).2
      = { _value := 7, _type := oonf_layer2_data_type.OONF_LAYER2_INTEGER_DATA,
          _origin := some origin_b }
    ∧ (oonf_layer2_data_set (oonf_layer2_data_set empty_data origin_b rx_bitrate_metadata 7).2
        origin_a rx_bitrate_metadata 5).2
      = { _value := 7, _type := oonf_layer2_data_type.OONF_LAYER2_INTEGER_DATA,
          _origin := some origin_b } :=
  higher_priority_wins empty_data origin_a origin_b rx_bitrate_metadata 5 7
    (by decide) rfl rfl (Or.inl rfl) (by decide)

/-- C28 (clearing is destructive). Let origin A write a value to an unset field and the
distinct origin B of higher priority overwrite it (metadata of a metric of the two
tables); the field then holds B's value. If this field is field `idx` of a neighbor, a
network field or a default neighbor field of a network, `oonf_layer2_neigh_cleanup`,
respectively `oonf_layer2_net_cleanup`, with origin B returns true and leaves field
`idx` without value and without origin (the value of A is not restored); a following
`oonf_layer2_data_set` by A on it is accepted, returns true and stores A's value. -/
theorem clearing_is_destructive (f : oonf_layer2_data) (A B : oonf_layer2_origin)
    (metadata : oonf_layer2_metadata) (a b a2 : Int)
    (hne : A.ptr ≠ B.ptr) (hp : A.priority < B.priority)
    (hunset : f._type = oonf_layer2_data_type.OONF_LAYER2_NO_DATA ∨ f._origin = none)
    (hm : metadata ∈ _oonf_layer2_metadata_neigh ++ _oonf_layer2_metadata_net) :
    (oonf_layer2_data_set (oonf_layer2_data_set f A metadata a).2 B metadata b).2
        = { _value := b, _type := metadata.type, _origin := some B }
    ∧ (∀ (l2neigh : oonf_layer2_neigh) (idx : Nat), idx < l2neigh.data.length →
        l2neigh.data.getD idx empty_data
          = { _value := b, _type := metadata.type, _origin := some B } →
        (oonf_layer2_neigh_cleanup l2neigh (some B)).1 = true
        ∧ oonf_layer2_has_value
            ((oonf_layer2_neigh_cleanup l2neigh (some B)).2.data.getD idx empty_data) = false
        ∧ ((oonf_layer2_neigh_cleanup l2neigh (some B)).2.data.getD idx empty_data)._origin
            = none
        ∧ oonf_layer2_data_set
            ((oonf_layer2_neigh_cleanup l2neigh (some B)).2.data.getD idx empty_data)
            A metadata a2
          = (true, { _value := a2, _type := metadata.type, _origin := some A }))
    ∧ (∀ (l2net : oonf_layer2_net) (cleanup_neigh : Bool) (idx : Nat),
        idx < l2net.data.length →
        l2net.data.getD idx empty_data
          = { _value := b, _type := metadata.type, _origin := some B } →
        (oonf_layer2_net_cleanup l2net (some B) cleanup_neigh).1 = true
        ∧ oonf_layer2_has_value
            ((oonf_layer2_net_cleanup l2net (some B) cleanup_neigh).2.data.getD idx
              empty_data) = false
        ∧ ((oonf_layer2_net_cleanup l2net (some B) cleanup_neigh).2.data.getD idx
              empty_data)._origin = none
        ∧ oonf_layer2_data_set
            ((oonf_layer2_net_cleanup l2net (some B) cleanup_neigh).2.data.getD idx
              empty_data) A metadata a2
          = (true, { _value := a2, _type := metadata.type, _origin := some A }))
    ∧ (∀ (l2net : oonf_layer2_net) (cleanup_neigh : Bool) (idx : Nat),
        idx < l2net.neighdata.length →
        l2net.neighdata.getD idx empty_data
          = { _value := b, _type := metadata.type, _origin := some B } →
        (oonf_layer2_net_cleanup l2net (some B) cleanup_neigh).1 = true
        ∧ oonf_layer2_has_value
            ((oonf_layer2_net_cleanup l2net (some B) cleanup_neigh).2.neighdata.getD idx
              empty_data) = false
        ∧ ((oonf_layer2_net_cleanup l2net (some B) cleanup_neigh).2.neighdata.getD idx
              empty_data)._origin = none
        ∧ oonf_layer2_data_set
            ((oonf_layer2_net_cleanup l2net (some B) cleanup_neigh).2.neighdata.getD idx
              empty_data) A metadata a2
          = (true, { _value := a2, _type := metadata.type, _origin := some A })) := by
  have ht := metadata_tables_typed metadata hm
  refine ⟨?_, ?_, ?_, ?_⟩
  · rw [data_set_twice f A B metadata a b hunset ht hne, if_pos hp]
  · intro l2neigh idx hidx hf
    obtain ⟨c1, c2, _⟩ := cleanup_fields_owned B l2neigh.data idx hidx (by rw [hf])
    obtain ⟨r1, r2, r3⟩ := reset_then_set (l2neigh.data.getD idx empty_data) A metadata a2 ht
    simp only [oonf_layer2_neigh_cleanup]
    rw [c2]
    exact ⟨c1, r1, r2, r3⟩
  · intro l2net cn idx hidx hf
    obtain ⟨c1, c2, _⟩ := cleanup_fields_owned B l2net.data idx hidx (by rw [hf])
    obtain ⟨r1, r2, r3⟩ := reset_then_set (l2net.data.getD idx empty_data) A metadata a2 ht
    have hd : (oonf_layer2_net_cleanup l2net (some B) cn).2.data
        = (cleanup_fields (some B) l2net.data).2 := by
      cases cn <;> simp [oonf_layer2_net_cleanup]
    have hc : (oonf_layer2_net_cleanup l2net (some B) cn).1 = true := by
      cases cn <;> simp [oonf_layer2_net_cleanup, c1]
    rw [hd, c2]
    exact ⟨hc, r1, r2, r3⟩
  · intro l2net cn idx hidx hf
    obtain ⟨c1, c2, _⟩ := cleanup_fields_owned B l2net.neighdata idx hidx (by rw [hf])
    obtain ⟨r1, r2, r3⟩ := reset_then_set (l2net.neighdata.getD idx empty_data) A metadata
      a2 ht
    have hd : (oonf_layer2_net_cleanup l2net (some B) cn).2.neighdata
        = (cleanup_fields (some B) l2net.neighdata).2 := by
      cases cn <;> simp [oonf_layer2_net_cleanup]
    have hc : (oonf_layer2_net_cleanup l2net (some B) cn).1 = true := by
      cases cn <;> simp [oonf_layer2_net_cleanup, c1]
    rw [hd, c2]
    exact ⟨hc, r1, r2, r3⟩

/-- Instance of C28: A writes 5 and B writes 7 to the `rx_bitrate` field of a neighbor;
after the cleanup of B the field has no value, and A's next write of 5 is stored. -/
theorem clearing_is_destructive_witness :
    (oonf_layer2_data_set (oonf_layer2_data_set empty_data origin_a rx_bitrate_metadata 5).2
        origin_b rx_bitrate_metadata 7).2
      = { _value := 7, _type := oonf_layer2_data_type.OONF_LAYER2_INTEGER_DATA,
          _origin := some origin_b }
    ∧ (oonf_layer2_neigh_cleanup neigh_with_b_field (some origin_b)).1 = true
    ∧ oonf_layer2_has_value
        ((oonf_layer2_neigh_cleanup neigh_with_b_field (some origin_b)).2.data.getD 3
          empty_data) = false
    ∧ oonf_layer2_data_set
        ((oonf_layer2_neigh_cleanup neigh_with_b_field (some origin_b)).2.data.getD 3
          empty_data) origin_a rx_bitrate_metadata 5
      = (true, { _value := 5, _type := oonf_layer2_data_type.OONF_LAYER2_INTEGER_DATA,
                 _origin := some origin_a }) := by
  have h := clearing_is_destructive empty_data origin_a origin_b rx_bitrate_metadata 5 7 5
    (by decide) (by decide) (Or.inl rfl) (by decide)
  obtain ⟨h1, h2, h3, h4⟩ := h.2.1 neigh_with_b_field 3 (by decide) (by decide)
  exact ⟨h.1, h1, h2, h4⟩

/-- C29 (network auto-removal). `oonf_layer2_net_commit` returns false and leaves the
tree of networks unchanged when the network has at least one neighbor, whatever its
fields hold, and also when it has no neighbor but a network field or a default neighbor
field with a value. When it has no neighbor and none of these fields has a value, it
returns true and the network is removed from the tree: the tree has one network less,
and in a tree with unique names the lookup of the name finds nothing. -/
theorem network_auto_removal (tree : List oonf_layer2_net) (l2net : oonf_layer2_net) :
    (l2net.neighbors ≠ [] → oonf_layer2_net_commit tree l2net = (false, tree))
    ∧ (l2net.neighbors = [] →
        (∃ d ∈ l2net.data ++ l2net.neighdata, oonf_layer2_has_value d = true) →
        oonf_layer2_net_commit tree l2net = (false, tree))
    ∧ (l2net.neighbors = [] →
        (∀ d ∈ l2net.data ++ l2net.neighdata, oonf_layer2_has_value d = false) →
        oonf_layer2_net_commit tree l2net = (true, _net_remove tree l2net)
        ∧ (l2net ∈ tree → (_net_remove tree l2net).length + 1 = tree.length)
        ∧ ((tree.map net_key).Nodup →
            avl_find_element net_key (_net_remove tree l2net) (net_key l2net) = none
            ∧ ∀ k, k ≠ net_key l2net →
                avl_find_element net_key (_net_remove tree l2net) k
                  = avl_find_element net_key tree k)) := by
  refine ⟨?_, ?_, ?_⟩
  · intro h
    have : l2net.neighbors.length > 0 := List.length_pos.mpr h
    simp [oonf_layer2_net_commit, this]
  · intro h ⟨d, hd, hv⟩
    rcases List.mem_append.mp hd with h1 | h1
    · have : l2net.data.any oonf_layer2_has_value = true :=
        List.any_eq_true.mpr ⟨d, h1, hv⟩
      simp [oonf_layer2_net_commit, h, this]
    · have : l2net.neighdata.any oonf_layer2_has_value = true :=
        List.any_eq_true.mpr ⟨d, h1, hv⟩
      simp only [oonf_layer2_net_commit, h, this]
      simp
  · intro h hall
    have h1 : l2net.data.any oonf_layer2_has_value = false := by
      apply Bool.eq_false_iff.mpr
      intro ht
      obtain ⟨d, hd, hv⟩ := List.any_eq_true.mp ht
      rw [hall d (List.mem_append_left _ hd)] at hv
      exact absurd hv (by decide)
    have h2 : l2net.neighdata.any oonf_layer2_has_value = false := by
      apply Bool.eq_false_iff.mpr
      intro ht
      obtain ⟨d, hd, hv⟩ := List.any_eq_true.mp ht
      rw [hall d (List.mem_append_right _ hd)] at hv
      exact absurd hv (by decide)
    refine ⟨by simp [oonf_layer2_net_commit, h, h1, h2], ?_, ?_⟩
    · intro hm
      exact avl_remove_length net_key tree l2net hm
    · intro hnd
      exact ⟨avl_find_removed net_key tree l2net hnd,
        fun k hk => avl_find_removed_other net_key tree l2net k hk⟩

/-- C30 (best-prefix match, code defect). `oonf_layer2_net_get_best_neighbor_match`
returns NULL exactly when no neighbor address entry of any network contains the
address; otherwise it returns an entry that contains the address and whose prefix
length is the smallest among all entries that contain it, not the greatest: for a
neighbor with the addresses 10.0.0.0/8 and 10.1.0.0/16 and the address 10.1.2.3 it
returns the entry 10.0.0.0/8, although 10.1.0.0/16 contains the address as well. -/
theorem best_match_returns_shortest :
    (∀ (tree : List oonf_layer2_net) (addr : netaddr),
      (oonf_layer2_net_get_best_neighbor_match tree addr = none ↔
        ∀ e ∈ all_neighbor_addresses tree, netaddr_is_in_subnet e.ip addr = false)
      ∧ ∀ e, oonf_layer2_net_get_best_neighbor_match tree addr = some e →
          e ∈ all_neighbor_addresses tree ∧ netaddr_is_in_subnet e.ip addr = true
          ∧ ∀ e2 ∈ all_neighbor_addresses tree, netaddr_is_in_subnet e2.ip addr = true →
              netaddr_get_prefix_length e.ip ≤ netaddr_get_prefix_length e2.ip)
    ∧ oonf_layer2_net_get_best_neighbor_match two_prefix_tree (ipv4 10 1 2 3 32)
        = some { ip := ipv4 10 0 0 0 8, origin := some origin_a }
    ∧ ({ ip := ipv4 10 1 0 0 16, origin := some origin_a } : oonf_layer2_neighbor_address)
        ∈ all_neighbor_addresses two_prefix_tree
    ∧ netaddr_is_in_subnet (ipv4 10 1 0 0 16) (ipv4 10 1 2 3 32) = true
    ∧ netaddr_get_prefix_length (ipv4 10 0 0 0 8)
        < netaddr_get_prefix_length (ipv4 10 1 0 0 16) :=
  ⟨best_match_shortest, by decide, by decide, by decide, by decide⟩

/-! ## Layer2 database: lemmas on the entity operations -/

theorem avl_store_length {α κ : Type} [DecidableEq κ] (key : α → κ) (k : κ) (value : α) :
    ∀ tree : List α, (avl_store key k value tree).length = tree.length := by
  intro tree
  induction tree with
  | nil => rfl
  | cons x xs ih =>
    simp only [avl_store]
    split
    · simp
    · simp [ih]

theorem avl_store_keys {α κ : Type} [DecidableEq κ] (key : α → κ) (k : κ) (value : α)
    (hv : key value = k) :
    ∀ tree : List α, (avl_store key k value tree).map key = tree.map key := by
  intro tree
  induction tree with
  | nil => rfl
  | cons x xs ih =>
    simp only [avl_store]
    by_cases hx : key x = k
    · simp [hx, hv]
    · simp [hx, ih]

theorem avl_store_find {α κ : Type} [DecidableEq κ] (key : α → κ) (k : κ) (value : α)
    (hv : key value = k) :
    ∀ (tree : List α) (k1 : κ),
      avl_find_element key (avl_store key k value tree) k1
        = if k1 = k then (avl_find_element key tree k).map (fun _ => value)
          else avl_find_element key tree k1 := by
  intro tree k1
  induction tree with
  | nil => simp [avl_store, avl_find_element]
  | cons x xs ih =>
    simp only [avl_store]
    by_cases hx : key x = k
    · by_cases hk : k1 = k
      · subst hk
        simp [avl_find_element, hx, hv]
      · have hk2 : ¬ k = k1 := fun h => hk h.symm
        simp [avl_find_element, hx, hv, hk, hk2]
    · have hx2 : (key x == k) = false := by simpa using hx
      simp only [hx2, Bool.false_eq_true, if_false]
      by_cases hk : k1 = k
      · subst hk
        simp only [avl_find_element, List.find?_cons, hx2, if_true] at ih ⊢
        exact ih
      · simp only [if_neg hk] at ih ⊢
        simp only [avl_find_element, List.find?_cons] at ih ⊢
        rw [ih]

theorem avl_store_self {α κ : Type} [DecidableEq κ] (key : α → κ) (k : κ) (value : α) :
    ∀ tree : List α, avl_find_element key tree k = some value →
      avl_store key k value tree = tree := by
  intro tree
  induction tree with
  | nil => intro h; rfl
  | cons x xs ih =>
    intro h
    simp only [avl_store]
    by_cases hx : key x = k
    · simp only [avl_find_element, List.find?_cons, hx, beq_self_eq_true] at h
      simp only [Option.some.injEq] at h
      subst h
      simp [hx]
    · have hx2 : (key x == k) = false := by simpa using hx
      simp only [avl_find_element, List.find?_cons, hx2] at h
      simp only [hx2, Bool.false_eq_true, if_false]
      rw [ih h]

theorem origin_ptr_eq_refl (o : Option oonf_layer2_origin) : origin_ptr_eq o o = true := by
  cases o with
  | none => rfl
  | some a => simp [origin_ptr_eq]

theorem net_add_existing (tree : List oonf_layer2_net) (name : List Nat) (malloc_ok : Bool)
    (l2net : oonf_layer2_net) (h : oonf_layer2_net_get tree name = some l2net) :
    oonf_layer2_net_add tree (some name) malloc_ok = (some l2net, tree) := by
  unfold oonf_layer2_net_get at h
  simp only [oonf_layer2_net_add, h]

theorem neigh_add_existing (l2net : oonf_layer2_net) (neigh : netaddr) (malloc_ok : Bool)
    (l2neigh : oonf_layer2_neigh)
    (hfam : neigh._type = AF_MAC48 ∨ neigh._type = AF_EUI64)
    (h : oonf_layer2_neigh_get l2net neigh = some l2neigh) :
    oonf_layer2_neigh_add l2net neigh malloc_ok = (some l2neigh, l2net) := by
  unfold oonf_layer2_neigh_add
  have hc : ¬ (netaddr_get_address_family neigh ≠ AF_MAC48
      ∧ netaddr_get_address_family neigh ≠ AF_EUI64) := by
    unfold netaddr_get_address_family
    tauto
  rw [if_neg hc]
  simp only [h]

theorem destination_add_existing (l2neigh : oonf_layer2_neigh) (destination : netaddr)
    (origin : Option oonf_layer2_origin) (malloc_ok : Bool)
    (l2dst : oonf_layer2_destination)
    (h : oonf_layer2_destination_get l2neigh destination = some l2dst) :
    oonf_layer2_destination_add l2neigh destination origin malloc_ok
      = (some l2dst, l2neigh) := by
  simp only [oonf_layer2_destination_add, h]

/-- Every neighbor of the network has a MAC48 or EUI64 address, as every neighbor that
`oonf_layer2_neigh_add` has inserted. -/
theorem neigh_add_keeps_families (l2net : oonf_layer2_net) (neigh : netaddr)
    (malloc_ok : Bool)
    (hinv : ∀ n ∈ l2net.neighbors, n.addr._type = AF_MAC48 ∨ n.addr._type = AF_EUI64) :
    ∀ n ∈ (oonf_layer2_neigh_add l2net neigh malloc_ok).2.neighbors,
      n.addr._type = AF_MAC48 ∨ n.addr._type = AF_EUI64 := by
  unfold oonf_layer2_neigh_add
  by_cases hc : netaddr_get_address_family neigh ≠ AF_MAC48
      ∧ netaddr_get_address_family neigh ≠ AF_EUI64
  · rw [if_pos hc]; exact hinv
  · rw [if_neg hc]
    cases hg : oonf_layer2_neigh_get l2net neigh with
    | some x => exact hinv
    | none =>
      cases malloc_ok with
      | false => exact hinv
      | true =>
        have hnone : avl_find_element neigh_key l2net.neighbors neigh = none := hg
        simp only [Bool.not_true, Bool.false_eq_true, if_false, avl_insert_unique, neigh_key,
          hnone, Option.isSome_none]
        intro n hn
        simp only [List.append_assoc, List.mem_append, List.mem_singleton,
          List.mem_cons, List.mem_nil_iff, or_false] at hn
        rcases hn with hn | hn | hn
        · exact hinv n ((List.takeWhile_sublist _).subset hn)
        · subst hn
          unfold netaddr_get_address_family at hc
          simp only
          tauto
        · exact hinv n ((List.dropWhile_sublist _).subset hn)
theorem avl_find_inserted_unique {α κ : Type} [DecidableEq κ] (key : α → κ)
    (le : κ → κ → Bool) (tree : List α) (new : α)
    (h : avl_find_element key tree (key new) = none) (k : κ) :
    avl_find_element key (avl_insert_unique key le tree new).2 k
      = if k = key new then some new else avl_find_element key tree k := by
  have hn := (avl_find_none_iff key tree _).mp h
  simp only [avl_insert_unique, h, Option.isSome_none, Bool.false_eq_true, if_false]
  generalize (fun x => le (key x) (key new)) = p
  unfold avl_find_element
  by_cases hk : k = key new
  · subst hk
    have h1 : (tree.takeWhile p).find? (fun x => key x == key new) = none := by
      apply List.find?_eq_none.mpr
      intro x hx
      have := hn x ((List.takeWhile_sublist p).subset hx)
      simpa using this
    simp [List.find?_append, h1]
  · have hne : (key new == k) = false := by
      apply beq_false_of_ne
      exact fun e => hk e.symm
    simp only [hk, if_false]
    have e : List.find? (fun x => key x == k) tree
        = List.find? (fun x => key x == k) (tree.takeWhile p ++ tree.dropWhile p) := by
      rw [List.takeWhile_append_dropWhile]
    simp only [List.find?_append, List.find?_cons, hne, List.find?_nil, Option.none_or,
      Option.or_none, Option.or_assoc]
    rw [e, List.find?_append]

theorem avl_insert_unique_present {α κ : Type} [DecidableEq κ] (key : α → κ)
    (le : κ → κ → Bool) (tree : List α) (new old : α)
    (h : avl_find_element key tree (key new) = some old) :
    avl_insert_unique key le tree new = (-1, tree) := by
  simp [avl_insert_unique, h]

theorem cleanup_fields_forall₂ (origin : Option oonf_layer2_origin) :
    ∀ fields : List oonf_layer2_data,
      List.Forall₂ (field_cleaned origin) fields (cleanup_fields origin fields).2 := by
  intro fields
  induction fields with
  | nil => exact List.Forall₂.nil
  | cons d ds ih =>
    simp only [cleanup_fields, List.map_cons]
    refine List.Forall₂.cons ?_ ih
    by_cases h : origin_ptr_eq d._origin origin = true
    · exact ⟨fun _ => by rw [if_pos h], fun h2 => by rw [h] at h2; cases h2⟩
    · exact ⟨fun h2 => absurd h2 h, fun _ => by rw [if_neg h]⟩

theorem cleanup_fields_changed (origin : Option oonf_layer2_origin)
    (fields : List oonf_layer2_data) :
    (cleanup_fields origin fields).1 = true
      ↔ ∃ d ∈ fields, origin_ptr_eq d._origin origin = true := by
  simp [cleanup_fields]

theorem free_peer_addresses_loop :
    ∀ (l : List oonf_layer2_peer_address) (net : oonf_layer2_net),
      net.local_peer_ips = l →
      (l.foldl (fun n l2peer => (oonf_layer2_net_remove_ip n l2peer l2peer.origin).2)
        net).local_peer_ips = []
      ∧ (l.foldl (fun n l2peer => (oonf_layer2_net_remove_ip n l2peer l2peer.origin).2)
        net).name = net.name := by
  intro l
  induction l with
  | nil => intro net h; exact ⟨h, rfl⟩
  | cons x xs ih =>
    intro net h
    simp only [List.foldl_cons]
    have hs : (oonf_layer2_net_remove_ip net x x.origin).2
        = { net with local_peer_ips := xs } := by
      simp only [oonf_layer2_net_remove_ip, origin_ptr_eq_refl, Bool.not_true,
        Bool.false_eq_true, if_false, avl_remove, h]
      rw [List.eraseP_cons]
      simp
    rw [hs]
    exact ih _ rfl

theorem net_commit_peers (tree : List oonf_layer2_net) (l2net : oonf_layer2_net)
    (peers : List oonf_layer2_peer_address) :
    oonf_layer2_net_commit tree { l2net with local_peer_ips := peers }
      = oonf_layer2_net_commit tree l2net := rfl

theorem net_add_ip_existing (l2net : oonf_layer2_net) (origin : Option oonf_layer2_origin)
    (ip : netaddr) (malloc_ok : Bool) (l2addr : oonf_layer2_peer_address)
    (h : oonf_layer2_net_get_ip l2net ip = some l2addr) :
    oonf_layer2_net_add_ip l2net origin ip malloc_ok
      = (some { ip := ip, origin := origin },
          { l2net with
            local_peer_ips := avl_store peer_address_key ip { ip := ip, origin := origin }
              l2net.local_peer_ips }) := by
  have hk := (avl_find_element_mem peer_address_key _ _ _ h).2
  simp only [peer_address_key] at hk
  simp only [oonf_layer2_net_add_ip, h, hk]

theorem neigh_add_ip_existing (l2neigh : oonf_layer2_neigh)
    (origin : Option oonf_layer2_origin) (ip : netaddr) (malloc_ok : Bool)
    (l2addr : oonf_layer2_neighbor_address)
    (h : oonf_layer2_neigh_get_ip l2neigh ip = some l2addr) :
    oonf_layer2_neigh_add_ip l2neigh origin ip malloc_ok
      = (some { ip := ip, origin := origin },
          { l2neigh with
            remote_neighbor_ips := avl_store neighbor_address_key ip
              { ip := ip, origin := origin } l2neigh.remote_neighbor_ips }) := by
  have hk := (avl_find_element_mem neighbor_address_key _ _ _ h).2
  simp only [neighbor_address_key] at hk
  simp only [oonf_layer2_neigh_add_ip, h, hk]

/-! ## Layer2 database: claims on the entity operations -/

/-- C31 (re-add is idempotent). `oonf_layer2_net_add` with NULL returns NULL and leaves
the tree of networks unchanged. With a name that the tree holds (the lookup compares
without regard to case) it returns the network found and leaves the tree unchanged;
`oonf_layer2_neigh_add` with an address that the network holds returns the neighbor
found and leaves the network unchanged (all neighbors of a network have a MAC48 or EUI64
address, which `oonf_layer2_neigh_add` keeps true); `oonf_layer2_destination_add` with a
destination that the neighbor holds returns the destination found, whose origin stays,
and leaves the neighbor unchanged. All three hold whether memory is available or not.
After a first `oonf_layer2_net_add` of a name shorter than the name array, a second one
with the same name in any case returns the same network and the same tree. In the
sample network the name "WLAN0" finds the network "wlan0", and a neighbor and a
destination that exist are returned when no memory is available. -/
theorem readd_is_idempotent :
    (∀ (tree : List oonf_layer2_net) (malloc_ok : Bool),
        oonf_layer2_net_add tree none malloc_ok = (none, tree))
    ∧ (∀ (tree : List oonf_layer2_net) (name : List Nat) (malloc_ok : Bool)
        (l2net : oonf_layer2_net), oonf_layer2_net_get tree name = some l2net →
        oonf_layer2_net_add tree (some name) malloc_ok = (some l2net, tree)
        ∧ l2net ∈ tree ∧ net_key l2net = name.map byte_to_lower)
    ∧ (∀ (l2net : oonf_layer2_net) (neigh : netaddr) (malloc_ok : Bool)
        (l2neigh : oonf_layer2_neigh),
        (∀ n ∈ l2net.neighbors, n.addr._type = AF_MAC48 ∨ n.addr._type = AF_EUI64) →
        oonf_layer2_neigh_get l2net neigh = some l2neigh →
        oonf_layer2_neigh_add l2net neigh malloc_ok = (some l2neigh, l2net)
        ∧ l2neigh ∈ l2net.neighbors ∧ l2neigh.addr = neigh)
    ∧ (∀ (l2net : oonf_layer2_net) (neigh : netaddr) (malloc_ok : Bool),
        (∀ n ∈ l2net.neighbors, n.addr._type = AF_MAC48 ∨ n.addr._type = AF_EUI64) →
        ∀ n ∈ (oonf_layer2_neigh_add l2net neigh malloc_ok).2.neighbors,
          n.addr._type = AF_MAC48 ∨ n.addr._type = AF_EUI64)
    ∧ (∀ (l2neigh : oonf_layer2_neigh) (destination : netaddr)
        (origin : Option oonf_layer2_origin) (malloc_ok : Bool)
        (l2dst : oonf_layer2_destination),
        oonf_layer2_destination_get l2neigh destination = some l2dst →
        oonf_layer2_destination_add l2neigh destination origin malloc_ok
          = (some l2dst, l2neigh)
        ∧ l2dst ∈ l2neigh.destinations ∧ l2dst.destination = destination)
    ∧ (∀ (tree : List oonf_layer2_net) (name again : List Nat) (malloc_ok : Bool),
        name.length < IF_NAMESIZE →
        again.map byte_to_lower = name.map byte_to_lower →
        oonf_layer2_net_add (oonf_layer2_net_add tree (some name) true).2 (some again)
            malloc_ok
          = oonf_layer2_net_add tree (some name) true)
    ∧ oonf_layer2_net_add [shared_net] (some [87, 76, 65, 78, 48]) false
        = (some shared_net, [shared_net])
    ∧ oonf_layer2_neigh_add shared_net mac_two false = (some neigh_of_a, shared_net)
    ∧ oonf_layer2_destination_add shared_neigh mac_two (some origin_b) false
        = (some { destination := mac_two, origin := some origin_a }, shared_neigh) := by
  refine ⟨fun tree m => rfl, ?_, ?_, ?_, ?_, ?_, by decide, by decide, by decide⟩
  · intro tree name m l2net h
    have hm := avl_find_element_mem net_key tree _ l2net h
    exact ⟨net_add_existing tree name m l2net h, hm.1, hm.2⟩
  · intro l2net neigh m l2neigh hinv h
    have hm := avl_find_element_mem neigh_key l2net.neighbors _ l2neigh h
    have hk : l2neigh.addr = neigh := hm.2
    refine ⟨neigh_add_existing l2net neigh m l2neigh ?_ h, hm.1, hk⟩
    rw [← hk]
    exact hinv _ hm.1
  · intro l2net neigh m hinv
    exact neigh_add_keeps_families l2net neigh m hinv
  · intro l2neigh destination origin m l2dst h
    have hm := avl_find_element_mem destination_key l2neigh.destinations _ l2dst h
    exact ⟨destination_add_existing l2neigh destination origin m l2dst h, hm.1, hm.2⟩
  · intro tree name again m hlen hlow
    cases hf : avl_find_element net_key tree (name.map byte_to_lower) with
    | some l2net =>
      have h1 : oonf_layer2_net_add tree (some name) true = (some l2net, tree) := by
        simp only [oonf_layer2_net_add, hf]
      rw [h1]
      simp only [oonf_layer2_net_add, hlow, hf]
    | none =>
      have hcopy : strscpy name IF_NAMESIZE = name := by
        unfold strscpy
        apply List.take_of_length_le
        omega
      have h1 : oonf_layer2_net_add tree (some name) true
          = (some { name := name,
                    data := List.replicate OONF_LAYER2_NET_COUNT empty_data,
                    neighdata := List.replicate OONF_LAYER2_NEIGH_COUNT empty_data,
                    neighbors := [], local_peer_ips := [] },
              (avl_insert_unique net_key bytes_le tree
                { name := name,
                  data := List.replicate OONF_LAYER2_NET_COUNT empty_data,
                  neighdata := List.replicate OONF_LAYER2_NEIGH_COUNT empty_data,
                  neighbors := [], local_peer_ips := [] }).2) := by
        simp only [oonf_layer2_net_add, hf, hcopy, Bool.not_true, Bool.false_eq_true,
          if_false]
      rw [h1]
      simp only [oonf_layer2_net_add, hlow]
      have hf2 : avl_find_element net_key tree
          (net_key { name := name,
                     data := List.replicate OONF_LAYER2_NET_COUNT empty_data,
                     neighdata := List.replicate OONF_LAYER2_NEIGH_COUNT empty_data,
                     neighbors := [], local_peer_ips := [] }) = none := hf
      rw [avl_find_inserted_unique net_key bytes_le tree _ hf2]
      simp [net_key]

/-- C35 (return value of a field write). `oonf_layer2_data_set` returns true exactly
when the write is accepted by the merge rule and the type of the field differs from the
type of the metadata or the value of the field differs from the input. So a second,
equal write after an accepted one returns false and changes nothing, and an accepted
write of the value and type the field already has by another origin of higher priority
returns false although the origin of the field becomes the caller. -/
theorem data_set_return_value (l2data : oonf_layer2_data) (origin : oonf_layer2_origin)
    (metadata : oonf_layer2_metadata) (input : Int) :
    ((oonf_layer2_data_set l2data origin metadata input).1 = true
      ↔ write_accepted l2data origin
          ∧ (l2data._type ≠ metadata.type ∨ l2data._value ≠ input))
    ∧ (write_accepted l2data origin →
        oonf_layer2_data_set (oonf_layer2_data_set l2data origin metadata input).2 origin
            metadata input
          = (false, (oonf_layer2_data_set l2data origin metadata input).2))
    ∧ (∀ current : oonf_layer2_origin, l2data._origin = some current →
        current.ptr ≠ origin.ptr → current.priority < origin.priority →
        l2data._type = metadata.type → l2data._value = input →
        oonf_layer2_data_set l2data origin metadata input
            = (false, { l2data with _origin := some origin })
        ∧ (oonf_layer2_data_set l2data origin metadata input).2._origin ≠ l2data._origin) := by
  refine ⟨?_, ?_, ?_⟩
  · by_cases h : write_accepted l2data origin
    · rw [data_set_accepted _ _ _ _ h]
      simp [h]
    · rw [data_set_refused _ _ _ _ h]
      simp [h]
  · intro h
    rw [data_set_accepted _ _ _ _ h]
    rw [data_set_accepted _ _ _ _ (Or.inr (Or.inr ⟨origin, rfl, Or.inl rfl⟩))]
    simp
  · intro current hc hne hp ht hv
    have h : write_accepted l2data origin := Or.inr (Or.inr ⟨current, hc, Or.inr hp⟩)
    rw [data_set_accepted _ _ _ _ h]
    refine ⟨?_, ?_⟩
    · rw [← ht, ← hv]
      simp
    · simp only [hc, ne_eq, Option.some.injEq]
      intro he
      exact hne (by rw [he])

/-- C36 (cleanup is origin-scoped). `oonf_layer2_neigh_cleanup` for an origin resets
every field of the neighbor whose origin is that origin and leaves every other field,
the address, the destinations and the addresses of the neighbor as they were; it returns
true exactly when a field had that origin. `oonf_layer2_net_cleanup` does the same for
the network fields and the default neighbor fields and leaves name and peer addresses
as they were; without `cleanup_neigh` the neighbors are unchanged and the result tells
whether one of these fields had the origin, with `cleanup_neigh` every neighbor is
cleaned as by `oonf_layer2_neigh_cleanup` and the result also counts their fields. -/
theorem cleanup_is_origin_scoped (origin : Option oonf_layer2_origin) :
    (∀ l2neigh : oonf_layer2_neigh,
        List.Forall₂ (field_cleaned origin) l2neigh.data
          (oonf_layer2_neigh_cleanup l2neigh origin).2.data
        ∧ ((oonf_layer2_neigh_cleanup l2neigh origin).1 = true
            ↔ ∃ d ∈ l2neigh.data, origin_ptr_eq d._origin origin = true)
        ∧ (oonf_layer2_neigh_cleanup l2neigh origin).2.addr = l2neigh.addr
        ∧ (oonf_layer2_neigh_cleanup l2neigh origin).2.destinations = l2neigh.destinations
        ∧ (oonf_layer2_neigh_cleanup l2neigh origin).2.remote_neighbor_ips
            = l2neigh.remote_neighbor_ips)
    ∧ (∀ (l2net : oonf_layer2_net) (cleanup_neigh : Bool),
        List.Forall₂ (field_cleaned origin) l2net.data
          (oonf_layer2_net_cleanup l2net origin cleanup_neigh).2.data
        ∧ List.Forall₂ (field_cleaned origin) l2net.neighdata
          (oonf_layer2_net_cleanup l2net origin cleanup_neigh).2.neighdata
        ∧ (oonf_layer2_net_cleanup l2net origin cleanup_neigh).2.name = l2net.name
        ∧ (oonf_layer2_net_cleanup l2net origin cleanup_neigh).2.local_peer_ips
            = l2net.local_peer_ips)
    ∧ (∀ l2net : oonf_layer2_net,
        (oonf_layer2_net_cleanup l2net origin false).2.neighbors = l2net.neighbors
        ∧ ((oonf_layer2_net_cleanup l2net origin false).1 = true
            ↔ ∃ d ∈ l2net.data ++ l2net.neighdata, origin_ptr_eq d._origin origin = true))
    ∧ (∀ l2net : oonf_layer2_net,
        (oonf_layer2_net_cleanup l2net origin true).2.neighbors
          = l2net.neighbors.map (fun n => (oonf_layer2_neigh_cleanup n origin).2)
        ∧ ((oonf_layer2_net_cleanup l2net origin true).1 = true
            ↔ (∃ d ∈ l2net.data ++ l2net.neighdata, origin_ptr_eq d._origin origin = true)
              ∨ ∃ n ∈ l2net.neighbors, ∃ d ∈ n.data,
                  origin_ptr_eq d._origin origin = true)) := by
  refine ⟨?_, ?_, ?_, ?_⟩
  · intro l2neigh
    exact ⟨cleanup_fields_forall₂ origin _, cleanup_fields_changed origin _, rfl, rfl, rfl⟩
  · intro l2net cn
    cases cn
    · exact ⟨cleanup_fields_forall₂ origin _, cleanup_fields_forall₂ origin _, rfl, rfl⟩
    · exact ⟨cleanup_fields_forall₂ origin _, cleanup_fields_forall₂ origin _, rfl, rfl⟩
  · intro l2net
    refine ⟨rfl, ?_⟩
    simp only [oonf_layer2_net_cleanup, Bool.false_eq_true, if_false, Bool.or_eq_true,
      cleanup_fields_changed, List.mem_append]
    constructor
    · rintro (⟨d, hd, h⟩ | ⟨d, hd, h⟩)
      · exact ⟨d, Or.inl hd, h⟩
      · exact ⟨d, Or.inr hd, h⟩
    · rintro ⟨d, hd | hd, h⟩
      · exact Or.inl ⟨d, hd, h⟩
      · exact Or.inr ⟨d, hd, h⟩
  · intro l2net
    refine ⟨by simp [oonf_layer2_net_cleanup], ?_⟩
    have hany : (l2net.neighbors.map (fun n => oonf_layer2_neigh_cleanup n origin)).any
          (fun r => r.1) = true
        ↔ ∃ n ∈ l2net.neighbors, ∃ d ∈ n.data, origin_ptr_eq d._origin origin = true := by
      simp [oonf_layer2_neigh_cleanup, cleanup_fields]
    simp only [oonf_layer2_net_cleanup, if_true, Bool.or_eq_true,
      cleanup_fields_changed, List.mem_append, hany]
    constructor
    · rintro ((⟨d, hd, h⟩ | ⟨d, hd, h⟩) | ⟨n, hn, h⟩)
      · exact Or.inl ⟨d, Or.inl hd, h⟩
      · exact Or.inl ⟨d, Or.inr hd, h⟩
      · exact Or.inr ⟨n, hn, h⟩
    · rintro (⟨d, hd | hd, h⟩ | ⟨n, hn, h⟩)
      · exact Or.inl (Or.inl ⟨d, hd, h⟩)
      · exact Or.inl (Or.inr ⟨d, hd, h⟩)
      · exact Or.inr ⟨n, hn, h⟩

/-- C39 (network commit ignores peer addresses). The result of `oonf_layer2_net_commit`
(return value and tree) is the same for a network and for the same network with any
other set of peer addresses. The loop of `_net_remove` over the peer addresses removes
every one of them, whatever its origin is. The network "eth0" with no neighbors, no
field with a value and two peer addresses of two origins is removed by commit: the
result is true and the lookup of its name finds nothing afterwards. -/
theorem net_commit_ignores_peer_addresses :
    (∀ (tree : List oonf_layer2_net) (l2net : oonf_layer2_net)
        (peers : List oonf_layer2_peer_address),
        oonf_layer2_net_commit tree { l2net with local_peer_ips := peers }
          = oonf_layer2_net_commit tree l2net)
    ∧ (∀ l2net : oonf_layer2_net,
        (free_peer_addresses l2net).local_peer_ips = []
        ∧ ∀ tree, _net_remove tree (free_peer_addresses l2net) = _net_remove tree l2net)
    ∧ (∀ (l2net : oonf_layer2_net) (l2peer : oonf_layer2_peer_address),
        (oonf_layer2_net_remove_ip l2net l2peer l2peer.origin).1 = 0)
    ∧ net_with_peers_only.local_peer_ips.length = 2
    ∧ oonf_layer2_net_commit [net_with_peers_only, shared_net] net_with_peers_only
        = (true, [shared_net])
    ∧ oonf_layer2_net_get [shared_net] net_with_peers_only.name = none := by
  refine ⟨fun tree l2net peers => rfl, ?_, ?_, by decide, by decide, by decide⟩
  · intro l2net
    have h := free_peer_addresses_loop l2net.local_peer_ips l2net rfl
    refine ⟨h.1, fun tree => ?_⟩
    simp only [_net_remove, avl_remove, net_key]
    have hn : (free_peer_addresses l2net).name = l2net.name := h.2
    rw [hn]
  · intro l2net l2peer
    simp [oonf_layer2_net_remove_ip, origin_ptr_eq_refl]

/-- C40 (address ownership on re-add bypasses priority). `oonf_layer2_net_add_ip` and
`oonf_layer2_neigh_add_ip` for an address that the tree holds return the entry with the
origin of the caller, whatever the priorities are: the tree keeps its keys and its
number of entries, the lookup of the address yields the entry with the new origin and
every other lookup is unchanged. `oonf_layer2_destination_add` for a destination that
the neighbor holds returns the entry found and leaves the neighbor, and so the origin
of the entry, unchanged. In the sample neighbor the address 10.0.0.2 of origin B
(priority 2) belongs to origin A (priority 1) after A has added it again, while a
destination of B that A adds again still belongs to B. -/
theorem address_readd_takes_ownership :
    (∀ (l2net : oonf_layer2_net) (origin : Option oonf_layer2_origin) (ip : netaddr)
        (malloc_ok : Bool) (l2addr : oonf_layer2_peer_address),
        oonf_layer2_net_get_ip l2net ip = some l2addr →
        (oonf_layer2_net_add_ip l2net origin ip malloc_ok).1
            = some { ip := ip, origin := origin }
        ∧ (oonf_layer2_net_add_ip l2net origin ip malloc_ok).2.local_peer_ips.length
            = l2net.local_peer_ips.length
        ∧ (oonf_layer2_net_add_ip l2net origin ip malloc_ok).2.local_peer_ips.map
              peer_address_key
            = l2net.local_peer_ips.map peer_address_key
        ∧ oonf_layer2_net_get_ip (oonf_layer2_net_add_ip l2net origin ip malloc_ok).2 ip
            = some { ip := ip, origin := origin }
        ∧ (∀ other, other ≠ ip →
            oonf_layer2_net_get_ip (oonf_layer2_net_add_ip l2net origin ip malloc_ok).2 other
              = oonf_layer2_net_get_ip l2net other)
        ∧ (oonf_layer2_net_add_ip l2net origin ip malloc_ok).2
            = { l2net with
                local_peer_ips :=
                  (oonf_layer2_net_add_ip l2net origin ip malloc_ok).2.local_peer_ips })
    ∧ (∀ (l2neigh : oonf_layer2_neigh) (origin : Option oonf_layer2_origin) (ip : netaddr)
        (malloc_ok : Bool) (l2addr : oonf_layer2_neighbor_address),
        oonf_layer2_neigh_get_ip l2neigh ip = some l2addr →
        (oonf_layer2_neigh_add_ip l2neigh origin ip malloc_ok).1
            = some { ip := ip, origin := origin }
        ∧ (oonf_layer2_neigh_add_ip l2neigh origin ip malloc_ok).2.remote_neighbor_ips.length
            = l2neigh.remote_neighbor_ips.length
        ∧ (oonf_layer2_neigh_add_ip l2neigh origin ip malloc_ok).2.remote_neighbor_ips.map
              neighbor_address_key
            = l2neigh.remote_neighbor_ips.map neighbor_address_key
        ∧ oonf_layer2_neigh_get_ip (oonf_layer2_neigh_add_ip l2neigh origin ip malloc_ok).2 ip
            = some { ip := ip, origin := origin }
        ∧ (∀ other, other ≠ ip →
            oonf_layer2_neigh_get_ip (oonf_layer2_neigh_add_ip l2neigh origin ip malloc_ok).2
                other
              = oonf_layer2_neigh_get_ip l2neigh other)
        ∧ (oonf_layer2_neigh_add_ip l2neigh origin ip malloc_ok).2
            = { l2neigh with
                remote_neighbor_ips :=
                  (oonf_layer2_neigh_add_ip l2neigh origin ip malloc_ok).2.remote_neighbor_ips })
    ∧ (∀ (l2neigh : oonf_layer2_neigh) (destination : netaddr)
        (origin : Option oonf_layer2_origin) (malloc_ok : Bool)
        (l2dst : oonf_layer2_destination),
        oonf_layer2_destination_get l2neigh destination = some l2dst →
        oonf_layer2_destination_add l2neigh destination origin malloc_ok
          = (some l2dst, l2neigh))
    ∧ origin_a.priority < origin_b.priority
    ∧ oonf_layer2_neigh_get_ip shared_neigh (ipv4 10 0 0 2 32)
        = some { ip := ipv4 10 0 0 2 32, origin := some origin_b }
    ∧ (oonf_layer2_neigh_add_ip shared_neigh (some origin_a) (ipv4 10 0 0 2 32)
          true).2.remote_neighbor_ips
        = [{ ip := ipv4 10 0 0 1 32, origin := some origin_a },
           { ip := ipv4 10 0 0 2 32, origin := some origin_a }]
    ∧ (oonf_layer2_net_add_ip shared_net (some origin_a) (ipv4 192 168 1 1 32)
          true).2.local_peer_ips
        = [{ ip := ipv4 192 168 1 1 32, origin := some origin_a },
           { ip := ipv4 192 168 1 2 32, origin := some origin_a }]
    ∧ (oonf_layer2_destination_add
          (oonf_layer2_destination_add fresh_neigh mac_two (some origin_b) true).2 mac_two
          (some origin_a) true).1
        = some { destination := mac_two, origin := some origin_b } := by
  refine ⟨?_, ?_, ?_, by decide, by decide, by decide, by decide, by decide⟩
  · intro l2net origin ip m l2addr h
    rw [net_add_ip_existing l2net origin ip m l2addr h]
    have hfind : avl_find_element peer_address_key l2net.local_peer_ips ip = some l2addr := h
    refine ⟨rfl, avl_store_length peer_address_key ip _ l2net.local_peer_ips,
      avl_store_keys peer_address_key ip { ip := ip, origin := origin } rfl
        l2net.local_peer_ips, ?_, ?_, rfl⟩
    · simp only [oonf_layer2_net_get_ip]
      rw [avl_store_find peer_address_key ip { ip := ip, origin := origin } rfl,
        if_pos rfl, hfind]
      rfl
    · intro other ho
      simp only [oonf_layer2_net_get_ip]
      rw [avl_store_find peer_address_key ip { ip := ip, origin := origin } rfl,
        if_neg ho]
  · intro l2neigh origin ip m l2addr h
    rw [neigh_add_ip_existing l2neigh origin ip m l2addr h]
    have hfind : avl_find_element neighbor_address_key l2neigh.remote_neighbor_ips ip
        = some l2addr := h
    refine ⟨rfl, avl_store_length neighbor_address_key ip _ l2neigh.remote_neighbor_ips,
      avl_store_keys neighbor_address_key ip { ip := ip, origin := origin } rfl
        l2neigh.remote_neighbor_ips, ?_, ?_, rfl⟩
    · simp only [oonf_layer2_neigh_get_ip]
      rw [avl_store_find neighbor_address_key ip { ip := ip, origin := origin } rfl,
        if_pos rfl, hfind]
      rfl
    · intro other ho
      simp only [oonf_layer2_neigh_get_ip]
      rw [avl_store_find neighbor_address_key ip { ip := ip, origin := origin } rfl,
        if_neg ho]
  · intro l2neigh destination origin m l2dst h
    exact destination_add_existing l2neigh destination origin m l2dst h
theorem relabel_fields_forall₂ (new_origin old_origin : Option oonf_layer2_origin) :
    ∀ fields : List oonf_layer2_data,
      List.Forall₂ (field_relabelled new_origin old_origin) fields
        (relabel_fields new_origin old_origin fields) := by
  intro fields
  induction fields with
  | nil => exact List.Forall₂.nil
  | cons d ds ih =>
    simp only [relabel_fields, List.map_cons]
    refine List.Forall₂.cons ?_ ih
    by_cases h : origin_ptr_eq (oonf_layer2_get_origin d) old_origin = true
    · rw [if_pos h]
      exact ⟨rfl, rfl, fun _ => rfl, fun h2 => by
        rw [show origin_ptr_eq d._origin old_origin = true from h] at h2; cases h2⟩
    · rw [if_neg h]
      exact ⟨rfl, rfl, fun h2 => absurd h2 h, fun _ => rfl⟩

theorem forall₂_map_self {α : Type} (R : α → α → Prop) (f : α → α) (h : ∀ x, R x (f x)) :
    ∀ l : List α, List.Forall₂ R l (l.map f) := by
  intro l
  induction l with
  | nil => exact List.Forall₂.nil
  | cons x xs ih => exact List.Forall₂.cons (h x) ih

theorem owner_relabelled_ite (new_origin old_origin before : Option oonf_layer2_origin) :
    owner_relabelled new_origin old_origin before
      (if origin_ptr_eq before old_origin then new_origin else before) := by
  by_cases h : origin_ptr_eq before old_origin = true
  · rw [if_pos h]
    exact ⟨fun _ => rfl, fun h2 => by rw [h] at h2; cases h2⟩
  · rw [if_neg h]
    exact ⟨fun h2 => absurd h2 h, fun _ => rfl⟩

theorem neigh_relabel_relabelled (new_origin old_origin : Option oonf_layer2_origin)
    (n : oonf_layer2_neigh) :
    neigh_relabelled new_origin old_origin n
      (oonf_layer2_neigh_relabel n new_origin old_origin) := by
  refine ⟨rfl, relabel_fields_forall₂ _ _ _, ?_, ?_⟩
  · apply forall₂_map_self
    intro a
    have h := owner_relabelled_ite new_origin old_origin a.origin
    by_cases hc : origin_ptr_eq a.origin old_origin = true
    · rw [if_pos hc] at h ⊢
      exact ⟨rfl, h⟩
    · rw [if_neg hc] at h ⊢
      exact ⟨rfl, h⟩
  · apply forall₂_map_self
    intro a
    have h := owner_relabelled_ite new_origin old_origin a.origin
    by_cases hc : origin_ptr_eq a.origin old_origin = true
    · rw [if_pos hc] at h ⊢
      exact ⟨rfl, h⟩
    · rw [if_neg hc] at h ⊢
      exact ⟨rfl, h⟩

theorem relabelled_owner_not_old (new_origin old_origin before : Option oonf_layer2_origin)
    (hne : origin_ptr_eq new_origin old_origin = false) :
    origin_ptr_eq (if origin_ptr_eq before old_origin then new_origin else before)
      old_origin = false := by
  by_cases h : origin_ptr_eq before old_origin = true
  · rw [if_pos h]; exact hne
  · rw [if_neg h]; simpa using h

theorem neigh_owners_relabel (new_origin old_origin : Option oonf_layer2_origin)
    (n : oonf_layer2_neigh) :
    neigh_owners (oonf_layer2_neigh_relabel n new_origin old_origin)
      = (neigh_owners n).map
          (fun o => if origin_ptr_eq o old_origin then new_origin else o) := by
  simp only [neigh_owners, oonf_layer2_neigh_relabel, relabel_fields, List.map_append,
    List.map_map]
  congr 1
  · congr 1
    · apply List.map_congr_left
      intro d _
      simp only [Function.comp, oonf_layer2_get_origin, oonf_layer2_set_origin]
      split <;> rfl
    · apply List.map_congr_left
      intro d _
      simp only [Function.comp]
      split <;> rfl
  · apply List.map_congr_left
    intro d _
    simp only [Function.comp]
    split <;> rfl

theorem net_owners_relabel (new_origin old_origin : Option oonf_layer2_origin)
    (l2net : oonf_layer2_net) :
    net_owners (oonf_layer2_net_relabel l2net new_origin old_origin)
      = (net_owners l2net).map
          (fun o => if origin_ptr_eq o old_origin then new_origin else o) := by
  simp only [net_owners, oonf_layer2_net_relabel, relabel_fields, List.map_append,
    List.map_map, List.flatMap_map, List.map_flatMap]
  congr 1
  · congr 1
    · congr 1
      · apply List.map_congr_left
        intro d _
        simp only [Function.comp, oonf_layer2_get_origin, oonf_layer2_set_origin]
        split <;> rfl
      · apply List.map_congr_left
        intro d _
        simp only [Function.comp, oonf_layer2_get_origin, oonf_layer2_set_origin]
        split <;> rfl
    · apply List.map_congr_left
      intro d _
      simp only [Function.comp]
      split <;> rfl
  · congr 1
    funext n
    exact neigh_owners_relabel new_origin old_origin n

/-- C32 (relabel). `oonf_layer2_net_relabel` keeps the name of the network and the
number and order of its fields, default neighbor fields, peer addresses and neighbors,
and in each neighbor the address and the number and order of fields, addresses and
destinations. Every field keeps value and type, every address and destination its key;
the owner of each of these items is the new origin when it was the old origin and is
unchanged otherwise. The list of all owners of the network afterwards is the list
before with the old origin replaced by the new one, and when the two origins differ no
item is owned by the old origin afterwards. In the sample network the items of origin A
belong to origin C afterwards and those of origin B still to B. -/
theorem relabel_moves_ownership (l2net : oonf_layer2_net)
    (new_origin old_origin : Option oonf_layer2_origin) :
    (oonf_layer2_net_relabel l2net new_origin old_origin).name = l2net.name
    ∧ List.Forall₂ (field_relabelled new_origin old_origin) l2net.data
        (oonf_layer2_net_relabel l2net new_origin old_origin).data
    ∧ List.Forall₂ (field_relabelled new_origin old_origin) l2net.neighdata
        (oonf_layer2_net_relabel l2net new_origin old_origin).neighdata
    ∧ List.Forall₂ (fun (a a1 : oonf_layer2_peer_address) =>
          a1.ip = a.ip ∧ owner_relabelled new_origin old_origin a.origin a1.origin)
        l2net.local_peer_ips
        (oonf_layer2_net_relabel l2net new_origin old_origin).local_peer_ips
    ∧ List.Forall₂ (neigh_relabelled new_origin old_origin) l2net.neighbors
        (oonf_layer2_net_relabel l2net new_origin old_origin).neighbors
    ∧ net_owners (oonf_layer2_net_relabel l2net new_origin old_origin)
        = (net_owners l2net).map
            (fun o => if origin_ptr_eq o old_origin then new_origin else o)
    ∧ (origin_ptr_eq new_origin old_origin = false →
        ∀ o ∈ net_owners (oonf_layer2_net_relabel l2net new_origin old_origin),
          origin_ptr_eq o old_origin = false)
    ∧ (net_owners shared_net).filter (fun o => o.isSome)
        = [some origin_a, some origin_b, some origin_b, some origin_a, some origin_b,
           some origin_a, some origin_b, some origin_a, some origin_a, some origin_a]
    ∧ (net_owners (oonf_layer2_net_relabel shared_net (some origin_c)
          (some origin_a))).filter (fun o => o.isSome)
        = [some origin_c, some origin_b, some origin_b, some origin_c, some origin_b,
           some origin_c, some origin_b, some origin_c, some origin_c, some origin_c] := by
  refine ⟨rfl, relabel_fields_forall₂ _ _ _, relabel_fields_forall₂ _ _ _, ?_, ?_,
    net_owners_relabel _ _ _, ?_, by decide, by decide⟩
  · apply forall₂_map_self
    intro a
    have h := owner_relabelled_ite new_origin old_origin a.origin
    by_cases hc : origin_ptr_eq a.origin old_origin = true
    · rw [if_pos hc] at h ⊢
      exact ⟨rfl, h⟩
    · rw [if_neg hc] at h ⊢
      exact ⟨rfl, h⟩
  · apply forall₂_map_self
    intro n
    exact neigh_relabel_relabelled new_origin old_origin n
  · intro hne o ho
    rw [net_owners_relabel] at ho
    obtain ⟨b, _, hb⟩ := List.mem_map.mp ho
    rw [← hb]
    exact relabelled_owner_not_old new_origin old_origin b hne
theorem avl_remove_absent {α κ : Type} [DecidableEq κ] (key : α → κ) (tree : List α)
    (node : α) (h : avl_find_element key tree (key node) = none) :
    avl_remove key tree node = tree := by
  have hn := (avl_find_none_iff key tree _).mp h
  unfold avl_remove
  apply List.eraseP_of_forall_not
  intro x hx
  simpa using hn x hx

theorem destination_remove_eq (l2neigh : oonf_layer2_neigh) (l2dst : oonf_layer2_destination) :
    oonf_layer2_destination_remove l2neigh l2dst
      = { l2neigh with
          destinations := avl_remove destination_key l2neigh.destinations l2dst } := by
  unfold oonf_layer2_destination_remove
  cases h : avl_find_element destination_key l2neigh.destinations l2dst.destination with
  | none =>
    simp only [Option.isNone_none, if_true]
    rw [avl_remove_absent destination_key _ l2dst h]
  | some x => simp

theorem erase_loop {α κ : Type} [DecidableEq κ] (key : α → κ) (p : α → Bool) :
    ∀ (l kept : List α), (∀ x ∈ kept, p x = false) → ((kept ++ l).map key).Nodup →
      l.foldl (fun t x => if p x then avl_remove key t x else t) (kept ++ l)
        = kept ++ l.filter (fun x => !p x) := by
  intro l
  induction l with
  | nil => intro kept _ _; simp
  | cons x xs ih =>
    intro kept hk hnd
    simp only [List.foldl_cons]
    by_cases hp : p x = true
    · rw [if_pos hp]
      have hkx : ∀ y ∈ kept, ¬ (key y == key x) = true := by
        intro y hy he
        have he2 : key y = key x := by simpa using he
        rw [List.map_append, List.map_cons] at hnd
        have := (List.nodup_append.mp hnd).2.2
        exact this (List.mem_map_of_mem key hy) (by rw [he2]; exact List.mem_cons_self _ _)
      have hrem : avl_remove key (kept ++ x :: xs) x = kept ++ xs := by
        unfold avl_remove
        rw [List.eraseP_append_right _ hkx, List.eraseP_cons]
        simp
      rw [hrem]
      have hnd2 : ((kept ++ xs).map key).Nodup := by
        rw [List.map_append, List.map_cons] at hnd
        rw [List.map_append]
        exact List.Nodup.sublist
          (List.Sublist.append (List.Sublist.refl _) (List.sublist_cons_self _ _)) hnd
      rw [ih kept hk hnd2]
      simp [hp]
    · have hp2 : p x = false := by simpa using hp
      simp only [hp2, Bool.false_eq_true, if_false]
      have e : kept ++ x :: xs = (kept ++ [x]) ++ xs := by simp
      rw [e]
      rw [ih (kept ++ [x])]
      · simp [hp2]
      · intro y hy
        rcases List.mem_append.mp hy with h | h
        · exact hk y h
        · simp only [List.mem_singleton] at h
          rw [h]; exact hp2
      · rw [← e]; exact hnd

theorem destination_loop (origin : Option oonf_layer2_origin) :
    ∀ (l : List oonf_layer2_destination) (s : Bool × oonf_layer2_neigh),
      l.foldl
        (fun (s : Bool × oonf_layer2_neigh) l2dst =>
          if origin_ptr_eq l2dst.origin origin then
            (true, oonf_layer2_destination_remove s.2 l2dst)
          else s) s
      = (s.1 || l.any (fun d => origin_ptr_eq d.origin origin),
          { s.2 with
            destinations := l.foldl
              (fun t x => if origin_ptr_eq x.origin origin then
                avl_remove destination_key t x else t) s.2.destinations }) := by
  intro l
  induction l with
  | nil => intro s; simp
  | cons x xs ih =>
    intro s
    simp only [List.foldl_cons, List.any_cons]
    by_cases hp : origin_ptr_eq x.origin origin = true
    · rw [if_pos hp, ih, destination_remove_eq]
      simp [hp]
    · have hp2 : origin_ptr_eq x.origin origin = false := by simpa using hp
      simp only [hp2, Bool.false_eq_true, if_false, Bool.false_or]
      rw [ih]

theorem address_loop (origin : Option oonf_layer2_origin) :
    ∀ (l : List oonf_layer2_neighbor_address) (s : Bool × oonf_layer2_neigh),
      l.foldl
        (fun (s : Bool × oonf_layer2_neigh) l2ip =>
          let r := oonf_layer2_neigh_remove_ip s.2 l2ip origin
          if r.1 = 0 then (true, r.2) else (s.1, r.2)) s
      = (s.1 || l.any (fun a => origin_ptr_eq a.origin origin),
          { s.2 with
            remote_neighbor_ips := l.foldl
              (fun t x => if origin_ptr_eq x.origin origin then
                avl_remove neighbor_address_key t x else t) s.2.remote_neighbor_ips }) := by
  intro l
  induction l with
  | nil => intro s; simp
  | cons x xs ih =>
    intro s
    simp only [List.foldl_cons, List.any_cons]
    by_cases hp : origin_ptr_eq x.origin origin = true
    · rw [ih]
      simp [oonf_layer2_neigh_remove_ip, hp]
    · have hp2 : origin_ptr_eq x.origin origin = false := by simpa using hp
      rw [ih]
      simp [oonf_layer2_neigh_remove_ip, hp2]

theorem neigh_remove_origin_eq (l2neigh : oonf_layer2_neigh)
    (origin : Option oonf_layer2_origin)
    (hd : (l2neigh.destinations.map destination_key).Nodup)
    (hi : (l2neigh.remote_neighbor_ips.map neighbor_address_key).Nodup) :
    neigh_remove_origin l2neigh origin
      = (neigh_has_origin l2neigh origin, neigh_without_origin l2neigh origin) := by
  have h1 := erase_loop destination_key (fun d => origin_ptr_eq d.origin origin)
    l2neigh.destinations [] (by simp) (by simpa using hd)
  have h2 := erase_loop neighbor_address_key (fun a => origin_ptr_eq a.origin origin)
    l2neigh.remote_neighbor_ips [] (by simp) (by simpa using hi)
  simp only [List.nil_append] at h1 h2
  simp only [neigh_remove_origin, destination_loop, address_loop, h1, h2,
    oonf_layer2_neigh_cleanup, neigh_has_origin, neigh_without_origin, cleanup_fields,
    Bool.false_or]

theorem neigh_commit_eq (l2net : oonf_layer2_net) (l2neigh : oonf_layer2_neigh) :
    oonf_layer2_neigh_commit l2net l2neigh
      = if neigh_is_empty l2neigh then (true, _neigh_remove l2net l2neigh)
        else (false, l2net) := by
  unfold oonf_layer2_neigh_commit neigh_is_empty
  cases hd : l2neigh.destinations with
  | cons a as => simp
  | nil =>
    cases hi : l2neigh.remote_neighbor_ips with
    | cons a as => simp
    | nil =>
      cases hv : l2neigh.data.any oonf_layer2_has_value <;> simp

theorem avl_remove_store {α κ : Type} [DecidableEq κ] (key : α → κ) (k : κ) (value node : α)
    (hv : key value = k) (hn : key node = k) :
    ∀ tree : List α, avl_remove key (avl_store key k value tree) node
      = avl_remove key tree node := by
  intro tree
  induction tree with
  | nil => rfl
  | cons x xs ih =>
    simp only [avl_store]
    by_cases hx : key x = k
    · simp [avl_remove, List.eraseP_cons, hx, hv, hn]
    · have hx2 : (key x == k) = false := by simpa using hx
      simp only [hx2, Bool.false_eq_true, if_false]
      simp only [avl_remove, List.eraseP_cons, hn, hx2, cond_false] at ih ⊢
      rw [ih]

theorem neigh_without_origin_self (l2neigh : oonf_layer2_neigh)
    (origin : Option oonf_layer2_origin) (h : neigh_has_origin l2neigh origin = false) :
    neigh_without_origin l2neigh origin = l2neigh := by
  simp only [neigh_has_origin, Bool.or_eq_false_iff, List.any_eq_false] at h
  obtain ⟨⟨h1, h2⟩, h3⟩ := h
  have e1 : l2neigh.destinations.filter (fun d => !origin_ptr_eq d.origin origin)
      = l2neigh.destinations := by
    apply List.filter_eq_self.mpr
    intro a ha
    simpa using h1 a ha
  have e2 : l2neigh.remote_neighbor_ips.filter (fun a => !origin_ptr_eq a.origin origin)
      = l2neigh.remote_neighbor_ips := by
    apply List.filter_eq_self.mpr
    intro a ha
    simpa using h2 a ha
  have e3 : (cleanup_fields origin l2neigh.data).2 = l2neigh.data := by
    simp only [cleanup_fields]
    conv_rhs => rw [← List.map_id l2neigh.data]
    apply List.map_congr_left
    intro d hd
    have := h3 d hd
    simp only [Bool.not_eq_true] at this
    simp [this]
  simp only [neigh_without_origin, e1, e2, e3]

theorem neigh_remove_eq (l2net : oonf_layer2_net) (l2neigh : oonf_layer2_neigh)
    (origin : Option oonf_layer2_origin)
    (hmem : oonf_layer2_neigh_get l2net l2neigh.addr = some l2neigh)
    (hd : (l2neigh.destinations.map destination_key).Nodup)
    (hi : (l2neigh.remote_neighbor_ips.map neighbor_address_key).Nodup) :
    oonf_layer2_neigh_remove l2net l2neigh origin
      = if neigh_has_origin l2neigh origin then
          (true,
            if neigh_is_empty (neigh_without_origin l2neigh origin) then
              _neigh_remove l2net l2neigh
            else
              { l2net with
                neighbors := avl_store neigh_key l2neigh.addr
                  (neigh_without_origin l2neigh origin) l2net.neighbors })
        else (false, l2net) := by
  have hfind : avl_find_element neigh_key l2net.neighbors l2neigh.addr = some l2neigh := hmem
  unfold oonf_layer2_neigh_remove
  simp only [hfind, Option.isNone_some, Bool.false_eq_true, if_false,
    neigh_remove_origin_eq l2neigh origin hd hi]
  cases hh : neigh_has_origin l2neigh origin with
  | false =>
    simp only [Bool.false_eq_true, if_false]
    rw [neigh_without_origin_self l2neigh origin hh, avl_store_self neigh_key _ _ _ hfind]
  | true =>
    simp only [if_true, neigh_commit_eq]
    cases he : neigh_is_empty (neigh_without_origin l2neigh origin) with
    | false => simp
    | true =>
      simp only [if_true, _neigh_remove]
      have := avl_remove_store neigh_key l2neigh.addr (neigh_without_origin l2neigh origin)
        l2neigh rfl rfl l2net.neighbors
      have e : avl_remove neigh_key
          (avl_store neigh_key l2neigh.addr (neigh_without_origin l2neigh origin)
            l2net.neighbors) (neigh_without_origin l2neigh origin)
          = avl_remove neigh_key
              (avl_store neigh_key l2neigh.addr (neigh_without_origin l2neigh origin)
                l2net.neighbors) l2neigh := rfl
      rw [e, this]

/-- C37 (neighbor auto-removal, first part as stated, second part with the guard of the
code). `oonf_layer2_neigh_commit` returns true and removes the neighbor from its network
exactly when the neighbor has no destination, no address and no field with a value;
otherwise it returns false and the network, with the neighbor in it, is unchanged.
`oonf_layer2_neigh_remove` for a neighbor of the network returns whether the origin
owned a destination, an address or a field of the neighbor. The neighbor is gone from
the network afterwards exactly when the origin owned something and, once that is
removed, no destination, no address and no field with a value remains; otherwise the
network holds the neighbor without the items of the origin. Other neighbors are never
changed. -/
theorem neighbor_auto_removal (l2net : oonf_layer2_net) (l2neigh : oonf_layer2_neigh)
    (origin : Option oonf_layer2_origin)
    (hmem : oonf_layer2_neigh_get l2net l2neigh.addr = some l2neigh)
    (hn : (l2net.neighbors.map neigh_key).Nodup)
    (hd : (l2neigh.destinations.map destination_key).Nodup)
    (hi : (l2neigh.remote_neighbor_ips.map neighbor_address_key).Nodup) :
    (neigh_is_empty l2neigh = true →
        oonf_layer2_neigh_commit l2net l2neigh = (true, _neigh_remove l2net l2neigh)
        ∧ oonf_layer2_neigh_get (_neigh_remove l2net l2neigh) l2neigh.addr = none
        ∧ (_neigh_remove l2net l2neigh).neighbors.length + 1 = l2net.neighbors.length)
    ∧ (neigh_is_empty l2neigh = false →
        oonf_layer2_neigh_commit l2net l2neigh = (false, l2net))
    ∧ (neigh_is_empty l2neigh = true ↔
        l2neigh.destinations = [] ∧ l2neigh.remote_neighbor_ips = []
          ∧ ∀ d ∈ l2neigh.data, oonf_layer2_has_value d = false)
    ∧ (oonf_layer2_neigh_remove l2net l2neigh origin).1 = neigh_has_origin l2neigh origin
    ∧ (oonf_layer2_neigh_get (oonf_layer2_neigh_remove l2net l2neigh origin).2 l2neigh.addr
          = none
        ↔ neigh_has_origin l2neigh origin = true
          ∧ neigh_is_empty (neigh_without_origin l2neigh origin) = true)
    ∧ (oonf_layer2_neigh_get (oonf_layer2_neigh_remove l2net l2neigh origin).2 l2neigh.addr
          ≠ none →
        oonf_layer2_neigh_get (oonf_layer2_neigh_remove l2net l2neigh origin).2 l2neigh.addr
          = some (neigh_without_origin l2neigh origin))
    ∧ (∀ other, other ≠ l2neigh.addr →
        oonf_layer2_neigh_get (oonf_layer2_neigh_remove l2net l2neigh origin).2 other
          = oonf_layer2_neigh_get l2net other) := by
  have hfind : avl_find_element neigh_key l2net.neighbors l2neigh.addr = some l2neigh := hmem
  have hin : l2neigh ∈ l2net.neighbors := (avl_find_element_mem neigh_key _ _ _ hfind).1
  have hgone : oonf_layer2_neigh_get (_neigh_remove l2net l2neigh) l2neigh.addr = none :=
    avl_find_removed neigh_key l2net.neighbors l2neigh hn
  have hstore : ∀ v : oonf_layer2_neigh, v.addr = l2neigh.addr →
      avl_find_element neigh_key (avl_store neigh_key l2neigh.addr v l2net.neighbors)
        l2neigh.addr = some v := by
    intro v hv
    rw [avl_store_find neigh_key l2neigh.addr v hv, if_pos rfl, hfind]
    rfl
  refine ⟨?_, ?_, ?_, ?_, ?_, ?_, ?_⟩
  · intro he
    rw [neigh_commit_eq, if_pos he]
    exact ⟨rfl, hgone, avl_remove_length neigh_key l2net.neighbors l2neigh hin⟩
  · intro he
    rw [neigh_commit_eq]
    simp [he]
  · simp only [neigh_is_empty, Bool.and_eq_true, List.isEmpty_iff, Bool.not_eq_true',
      List.any_eq_false, Bool.not_eq_true, and_assoc]
  · rw [neigh_remove_eq l2net l2neigh origin hmem hd hi]
    cases neigh_has_origin l2neigh origin <;> simp
  · rw [neigh_remove_eq l2net l2neigh origin hmem hd hi]
    cases hh : neigh_has_origin l2neigh origin with
    | false =>
      simp only [Bool.false_eq_true, if_false, false_and, iff_false]
      rw [hmem]
      simp
    | true =>
      cases he : neigh_is_empty (neigh_without_origin l2neigh origin) with
      | false =>
        simp only [if_true, Bool.false_eq_true, if_false, and_false, iff_false]
        have hs := hstore (neigh_without_origin l2neigh origin) rfl
        unfold oonf_layer2_neigh_get
        simp only [hs]
        simp
      | true =>
        simp only [if_true, and_self, iff_true]
        exact hgone
  · rw [neigh_remove_eq l2net l2neigh origin hmem hd hi]
    cases hh : neigh_has_origin l2neigh origin with
    | false =>
      simp only [Bool.false_eq_true, if_false]
      intro _
      rw [hmem, neigh_without_origin_self l2neigh origin hh]
    | true =>
      cases he : neigh_is_empty (neigh_without_origin l2neigh origin) with
      | false =>
        simp only [if_true, Bool.false_eq_true, if_false]
        intro _
        exact hstore _ rfl
      | true =>
        simp only [if_true]
        intro hc
        exact absurd hgone hc
  · intro other ho
    rw [neigh_remove_eq l2net l2neigh origin hmem hd hi]
    cases hh : neigh_has_origin l2neigh origin with
    | false => simp
    | true =>
      cases he : neigh_is_empty (neigh_without_origin l2neigh origin) with
      | false =>
        simp only [if_true, Bool.false_eq_true, if_false]
        unfold oonf_layer2_neigh_get
        rw [avl_store_find neigh_key l2neigh.addr (neigh_without_origin l2neigh origin) rfl,
          if_neg ho]
      | true =>
        simp only [if_true]
        exact avl_find_removed_other neigh_key l2net.neighbors l2neigh other ho

/-- Instance of C37 in the sample network: origin A owns everything of the second
neighbor, which is gone after `oonf_layer2_neigh_remove`; of the first neighbor A owns a
destination and an address while B owns a field and an address, so the neighbor stays
with B's items. -/
theorem neighbor_auto_removal_witness :
    (oonf_layer2_neigh_remove shared_net neigh_of_a (some origin_a)).1 = true
    ∧ oonf_layer2_neigh_get (oonf_layer2_neigh_remove shared_net neigh_of_a
        (some origin_a)).2 mac_two = none
    ∧ (oonf_layer2_neigh_remove shared_net shared_neigh (some origin_a)).1 = true
    ∧ oonf_layer2_neigh_get (oonf_layer2_neigh_remove shared_net shared_neigh
        (some origin_a)).2 mac_one
      = some (neigh_without_origin shared_neigh (some origin_a))
    ∧ (neigh_without_origin shared_neigh (some origin_a)).remote_neighbor_ips
      = [{ ip := ipv4 10 0 0 2 32, origin := some origin_b }] := by
  have h1 := neighbor_auto_removal shared_net neigh_of_a (some origin_a) (by decide)
    (by decide) (by decide) (by decide)
  have h2 := neighbor_auto_removal shared_net shared_neigh (some origin_a) (by decide)
    (by decide) (by decide) (by decide)
  refine ⟨?_, ?_, ?_, ?_, by decide⟩
  · rw [h1.2.2.2.1]; decide
  · exact h1.2.2.2.2.1.mpr (by decide)
  · rw [h2.2.2.2.1]; decide
  · apply h2.2.2.2.2.2.1
    intro hc
    have := h2.2.2.2.2.1.mp hc
    revert this
    decide

/-- Counterexample to the second sentence of C37 as written: a neighbor as
`oonf_layer2_neigh_add` creates it has no destination, no address and no field with a
value, so after removing the items of origin A (there are none) nothing of any other
origin remains; `oonf_layer2_neigh_remove` returns false and the neighbor is still in
its network, while `oonf_layer2_neigh_commit` on the same neighbor removes it. -/
theorem neigh_remove_keeps_empty_neighbor :
    (oonf_layer2_neigh_add { net_with_fresh_neigh with neighbors := [] } mac_one true)
      = (some fresh_neigh, net_with_fresh_neigh)
    ∧ neigh_is_empty (neigh_without_origin fresh_neigh (some origin_a)) = true
    ∧ oonf_layer2_neigh_remove net_with_fresh_neigh fresh_neigh (some origin_a)
      = (false, net_with_fresh_neigh)
    ∧ oonf_layer2_neigh_get
        (oonf_layer2_neigh_remove net_with_fresh_neigh fresh_neigh (some origin_a)).2 mac_one
      = some fresh_neigh
    ∧ (oonf_layer2_neigh_commit net_with_fresh_neigh fresh_neigh).1 = true
    ∧ oonf_layer2_neigh_get
        (oonf_layer2_neigh_commit net_with_fresh_neigh fresh_neigh).2 mac_one = none := by
  decide

/-! ## Verification pipeline: fresh state -/

theorem init_verification_clear (m : Int) (sig : rfc5444_signature) :
    init_verification m (clear_verification_flags sig) = init_verification m sig := rfl

theorem cb_signature_tlv_clear (reg : List rfc5444_signature) (addr : List Nat)
    (tlvs : List rfc5444_reader_tlvblock_entry) (ctx : rfc5444_reader_tlvblock_context) :
    _cb_signature_tlv (reg.map clear_verification_flags) addr tlvs ctx
      = _cb_signature_tlv reg addr tlvs ctx := by
  have h1 : (reg.map clear_verification_flags).map (init_verification (context_msg_type ctx))
      = reg.map (init_verification (context_msg_type ctx)) := by
    rw [List.map_map]
    apply List.map_congr_left
    intro s _
    rfl
  have h2 : (reg.map clear_verification_flags).any
        (fun sig => sig.is_matching_signature (context_msg_type ctx))
      = reg.any (fun sig => sig.is_matching_signature (context_msg_type ctx)) := by
    rw [List.any_map]
    rfl
  simp only [_cb_signature_tlv, h1, h2]

theorem cb_signature_tlv_unsigned (reg : List rfc5444_signature) (addr : List Nat)
    (ctx : rfc5444_reader_tlvblock_context) (s : rfc5444_signature) (hs : s ∈ reg)
    (hd : s.drop_if_invalid = true)
    (hm : s.is_matching_signature (context_msg_type ctx) = true) :
    _cb_signature_tlv reg addr [] ctx
      = some (context_drop_value ctx, reg.map (init_verification (context_msg_type ctx))) := by
  have h1 := any_matching_of_mem hs hm
  have h2 : (reg.map (init_verification (context_msg_type ctx))).any
      (fun sig => !sig.verified && sig._must_be_verified) = true := by
    apply List.any_eq_true.mpr
    exact ⟨init_verification (context_msg_type ctx) s, List.mem_map_of_mem _ hs,
      by simp [init_verification, hd, hm]⟩
  simp only [_cb_signature_tlv, h1, tlv_loop, h2]
  simp

/-- C33 (each verification pass starts from fresh state). Two registries that differ at
most in the flags `verified` and `_must_be_verified` of their policies give the same
result of `_cb_signature_tlv` for the same source address, signature TLVs and context:
the same return value and the same registry afterwards, so the same final flags of
every policy (and both runs fail to return together). A registry with a policy that has
`drop_if_invalid` and applies to the message type drops a context without signature
TLV, with `verified = false` for every policy afterwards, whatever the flags were
before. -/
theorem verification_starts_fresh (reg1 reg2 : List rfc5444_signature) (addr : List Nat)
    (tlvs : List rfc5444_reader_tlvblock_entry) (ctx : rfc5444_reader_tlvblock_context)
    (h : reg1.map clear_verification_flags = reg2.map clear_verification_flags) :
    _cb_signature_tlv reg1 addr tlvs ctx = _cb_signature_tlv reg2 addr tlvs ctx
    ∧ ((∃ s ∈ reg1, s.drop_if_invalid = true
          ∧ s.is_matching_signature (context_msg_type ctx) = true) →
        ∃ reg, _cb_signature_tlv reg1 addr [] ctx = some (context_drop_value ctx, reg)
          ∧ _cb_signature_tlv reg2 addr [] ctx = some (context_drop_value ctx, reg)
          ∧ ∀ s ∈ reg, s.verified = false) := by
  have heq : ∀ t, _cb_signature_tlv reg1 addr t ctx = _cb_signature_tlv reg2 addr t ctx := by
    intro t
    rw [← cb_signature_tlv_clear reg1, ← cb_signature_tlv_clear reg2, h]
  refine ⟨heq tlvs, ?_⟩
  rintro ⟨s, hs, hd, hm⟩
  refine ⟨_, cb_signature_tlv_unsigned reg1 addr ctx s hs hd hm, ?_, ?_⟩
  · rw [← heq []]
    exact cb_signature_tlv_unsigned reg1 addr ctx s hs hd hm
  · intro x hx
    obtain ⟨y, _, hy⟩ := List.mem_map.mp hx
    rw [← hy]
    rfl

/-- Instance of C33: the mandatory identity policy with `verified = true` left by an
earlier message gives the same result as the fresh one, and the unsigned sample message
is dropped. -/
theorem verification_starts_fresh_witness :
    _cb_signature_tlv stale_registry [] [] (plain_message_context unsigned_message)
      = _cb_signature_tlv mandatory_registry [] [] (plain_message_context unsigned_message)
    ∧ (_cb_signature_tlv stale_registry [] []
        (plain_message_context unsigned_message)).map (fun r => r.1)
      = some rfc5444_result.RFC5444_DROP_MESSAGE
    ∧ stale_registry.map (fun sig => sig.verified) = [true] := by
  have h := verification_starts_fresh stale_registry mandatory_registry []
    [] (plain_message_context unsigned_message) rfl
  refine ⟨h.1, ?_, rfl⟩
  obtain ⟨reg, h1, _, _⟩ := h.2 ⟨_, List.mem_cons_self _ _, rfl, rfl⟩
  rw [h1]
  rfl

/-! ## Strip operation: memory accesses -/

theorem tlv_size_spec_ge (src : List Nat) (p : Nat) : 2 ≤ tlv_size_spec src p := by
  unfold tlv_size_spec
  simp only []
  omega

theorem tlv_length_reads_range (src : List Nat) (p : Nat) :
    ∀ r ∈ tlv_length_reads src p, p ≤ r.1 ∧ r.1 + r.2 ≤ p + tlv_size_spec src p := by
  unfold tlv_length_reads tlv_size_spec
  by_cases h1 : src.getD (p + 1) 0 &&& RFC5444_TLV_FLAG_TYPEEXT = 0 <;>
    by_cases h2 : src.getD (p + 1) 0 &&& RFC5444_TLV_FLAG_VALUE = 0 <;>
    by_cases h3 : src.getD (p + 1) 0 &&& RFC5444_TLV_FLAG_EXTVALUE = 0 <;>
    simp only [h1, h2, h3, ne_eq, not_true_eq_false, not_false_eq_true, if_true, if_false,
      List.append_nil, List.cons_append, List.nil_append, List.forall_mem_cons,
      List.not_mem_nil, false_implies, implies_true, and_true] <;>
    omega

theorem tlvs_fill_block_mono (src : List Nat) :
    ∀ (fuel fuel1 p len : Nat), fuel ≤ fuel1 → tlvs_fill_block src fuel p len = true →
      tlvs_fill_block src fuel1 p len = true := by
  intro fuel
  induction fuel with
  | zero =>
    intro fuel1 p len _ h
    simp only [tlvs_fill_block, decide_eq_true_eq] at h
    subst h
    cases fuel1 <;> simp [tlvs_fill_block]
  | succ n ih =>
    intro fuel1 p len hle h
    obtain ⟨m, rfl⟩ : ∃ m, fuel1 = m + 1 := ⟨fuel1 - 1, by omega⟩
    simp only [tlvs_fill_block, Bool.or_eq_true, decide_eq_true_eq, Bool.and_eq_true] at h ⊢
    rcases h with h | ⟨h1, h2⟩
    · exact Or.inl h
    · exact Or.inr ⟨h1, ih m _ _ (by omega) h2⟩

theorem strip_loop_trace_block (src : List Nat) :
    ∀ (fuel p q len blocklen : Nat) (t : strip_trace),
      tlvs_fill_block src fuel p len = true → len ≤ blocklen → blocklen < 65536 →
      p + len ≤ src.length →
      ∃ q1 t1,
        strip_loop_trace src fuel p q len blocklen t
          = some (p + len, q1, blocklen - (len - (q1 - q)), t1)
        ∧ q ≤ q1 ∧ q1 - q ≤ len
        ∧ t1.wrapped = t.wrapped
        ∧ (∀ r ∈ t1.reads, r ∈ t.reads ∨ r.1 + r.2 ≤ p + len)
        ∧ (∀ r ∈ t1.writes, r ∈ t.writes ∨ (q ≤ r.1 ∧ 0 < r.2 ∧ r.1 + r.2 ≤ q1))
        ∧ ∀ copied, ∃ copied1,
            strip_loop src fuel p len blocklen copied
              = some (p + len, blocklen - (len - (q1 - q)), copied1)
            ∧ copied1.length = copied.length + (q1 - q) := by
  intro fuel
  induction fuel with
  | zero =>
    intro p q len blocklen t h _ _ _
    simp only [tlvs_fill_block, decide_eq_true_eq] at h
    subst h
    exact ⟨q, t, by simp [strip_loop_trace], le_refl _, by simp, rfl,
      fun r hr => Or.inl hr, fun r hr => Or.inl hr,
      fun copied => ⟨copied, by simp [strip_loop], by simp⟩⟩
  | succ n ih =>
    intro p q len blocklen t h hlb hb hps
    by_cases hl : len = 0
    · subst hl
      exact ⟨q, t, by simp [strip_loop_trace], le_refl _, by simp, rfl,
        fun r hr => Or.inl hr, fun r hr => Or.inl hr,
        fun copied => ⟨copied, by simp [strip_loop], by simp⟩⟩
    · simp only [tlvs_fill_block, hl, decide_False, Bool.false_or, Bool.and_eq_true,
        decide_eq_true_eq] at h
      obtain ⟨hsz, hrest⟩ := h
      have hge := tlv_size_spec_ge src p
      have hlen : tlv_length src p = tlv_size_spec src p :=
        tlv_length_spec src p (by omega)
      have hl1 : (len + 65536 - tlv_size_spec src p) % 65536 = len - tlv_size_spec src p := by
        omega
      have hb1 : (blocklen + 65536 - tlv_size_spec src p) % 65536
          = blocklen - tlv_size_spec src p := by
        omega
      have hw1 : decide (65536 ≤ tlv_size_spec src p) = false := by
        simp only [decide_eq_false_iff_not]; omega
      have hw2 : decide (len < tlv_size_spec src p) = false := by
        simp only [decide_eq_false_iff_not]; omega
      have hw3 : decide (blocklen < tlv_size_spec src p) = false := by
        simp only [decide_eq_false_iff_not]; omega
      by_cases hty : src.getD p 0 = RFC7182_MSGTLV_ICV
      · -- signature TLV: not copied
        obtain ⟨q1, t1, e1, e2, e3, e4, e5, e6, e7⟩ :=
          ih (p + tlv_size_spec src p) q (len - tlv_size_spec src p)
            (blocklen - tlv_size_spec src p)
            { reads := t.reads ++ tlv_length_reads src p ++ [(p, 1)], writes := t.writes,
              wrapped := t.wrapped } hrest (by omega) (by omega) (by omega)
        refine ⟨q1, t1, ?_, e2, by omega, e4, ?_, e6, ?_⟩
        · simp only [strip_loop_trace, hl, if_false, hlen, hl1, hb1, hw1, hw2, hw3, hty,
            ne_eq, not_true_eq_false, Bool.or_false]
          rw [e1]
          refine congrArg some (Prod.ext ?_ (Prod.ext rfl (Prod.ext ?_ rfl))) <;>
            simp only [] <;> omega
        · intro r hr
          rcases e5 r hr with h1 | h1
          · simp only [List.mem_append, List.mem_singleton] at h1
            rcases h1 with (h1 | h1) | h1
            · exact Or.inl h1
            · have := tlv_length_reads_range src p r h1
              right; omega
            · subst h1
              right; simp only []; omega
          · right; omega
        · intro copied
          obtain ⟨c1, f1, f2⟩ := e7 copied
          refine ⟨c1, ?_, f2⟩
          simp only [strip_loop, hl, if_false, hlen, hl1, hb1, hty, ne_eq,
            not_true_eq_false]
          rw [f1]
          refine congrArg some (Prod.ext ?_ (Prod.ext ?_ rfl)) <;>
            simp only [] <;> omega
      · -- other TLV: copied
        obtain ⟨q1, t1, e1, e2, e3, e4, e5, e6, e7⟩ :=
          ih (p + tlv_size_spec src p) (q + tlv_size_spec src p)
            (len - tlv_size_spec src p) blocklen
            { reads := t.reads ++ tlv_length_reads src p ++ [(p, 1)]
                ++ [(p, tlv_size_spec src p)],
              writes := t.writes ++ [(q, tlv_size_spec src p)],
              wrapped := t.wrapped } hrest (by omega) hb (by omega)
        refine ⟨q1, t1, ?_, by omega, by omega, e4, ?_, ?_, ?_⟩
        · simp only [strip_loop_trace, hl, if_false, hlen, hl1, hw1, hw2, hty,
            ne_eq, not_false_eq_true, if_true, Bool.or_false]
          rw [e1]
          refine congrArg some (Prod.ext ?_ (Prod.ext rfl (Prod.ext ?_ rfl))) <;>
            simp only [] <;> omega
        · intro r hr
          rcases e5 r hr with h1 | h1
          · simp only [List.mem_append, List.mem_singleton] at h1
            rcases h1 with ((h1 | h1) | h1) | h1
            · exact Or.inl h1
            · have := tlv_length_reads_range src p r h1
              right; omega
            · subst h1
              right; simp only []; omega
            · subst h1
              right; simp only []; omega
          · right; omega
        · intro r hr
          rcases e6 r hr with h1 | h1
          · simp only [List.mem_append, List.mem_singleton] at h1
            rcases h1 with h1 | h1
            · exact Or.inl h1
            · subst h1
              right; simp only []; omega
          · right; omega
        · intro copied
          obtain ⟨c1, f1, f2⟩ := e7 (copied ++ (src.drop p).take (tlv_size_spec src p))
          refine ⟨c1, ?_, ?_⟩
          · simp only [strip_loop, hl, if_false, hlen, hl1, hty, ne_eq,
              not_false_eq_true, if_true]
            rw [f1]
            refine congrArg some (Prod.ext ?_ (Prod.ext ?_ rfl)) <;>
              simp only [] <;> omega
          · rw [f2]
            simp only [List.length_append, List.length_take, List.length_drop]
            omega
theorem context_header_facts (ctx : rfc5444_reader_tlvblock_context) :
    1 ≤ (context_header ctx).1
    ∧ (context_header ctx).2.1 < (context_header ctx).1
    ∧ (context_header ctx).2.2 < (context_header ctx).1
    ∧ (ctx.type = rfc5444_context_type.RFC5444_CONTEXT_MESSAGE → 4 ≤ (context_header ctx).1) := by
  unfold context_header
  cases ctx.type with
  | RFC5444_CONTEXT_PACKET =>
    simp only [reduceCtorEq, false_implies, and_true]
    split <;> omega
  | RFC5444_CONTEXT_MESSAGE =>
    simp only [forall_const]
    split_ifs <;> omega

theorem range_below_of_le {size : Nat} {r : Nat × Nat} (h : r.1 + r.2 ≤ size) :
    range_below size r := by
  intro i _ h2
  omega

theorem strip_core (ctx : rfc5444_reader_tlvblock_context)
    (hwf : block_well_formed ctx = true) (hbl : declared_block_length ctx < 65536)
    (t0 : strip_trace) :
    ∃ q t1 copied,
      (context_header ctx).1 + 2 ≤ q
      ∧ q ≤ (context_header ctx).1 + 2 + declared_block_length ctx
      ∧ copied.length = q - ((context_header ctx).1 + 2)
      ∧ strip_loop_trace (context_buffer ctx) ((context_buffer ctx).length + 1)
            ((context_header ctx).1 + 2) ((context_header ctx).1 + 2)
            (declared_block_length ctx) (declared_block_length ctx) t0
          = some ((context_header ctx).1 + 2 + declared_block_length ctx, q,
              q - ((context_header ctx).1 + 2), t1)
      ∧ strip_loop (context_buffer ctx) ((context_buffer ctx).length + 1)
            ((context_header ctx).1 + 2) (declared_block_length ctx)
            (declared_block_length ctx) []
          = some ((context_header ctx).1 + 2 + declared_block_length ctx,
              q - ((context_header ctx).1 + 2), copied)
      ∧ t1.wrapped = t0.wrapped
      ∧ (∀ r ∈ t1.reads, r ∈ t0.reads
          ∨ r.1 + r.2 ≤ (context_header ctx).1 + 2 + declared_block_length ctx)
      ∧ (∀ r ∈ t1.writes, r ∈ t0.writes
          ∨ ((context_header ctx).1 + 2 ≤ r.1 ∧ 0 < r.2 ∧ r.1 + r.2 ≤ q)) := by
  simp only [block_well_formed, Bool.and_eq_true, decide_eq_true_eq] at hwf
  obtain ⟨hfit, hblock⟩ := hwf
  have hmono := tlvs_fill_block_mono (context_buffer ctx) _ ((context_buffer ctx).length + 1)
    _ _ (by omega) hblock
  obtain ⟨q, t1, e1, e2, e3, e4, e5, e6, e7⟩ :=
    strip_loop_trace_block (context_buffer ctx) ((context_buffer ctx).length + 1)
      ((context_header ctx).1 + 2) ((context_header ctx).1 + 2) (declared_block_length ctx)
      (declared_block_length ctx) t0 hmono (le_refl _) hbl hfit
  obtain ⟨copied, f1, f2⟩ := e7 []
  have hb : declared_block_length ctx
      - (declared_block_length ctx - (q - ((context_header ctx).1 + 2)))
      = q - ((context_header ctx).1 + 2) := by omega
  rw [hb] at e1 f1
  exact ⟨q, t1, copied, e2, by omega, by simpa using f2, e1, f1, e4, e5, e6⟩

theorem strip_in_bounds (ctx : rfc5444_reader_tlvblock_context)
    (hwf : block_well_formed ctx = true)
    (hsize : (context_buffer ctx).length < 65536) :
    ∃ u t, _remove_signature_data ctx = some u
      ∧ _remove_signature_data_trace ctx = some (u.len, t)
      ∧ (∀ r ∈ t.reads, range_below (context_buffer ctx).length r)
      ∧ (∀ r ∈ t.writes, range_below u.len r)
      ∧ u.len ≤ (context_buffer ctx).length
      ∧ u.dst.length = u.len
      ∧ t.wrapped = false := by
  have hwf0 := hwf
  simp only [block_well_formed, Bool.and_eq_true, decide_eq_true_eq] at hwf0
  obtain ⟨hfit, _⟩ := hwf0
  have hbl : declared_block_length ctx < 65536 := by omega
  obtain ⟨hh1, hh2, hh3, hh4⟩ := context_header_facts ctx
  obtain ⟨q, t1, copied, hq1, hq2, hcl, hloop, hloop2, hw, hr, hwr⟩ :=
    strip_core ctx hwf hbl
      { reads := [(0, (context_header ctx).1), ((context_header ctx).1, 1),
            ((context_header ctx).1 + 1, 1)],
        writes := [(0, (context_header ctx).1)]
          ++ (if (context_header ctx).2.1 ≠ 0 then [((context_header ctx).2.1, 1)] else [])
          ++ (if (context_header ctx).2.2 ≠ 0 then [((context_header ctx).2.2, 1)] else []),
        wrapped := decide (65536 ≤ (context_header ctx).1)
          || decide (65536 ≤ 256 * (context_buffer ctx).getD (context_header ctx).1 0
              + (context_buffer ctx).getD ((context_header ctx).1 + 1) 0) }
  have hmod : (256 * (context_buffer ctx).getD (context_header ctx).1 0
      + (context_buffer ctx).getD ((context_header ctx).1 + 1) 0) % 65536
      = declared_block_length ctx := Nat.mod_eq_of_lt hbl
  have hdecl : 256 * (context_buffer ctx).getD (context_header ctx).1 0
      + (context_buffer ctx).getD ((context_header ctx).1 + 1) 0
      = declared_block_length ctx := rfl
  have hrest : ((((context_buffer ctx).length : Int)
      - (((context_header ctx).1 + 2 + declared_block_length ctx : Nat) : Int)) % 65536).toNat
      = (context_buffer ctx).length - ((context_header ctx).1 + 2 + declared_block_length ctx) := by
    omega
  have hw0 : t1.wrapped = false := by
    rw [hw]
    simp only [hdecl, Bool.or_eq_false_iff, decide_eq_false_iff_not, not_le]
    omega
  have hreads : ∀ r ∈ t1.reads,
      r.1 + r.2 ≤ (context_header ctx).1 + 2 + declared_block_length ctx := by
    intro r h
    rcases hr r h with h1 | h1
    · simp only [List.mem_cons, List.mem_singleton, List.mem_nil_iff, or_false] at h1
      rcases h1 with h1 | h1 | h1 <;> subst h1 <;> simp only [] <;> omega
    · exact h1
  have hwrites : ∀ r ∈ t1.writes,
      r.1 + r.2 ≤ (context_header ctx).1
        ∨ ((context_header ctx).1 + 2 ≤ r.1 ∧ 0 < r.2 ∧ r.1 + r.2 ≤ q) := by
    intro r h
    rcases hwr r h with h1 | h1
    · left
      simp only [List.mem_append, List.mem_singleton] at h1
      rcases h1 with (h1 | h1) | h1
      · subst h1; simp only []; omega
      · split at h1
        · simp only [List.mem_singleton] at h1
          subst h1; simp only []; omega
        · cases h1
      · split at h1
        · simp only [List.mem_singleton] at h1
          subst h1; simp only []; omega
        · cases h1
    · exact Or.inr h1
  have hd2 : ∀ (a b : Nat) (d : List Nat), d.length = (context_header ctx).1 →
      (if b ≠ 0 then (if a ≠ 0 then d.set a 0 else d).set b 0
        else (if a ≠ 0 then d.set a 0 else d)).length = (context_header ctx).1 := by
    intro a b d hd
    split_ifs <;> simp [hd]
  have htake : ((context_buffer ctx).take (context_header ctx).1).length
      = (context_header ctx).1 := by
    rw [List.length_take]; omega
  have hdrop : (((context_buffer ctx).drop
        ((context_header ctx).1 + 2 + declared_block_length ctx)).take
        ((context_buffer ctx).length
          - ((context_header ctx).1 + 2 + declared_block_length ctx))).length
      = (context_buffer ctx).length
          - ((context_header ctx).1 + 2 + declared_block_length ctx) := by
    rw [List.length_take, List.length_drop]; omega
  by_cases hkeep : 0 < q - ((context_header ctx).1 + 2)
      ∨ ctx.type = rfc5444_context_type.RFC5444_CONTEXT_MESSAGE
  · -- the block stays
    refine ⟨_, _,
      (by
        simp only [_remove_signature_data, hmod, hloop2, hkeep, if_true, hrest]
        rfl),
      (by
        simp only [_remove_signature_data_trace, hmod, hloop, hkeep, decide_True, if_true,
          hrest]
        refine congrArg some (Prod.ext ?_ rfl)
        simp only [List.length_append, List.length_cons, List.length_nil, hd2 _ _ _ htake,
          hcl]
        have e1 : (context_header ctx).1 + (0 + 1 + 1) + (q - ((context_header ctx).1 + 2))
            = q := by omega
        rw [e1]),
      ?_, ?_, ?_, ?_, ?_⟩
    · intro r h
      simp only [List.mem_append, List.mem_singleton] at h
      rcases h with h | h
      · exact range_below_of_le (by have := hreads r h; omega)
      · subst h
        exact range_below_of_le (by simp only []; omega)
    · have htot : (q + ((context_buffer ctx).length
          - ((context_header ctx).1 + 2 + declared_block_length ctx))) % 65536
          = q + ((context_buffer ctx).length
              - ((context_header ctx).1 + 2 + declared_block_length ctx)) :=
        Nat.mod_eq_of_lt (by omega)
      have hlen : (context_header ctx).1 + (0 + 1 + 1) + (q - ((context_header ctx).1 + 2))
          = q := by omega
      intro r h
      simp only [List.length_append, List.length_cons, List.length_nil, hd2 _ _ _ htake,
        hcl, hlen, htot]
      apply range_below_of_le
      simp only [List.mem_append, List.mem_cons, List.mem_singleton,
        List.mem_nil_iff, or_false] at h
      rcases h with ((h | h | h) | h) | h
      · rcases hwrites r h with h1 | h1 <;> omega
      · subst h; simp only []; omega
      · subst h; simp only []; omega
      · subst h; simp only []; omega
      · split at h
        · rename_i hm
          have := hh4 hm
          simp only [List.mem_cons, List.mem_singleton, List.mem_nil_iff, or_false] at h
          rcases h with h | h <;> subst h <;> simp only [] <;> omega
        · cases h
    · simp only [List.length_append, List.length_cons, List.length_nil, hd2 _ _ _ htake, hcl]
      have hlen : (context_header ctx).1 + (0 + 1 + 1) + (q - ((context_header ctx).1 + 2))
          = q := by omega
      rw [hlen]
      have := Nat.mod_le (q + ((context_buffer ctx).length
          - ((context_header ctx).1 + 2 + declared_block_length ctx))) 65536
      omega
    · have hlen : (context_header ctx).1 + (0 + 1 + 1) + (q - ((context_header ctx).1 + 2))
          = q := by omega
      have htot : (q + ((context_buffer ctx).length
          - ((context_header ctx).1 + 2 + declared_block_length ctx))) % 65536
          = q + ((context_buffer ctx).length
              - ((context_header ctx).1 + 2 + declared_block_length ctx)) :=
        Nat.mod_eq_of_lt (by omega)
      simp only [List.length_append, List.length_cons, List.length_nil, hd2 _ _ _ htake,
        hcl, hlen, htot]
      split <;>
        simp only [List.length_set, List.length_append, List.length_cons, List.length_nil,
          hd2 _ _ _ htake, hcl, hdrop] <;> omega
    · simp only [hw0, Bool.false_or, Bool.or_eq_false_iff, decide_eq_false_iff_not,
        not_lt, not_le]
      omega
  · -- the empty packet block is removed
    have hq0 : q = (context_header ctx).1 + 2 := by
      have : ¬ 0 < q - ((context_header ctx).1 + 2) := fun h => hkeep (Or.inl h)
      omega
    have hpkt : ¬ ctx.type = rfc5444_context_type.RFC5444_CONTEXT_MESSAGE :=
      fun h => hkeep (Or.inr h)
    have hc0 : copied = [] := List.length_eq_zero.mp (by rw [hcl]; omega)
    refine ⟨_, _,
      (by
        simp only [_remove_signature_data, hmod, hloop2, hkeep, if_false, hrest]
        rfl),
      (by
        simp only [_remove_signature_data_trace, hmod, hloop, hkeep, decide_False,
          Bool.false_eq_true, if_false, hrest]
        refine congrArg some (Prod.ext ?_ rfl)
        simp only [hc0, List.append_nil, List.length_set, List.length_dropLast,
          List.length_append, List.length_cons, List.length_nil, hd2 _ _ _ htake, hq0]
        rfl),
      ?_, ?_, ?_, ?_, ?_⟩
    · intro r h
      simp only [List.mem_append, List.mem_singleton] at h
      rcases h with h | h
      · exact range_below_of_le (by have := hreads r h; omega)
      · subst h
        exact range_below_of_le (by simp only []; omega)
    · have hlen : (context_header ctx).1 + (0 + 1 + 1) - 1 - 1 = (context_header ctx).1 := by
        omega
      have htot : ((context_header ctx).1 + ((context_buffer ctx).length
          - ((context_header ctx).1 + 2 + declared_block_length ctx))) % 65536
          = (context_header ctx).1 + ((context_buffer ctx).length
              - ((context_header ctx).1 + 2 + declared_block_length ctx)) :=
        Nat.mod_eq_of_lt (by omega)
      intro r h
      simp only [hc0, List.append_nil, List.length_set, List.length_dropLast,
        List.length_append, List.length_cons, List.length_nil, hd2 _ _ _ htake, hlen, htot]
      apply range_below_of_le
      simp only [hpkt, if_false, List.append_nil, List.mem_append, List.mem_singleton] at h
      rcases h with (h | h) | h
      · rcases hwrites r h with h1 | h1 <;> omega
      · subst h; simp only []; omega
      · subst h; simp only []; omega
    · simp only [hc0, List.append_nil, List.length_set, List.length_dropLast,
        List.length_append, List.length_cons, List.length_nil, hd2 _ _ _ htake]
      have := Nat.mod_le ((context_header ctx).1 + (0 + 1 + 1) - 1 - 1
        + ((context_buffer ctx).length
          - ((context_header ctx).1 + 2 + declared_block_length ctx))) 65536
      omega
    · have hlen : (context_header ctx).1 + (0 + 1 + 1) - 1 - 1 = (context_header ctx).1 := by
        omega
      have htot : ((context_header ctx).1 + ((context_buffer ctx).length
          - ((context_header ctx).1 + 2 + declared_block_length ctx))) % 65536
          = (context_header ctx).1 + ((context_buffer ctx).length
              - ((context_header ctx).1 + 2 + declared_block_length ctx)) :=
        Nat.mod_eq_of_lt (by omega)
      simp only [hc0, List.append_nil, List.length_set, List.length_dropLast,
        List.length_append, List.length_cons, List.length_nil, hd2 _ _ _ htake, hlen, htot,
        hpkt, if_false, hdrop]
    · simp only [hw0, Bool.false_or, Bool.or_eq_false_iff, decide_eq_false_iff_not,
        not_lt, not_le]
      omega
theorem strip_loop_trace_zero (src : List Nat) (fuel p q blocklen : Nat) (t : strip_trace) :
    strip_loop_trace src fuel p q 0 blocklen t = some (p, q, blocklen, t) := by
  cases fuel <;> simp [strip_loop_trace]

theorem strip_loop_zero (src : List Nat) (fuel p blocklen : Nat) (copied : List Nat) :
    strip_loop src fuel p 0 blocklen copied = some (p, blocklen, copied) := by
  cases fuel <;> simp [strip_loop]

theorem tlvs_fill_block_zero (src : List Nat) (fuel p : Nat) :
    tlvs_fill_block src fuel p 0 = true := by
  cases fuel <;> simp [tlvs_fill_block]

theorem tlvs_fill_block_single (src : List Nat) (fuel p len : Nat)
    (h : tlv_size_spec src p = len) : tlvs_fill_block src (fuel + 1) p len = true := by
  rw [tlvs_fill_block, h, Nat.sub_self, tlvs_fill_block_zero]
  simp

theorem strip_loop_trace_single (src : List Nat) (fuel p q len blocklen : Nat)
    (t : strip_trace) (hl : len ≠ 0) (h1 : tlv_length src p = len)
    (hty : src.getD p 0 ≠ RFC7182_MSGTLV_ICV) :
    strip_loop_trace src (fuel + 1) p q len blocklen t
      = some (p + len, q + len, blocklen,
          { reads := t.reads ++ tlv_length_reads src p ++ [(p, 1)] ++ [(p, len)],
            writes := t.writes ++ [(q, len)],
            wrapped := t.wrapped || decide (65536 ≤ tlv_size_spec src p)
              || decide (len < len) }) := by
  have e : (len + 65536 - len) % 65536 = 0 := by
    rw [Nat.add_sub_cancel_left]
  rw [strip_loop_trace]
  simp only [hl, if_false, h1, hty, ne_eq, not_false_eq_true, if_true, e,
    strip_loop_trace_zero]

theorem strip_loop_single (src : List Nat) (fuel p len blocklen : Nat)
    (copied : List Nat) (hl : len ≠ 0) (h1 : tlv_length src p = len)
    (hty : src.getD p 0 ≠ RFC7182_MSGTLV_ICV) :
    strip_loop src (fuel + 1) p len blocklen copied
      = some (p + len, blocklen, copied ++ (src.drop p).take len) := by
  have e : (len + 65536 - len) % 65536 = 0 := by
    rw [Nat.add_sub_cancel_left]
  rw [strip_loop]
  simp only [hl, if_false, h1, hty, ne_eq, not_false_eq_true, if_true, e, strip_loop_zero]

/-- A packet without sequence number of 65539 bytes whose block of 65535 bytes is one
TLV that is not a signature TLV: the returned size is 3 although 65539 bytes are
written. -/
theorem strip_one_large_tlv (src : List Nat) (hlen : src.length = 65539)
    (g1 : src.getD 1 0 = 255) (g2 : src.getD 2 0 = 255) (g3 : src.getD 3 0 = 1)
    (h1 : tlv_length src 3 = 65535) (h2 : tlv_size_spec src 3 = 65535) :
    block_well_formed (plain_packet_context src) = true
    ∧ (∃ t, _remove_signature_data_trace (plain_packet_context src) = some (3, t)
        ∧ (3, 65535) ∈ t.writes ∧ (65538, 1) ∈ t.writes ∧ t.wrapped = true)
    ∧ ∃ u, _remove_signature_data (plain_packet_context src) = some u
        ∧ u.len = 3 ∧ u.dst.length = 65539 := by
  have hb : context_buffer (plain_packet_context src) = src := rfl
  have hh : context_header (plain_packet_context src) = (1, 0, 0) := rfl
  have hty : ¬ (plain_packet_context src).type
      = rfc5444_context_type.RFC5444_CONTEXT_MESSAGE := by
    simp [plain_packet_context]
  have hd : declared_block_length (plain_packet_context src) = 65535 := by
    simp only [declared_block_length, hb, hh, g1, g2]
  have hne : src.getD 3 0 ≠ RFC7182_MSGTLV_ICV := by rw [g3]; decide
  have hbl : (256 * 255 + 255) % 65536 = 65535 := by norm_num
  have hrest : (((65539 : Nat) : Int) - ((3 + 65535 : Nat) : Int)) % 65536 = 1 := by
    norm_num
  refine ⟨?_, ?_, ?_⟩
  · simp only [block_well_formed, hb, hh, hd, hlen, Bool.and_eq_true, decide_eq_true_eq]
    exact ⟨by omega, tlvs_fill_block_single src 65534 3 65535 h2⟩
  · have hloop := fun t => strip_loop_trace_single src src.length 3 3 65535 65535 t
      (by omega) h1 hne
    refine ⟨_,
      (by
        simp only [_remove_signature_data_trace, hb, hh, g1, g2, hbl]
        rw [show (1 : Nat) + 2 = 3 from rfl, hloop]
        simp only [hlen, hrest, hty]
        exact congrArg some (Prod.ext (by norm_num) rfl)),
      ?_, ?_, ?_⟩
    · simp
    · simp
    · simp
  · have hloop := strip_loop_single src src.length 3 65535 65535 [] (by omega) h1 hne
    refine ⟨_,
      (by
        simp only [_remove_signature_data, hb, hh, g1, g2, hbl]
        rw [show (1 : Nat) + 2 = 3 from rfl, hloop]),
      ?_, ?_⟩
    · simp [hlen]
    · simp [hlen, hty]
/-- C38 (strip stays in bounds on well-formed input, for buffers below 65536 bytes). For
a context whose header length plus 2 plus declared block length does not exceed the
buffer size, whose TLV block is a concatenation of TLVs with sizes that add up to the
declared block length, and whose buffer has fewer than 65536 bytes,
`_remove_signature_data` returns, and in the execution every range read from the source
lies below the source size, every range written to the destination lies below the
returned size, the returned size is at most the source size and equals the number of
bytes of the output, and no value stored in a 16-bit variable (TLV size, remaining
length, block length, rest length, total length) leaves the range. -/
theorem strip_stays_in_bounds (ctx : rfc5444_reader_tlvblock_context)
    (hwf : block_well_formed ctx = true)
    (hsize : (context_buffer ctx).length < 65536) :
    ∃ u t, _remove_signature_data ctx = some u
      ∧ _remove_signature_data_trace ctx = some (u.len, t)
      ∧ (∀ r ∈ t.reads, range_below (context_buffer ctx).length r)
      ∧ (∀ r ∈ t.writes, range_below u.len r)
      ∧ u.len ≤ (context_buffer ctx).length
      ∧ u.dst.length = u.len
      ∧ t.wrapped = false :=
  strip_in_bounds ctx hwf hsize

/-- Instance of C38: the sample message of 25 bytes with three TLVs, one of them a
signature TLV. The output has 17 bytes; the last read is the range of 2 bytes at
offset 23, the last copy writes 2 bytes at offset 15. -/
theorem strip_stays_in_bounds_witness :
    (∃ u t, _remove_signature_data (plain_message_context mixed_message) = some u
      ∧ _remove_signature_data_trace (plain_message_context mixed_message) = some (u.len, t)
      ∧ (∀ r ∈ t.reads,
          range_below (context_buffer (plain_message_context mixed_message)).length r)
      ∧ (∀ r ∈ t.writes, range_below u.len r)
      ∧ u.len ≤ (context_buffer (plain_message_context mixed_message)).length
      ∧ u.dst.length = u.len
      ∧ t.wrapped = false)
    ∧ _remove_signature_data_trace (plain_message_context mixed_message)
      = some (17,
          { reads := [(0, 4), (4, 1), (5, 1), (7, 1), (6, 1), (6, 2), (9, 1), (11, 1),
              (8, 1), (17, 1), (18, 1), (19, 1), (16, 1), (16, 7), (23, 2)],
            writes := [(0, 4), (6, 2), (8, 7), (4, 1), (5, 1), (15, 2), (2, 1), (3, 1)],
            wrapped := false }) :=
  ⟨strip_stays_in_bounds (plain_message_context mixed_message) (by decide) (by decide),
    by decide⟩

/-- Counterexample to C38 as written: a packet context of 65539 bytes satisfies both
conditions (header 1 + 2 + declared block length 65535 is below the buffer size, the
block is one TLV of 65535 bytes), yet the total length 65539 is stored in a 16-bit
variable: the function returns 3 after writing the 65535 bytes of the TLV at offset 3
and one more byte at offset 65538, so the output has 65539 bytes. -/
theorem strip_wraps_on_oversized_packet :
    oversized_packet.length = 65539
    ∧ block_well_formed (plain_packet_context oversized_packet) = true
    ∧ (∃ t, _remove_signature_data_trace (plain_packet_context oversized_packet)
          = some (3, t)
        ∧ (3, 65535) ∈ t.writes ∧ (65538, 1) ∈ t.writes ∧ t.wrapped = true)
    ∧ (∃ u, _remove_signature_data (plain_packet_context oversized_packet) = some u
        ∧ u.len = 3 ∧ u.dst.length = 65539)
    ∧ ¬ range_below 3 (3, 65535) := by
  have hlen : oversized_packet.length = 65539 := by
    unfold oversized_packet
    rw [List.length_cons, List.length_cons, List.length_cons, List.length_cons,
      List.length_cons, List.length_cons, List.length_cons, List.length_append,
      List.length_replicate]
    rfl
  have h := strip_one_large_tlv oversized_packet hlen rfl rfl rfl (by decide) (by decide)
  refine ⟨hlen, h.1, h.2.1, h.2.2, ?_⟩
  intro hr
  have := hr 3 (le_refl _) (by norm_num)
  omega

/-! ## Verification pipeline: policies with unresolved algorithms -/

theorem getD_lt_of_bytes (l : List Nat) (h : ∀ b ∈ l, b < 256) (i : Nat) :
    l.getD i 0 < 256 := by
  by_cases hi : i < l.length
  · rw [List.getD_eq_getElem _ _ hi]
    exact h _ (List.getElem_mem hi)
  · rw [List.getD_eq_default _ _ (by omega)]
    omega

theorem strip_defined (ctx : rfc5444_reader_tlvblock_context)
    (hwf : context_well_formed ctx = true) :
    ∃ u, _remove_signature_data ctx = some u := by
  simp only [context_well_formed, Bool.and_eq_true, List.all_eq_true, decide_eq_true_eq]
    at hwf
  obtain ⟨hb, hblock⟩ := hwf
  have h1 := getD_lt_of_bytes _ hb (context_header ctx).1
  have h2 := getD_lt_of_bytes _ hb ((context_header ctx).1 + 1)
  have hbl : declared_block_length ctx < 65536 := by
    unfold declared_block_length
    omega
  obtain ⟨q, t1, copied, _, _, _, _, hloop, _⟩ := strip_core ctx hblock hbl
    { reads := [], writes := [], wrapped := false }
  have hmod : (256 * (context_buffer ctx).getD (context_header ctx).1 0
      + (context_buffer ctx).getD ((context_header ctx).1 + 1) 0) % 65536
      = declared_block_length ctx := Nat.mod_eq_of_lt hbl
  simp only [_remove_signature_data, hmod, hloop]
  exact ⟨_, rfl⟩

theorem checked_resolved_cons {m : Int} {t : rfc5444_reader_tlvblock_entry}
    {ts : List rfc5444_reader_tlvblock_entry} {reg : List rfc5444_signature}
    (h : checked_resolved m (t :: ts) reg) :
    checked_resolved m [t] reg ∧ checked_resolved m ts reg :=
  ⟨fun tlv ht => h tlv (by simp at ht; simp [ht]),
    fun tlv ht => h tlv (List.mem_cons_of_mem _ ht)⟩

theorem checked_resolved_of_static {m : Int} {tlvs : List rfc5444_reader_tlvblock_entry}
    {reg reg1 : List rfc5444_signature}
    (h : reg1.map policy_static = reg.map policy_static)
    (hres : checked_resolved m tlvs reg) : checked_resolved m tlvs reg1 := by
  intro tlv ht s hs hc
  have h1 : policy_static s ∈ reg.map policy_static := by
    rw [← h]; exact List.mem_map_of_mem _ hs
  obtain ⟨a, ha, hsa⟩ := List.mem_map.mp h1
  obtain ⟨e1, e2, _, _⟩ := static_eq_fields hsa
  rw [← e1, ← e2]
  exact hres tlv ht a ha (by rw [static_eq_checked hsa]; exact hc)

theorem map_static_map (reg : List rfc5444_signature)
    (f : rfc5444_signature → rfc5444_signature)
    (hf : ∀ s, policy_static (f s) = policy_static s) :
    (reg.map f).map policy_static = reg.map policy_static := by
  rw [List.map_map]
  apply List.map_congr_left
  intro s _
  exact hf s

/-- The policy loop for a TLV when every policy that reaches the verify step is
resolved and no key-id verifier answers drop. -/
theorem sig_loop_checked_no_drop (msg_type : Int) (addr : List Nat) (u : unsigned_data)
    (tlv : rfc5444_reader_tlvblock_entry) (hi : tlv_ignored tlv = false) :
    ∀ reg : List rfc5444_signature, checked_resolved msg_type [tlv] reg →
      (∀ sig ∈ reg, tlv_dropped_by msg_type tlv sig = false) →
      sig_loop msg_type addr tlv (tlv_sigkey tlv) (tlv_key_id_len tlv)
          (tlv_static_buffer addr tlv u) reg
        = some (false, reg.map (policy_after_tlv msg_type addr u tlv)) := by
  intro reg
  induction reg with
  | nil => intro _ _; rfl
  | cons sig rest ih =>
    intro hres hnd
    have ih1 := ih (fun t ht s hs => hres t ht s (List.mem_cons_of_mem _ hs))
      (fun s hs => hnd s (List.mem_cons_of_mem _ hs))
    have hr := hres tlv (List.mem_cons_self _ _) sig (List.mem_cons_self _ _)
    have hd := hnd sig (List.mem_cons_self _ _)
    simp only [sig_loop, ih1, List.map_cons]
    simp only [tlv_dropped_by, hi, policy_applies, tlv_key_id] at hd
    simp only [tlv_checked_by, hi, policy_applies, tlv_key_id] at hr
    simp only [policy_after_tlv, tlv_checked_by, hi, policy_applies, tlv_key_id]
    have hv := sigid_cases
      (sig.verify_id (List.take (tlv_key_id_len tlv) (List.drop 3 tlv.single_value)))
    by_cases hk : sig.key = tlv_sigkey tlv
    · by_cases hm : sig.is_matching_signature msg_type = true
      · by_cases hs : decide (tlv.type_ext = RFC7182_ICV_EXT_SRCSPEC_CRYPTHASH)
            = sig.source_specific
        · rcases hv with hv | hv | hv
          · obtain ⟨hc, hh⟩ := hr (by simp [hk, hm, hs, hv])
            obtain ⟨c, hc⟩ := Option.isSome_iff_exists.mp hc
            obtain ⟨h, hh⟩ := Option.isSome_iff_exists.mp hh
            simp [hk, hm, hs, hv, hc, hh, verify_step, tlv_signature]
          · simp [hk, hm, hs, hv]
          · simp [hk, hm, hs, hv] at hd
        · simp [hk, hm, hs]
      · simp [hk, hm]
    · simp [hk]

/-- Whatever the policy loop returns, it has written only `source` and `verified`. -/
theorem sig_loop_static (m : Int) (addr : List Nat) (tlv : rfc5444_reader_tlvblock_entry)
    (key : rfc5444_signature_key) (k : Nat) (st : List Nat) :
    ∀ (reg : List rfc5444_signature) (d : Bool) (reg1 : List rfc5444_signature),
      sig_loop m addr tlv key k st reg = some (d, reg1) →
      reg1.map policy_static = reg.map policy_static := by
  intro reg
  induction reg with
  | nil =>
    intro d reg1 h
    simp only [sig_loop, Option.some.injEq, Prod.mk.injEq] at h
    rw [← h.2]
  | cons sig rest ih =>
    intro d reg1 h
    have hcont : ∀ s : rfc5444_signature, policy_static s = policy_static sig →
        (match sig_loop m addr tlv key k st rest with
          | none => none
          | some (dropped, rest1) => some (dropped, s :: rest1)) = some (d, reg1) →
        reg1.map policy_static = (sig :: rest).map policy_static := by
      intro s hs hm
      cases hr : sig_loop m addr tlv key k st rest with
      | none => rw [hr] at hm; cases hm
      | some p =>
        obtain ⟨d2, r2⟩ := p
        rw [hr] at hm
        simp only [Option.some.injEq, Prod.mk.injEq] at hm
        rw [← hm.2, List.map_cons, List.map_cons, hs, ih d2 r2 hr]
    simp only [sig_loop] at h
    split at h
    · exact hcont sig rfl h
    · split at h
      · exact hcont sig rfl h
      · split at h
        · exact hcont sig rfl h
        · rcases sigid_cases (sig.verify_id (List.take k (List.drop 3 tlv.single_value)))
            with hv | hv | hv
          · simp only [hv] at h
            cases hc : sig.crypt with
            | none => simp [hc] at h
            | some c =>
              cases hh : sig.hash with
              | none => simp [hc, hh] at h
              | some hs =>
                simp only [hc, hh] at h
                exact hcont _ (by simp [policy_static, hc, hh]) h
          · simp only [hv] at h
            exact hcont sig rfl h
          · simp only [hv, Option.some.injEq, Prod.mk.injEq] at h
            rw [← h.2]

theorem process_tlv_static (ctx : rfc5444_reader_tlvblock_context) (addr : List Nat)
    (u : unsigned_data) (hu : _remove_signature_data ctx = some u)
    (tlv : rfc5444_reader_tlvblock_entry) (reg : List rfc5444_signature)
    (d : Bool) (reg1 : List rfc5444_signature)
    (h : process_tlv ctx addr tlv reg = some (d, reg1)) :
    reg1.map policy_static = reg.map policy_static := by
  by_cases hi : tlv_ignored tlv = true
  · rw [process_tlv_ignored ctx addr tlv reg hi] at h
    simp only [Option.some.injEq, Prod.mk.injEq] at h
    rw [← h.2]
  · have hi1 : tlv_ignored tlv = false := by simpa using hi
    rw [process_tlv_checked ctx addr tlv reg u hu hi1] at h
    exact sig_loop_static _ addr tlv _ _ _ reg d reg1 h

theorem policy_after_tlv_ignored (m : Int) (addr : List Nat) (u : unsigned_data)
    (tlv : rfc5444_reader_tlvblock_entry) (hi : tlv_ignored tlv = true)
    (reg : List rfc5444_signature) :
    reg.map (policy_after_tlv m addr u tlv) = reg := by
  conv_rhs => rw [← List.map_id reg]
  apply List.map_congr_left
  intro s _
  simp [policy_after_tlv, tlv_checked_by, hi]

theorem process_tlv_checked_no_drop (ctx : rfc5444_reader_tlvblock_context)
    (addr : List Nat) (u : unsigned_data) (hu : _remove_signature_data ctx = some u)
    (tlv : rfc5444_reader_tlvblock_entry) (reg : List rfc5444_signature)
    (hres : checked_resolved (context_msg_type ctx) [tlv] reg)
    (hnd : ∀ sig ∈ reg, tlv_dropped_by (context_msg_type ctx) tlv sig = false) :
    process_tlv ctx addr tlv reg
      = some (false, reg.map (policy_after_tlv (context_msg_type ctx) addr u tlv)) := by
  by_cases hi : tlv_ignored tlv = true
  · rw [process_tlv_ignored ctx addr tlv reg hi, policy_after_tlv_ignored _ addr u tlv hi]
  · have hi1 : tlv_ignored tlv = false := by simpa using hi
    rw [process_tlv_checked ctx addr tlv reg u hu hi1]
    exact sig_loop_checked_no_drop _ addr u tlv hi1 reg hres hnd

/-- The TLV loop when every policy that reaches the verify step is resolved and no
key-id verifier answers drop. -/
theorem tlv_loop_checked_no_drop (ctx : rfc5444_reader_tlvblock_context) (addr : List Nat)
    (u : unsigned_data) (hu : _remove_signature_data ctx = some u) :
    ∀ (tlvs : List rfc5444_reader_tlvblock_entry) (reg : List rfc5444_signature),
      checked_resolved (context_msg_type ctx) tlvs reg →
      (∀ tlv ∈ tlvs, ∀ sig ∈ reg, tlv_dropped_by (context_msg_type ctx) tlv sig = false) →
      tlv_loop ctx addr tlvs reg
        = some (false, reg.map (policy_after_tlvs (context_msg_type ctx) addr u tlvs)) := by
  intro tlvs
  induction tlvs with
  | nil =>
    intro reg _ _
    have : policy_after_tlvs (context_msg_type ctx) addr u [] = id := by
      funext s; rfl
    simp [tlv_loop, this]
  | cons t ts ih =>
    intro reg hres hnd
    obtain ⟨hr1, hr2⟩ := checked_resolved_cons hres
    have h1 := process_tlv_checked_no_drop ctx addr u hu t reg hr1
      (fun s hs => hnd t (List.mem_cons_self _ _) s hs)
    simp only [tlv_loop, h1]
    rw [ih]
    · simp [policy_after_tlvs, List.map_map, Function.comp_def]
    · exact checked_resolved_of_static
        (map_static_map reg _ (policy_static_after_tlv _ addr u t)) hr2
    · intro tlv htlv s hs
      obtain ⟨a, ha, rfl⟩ := List.mem_map.mp hs
      rw [static_eq_dropped (policy_static_after_tlv _ addr u t a)]
      exact hnd tlv (List.mem_cons_of_mem _ htlv) a ha

theorem checked_resolved_init {m : Int} {tlvs : List rfc5444_reader_tlvblock_entry}
    {reg : List rfc5444_signature} (hres : checked_resolved m tlvs reg) :
    checked_resolved m tlvs (reg.map (init_verification m)) :=
  checked_resolved_of_static (map_static_map reg _ (policy_static_init m)) hres

/-- The result of `_cb_signature_tlv` when every policy that reaches the verify step is
resolved and no key-id verifier answers drop. -/
theorem cb_signature_tlv_checked_no_drop (reg : List rfc5444_signature) (addr : List Nat)
    (tlvs : List rfc5444_reader_tlvblock_entry) (ctx : rfc5444_reader_tlvblock_context)
    (u : unsigned_data) (hu : _remove_signature_data ctx = some u)
    (hres : checked_resolved (context_msg_type ctx) tlvs reg)
    (hnd : ∀ tlv ∈ tlvs, ∀ sig ∈ reg,
      tlv_dropped_by (context_msg_type ctx) tlv sig = false) :
    _cb_signature_tlv reg addr tlvs ctx
      = some
          (if (reg.map (policy_final (context_msg_type ctx) addr u tlvs)).any
                (fun sig => !sig.verified && sig._must_be_verified)
            then context_drop_value ctx else rfc5444_result.RFC5444_OKAY,
           reg.map (policy_final (context_msg_type ctx) addr u tlvs)) := by
  by_cases hany : reg.any (fun sig => sig.is_matching_signature (context_msg_type ctx)) = true
  · have hnd1 : ∀ tlv ∈ tlvs, ∀ sig ∈ reg.map (init_verification (context_msg_type ctx)),
        tlv_dropped_by (context_msg_type ctx) tlv sig = false := by
      intro tlv ht s hs
      obtain ⟨a, ha, rfl⟩ := List.mem_map.mp hs
      rw [static_eq_dropped (policy_static_init _ a)]
      exact hnd tlv ht a ha
    have h1 := tlv_loop_checked_no_drop ctx addr u hu tlvs _ (checked_resolved_init hres) hnd1
    have h2 : (reg.map (init_verification (context_msg_type ctx))).map
        (policy_after_tlvs (context_msg_type ctx) addr u tlvs)
        = reg.map (policy_final (context_msg_type ctx) addr u tlvs) := by
      simp [List.map_map, policy_final, Function.comp_def]
    rw [h2] at h1
    simp only [_cb_signature_tlv, hany, h1, Bool.not_true, Bool.false_eq_true, if_false]
    split <;> rfl
  · have hany1 : reg.any (fun sig => sig.is_matching_signature (context_msg_type ctx))
        = false := by simpa using hany
    have hno : ∀ s ∈ reg, s.is_matching_signature (context_msg_type ctx) = false := by
      intro s hs
      have := List.any_eq_false.mp hany1 s hs
      simpa using this
    rw [cb_signature_tlv_none_matching reg addr tlvs ctx hno]
    have h2 : reg.map (policy_final (context_msg_type ctx) addr u tlvs)
        = reg.map (init_verification (context_msg_type ctx)) := by
      apply List.map_congr_left
      intro s hs
      exact policy_after_tlvs_not_matching _ addr u tlvs _ (hno s hs)
    rw [h2]
    have h3 : (reg.map (init_verification (context_msg_type ctx))).any
        (fun sig => !sig.verified && sig._must_be_verified) = false := by
      apply List.any_eq_false.mpr
      intro s hs
      obtain ⟨a, ha, rfl⟩ := List.mem_map.mp hs
      simp [init_verification, hno a ha]
    rw [h3]
    simp

/-- The policy loop returns when every policy that reaches the verify step is
resolved. -/
theorem sig_loop_checked_some (m : Int) (addr : List Nat)
    (tlv : rfc5444_reader_tlvblock_entry) (st : List Nat) (hi : tlv_ignored tlv = false) :
    ∀ reg : List rfc5444_signature, checked_resolved m [tlv] reg →
      ∃ d reg1, sig_loop m addr tlv (tlv_sigkey tlv) (tlv_key_id_len tlv) st reg
        = some (d, reg1) := by
  intro reg
  induction reg with
  | nil => intro _; exact ⟨false, [], rfl⟩
  | cons sig rest ih =>
    intro hres
    obtain ⟨d, r1, h1⟩ := ih (fun t ht s hs => hres t ht s (List.mem_cons_of_mem _ hs))
    have hr := hres tlv (List.mem_cons_self _ _) sig (List.mem_cons_self _ _)
    simp only [tlv_checked_by, hi, policy_applies, tlv_key_id] at hr
    have hv := sigid_cases
      (sig.verify_id (List.take (tlv_key_id_len tlv) (List.drop 3 tlv.single_value)))
    simp only [sig_loop, h1]
    by_cases hk : sig.key = tlv_sigkey tlv
    · by_cases hm : sig.is_matching_signature m = true
      · by_cases hs : decide (tlv.type_ext = RFC7182_ICV_EXT_SRCSPEC_CRYPTHASH)
            = sig.source_specific
        · rcases hv with hv | hv | hv
          · obtain ⟨hc, hh⟩ := hr (by simp [hk, hm, hs, hv])
            obtain ⟨c, hc⟩ := Option.isSome_iff_exists.mp hc
            obtain ⟨h, hh⟩ := Option.isSome_iff_exists.mp hh
            simp [hk, hm, hs, hv, hc, hh]
          · simp [hk, hm, hs, hv]
          · simp [hk, hm, hs, hv]
        · simp [hk, hm, hs]
      · simp [hk, hm]
    · simp [hk]

/-- With a policy whose key-id verifier answers drop for the TLV, the policy loop never
ends without a drop. -/
theorem sig_loop_never_accepts (m : Int) (addr : List Nat)
    (tlv : rfc5444_reader_tlvblock_entry) (st : List Nat) (hi : tlv_ignored tlv = false) :
    ∀ reg : List rfc5444_signature, (∃ s ∈ reg, tlv_dropped_by m tlv s = true) →
      ∀ reg1, sig_loop m addr tlv (tlv_sigkey tlv) (tlv_key_id_len tlv) st reg
        ≠ some (false, reg1) := by
  intro reg
  induction reg with
  | nil => intro h; obtain ⟨s, hs, _⟩ := h; cases hs
  | cons sig rest ih =>
    intro hex reg1 h
    have hcont : ∀ s : rfc5444_signature,
        (match sig_loop m addr tlv (tlv_sigkey tlv) (tlv_key_id_len tlv) st rest with
          | none => none
          | some (dropped, rest1) => some (dropped, s :: rest1)) = some (false, reg1) →
        ∃ r2, sig_loop m addr tlv (tlv_sigkey tlv) (tlv_key_id_len tlv) st rest
          = some (false, r2) := by
      intro s hm
      cases hr : sig_loop m addr tlv (tlv_sigkey tlv) (tlv_key_id_len tlv) st rest with
      | none => rw [hr] at hm; cases hm
      | some p =>
        obtain ⟨d2, r2⟩ := p
        rw [hr] at hm
        simp only [Option.some.injEq, Prod.mk.injEq] at hm
        rw [hm.1]
        exact ⟨r2, rfl⟩
    by_cases hd : tlv_dropped_by m tlv sig = true
    · simp only [tlv_dropped_by, hi, policy_applies, tlv_key_id, Bool.and_eq_true,
        decide_eq_true_eq, Bool.not_false, true_and, beq_iff_eq] at hd
      obtain ⟨⟨⟨hk, hm⟩, hs⟩, hv⟩ := hd
      simp only [sig_loop] at h
      simp [hk, hm, hs, hv] at h
    · have hrest : ∃ s ∈ rest, tlv_dropped_by m tlv s = true := by
        obtain ⟨s, hs, hsd⟩ := hex
        rcases List.mem_cons.mp hs with rfl | hs
        · exact absurd hsd hd
        · exact ⟨s, hs, hsd⟩
      have hne := ih hrest
      simp only [sig_loop] at h
      split at h
      · obtain ⟨r2, h2⟩ := hcont sig h
        exact hne r2 h2
      · split at h
        · obtain ⟨r2, h2⟩ := hcont sig h
          exact hne r2 h2
        · split at h
          · obtain ⟨r2, h2⟩ := hcont sig h
            exact hne r2 h2
          · rcases sigid_cases (sig.verify_id
                (List.take (tlv_key_id_len tlv) (List.drop 3 tlv.single_value)))
              with hv | hv | hv
            · simp only [hv] at h
              cases hc : sig.crypt with
              | none => simp [hc] at h
              | some c =>
                cases hh : sig.hash with
                | none => simp [hc, hh] at h
                | some hs =>
                  simp only [hc, hh] at h
                  obtain ⟨r2, h2⟩ := hcont _ h
                  exact hne r2 h2
            · simp only [hv] at h
              obtain ⟨r2, h2⟩ := hcont sig h
              exact hne r2 h2
            · simp only [hv, Option.some.injEq, Prod.mk.injEq] at h
              simp at h

theorem process_tlv_checked_some (ctx : rfc5444_reader_tlvblock_context) (addr : List Nat)
    (u : unsigned_data) (hu : _remove_signature_data ctx = some u)
    (tlv : rfc5444_reader_tlvblock_entry) (reg : List rfc5444_signature)
    (hres : checked_resolved (context_msg_type ctx) [tlv] reg) :
    ∃ d reg1, process_tlv ctx addr tlv reg = some (d, reg1) := by
  by_cases hi : tlv_ignored tlv = true
  · exact ⟨false, reg, process_tlv_ignored ctx addr tlv reg hi⟩
  · have hi1 : tlv_ignored tlv = false := by simpa using hi
    rw [process_tlv_checked ctx addr tlv reg u hu hi1]
    exact sig_loop_checked_some _ addr tlv _ hi1 reg hres

/-- The TLV loop returns when every policy that reaches the verify step is resolved. -/
theorem tlv_loop_checked_some (ctx : rfc5444_reader_tlvblock_context) (addr : List Nat)
    (u : unsigned_data) (hu : _remove_signature_data ctx = some u) :
    ∀ (tlvs : List rfc5444_reader_tlvblock_entry) (reg : List rfc5444_signature),
      checked_resolved (context_msg_type ctx) tlvs reg →
      ∃ d reg1, tlv_loop ctx addr tlvs reg = some (d, reg1) := by
  intro tlvs
  induction tlvs with
  | nil => intro reg _; exact ⟨false, reg, rfl⟩
  | cons t ts ih =>
    intro reg hres
    obtain ⟨hr1, hr2⟩ := checked_resolved_cons hres
    obtain ⟨d, r1, h1⟩ := process_tlv_checked_some ctx addr u hu t reg hr1
    have hst := process_tlv_static ctx addr u hu t reg d r1 h1
    cases d with
    | true => exact ⟨true, r1, by simp only [tlv_loop, h1]⟩
    | false =>
      obtain ⟨d2, r2, h2⟩ := ih r1 (checked_resolved_of_static hst hr2)
      exact ⟨d2, r2, by simp only [tlv_loop, h1, h2]⟩

/-- With a TLV and a policy whose key-id verifier answers drop for it, the TLV loop
never ends without a drop. -/
theorem tlv_loop_never_accepts (ctx : rfc5444_reader_tlvblock_context) (addr : List Nat)
    (u : unsigned_data) (hu : _remove_signature_data ctx = some u)
    (tlv : rfc5444_reader_tlvblock_entry) (hi : tlv_ignored tlv = false) :
    ∀ (tlvs : List rfc5444_reader_tlvblock_entry) (reg : List rfc5444_signature),
      tlv ∈ tlvs → (∃ s ∈ reg, tlv_dropped_by (context_msg_type ctx) tlv s = true) →
      ∀ reg1, tlv_loop ctx addr tlvs reg ≠ some (false, reg1) := by
  intro tlvs
  induction tlvs with
  | nil => intro _ h; cases h
  | cons t ts ih =>
    intro reg hmem hex reg1 h
    simp only [tlv_loop] at h
    cases hp : process_tlv ctx addr t reg with
    | none => rw [hp] at h; cases h
    | some p =>
      obtain ⟨d, r1⟩ := p
      rw [hp] at h
      cases d with
      | true => simp at h
      | false =>
        simp only at h
        rcases List.mem_cons.mp hmem with rfl | hmem1
        · rw [process_tlv_checked ctx addr tlv reg u hu hi] at hp
          exact sig_loop_never_accepts _ addr tlv _ hi reg hex r1 hp
        · exact ih r1 hmem1
            (exists_dropped_of_static (process_tlv_static ctx addr u hu t reg false r1 hp)
              _ tlv hex) reg1 h

/-- With a TLV that is not skipped and a policy that is offered it and whose key-id
verifier answers drop, `_cb_signature_tlv` never accepts: it returns the drop value
whenever it returns, and it returns when every policy that reaches the verify step is
resolved. -/
theorem cb_signature_tlv_drop (reg : List rfc5444_signature) (addr : List Nat)
    (tlvs : List rfc5444_reader_tlvblock_entry) (ctx : rfc5444_reader_tlvblock_context)
    (u : unsigned_data) (hu : _remove_signature_data ctx = some u)
    (tlv : rfc5444_reader_tlvblock_entry) (sig : rfc5444_signature)
    (htlv : tlv ∈ tlvs) (hsig : sig ∈ reg)
    (hd : tlv_dropped_by (context_msg_type ctx) tlv sig = true) :
    (_cb_signature_tlv reg addr tlvs ctx = none
      ∨ ∃ reg1, _cb_signature_tlv reg addr tlvs ctx = some (context_drop_value ctx, reg1))
    ∧ (checked_resolved (context_msg_type ctx) tlvs reg →
        ∃ reg1, _cb_signature_tlv reg addr tlvs ctx
          = some (context_drop_value ctx, reg1)) := by
  have hi : tlv_ignored tlv = false := by
    cases h : tlv_ignored tlv with
    | false => rfl
    | true => simp [tlv_dropped_by, h] at hd
  have hmatch : sig.is_matching_signature (context_msg_type ctx) = true := by
    simp only [tlv_dropped_by, policy_applies, Bool.and_eq_true] at hd
    exact hd.1.2.1.2
  have h1 := any_matching_of_mem hsig hmatch
  have hd1 : ∃ s ∈ reg.map (init_verification (context_msg_type ctx)),
      tlv_dropped_by (context_msg_type ctx) tlv s = true :=
    ⟨_, List.mem_map_of_mem _ hsig, by
      rw [static_eq_dropped (policy_static_init _ sig)]; exact hd⟩
  have hne := tlv_loop_never_accepts ctx addr u hu tlv hi tlvs _ htlv hd1
  have hcases : ∀ r, tlv_loop ctx addr tlvs (reg.map (init_verification (context_msg_type ctx)))
      = r → r = none ∨ ∃ reg1, r = some (true, reg1) := by
    intro r hr
    cases r with
    | none => exact Or.inl rfl
    | some p =>
      obtain ⟨d, r1⟩ := p
      cases d with
      | true => exact Or.inr ⟨r1, rfl⟩
      | false => exact absurd hr (hne r1)
  constructor
  · rcases hcases _ rfl with h2 | ⟨r1, h2⟩
    · left
      simp only [_cb_signature_tlv, h1, h2]
      simp
    · right
      refine ⟨r1, ?_⟩
      simp only [_cb_signature_tlv, h1, h2]
      simp
  · intro hres
    obtain ⟨d, r1, h2⟩ := tlv_loop_checked_some ctx addr u hu tlvs _
      (checked_resolved_init hres)
    rcases hcases _ rfl with h3 | ⟨r2, h3⟩
    · rw [h3] at h2; cases h2
    · refine ⟨r2, ?_⟩
      simp only [_cb_signature_tlv, h1, h3]
      simp

/-- What the policy loop has done to each policy when it returns: a policy is left as
it was or is one that is offered the TLV, accepts its key-id, is resolved, and has got
the source address and the result of its `check` callback; without a drop the latter
holds for every policy that is offered the TLV and accepts its key-id. -/
theorem sig_loop_returned (m : Int) (addr : List Nat) (tlv : rfc5444_reader_tlvblock_entry)
    (key : rfc5444_signature_key) (k : Nat) (st : List Nat) :
    ∀ (reg : List rfc5444_signature) (d : Bool) (reg1 : List rfc5444_signature),
      sig_loop m addr tlv key k st reg = some (d, reg1) →
      List.Forall₂
        (fun sig sig1 =>
          (sig1 = sig
            ∨ (sig.key = key ∧ sig.is_matching_signature m = true
                ∧ sig.source_specific
                    = decide (tlv.type_ext = RFC7182_ICV_EXT_SRCSPEC_CRYPTHASH)
                ∧ sig.verify_id ((tlv.single_value.drop 3).take k)
                    = rfc5444_sigid_check.RFC5444_SIGID_OKAY
                ∧ ∃ crypt hash, sig.crypt = some crypt ∧ sig.hash = some hash
                    ∧ sig1 = { sig with
                        source := some addr,
                        verified := crypt.check crypt.crypt hash
                          (tlv.single_value.drop (3 + k)) st }))
          ∧ (d = false → sig.key = key → sig.is_matching_signature m = true →
              sig.source_specific
                  = decide (tlv.type_ext = RFC7182_ICV_EXT_SRCSPEC_CRYPTHASH) →
              sig.verify_id ((tlv.single_value.drop 3).take k)
                  = rfc5444_sigid_check.RFC5444_SIGID_OKAY →
              ∃ crypt hash, sig.crypt = some crypt ∧ sig.hash = some hash
                ∧ sig1 = { sig with
                    source := some addr,
                    verified := crypt.check crypt.crypt hash
                      (tlv.single_value.drop (3 + k)) st }))
        reg reg1 := by
  intro reg
  induction reg with
  | nil =>
    intro d reg1 h
    simp only [sig_loop, Option.some.injEq, Prod.mk.injEq] at h
    rw [← h.2]
    exact List.Forall₂.nil
  | cons sig rest ih =>
    intro d reg1 h
    have hcont : ∀ s : rfc5444_signature,
        (match sig_loop m addr tlv key k st rest with
          | none => none
          | some (dropped, rest1) => some (dropped, s :: rest1)) = some (d, reg1) →
        ∃ r2, sig_loop m addr tlv key k st rest = some (d, r2) ∧ reg1 = s :: r2 := by
      intro s hm
      cases hr : sig_loop m addr tlv key k st rest with
      | none => rw [hr] at hm; cases hm
      | some p =>
        obtain ⟨d2, r2⟩ := p
        rw [hr] at hm
        simp only [Option.some.injEq, Prod.mk.injEq] at hm
        rw [← hm.1, ← hm.2]
        exact ⟨r2, rfl, rfl⟩
    have hv := sigid_cases (sig.verify_id (List.take k (List.drop 3 tlv.single_value)))
    simp only [sig_loop] at h
    split at h
    · rename_i hk
      obtain ⟨r2, h2, rfl⟩ := hcont sig h
      exact List.Forall₂.cons ⟨Or.inl rfl, fun _ hk2 => absurd hk2 hk⟩ (ih d r2 h2)
    · split at h
      · rename_i hk hm
        obtain ⟨r2, h2, rfl⟩ := hcont sig h
        refine List.Forall₂.cons ⟨Or.inl rfl, fun _ _ hm2 => ?_⟩ (ih d r2 h2)
        rw [hm2] at hm
        simp at hm
      · split at h
        · rename_i hk hm hsrc
          obtain ⟨r2, h2, rfl⟩ := hcont sig h
          refine List.Forall₂.cons ⟨Or.inl rfl, fun _ _ _ hs2 => ?_⟩ (ih d r2 h2)
          rw [hs2] at hsrc
          simp at hsrc
        · rename_i hk hm hsrc
          have hk1 : sig.key = key := by simpa using hk
          have hm1 : sig.is_matching_signature m = true := by simpa using hm
          have hs1 : sig.source_specific
              = decide (tlv.type_ext = RFC7182_ICV_EXT_SRCSPEC_CRYPTHASH) := by
            cases hx : sig.source_specific <;>
              cases hy : decide (tlv.type_ext = RFC7182_ICV_EXT_SRCSPEC_CRYPTHASH) <;>
              simp [hx, hy] at hsrc ⊢
          rcases hv with hv | hv | hv
          · simp only [hv] at h
            cases hc : sig.crypt with
            | none => simp [hc] at h
            | some c =>
              cases hh : sig.hash with
              | none => simp [hc, hh] at h
              | some hs =>
                simp only [hc, hh] at h
                have he : ({ sig with
                      source := some addr,
                      verified := c.check c.crypt hs (tlv.single_value.drop (3 + k)) st }
                      : rfc5444_signature)
                    = { sig with
                        hash := some hs, crypt := some c, source := some addr,
                        verified := c.check c.crypt hs (tlv.single_value.drop (3 + k)) st } := by
                  rw [← hc, ← hh]
                obtain ⟨r2, h2, rfl⟩ := hcont _ h
                exact List.Forall₂.cons
                  ⟨Or.inr ⟨hk1, hm1, hs1, hv, c, hs, hc, hh, he.symm⟩,
                    fun _ _ _ _ _ => ⟨c, hs, hc, hh, he.symm⟩⟩ (ih d r2 h2)
          · simp only [hv] at h
            obtain ⟨r2, h2, rfl⟩ := hcont sig h
            refine List.Forall₂.cons ⟨Or.inl rfl, fun _ _ _ _ hv2 => ?_⟩ (ih d r2 h2)
            rw [hv] at hv2
            cases hv2
          · simp only [hv, Option.some.injEq, Prod.mk.injEq] at h
            rw [← h.1, ← h.2]
            apply List.forall₂_same.mpr
            intro x _
            exact ⟨Or.inl rfl, fun hd => by cases hd⟩

/-- C5 (key-id rejection, code defect). General part: for a context the reader delivers,
a signature TLV of the context that is not skipped and a registered policy with its
algorithm pair and source-specific flag that applies to the message type and whose
key-id verifier answers drop for the key-id of the TLV, `_cb_signature_tlv` never
accepts: it returns the drop value of the context or does not return; it returns the
drop value when every policy that reaches the verify step (line 413) has both
algorithms resolved, whatever the other TLVs and policies are, and the dropping policy
itself need not be resolved. Instances: a policy with an unregistered crypt whose
verifier answers drop, and an optional resolved policy whose verifier answers drop on a
correctly signed message, both return `RFC5444_DROP_MESSAGE`. Failing instance: two
policies with the same key and an unregistered crypt, the first accepting the key-id,
the second answering drop. The loop reaches the verify step of the first policy and
calls `sig->crypt->check` through the NULL `sig->crypt`: no drop value is returned. -/
theorem key_id_rejection_or_fault :
    (∀ (reg : List rfc5444_signature) (addr : List Nat)
        (tlvs : List rfc5444_reader_tlvblock_entry) (ctx : rfc5444_reader_tlvblock_context)
        (tlv : rfc5444_reader_tlvblock_entry) (sig : rfc5444_signature),
        context_well_formed ctx = true → tlv ∈ tlvs → sig ∈ reg →
        tlv_ignored tlv = false → sig.key = tlv_sigkey tlv →
        sig.is_matching_signature (context_msg_type ctx) = true →
        sig.source_specific = decide (tlv.type_ext = RFC7182_ICV_EXT_SRCSPEC_CRYPTHASH) →
        sig.verify_id (tlv_key_id tlv) = rfc5444_sigid_check.RFC5444_SIGID_DROP →
        (_cb_signature_tlv reg addr tlvs ctx = none
          ∨ ∃ reg1, _cb_signature_tlv reg addr tlvs ctx
              = some (context_drop_value ctx, reg1))
        ∧ (checked_resolved (context_msg_type ctx) tlvs reg →
            ∃ reg1, _cb_signature_tlv reg addr tlvs ctx
              = some (context_drop_value ctx, reg1)))
    ∧ unresolved_dropping_registry.map
          (fun sig => (sig.key, sig.hash.isSome, sig.crypt.isSome, sig.verify_id []))
        = [({ hash_function := 0, crypt_function := 7 }, true, false,
            rfc5444_sigid_check.RFC5444_SIGID_DROP)]
    ∧ (_cb_signature_tlv unresolved_dropping_registry []
          (reader_signature_tlvs (some plain_message) checksum_signed_message)
          (plain_message_context checksum_signed_message)).map (fun r => r.1)
        = some rfc5444_result.RFC5444_DROP_MESSAGE
    ∧ (_cb_signature_tlv dropping_registry []
          (reader_signature_tlvs (some plain_message) signed_message)
          (plain_message_context signed_message)).map (fun r => r.1)
        = some rfc5444_result.RFC5444_DROP_MESSAGE
    ∧ unresolved_pair_registry.map
          (fun sig => (sig.key, sig.hash.isSome, sig.crypt.isSome, sig.verify_id []))
        = [({ hash_function := 0, crypt_function := 7 }, true, false,
            rfc5444_sigid_check.RFC5444_SIGID_OKAY),
           ({ hash_function := 0, crypt_function := 7 }, true, false,
            rfc5444_sigid_check.RFC5444_SIGID_DROP)]
    ∧ reader_signature_tlvs (some plain_message) checksum_signed_message
        = [checksum_signed_tlv]
    ∧ context_well_formed (plain_message_context checksum_signed_message) = true
    ∧ tlv_ignored checksum_signed_tlv = false
    ∧ unresolved_pair_registry.map
          (fun sig => (tlv_checked_by 1 checksum_signed_tlv sig,
            tlv_dropped_by 1 checksum_signed_tlv sig))
        = [(true, false), (false, true)]
    ∧ _cb_signature_tlv unresolved_pair_registry []
          (reader_signature_tlvs (some plain_message) checksum_signed_message)
          (plain_message_context checksum_signed_message)
        = none := by
  refine ⟨?_, by decide, by decide, by decide, by decide, by decide, by decide, by decide,
    by decide,
    Option.map_eq_none'.mp (by decide :
      (_cb_signature_tlv unresolved_pair_registry []
        (reader_signature_tlvs (some plain_message) checksum_signed_message)
        (plain_message_context checksum_signed_message)).map (fun r => r.1) = none)⟩
  intro reg addr tlvs ctx tlv sig hctx htlv hsig hwf hkey hmatch hsrc hdrop
  obtain ⟨u, hu⟩ := strip_defined ctx hctx
  exact cb_signature_tlv_drop reg addr tlvs ctx u hu tlv sig htlv hsig
    (by simp [tlv_dropped_by, hwf, policy_applies, hkey, hmatch, hsrc, hdrop])

/-- C6 (accept/drop decision, code defect). General part: for a context the reader
delivers, when no key-id verifier answers drop for a TLV it is offered and every policy
that reaches the verify step (line 413) has both algorithms resolved,
`_cb_signature_tlv` returns, and it returns the drop value of the context if and only
if, in the registry it leaves, some policy applies to the message type, has
`drop_if_invalid` and has `verified = false`; otherwise it returns `RFC5444_OKAY`. The
drop value is `RFC5444_DROP_PACKET` for a packet and `RFC5444_DROP_MESSAGE` for a message
context. If no policy has `drop_if_invalid`, the result is `RFC5444_OKAY`. Instances: a
mandatory policy whose crypt is not registered drops the unsigned sample message; the
mandatory identity policy drops the sample message with a tampered signature. Failing
instance: the same policy with an unregistered crypt and the sample message with a
signature TLV for its algorithm pair. No key-id verifier answers drop, but the loop
calls `sig->crypt->check` through the NULL `sig->crypt`: there is no return value. -/
theorem accept_drop_decision_or_fault :
    (∀ (reg : List rfc5444_signature) (addr : List Nat)
        (tlvs : List rfc5444_reader_tlvblock_entry) (ctx : rfc5444_reader_tlvblock_context),
        context_well_formed ctx = true →
        checked_resolved (context_msg_type ctx) tlvs reg →
        (∀ tlv ∈ tlvs, ∀ sig ∈ reg,
          tlv_dropped_by (context_msg_type ctx) tlv sig = false) →
        ∃ r reg1, _cb_signature_tlv reg addr tlvs ctx = some (r, reg1)
          ∧ (r = context_drop_value ctx ↔
              ∃ sig ∈ reg1, sig.is_matching_signature (context_msg_type ctx) = true
                ∧ sig.drop_if_invalid = true ∧ sig.verified = false)
          ∧ (r = context_drop_value ctx ∨ r = rfc5444_result.RFC5444_OKAY)
          ∧ (ctx.type = rfc5444_context_type.RFC5444_CONTEXT_PACKET →
              context_drop_value ctx = rfc5444_result.RFC5444_DROP_PACKET)
          ∧ (ctx.type = rfc5444_context_type.RFC5444_CONTEXT_MESSAGE →
              context_drop_value ctx = rfc5444_result.RFC5444_DROP_MESSAGE)
          ∧ ((∀ sig ∈ reg, sig.drop_if_invalid = false) →
              r = rfc5444_result.RFC5444_OKAY))
    ∧ unresolved_registry.map
          (fun sig => (sig.key, sig.hash.isSome, sig.crypt.isSome, sig.drop_if_invalid,
            sig.verify_id []))
        = [({ hash_function := 0, crypt_function := 7 }, true, false, true,
            rfc5444_sigid_check.RFC5444_SIGID_OKAY)]
    ∧ (_cb_signature_tlv unresolved_registry []
          (reader_signature_tlvs (some plain_message) unsigned_message)
          (plain_message_context unsigned_message)).map
          (fun r => (r.1, r.2.map (fun sig => sig.verified)))
        = some (rfc5444_result.RFC5444_DROP_MESSAGE, [false])
    ∧ (_cb_signature_tlv mandatory_registry [] [tampered_tlv]
          (plain_message_context signed_message)).map
          (fun r => (r.1, r.2.map (fun sig => sig.verified)))
        = some (rfc5444_result.RFC5444_DROP_MESSAGE, [false])
    ∧ reader_signature_tlvs (some plain_message) checksum_signed_message
        = [checksum_signed_tlv]
    ∧ context_well_formed (plain_message_context checksum_signed_message) = true
    ∧ unresolved_registry.map
          (fun sig => (tlv_dropped_by 1 checksum_signed_tlv sig,
            tlv_checked_by 1 checksum_signed_tlv sig))
        = [(false, true)]
    ∧ _cb_signature_tlv unresolved_registry []
          (reader_signature_tlvs (some plain_message) checksum_signed_message)
          (plain_message_context checksum_signed_message)
        = none := by
  refine ⟨?_, by decide, by decide, by decide, by decide, by decide, by decide,
    Option.map_eq_none'.mp (by decide :
      (_cb_signature_tlv unresolved_registry []
        (reader_signature_tlvs (some plain_message) checksum_signed_message)
        (plain_message_context checksum_signed_message)).map (fun r => r.1) = none)⟩
  intro reg addr tlvs ctx hctx hres hnd
  obtain ⟨u, hu⟩ := strip_defined ctx hctx
  have h := cb_signature_tlv_checked_no_drop reg addr tlvs ctx u hu hres hnd
  have hiff := any_unverified_iff (context_msg_type ctx) addr u tlvs reg
  refine ⟨_, _, h, ?_, ?_, ?_, ?_, ?_⟩
  · rw [← hiff]
    split
    · simp [*]
    · rename_i hn
      constructor
      · intro e
        exact absurd e.symm (drop_value_ne_okay ctx)
      · intro e
        exact absurd e hn
  · split
    · exact Or.inl rfl
    · exact Or.inr rfl
  · intro hp; simp [context_drop_value, hp]
  · intro hp; simp [context_drop_value, hp]
  · intro hall
    rw [if_neg]
    rw [hiff]
    rintro ⟨s, hs, _, h2, _⟩
    obtain ⟨a, ha, rfl⟩ := List.mem_map.mp hs
    obtain ⟨_, _, e3, _⟩ := static_eq_fields
      (policy_final_static (context_msg_type ctx) addr u tlvs a)
    rw [e3, hall a ha] at h2
    cases h2

/-- C9 (last write wins, code defect). General part: for a context the reader delivers,
in a pass in which no key-id verifier answers drop and every policy that reaches the
verify step has both algorithms resolved, a policy that is offered the TLV `t` and
checks it, and checks no later TLV of the list, ends with `verified` equal to the result
of its `check` callback for `t`, whatever the TLVs before `t` gave; if that policy has
`drop_if_invalid` and the callback answers false for `t`, the result is the drop value;
if for every applicable policy with `drop_if_invalid` the last checked TLV is `t` and
the callback answers true, the result is `RFC5444_OKAY`. Instances with the mandatory
identity policy: a valid signature TLV followed by one with a changed byte is dropped,
the other order is accepted. Failing instance: a valid signature TLV followed by a
forged one whose signature has 1 byte instead of 9. The default `_cb_check_by_crypt`
leaves through `return -1` and answers true for the forged TLV, so the last write is
`verified = true` and the message is accepted. Second failing instance: a policy with
an unregistered crypt and a signature TLV for its algorithm pair; the verify step is a
call through the NULL `sig->crypt` and no flag is written. -/
theorem last_write_wins_with_defects :
    (∀ (reg : List rfc5444_signature) (addr : List Nat)
        (pre post : List rfc5444_reader_tlvblock_entry) (t : rfc5444_reader_tlvblock_entry)
        (ctx : rfc5444_reader_tlvblock_context),
        context_well_formed ctx = true →
        checked_resolved (context_msg_type ctx) (pre ++ t :: post) reg →
        (∀ tlv ∈ pre ++ t :: post, ∀ sig ∈ reg,
          tlv_dropped_by (context_msg_type ctx) tlv sig = false) →
        ∃ u r reg1, _remove_signature_data ctx = some u
          ∧ _cb_signature_tlv reg addr (pre ++ t :: post) ctx = some (r, reg1)
          ∧ List.Forall₂
              (fun sig sig1 =>
                tlv_checked_by (context_msg_type ctx) t sig = true →
                (∀ x ∈ post, tlv_checked_by (context_msg_type ctx) x sig = false) →
                  sig1.verified = verify_step addr u t sig
                  ∧ (sig.drop_if_invalid = true → verify_step addr u t sig = false →
                      r = context_drop_value ctx))
              reg reg1
          ∧ ((∀ sig ∈ reg, sig.drop_if_invalid = true →
                sig.is_matching_signature (context_msg_type ctx) = true →
                  tlv_checked_by (context_msg_type ctx) t sig = true
                  ∧ (∀ x ∈ post, tlv_checked_by (context_msg_type ctx) x sig = false)
                  ∧ verify_step addr u t sig = true) →
              r = rfc5444_result.RFC5444_OKAY))
    ∧ reader_signature_tlvs (some plain_message) valid_then_tampered_message
        = [signed_tlv, tampered_tlv]
    ∧ (_cb_signature_tlv mandatory_registry [] [signed_tlv, tampered_tlv]
          (plain_message_context valid_then_tampered_message)).map
          (fun r => (r.1, r.2.map (fun sig => sig.verified)))
        = some (rfc5444_result.RFC5444_DROP_MESSAGE, [false])
    ∧ reader_signature_tlvs (some plain_message) tampered_then_valid_message
        = [tampered_tlv, signed_tlv]
    ∧ (_cb_signature_tlv mandatory_registry [] [tampered_tlv, signed_tlv]
          (plain_message_context tampered_then_valid_message)).map
          (fun r => (r.1, r.2.map (fun sig => sig.verified)))
        = some (rfc5444_result.RFC5444_OKAY, [true])
    ∧ reader_signature_tlvs (some plain_message) valid_then_forged_message
        = [signed_tlv, forged_tlv]
    ∧ context_well_formed (plain_message_context valid_then_forged_message) = true
    ∧ _remove_signature_data (plain_message_context valid_then_forged_message)
        = some { dst := unsigned_message, len := 6 }
    ∧ _cb_identity_crypt _identity_hash ([0, 0, 0] ++ unsigned_message)
        = some [0, 0, 0, 1, 3, 0, 6, 0, 0]
    ∧ tlv_signature signed_tlv = [0, 0, 0, 1, 3, 0, 6, 0, 0]
    ∧ tlv_signature forged_tlv = [99]
    ∧ verify_step [] { dst := unsigned_message, len := 6 } forged_tlv
        (identity_policy false true [] _cb_sigid_okay) = true
    ∧ (_cb_signature_tlv mandatory_registry [] [signed_tlv, forged_tlv]
          (plain_message_context valid_then_forged_message)).map
          (fun r => (r.1, r.2.map (fun sig => sig.verified)))
        = some (rfc5444_result.RFC5444_OKAY, [true])
    ∧ unresolved_registry.map
          (fun sig => (sig.crypt.isSome, tlv_checked_by 1 checksum_signed_tlv sig))
        = [(false, true)]
    ∧ _cb_signature_tlv unresolved_registry [] ([] ++ checksum_signed_tlv :: [])
          (plain_message_context checksum_signed_message)
        = none := by
  refine ⟨?_, by decide, by decide, by decide, by decide, by decide, by decide, by decide,
    by decide, by decide, by decide, by decide, by decide, by decide,
    Option.map_eq_none'.mp (by decide :
      (_cb_signature_tlv unresolved_registry [] ([] ++ checksum_signed_tlv :: [])
        (plain_message_context checksum_signed_message)).map (fun r => r.1) = none)⟩
  intro reg addr pre post t ctx hctx hres hnd
  obtain ⟨u, hu⟩ := strip_defined ctx hctx
  have h := cb_signature_tlv_checked_no_drop reg addr (pre ++ t :: post) ctx u hu hres hnd
  have hiff := any_unverified_iff (context_msg_type ctx) addr u (pre ++ t :: post) reg
  refine ⟨u, _, _, hu, h, ?_, ?_⟩
  · rw [List.forall₂_map_right_iff, List.forall₂_same]
    intro s hs hc hpost
    have hv := policy_final_last (context_msg_type ctx) addr u pre post t s hc hpost
    refine ⟨hv, ?_⟩
    intro hd hf
    rw [if_pos]
    rw [hiff]
    refine ⟨_, List.mem_map_of_mem _ hs, ?_, ?_, ?_⟩
    · obtain ⟨_, _, _, e4⟩ := static_eq_fields
        (policy_final_static (context_msg_type ctx) addr u (pre ++ t :: post) s)
      rw [e4]; exact tlv_checked_by_matching hc
    · obtain ⟨_, _, e3, _⟩ := static_eq_fields
        (policy_final_static (context_msg_type ctx) addr u (pre ++ t :: post) s)
      rw [e3]; exact hd
    · rw [hv]; exact hf
  · intro hall
    rw [if_neg]
    rw [hiff]
    rintro ⟨s, hs, h1, h2, h3⟩
    obtain ⟨a, ha, rfl⟩ := List.mem_map.mp hs
    obtain ⟨_, _, e3, e4⟩ := static_eq_fields
      (policy_final_static (context_msg_type ctx) addr u (pre ++ t :: post) a)
    rw [e3] at h2
    rw [e4] at h1
    obtain ⟨hc, hpost, hv⟩ := hall a ha h2 h1
    rw [policy_final_last (context_msg_type ctx) addr u pre post t a hc hpost, hv] at h3
    cases h3

/-- C34 (source-specific handling on verification). For a signature TLV that is not
skipped (known extension type, length above 3 + key-id-length) and a context the reader
delivers (a buffer of bytes with a well-formed first TLV block), the strip operation
returns, and whenever the loop body for the TLV returns, then for every policy: a policy
whose `source_specific` flag differs from (extension type = SRCSPEC_CRYPTHASH), or that
does not apply to the message type, is left as it was; a policy is either left as it
was or gets the source address and, as `verified`, the result of its `check` callback
on the value bytes of the TLV behind the first 3 + key-id-length and on the buffer made
of the source address (only for the extension type SRCSPEC_CRYPTHASH), the first
3 + key-id-length value bytes and the stripped data; unless the loop ended with a drop,
this is what happens to every policy with the algorithm pair and flag of the TLV that
applies and accepts the key-id. The loop body returns when every policy that reaches
the verify step for the TLV has both algorithms resolved, whatever the other policies
are; when it does not return, a policy without hash or crypt has reached the verify
step. The signature has length - 3 - key-id-length bytes. -/
theorem source_specific_verification (ctx : rfc5444_reader_tlvblock_context)
    (addr : List Nat) (tlv : rfc5444_reader_tlvblock_entry)
    (reg : List rfc5444_signature)
    (hctx : context_well_formed ctx = true)
    (hwf : tlv_ignored tlv = false) :
    (∃ u, _remove_signature_data ctx = some u
      ∧ (∀ dropped reg1, process_tlv ctx addr tlv reg = some (dropped, reg1) →
          List.Forall₂
            (fun sig sig1 =>
              ((sig.source_specific
                    ≠ decide (tlv.type_ext = RFC7182_ICV_EXT_SRCSPEC_CRYPTHASH)
                  ∨ sig.is_matching_signature (context_msg_type ctx) = false) →
                sig1 = sig)
              ∧ (sig1 = sig
                  ∨ ∃ crypt hash, sig.crypt = some crypt ∧ sig.hash = some hash
                      ∧ sig1 = { sig with
                          source := some addr,
                          verified := crypt.check crypt.crypt hash
                            (tlv.single_value.drop (3 + tlv.single_value.getD 2 0))
                            ((if tlv.type_ext = RFC7182_ICV_EXT_SRCSPEC_CRYPTHASH
                                then addr else [])
                              ++ tlv.single_value.take (3 + tlv.single_value.getD 2 0)
                              ++ u.dst.take u.len) })
              ∧ (dropped = false →
                  sig.key = { hash_function := tlv.single_value.getD 0 0,
                              crypt_function := tlv.single_value.getD 1 0 } →
                  sig.is_matching_signature (context_msg_type ctx) = true →
                  sig.source_specific
                      = decide (tlv.type_ext = RFC7182_ICV_EXT_SRCSPEC_CRYPTHASH) →
                  sig.verify_id
                      ((tlv.single_value.drop 3).take (tlv.single_value.getD 2 0))
                      = rfc5444_sigid_check.RFC5444_SIGID_OKAY →
                  ∃ crypt hash, sig.crypt = some crypt ∧ sig.hash = some hash
                    ∧ sig1.verified = crypt.check crypt.crypt hash
                        (tlv.single_value.drop (3 + tlv.single_value.getD 2 0))
                        ((if tlv.type_ext = RFC7182_ICV_EXT_SRCSPEC_CRYPTHASH
                            then addr else [])
                          ++ tlv.single_value.take (3 + tlv.single_value.getD 2 0)
                          ++ u.dst.take u.len)))
            reg reg1))
    ∧ (checked_resolved (context_msg_type ctx) [tlv] reg →
        ∃ dropped reg1, process_tlv ctx addr tlv reg = some (dropped, reg1))
    ∧ (process_tlv ctx addr tlv reg = none →
        ∃ sig ∈ reg, tlv_checked_by (context_msg_type ctx) tlv sig = true
          ∧ (sig.crypt = none ∨ sig.hash = none))
    ∧ (tlv.single_value.drop (3 + tlv.single_value.getD 2 0)).length
        = tlv.length - 3 - tlv.single_value.getD 2 0
    ∧ 0 < tlv.length - 3 - tlv.single_value.getD 2 0
    ∧ (tlv.single_value.take (3 + tlv.single_value.getD 2 0)).length
        = 3 + tlv.single_value.getD 2 0 := by
  have hlen : 3 + tlv.single_value.getD 2 0 < tlv.length := by
    simp only [tlv_ignored, tlv_key_id_len, Bool.or_eq_false_iff, decide_eq_false_iff_not,
      not_le] at hwf
    exact hwf.2
  obtain ⟨u, hu⟩ := strip_defined ctx hctx
  have hret : checked_resolved (context_msg_type ctx) [tlv] reg →
      ∃ dropped reg1, process_tlv ctx addr tlv reg = some (dropped, reg1) :=
    fun hres => process_tlv_checked_some ctx addr u hu tlv reg hres
  refine ⟨⟨u, hu, ?_⟩, hret, ?_, ?_, ?_, ?_⟩
  · intro d reg1 h
    rw [process_tlv_checked ctx addr tlv reg u hu hwf] at h
    have h2 := sig_loop_returned (context_msg_type ctx) addr tlv
      (tlv_sigkey tlv) (tlv_key_id_len tlv) (tlv_static_buffer addr tlv u) reg d reg1 h
    refine List.Forall₂.imp ?_ h2
    intro sig sig1 ⟨ha, hb⟩
    refine ⟨?_, ?_, ?_⟩
    · intro hskip
      rcases ha with ha | ⟨_, hm, hs, _⟩
      · exact ha
      · rcases hskip with hskip | hskip
        · exact absurd hs hskip
        · rw [hm] at hskip
          cases hskip
    · rcases ha with ha | ⟨_, _, _, _, c, h, hc, hh, he⟩
      · exact Or.inl ha
      · exact Or.inr ⟨c, h, hc, hh, he⟩
    · intro hd hk hm hs hv
      obtain ⟨c, h, hc, hh, he⟩ := hb hd hk hm hs hv
      exact ⟨c, h, hc, hh, by rw [he]; rfl⟩
  · intro hnone
    by_contra hno
    have hres : checked_resolved (context_msg_type ctx) [tlv] reg := by
      intro t ht s hs hc
      rw [List.mem_singleton] at ht
      subst ht
      by_contra hr
      apply hno
      refine ⟨s, hs, hc, ?_⟩
      cases hcr : s.crypt with
      | none => exact Or.inl rfl
      | some c =>
        cases hha : s.hash with
        | none => exact Or.inr rfl
        | some h => simp [hcr, hha] at hr
    obtain ⟨d, r1, h1⟩ := hret hres
    rw [hnone] at h1
    cases h1
  · simp only [List.length_drop, rfc5444_reader_tlvblock_entry.length]
    omega
  · omega
  · simp only [List.length_take, rfc5444_reader_tlvblock_entry.length] at hlen ⊢
    omega

/-- Instance of C34: the sample message signed by a source-specific identity policy on
the address 10.0.0.1, verified under a registry that holds a source-specific identity
policy, an identity policy that is not source-specific, and a policy with an
unregistered crypt. Received from 10.0.0.1 the source-specific policy is checked on the
buffer [10, 0, 0, 1] ++ [0, 0, 0] ++ message and verifies; received from 10.0.0.2 it
fails; the two other policies are left as they were. -/
theorem source_specific_verification_witness :
    (process_tlv (plain_message_context source_signed_message) [10, 0, 0, 1]
        source_signed_tlv (source_registry ++ unresolved_registry)).map
        (fun r => (r.1, r.2.map (fun sig => (sig.source, sig.verified))))
      = some (false, [(some [10, 0, 0, 1], true), (none, false), (none, false)])
    ∧ (process_tlv (plain_message_context source_signed_message) [10, 0, 0, 2]
        source_signed_tlv (source_registry ++ unresolved_registry)).map
        (fun r => (r.1, r.2.map (fun sig => (sig.source, sig.verified))))
      = some (false, [(some [10, 0, 0, 2], false), (none, false), (none, false)])
    ∧ (∃ dropped reg1, process_tlv (plain_message_context source_signed_message)
        [10, 0, 0, 1] source_signed_tlv (source_registry ++ unresolved_registry)
          = some (dropped, reg1))
    ∧ (source_signed_tlv.single_value.drop
        (3 + source_signed_tlv.single_value.getD 2 0)).length = 13
    ∧ reader_signature_tlvs (some plain_message) source_signed_message
        = [source_signed_tlv] := by
  have h := source_specific_verification (plain_message_context source_signed_message)
    [10, 0, 0, 1] source_signed_tlv (source_registry ++ unresolved_registry)
    (by decide) (by decide)
  exact ⟨by decide, by decide, h.2.1 (by decide), by rw [h.2.2.2.1]; decide, by decide⟩

/-! ## Buffers of 65536 bytes and more: the 16-bit lengths -/

theorem strip_loop_signature (src : List Nat) (fuel p len blocklen : Nat)
    (copied : List Nat) (hl : len ≠ 0) (h1 : tlv_length src p = len)
    (hty : src.getD p 0 = RFC7182_MSGTLV_ICV) :
    strip_loop src (fuel + 1) p len blocklen copied
      = some (p + len, (blocklen + 65536 - len) % 65536, copied) := by
  have e : (len + 65536 - len) % 65536 = 0 := by
    rw [Nat.add_sub_cancel_left]
  rw [strip_loop]
  simp only [hl, if_false, h1, hty, ne_eq, not_true_eq_false, e, strip_loop_zero]

/-- A packet without sequence number whose block of `n` bytes is one TLV that is not a
signature TLV, followed by 65536 bytes: the length of the rest is stored as 0 and the
rest is not copied. -/
theorem strip_long_rest (src : List Nat) (n : Nat) (hlen : src.length = 65536 + (3 + n))
    (g1 : src.getD 1 0 = 0) (g2 : src.getD 2 0 = n) (hn : 0 < n) (hn2 : n < 256)
    (h1 : tlv_length src 3 = n) (hne : src.getD 3 0 ≠ RFC7182_MSGTLV_ICV) :
    _remove_signature_data (plain_packet_context src)
      = some { dst := src.take 1 ++ [0, n] ++ (src.drop 3).take n, len := 3 + n } := by
  have hb : context_buffer (plain_packet_context src) = src := rfl
  have hh : context_header (plain_packet_context src) = (1, 0, 0) := rfl
  have hty : ¬ (plain_packet_context src).type
      = rfc5444_context_type.RFC5444_CONTEXT_MESSAGE := by
    simp [plain_packet_context]
  have hloop := strip_loop_single src src.length 3 n n [] (by omega) h1 hne
  have hrest : ((src.length : Int) - ((3 + n : Nat) : Int)) % 65536 = 0 := by
    rw [hlen]
    omega
  have hbl : (256 * 0 + n) % 65536 = n := by omega
  have hd : n / 256 = 0 := by omega
  have hm : n % 256 = n := by omega
  have hl : (List.take 1 src).length = 1 := by
    rw [List.length_take]; omega
  have hl2 : (List.take n (List.drop 3 src)).length = n := by
    rw [List.length_take, List.length_drop]; omega
  simp only [_remove_signature_data, hb, hh, g1, g2, hbl]
  rw [show (1 : Nat) + 2 = 3 from rfl, hloop]
  simp only [hrest, hty, hn, true_or, if_true, if_false, ne_eq, not_true_eq_false, hd, hm,
    List.nil_append, Int.toNat_zero, List.take_zero, List.append_nil, List.length_append,
    List.length_cons, List.length_nil, hl, hl2, Nat.add_zero, or_false]
  refine congrArg some ?_
  have e : (1 + (0 + 1 + 1) + n) % 65536 = 3 + n := by omega
  rw [e]

/-- A packet without sequence number whose block of `n` bytes is one signature TLV,
followed by 65536 bytes: the block is removed, the length of the rest is stored as 0,
and one byte is returned. -/
theorem strip_long_rest_signature (src : List Nat) (n : Nat)
    (hlen : src.length = 65536 + (3 + n))
    (g1 : src.getD 1 0 = 0) (g2 : src.getD 2 0 = n) (hn : 0 < n) (hn2 : n < 256)
    (h1 : tlv_length src 3 = n) (hne : src.getD 3 0 = RFC7182_MSGTLV_ICV) :
    _remove_signature_data (plain_packet_context src)
      = some { dst := [src.getD 0 0 &&& (255 - RFC5444_PKT_FLAG_TLV)], len := 1 } := by
  have hb : context_buffer (plain_packet_context src) = src := rfl
  have hh : context_header (plain_packet_context src) = (1, 0, 0) := rfl
  have hty : ¬ (plain_packet_context src).type
      = rfc5444_context_type.RFC5444_CONTEXT_MESSAGE := by
    simp [plain_packet_context]
  have hloop := strip_loop_signature src src.length 3 n n [] (by omega) h1 hne
  have hrest : ((src.length : Int) - ((3 + n : Nat) : Int)) % 65536 = 0 := by
    rw [hlen]
    omega
  have hbl : (256 * 0 + n) % 65536 = n := by omega
  have hbl2 : (n + 65536 - n) % 65536 = 0 := by
    rw [Nat.add_sub_cancel_left]
  obtain ⟨a, l, hsrc⟩ : ∃ a l, src = a :: l := by
    cases src with
    | nil => simp at hlen; omega
    | cons a l => exact ⟨a, l, rfl⟩
  simp only [_remove_signature_data, hb, hh, g1, g2, hbl]
  rw [show (1 : Nat) + 2 = 3 from rfl, hloop]
  simp only [hrest, hty, hbl2, Nat.lt_irrefl, or_self, if_false, ne_eq, not_true_eq_false,
    Int.toNat_zero, List.take_zero, List.append_nil]
  subst hsrc
  simp

theorem single_tlv_block_well_formed (src : List Nat) (hdr n : Nat)
    (ctx : rfc5444_reader_tlvblock_context) (hb : context_buffer ctx = src)
    (hh : (context_header ctx).1 = hdr)
    (hd : 256 * src.getD hdr 0 + src.getD (hdr + 1) 0 = n + 1)
    (hfit : hdr + 2 + (n + 1) ≤ src.length)
    (h2 : tlv_size_spec src (hdr + 2) = n + 1) :
    block_well_formed ctx = true := by
  have hd2 : declared_block_length ctx = n + 1 := by
    simp only [declared_block_length, hb, hh, hd]
  simp only [block_well_formed, hb, hh, hd2, Bool.and_eq_true, decide_eq_true_eq]
  exact ⟨hfit, tlvs_fill_block_single src n (hdr + 2) (n + 1) h2⟩

theorem long_rest_packet_length : long_rest_packet.length = 65541 := by
  unfold long_rest_packet
  rw [List.length_cons, List.length_cons, List.length_cons, List.length_cons,
    List.length_cons, List.length_replicate]

theorem long_rest_signed_packet_length : long_rest_signed_packet.length = 65547 := by
  unfold long_rest_signed_packet
  rw [List.length_cons, List.length_cons, List.length_cons, List.length_cons,
    List.length_cons, List.length_cons, List.length_cons, List.length_cons,
    List.length_cons, List.length_cons, List.length_cons, List.length_replicate]

/-- Counterexample to C13 as written: a packet context of 65541 bytes whose block of 2
bytes holds one TLV without value, followed by 65536 bytes. The buffer has the shape the
property asks for and the block is well-formed, yet the length of the rest, 65536, is
stored in a 16-bit variable (line 762): the function returns the 5 bytes of header and
block, and none of the bytes that follow the block is copied. -/
theorem strip_drops_rest_of_oversized_packet :
    context_buffer (plain_packet_context long_rest_packet)
        = [4] ++ ([0, 2] ++ (encode_block [bare_tlv] ++ List.replicate 65536 0))
    ∧ (∀ t ∈ [bare_tlv], t.valid)
    ∧ (context_buffer (plain_packet_context long_rest_packet)).length = 65541
    ∧ block_well_formed (plain_packet_context long_rest_packet) = true
    ∧ _remove_signature_data (plain_packet_context long_rest_packet)
        = some { dst := [4, 0, 2, 1, 0], len := 5 }
    ∧ [4, 0, 2, 1, 0].drop 1 ≠ [0, 2] ++ encode_block [bare_tlv] ++ List.replicate 65536 0 := by
  have h1 : tlv_length long_rest_packet 3 = 2 := by decide
  have h2 : tlv_size_spec long_rest_packet 3 = 2 := by decide
  refine ⟨rfl, by decide, long_rest_packet_length, ?_, ?_, ?_⟩
  · exact single_tlv_block_well_formed long_rest_packet 1 1 _ rfl rfl (by decide)
      (by rw [long_rest_packet_length]; omega) h2
  · exact strip_long_rest long_rest_packet 2 long_rest_packet_length rfl rfl (by omega)
      (by omega) h1 (by decide)
  · intro h
    have := congrArg List.length h
    rw [List.length_append, List.length_replicate] at this
    simp at this

theorem oversized_packet_length : oversized_packet.length = 65539 := by
  unfold oversized_packet
  rw [List.length_cons, List.length_cons, List.length_cons, List.length_cons,
    List.length_cons, List.length_cons, List.length_cons, List.length_append,
    List.length_replicate]
  rfl

theorem large_tlv_encode :
    large_tlv.encode = 1 :: 0x18 :: 255 :: 251 :: List.replicate 65531 0 := by
  have e : (List.replicate 65531 0).length = 65531 := List.length_replicate _ _
  have h1 : large_tlv.value = List.replicate 65531 0 := rfl
  have h2 : large_tlv.flags = 0x18 := rfl
  have h3 : large_tlv.type = 1 := rfl
  unfold wire_tlv.encode
  rw [h1, h2, h3, e]
  rfl

theorem large_tlv_valid : large_tlv.valid := by
  refine ⟨fun h => absurd h (by decide), ?_⟩
  rw [large_tlv_encode, List.length_cons, List.length_cons, List.length_cons,
    List.length_cons, List.length_replicate]
  omega

/-- Counterexample to C14 as written: the packet context of 65539 bytes whose block of
65535 bytes is one TLV, followed by one byte. The buffer has the shape the property asks
for and holds no signature TLV; the function writes all 65539 bytes and stores their
number in a 16-bit variable (line 766), so it returns the size 3. -/
theorem strip_size_differs_from_bytes_written :
    context_buffer (plain_packet_context oversized_packet)
        = [4] ++ ([255, 255] ++ (encode_block [large_tlv] ++ [0]))
    ∧ (∀ t ∈ [large_tlv], t.valid)
    ∧ 256 * 255 + 255 = (encode_block [large_tlv]).length
    ∧ (context_buffer (plain_packet_context oversized_packet)).length = 65539
    ∧ block_well_formed (plain_packet_context oversized_packet) = true
    ∧ ∃ u, _remove_signature_data (plain_packet_context oversized_packet) = some u
        ∧ u.len = 3 ∧ u.dst.length = 65539 ∧ u.len ≠ u.dst.length := by
  have h := strip_one_large_tlv oversized_packet oversized_packet_length rfl rfl rfl
    (by decide) (by decide)
  have he : encode_block [large_tlv] = 1 :: 0x18 :: 255 :: 251 :: List.replicate 65531 0 := by
    rw [encode_block, encode_block, List.append_nil, large_tlv_encode]
  obtain ⟨u, hu, h1, h2⟩ := h.2.2
  refine ⟨?_, ?_, ?_, oversized_packet_length, h.1, u, hu, h1, h2, by omega⟩
  · rw [he]; rfl
  · intro t ht
    rw [List.mem_singleton] at ht
    rw [ht]
    exact large_tlv_valid
  · rw [he, List.length_cons, List.length_cons, List.length_cons,
      List.length_cons, List.length_replicate]

/-- Counterexample to C15 as written: a packet context of 65547 bytes whose block of 8
bytes holds one signature TLV, followed by 65536 bytes. The block is removed and the
has-TLV flag cleared, but the length of the rest, 65536, is stored in a 16-bit variable
(line 762): the function returns the size 1 and the single byte 0, where input size
minus block content minus 2 is 65537. -/
theorem strip_of_oversized_packet_returns_one_byte :
    context_buffer (plain_packet_context long_rest_signed_packet)
        = [4] ++ ([0, 8] ++ (encode_block [short_signature_tlv] ++ List.replicate 65536 0))
    ∧ (∀ t ∈ [short_signature_tlv], t.valid)
    ∧ (∀ t ∈ [short_signature_tlv], t.type = RFC7182_MSGTLV_ICV)
    ∧ (context_buffer (plain_packet_context long_rest_signed_packet)).length = 65547
    ∧ block_well_formed (plain_packet_context long_rest_signed_packet) = true
    ∧ _remove_signature_data (plain_packet_context long_rest_signed_packet)
        = some { dst := [0], len := 1 }
    ∧ (context_buffer (plain_packet_context long_rest_signed_packet)).length
        - (encode_block [short_signature_tlv]).length - 2 = 65537 := by
  have h1 : tlv_length long_rest_signed_packet 3 = 8 := by decide
  have h2 : tlv_size_spec long_rest_signed_packet 3 = 8 := by decide
  have hl : (context_buffer (plain_packet_context long_rest_signed_packet)).length = 65547 :=
    long_rest_signed_packet_length
  refine ⟨rfl, by decide, by decide, hl, ?_, ?_, ?_⟩
  · exact single_tlv_block_well_formed long_rest_signed_packet 1 7 _ rfl rfl (by decide)
      (by rw [long_rest_signed_packet_length]; omega) h2
  · exact strip_long_rest_signature long_rest_signed_packet 8
      long_rest_signed_packet_length rfl rfl (by omega) (by omega) h1 (by decide)
  · rw [hl]
    decide

/-- The bytes written for a packet without sequence number of 65539 bytes whose block of
65535 bytes is one TLV that is not a signature TLV. -/
theorem strip_one_large_tlv_bytes (src : List Nat) (hlen : src.length = 65539)
    (g1 : src.getD 1 0 = 255) (g2 : src.getD 2 0 = 255) (g3 : src.getD 3 0 = 1)
    (h1 : tlv_length src 3 = 65535) :
    _remove_signature_data (plain_packet_context src)
      = some { dst := src.take 1 ++ [255, 255] ++ (src.drop 3).take 65535
                 ++ (src.drop 65538).take 1,
               len := 3 } := by
  have hb : context_buffer (plain_packet_context src) = src := rfl
  have hh : context_header (plain_packet_context src) = (1, 0, 0) := rfl
  have hty : ¬ (plain_packet_context src).type
      = rfc5444_context_type.RFC5444_CONTEXT_MESSAGE := by
    simp [plain_packet_context]
  have hne : src.getD 3 0 ≠ RFC7182_MSGTLV_ICV := by rw [g3]; decide
  have hbl : (256 * 255 + 255) % 65536 = 65535 := by norm_num
  have hrest : ((src.length : Int) - ((3 + 65535 : Nat) : Int)) % 65536 = 1 := by
    rw [hlen]
    norm_num
  have hloop := strip_loop_single src src.length 3 65535 65535 [] (by omega) h1 hne
  have hd : 65535 / 256 = 255 := by norm_num
  have hm : 65535 % 256 = 255 := by norm_num
  have hl : (List.take 1 src).length = 1 := by
    rw [List.length_take]; omega
  have hl2 : (List.take 65535 (List.drop 3 src)).length = 65535 := by
    rw [List.length_take, List.length_drop]; omega
  have hpos : 0 < 65535 := by norm_num
  simp only [_remove_signature_data, hb, hh, g1, g2, hbl]
  rw [show (1 : Nat) + 2 = 3 from rfl, hloop]
  simp only [hrest, hty, hpos, true_or, if_true, if_false, ne_eq, not_true_eq_false, hd, hm,
    List.nil_append, List.length_append, List.length_cons, List.length_nil, hl, hl2,
    or_false]
  refine congrArg some ?_
  have e : (1 + (0 + 1 + 1) + 65535 + Int.toNat 1) % 65536 = 3 := by
    norm_num
  have e2 : (3 : Nat) + 65535 = 65538 := by norm_num
  rw [e, e2]
  rfl

/-- Counterexample to C16 as stated. First, a packet of 17 bytes whose TLV block holds
one signature TLV, followed by a message of 6 bytes: the first application removes the
block with its header and clears the has-TLV flag (7 bytes); the second application,
with the same header flags, reads the first two bytes of the message as a block length
and removes them (5 bytes). Second, the packet of 65539 bytes whose block of 65535 bytes
is one TLV that is not a signature TLV: the first application writes 65539 bytes and
returns the size 3, so the returned size is not the number of bytes written, and the
output of that size, the 3 bytes `[4, 255, 255]`, announces a block of 65535 bytes it
does not hold: it is not a well-formed input of a second application. -/
theorem strip_twice_shrinks_packet_without_block :
    _remove_signature_data (plain_packet_context signed_packet_with_message)
      = some { dst := [0, 0, 0, 0, 6, 0, 0], len := 7 }
    ∧ _remove_signature_data
        (context_with_buffer (plain_packet_context signed_packet_with_message)
          [0, 0, 0, 0, 6, 0, 0])
      = some { dst := [0, 0, 6, 0, 0], len := 5 }
    ∧ context_buffer (plain_packet_context oversized_packet)
        = [4] ++ ([255, 255] ++ (encode_block [large_tlv] ++ [0]))
    ∧ large_tlv.valid ∧ large_tlv.type ≠ RFC7182_MSGTLV_ICV
    ∧ block_well_formed (plain_packet_context oversized_packet) = true
    ∧ (∃ u, _remove_signature_data (plain_packet_context oversized_packet) = some u
        ∧ u.len = 3 ∧ u.dst.length = 65539 ∧ u.len ≠ u.dst.length
        ∧ u.dst.take u.len = [4, 255, 255])
    ∧ block_well_formed
        (context_with_buffer (plain_packet_context oversized_packet) [4, 255, 255])
      = false := by
  have h := strip_one_large_tlv_bytes oversized_packet oversized_packet_length rfl rfl rfl
    (by decide)
  have h2 := strip_one_large_tlv oversized_packet oversized_packet_length rfl rfl rfl
    (by decide) (by decide)
  obtain ⟨u, hu, h3, h4⟩ := h2.2.2
  have he : encode_block [large_tlv]
      = 1 :: 0x18 :: 255 :: 251 :: List.replicate 65531 0 := by
    rw [encode_block, encode_block, List.append_nil, large_tlv_encode]
  refine ⟨by decide, by decide, by rw [he]; rfl, large_tlv_valid, by decide, h2.1,
    ⟨u, hu, h3, h4, by omega, ?_⟩, by decide⟩
  rw [h] at hu
  have hu2 := Option.some.inj hu
  rw [← hu2]
  rfl

theorem large_message_length : large_message.length = 65500 := by
  unfold large_message
  rw [List.length_cons, List.length_cons, List.length_cons, List.length_cons,
    List.length_cons, List.length_cons, List.length_cons, List.length_cons,
    List.length_cons, List.length_cons, List.length_replicate]

/-- Splice of a signature TLV with a 40-byte signature and no key-id into a message of
65500 bytes whose block has 65494 bytes: the result has 65547 bytes, and both length
fields hold their value modulo 65536. -/
theorem splice_large_message (sig : rfc5444_signature) (m : rfc5444_writer_message)
    (data cb : List Nat) (hoff : tlvblock_offset (some m) data = 4)
    (hlen : data.length = 65500) (g4 : data.getD 4 0 = 255) (g5 : data.getD 5 0 = 214)
    (hk : sig.getKeyId = []) (hcb : cb.length = 40) :
    (splice_signature sig (some m) data cb).length = 65547
    ∧ (splice_signature sig (some m) data cb).getD 2 0 = 0
    ∧ (splice_signature sig (some m) data cb).getD 3 0 = 11
    ∧ (splice_signature sig (some m) data cb).getD 4 0 = 0
    ∧ (splice_signature sig (some m) data cb).getD 5 0 = 5 := by
  have hfit : tlvblock_offset (some m) data + 2 ≤ data.length := by omega
  have hfit2 : tlvblock_offset (some m) data
      + (if (some m).isNone = true ∧ data.getD 0 0 &&& RFC5444_PKT_FLAG_TLV = 0 then 0
         else 2) ≤ data.length := by
    simp only [Option.isNone_some, Bool.false_eq_true, false_and, if_false]
    exact hfit
  have hlen2 := splice_length sig (some m) data cb hfit2
  simp only [Option.isNone_some, Bool.false_eq_true, false_and, if_false, Nat.add_zero]
    at hlen2
  have htl : (signature_tlv sig cb).length = 47 := by
    rw [signature_tlv_length, hk, hcb]
    rfl
  have h2 := splice_header sig (some m) data cb hfit2 2 (by omega)
  have h3 := splice_header sig (some m) data cb hfit2 3 (by omega)
  simp only [Option.isSome_some, true_and, if_true] at h2
  simp only [Option.isSome_some, true_and, if_true] at h3
  have hb := splice_message_block_length sig m data cb hfit
  rw [htl, hoff, g4, g5] at hb
  rw [htl, hlen] at hlen2
  have hl : (splice_signature sig (some m) data cb).length = 65547 := hlen2
  rw [hl] at h2 h3
  refine ⟨hl, ?_, ?_, ?_, ?_⟩
  · rw [h2]
  · rw [h3]
    simp
  · rw [hb.1]
  · rw [show (5 : Nat) = 4 + 1 from rfl, hb.2]

theorem cb_add_signature_of_crypt (sig : rfc5444_signature)
    (local_socket : Option (List Nat)) (msg : Option rfc5444_writer_message)
    (data cb : List Nat) (crypt : rfc5444_sig_crypt) (hash : rfc5444_sig_hash)
    (max_size : Nat) (hs : sig.source_specific = false)
    (hc : sig.crypt = some crypt) (hh : sig.hash = some hash)
    (hcb : crypt.crypt hash (signer_static_buffer sig [] msg data) = some cb)
    (hm : crypt.getSize = some max_size) (hle : cb.length ≤ max_size) :
    _cb_add_signature sig local_socket msg data
      = some (0, splice_signature sig msg data cb) := by
  unfold _cb_add_signature
  simp only [hs, Bool.false_eq_true, if_false, hc, hh, hcb, hm]
  rw [if_neg (by omega)]

/-- Counterexample to C19 as written: a message of 65500 bytes whose TLV block of 65494
bytes lies inside the message, signed by a policy with a 40-byte signature and no key-id
(`s = 43`). `_cb_add_signature` succeeds and the new size is `65500 + 4 + 43 = 65547`,
but bytes 2..3 hold 11 and the block length field holds 5: both fields have 16 bits and
hold the size and the block length `65494 + 47 = 65541` modulo 65536. -/
theorem splice_length_fields_wrap :
    large_message.length = 65500
    ∧ tlvblock_offset (some plain_message) large_message + 2
        + (256 * large_message.getD (tlvblock_offset (some plain_message) large_message) 0
            + large_message.getD (tlvblock_offset (some plain_message) large_message + 1) 0)
      ≤ large_message.length
    ∧ ∃ out cb, _cb_add_signature wide_checksum_policy none (some plain_message) large_message
          = some (0, out)
      ∧ wide_checksum_crypt.crypt _identity_hash
          (signer_static_buffer wide_checksum_policy [] (some plain_message) large_message)
          = some cb
      ∧ cb.length = 40
      ∧ out.length = 65547
      ∧ out.getD 2 0 = 0 ∧ out.getD 3 0 = 11
      ∧ out.getD 4 0 = 0 ∧ out.getD 5 0 = 5
      ∧ out.length / 256 = 256 := by
  have hcb : (List.replicate 40
      ((signer_static_buffer wide_checksum_policy [] (some plain_message)
        large_message).sum % 256)).length = 40 := List.length_replicate _ _
  have h := splice_large_message wide_checksum_policy plain_message large_message _
    rfl large_message_length rfl rfl rfl hcb
  refine ⟨large_message_length, ?_, _, _, ?_, rfl, hcb, h.1, h.2.1, h.2.2.1, h.2.2.2.1,
    h.2.2.2.2, ?_⟩
  · rw [large_message_length]
    decide
  · exact cb_add_signature_of_crypt wide_checksum_policy none (some plain_message)
      large_message _ wide_checksum_crypt _identity_hash 40 rfl rfl rfl rfl rfl
      (by rw [hcb])
  · rw [h.1]

end Rfc5444Sig
